import Mathlib

/-! ## ChannelMerger: merging of TPC raw data into timeframes -/

/-!
A shallow embedding of `generator/ChannelMerger.cxx`.  The class header
`ChannelMerger.h` is not part of the sources at hand, so the sample word
`buffer_t` appears here through its bit width `w`, a parameter of every
definition that touches a sample cell.  The C++ types `unsigned` and `int`
are 32 bit words; arithmetic that can wrap is written with an explicit
reduction.
-/

/-! ## Machine words -/

/-- Modulus of the 32 bit words `unsigned` and `int`. -/
def UINT_MOD : Nat := 2 ^ 32

/-- Conversion of an integer value to `unsigned`. -/
def toUnsigned (x : Int) : Nat := (x % (UINT_MOD : Int)).toNat

/-- The cast `(int)x` of an `unsigned` value. -/
def toSigned (x : Nat) : Int :=
  if x % UINT_MOD < 2 ^ 31 then ((x % UINT_MOD : Nat) : Int)
  else ((x % UINT_MOD : Nat) : Int) - (UINT_MOD : Int)

/-- Store of an `unsigned` value into a `buffer_t` cell of `w` bits. -/
def toBuffer (w : Nat) (x : Nat) : Nat := x % 2 ^ w

/-- `sizeof(buffer_t)` for a sample word of `w` bits. -/
def sizeofBuffer (w : Nat) : Nat := w / 8

/-- `VOID_SIGNAL = ~(buffer_t)(0)`: all bits of the sample word set. -/
def VOID_SIGNAL (w : Nat) : Nat := 2 ^ w - 1

/-- `MAX_ACCUMULATED_SIGNAL = VOID_SIGNAL - 1`. -/
def MAX_ACCUMULATED_SIGNAL (w : Nat) : Nat := VOID_SIGNAL w - 1

/-! ## Memory helpers -/

/-- The array read `a[i]`; an index outside the array, where the C++ read is
undefined, reads as 0. -/
def readAt (a : List Nat) (i : Nat) : Nat := a.getD i 0

/-- `memcpy(dst, src, n * sizeof(buffer_t))`: the first `n` cells of `dst` are
replaced by the first `n` cells of `src`. -/
def memcpyCells (dst src : List Nat) (n : Nat) : List Nat :=
  src.take n ++ dst.drop (src.take n).length

/-- `memset(dst + start, 0xff, n * sizeof(buffer_t))`: the cells
`start .. start+n-1` of `dst` have all their bits set, which is `VOID_SIGNAL`. -/
def memsetVoid (w : Nat) (dst : List Nat) (start n : Nat) : List Nat :=
  dst.take start ++ List.replicate (min n (dst.length - start)) (VOID_SIGNAL w)
    ++ dst.drop (start + n)

/-- Ordered insertion `map[k] = v` into a `std::map` kept as a list of
pairs sorted by key. -/
def mapInsert {α : Type} (k : Nat) (v : α) : List (Nat × α) → List (Nat × α)
  | [] => [(k, v)]
  | (k', v') :: rest =>
    if k < k' then (k, v) :: (k', v') :: rest
    else if k = k' then (k, v) :: rest
    else (k', v') :: mapInsert k v rest

/-! ## The merger state -/

/-- The data members of `ChannelMerger` used by the buffer engine.  A buffer
pointer is `none` when it is `NULL`.  The members are declared in the header:
sizes, positions and thresholds are taken as `unsigned` values,
`mBaselineshift` and `mNoiseFactor` as `int` values, and the overflow counter
as a number that does not wrap.  `randCalls` counts the calls of `std::rand()`
made so far (the state of the random generator). -/
structure ChannelMerger where
  mChannelLenght : Nat
  mInitialBufferSize : Nat
  mBufferSize : Nat
  mBuffer : Option (List Nat)
  mUnderflowBuffer : Option (List Nat)
  mChannelPositions : List (Nat × Nat)
  mChannelBaseline : List (Nat × Nat)
  mChannelOccupancy : List (Nat × Int)
  mZSThreshold : Nat
  mBaselineshift : Int
  mSignalOverflowCount : Nat
  mNoiseFactor : Int
  randCalls : Nat
  deriving DecidableEq

/-- One bunch delivered by the raw stream: `GetStartTimeBin()` and the array
`GetSignals()`, whose length is `GetBunchLength()`. -/
structure Bunch where
  startTimeBin : Int
  signals : List Nat

namespace ChannelMerger

/-- The state built by the constructor, for a sample word of `w` bits. -/
def init (w : Nat) : ChannelMerger :=
  { mChannelLenght := 1024
    mInitialBufferSize := 600000 * 1024 * sizeofBuffer w
    mBufferSize := 0
    mBuffer := none
    mUnderflowBuffer := none
    mChannelPositions := []
    mChannelBaseline := []
    mChannelOccupancy := []
    mZSThreshold := VOID_SIGNAL w
    mBaselineshift := 0
    mSignalOverflowCount := 0
    mNoiseFactor := 0
    randCalls := 0 }

/-- `new buffer_t[newsize]` followed by the copy of the old content and the
`memset` of the tail, for one of the two buffers (`GrowBuffer`, lines 163-170
and 172-178).  The fresh array is unspecified memory; it is taken as zeros. -/
def growOne (w : Nat) (lastData : Option (List Nat)) (oldsize newsize : Nat) : List Nat :=
  let fresh := List.replicate newsize 0
  let copied := match lastData with
    | some d => memcpyCells fresh d oldsize
    | none => fresh
  memsetVoid w copied oldsize (newsize - oldsize)

/-- `ChannelMerger::GrowBuffer`. -/
def GrowBuffer (w : Nat) (m : ChannelMerger) (newsize : Nat) : ChannelMerger :=
  if newsize ≤ m.mBufferSize then m
  else
    { m with
      mBuffer := some (growOne w m.mBuffer m.mBufferSize newsize)
      mUnderflowBuffer := some (growOne w m.mUnderflowBuffer m.mBufferSize newsize)
      mBufferSize := newsize }

/-- `ChannelMerger::StartTimeframe`. -/
def StartTimeframe (w : Nat) (m : ChannelMerger) : ChannelMerger :=
  let lastData := m.mBuffer
  { m with
    mBuffer := m.mUnderflowBuffer
    mUnderflowBuffer := lastData.map (fun d => memsetVoid w d 0 m.mBufferSize)
    mSignalOverflowCount := 0
    mChannelOccupancy := m.mChannelOccupancy.map (fun e => (e.1, (-1 : Int))) }

/-- `ChannelMerger::GetThreshold`. -/
def GetThreshold (w : Nat) (m : ChannelMerger) : Nat :=
  let threshold := m.mZSThreshold
  if threshold = VOID_SIGNAL w then threshold
  else if m.mBaselineshift < 0 then toUnsigned ((threshold : Int) + -m.mBaselineshift)
  else if threshold ≤ toUnsigned m.mBaselineshift then 0
  else toUnsigned ((threshold : Int) - m.mBaselineshift)

/-- `ChannelMerger::ManipulateNoise`; `r` is the value returned by the call
of `std::rand()`. -/
def ManipulateNoise (m : ChannelMerger) (r : Nat) (signal : Nat) : Nat :=
  let factor := toUnsigned m.mNoiseFactor
  if factor ≤ 1 then signal
  else
    let noisesignal := (signal * factor) % UINT_MOD
    let noisesignal := (noisesignal + r % factor) % UINT_MOD
    let scaled := toUnsigned (-m.mBaselineshift * ((factor : Int) - 1))
    if m.mBaselineshift < 0 ∧ noisesignal ≥ scaled then noisesignal - scaled
    else noisesignal

/-- The zero suppression of the ingestion loop (`AddChannel`, lines 267-291)
for sample `i` of a bunch.  Returns the peak flag after the sample and whether
the sample is kept; a sample that is not kept has `currentSignal` set to 0. -/
def inlineZS (w threshold : Nat) (signals : List Nat) (i : Nat) (bSignalPeak : Bool) :
    Bool × Bool :=
  let bunchLength := signals.length
  let currentSignal := readAt signals i
  if threshold ≠ VOID_SIGNAL w then
    if bSignalPeak = false ∧ currentSignal > threshold ∧
        i + 1 < bunchLength ∧ readAt signals (i + 1) > threshold then
      (true, true)
    else if bSignalPeak = true ∧ currentSignal > threshold then
      (bSignalPeak, true)
    else if bSignalPeak = true ∧ currentSignal ≤ threshold then
      if (i + 1 < bunchLength ∧ readAt signals (i + 1) > threshold) ∨
          (i + 2 < bunchLength ∧ readAt signals (i + 2) > threshold) then
        (bSignalPeak, true)
      else
        (false, false)
    else
      (bSignalPeak, false)
  else (bSignalPeak, true)

/-- The store of one sample into a cell of one of the two buffers
(`AddChannel`, lines 304-326 for the current buffer and 329-344 for the
underflow buffer); `r` is the value `std::rand()` returns if it is called.
Returns the new cell content, whether the range overflow branch was taken,
and whether `std::rand()` was called. -/
def storeCell (w : Nat) (m : ChannelMerger) (r : Nat) (cell currentSignal originalSignal : Nat) :
    Nat × Bool × Bool :=
  if cell = VOID_SIGNAL w then
    if currentSignal = 0 ∧ m.mNoiseFactor ≥ 1 then
      (toBuffer w (ManipulateNoise m r originalSignal), false,
        decide (1 < toUnsigned m.mNoiseFactor))
    else
      (toBuffer w originalSignal, false, false)
  else if cell > toUnsigned ((MAX_ACCUMULATED_SIGNAL w : Int) - currentSignal) then
    (MAX_ACCUMULATED_SIGNAL w, true, false)
  else
    (toBuffer w ((cell + currentSignal) % UINT_MOD), false, false)

/-- The routing of one sample by its timebin (`AddChannel`, lines 302-348):
the current buffer for `0 <= timebin < L`, the underflow buffer for
`-L <= timebin < 0`, nothing otherwise.  `rand k` is the value returned by
call number `k` of `std::rand()`.  The overflow counter is incremented for the
current buffer only. -/
def accumulate (w : Nat) (rand : Nat → Nat) (m : ChannelMerger) (position : Nat)
    (timebin : Int) (currentSignal originalSignal : Nat) : ChannelMerger :=
  let L : Int := toSigned m.mChannelLenght
  if timebin < L ∧ timebin ≥ 0 then
    match m.mBuffer with
    | none => m
    | some b =>
      let idx := toUnsigned ((position : Int) + timebin)
      let res := storeCell w m (rand m.randCalls) (readAt b idx) currentSignal originalSignal
      { m with
        mBuffer := some (b.set idx res.1)
        mSignalOverflowCount :=
          if res.2.1 then m.mSignalOverflowCount + 1 else m.mSignalOverflowCount
        randCalls := if res.2.2 then m.randCalls + 1 else m.randCalls }
  else if timebin < 0 ∧ timebin + L ≥ 0 then
    let timebin := timebin + L
    match m.mUnderflowBuffer with
    | none => m
    | some u =>
      let idx := toUnsigned ((position : Int) + timebin)
      let res := storeCell w m (rand m.randCalls) (readAt u idx) currentSignal originalSignal
      { m with
        mUnderflowBuffer := some (u.set idx res.1)
        randCalls := if res.2.2 then m.randCalls + 1 else m.randCalls }
  else m

/-- The value of `originalSignal` handed to the cell store: the raw sample with
the baseline subtracted (`AddChannel`, lines 265 and 293-294). -/
def originalSignalOf (baseline : Nat) (signals : List Nat) (i : Nat) : Nat :=
  let originalSignal := readAt signals i
  if originalSignal < baseline then 0 else originalSignal - baseline

/-- The value of `currentSignal` handed to the cell store: the raw sample, set
to 0 if zero suppression drops it, with the shifted baseline `tb` subtracted
(`AddChannel`, lines 264, 267-291 and 296-300). -/
def currentSignalOf (w : Nat) (m : ChannelMerger) (threshold baseline : Nat)
    (signals : List Nat) (i : Nat) (bSignalPeak : Bool) : Nat :=
  let zs := inlineZS w threshold signals i bSignalPeak
  let currentSignal := if zs.2 then readAt signals i else 0
  let tb := baseline
  let tb :=
    if m.mBaselineshift < 0 then toUnsigned ((tb : Int) + -m.mBaselineshift)
    else if toUnsigned m.mBaselineshift < tb then toUnsigned ((tb : Int) - m.mBaselineshift)
    else tb
  if currentSignal < tb then 0 else currentSignal - tb

/-- The body of the sample loop of `AddChannel` (lines 259-348) for sample `i`
of a bunch: zero suppression, baseline subtraction, routing by the timebin
`startTime - i`.  The state is the merger and `bSignalPeak`. -/
def sampleBody (w : Nat) (rand : Nat → Nat) (position threshold baseline : Nat)
    (startTime : Int) (signals : List Nat) (i : Nat) (st : ChannelMerger × Bool) :
    ChannelMerger × Bool :=
  let m := st.1
  let currentSignal := currentSignalOf w m threshold baseline signals i st.2
  let originalSignal := originalSignalOf baseline signals i
  let timebin : Int := startTime - (i : Int)
  (accumulate w rand m position timebin currentSignal originalSignal,
    (inlineZS w threshold signals i st.2).1)

/-- The loop `for (i=0; i<bunchLength; i++)` of `AddChannel`, entered at
sample `i` with `n` samples left. -/
def sampleLoop (w : Nat) (rand : Nat → Nat) (position threshold baseline : Nat)
    (startTime : Int) (signals : List Nat) : Nat → Nat → ChannelMerger × Bool → ChannelMerger × Bool
  | 0, _, st => st
  | n + 1, i, st =>
    sampleLoop w rand position threshold baseline startTime signals n (i + 1)
      (sampleBody w rand position threshold baseline startTime signals i st)

/-- The loop `while (stream.NextBunch())` of `AddChannel` (lines 252-350).
`applyOffset` is the result of the floating point statement
`startTime -= offset * mChannelLenght`. -/
def bunchLoop (w : Nat) (rand : Nat → Nat) (applyOffset : Int → Int)
    (position threshold baseline : Nat) : List Bunch → ChannelMerger → ChannelMerger
  | [], m => m
  | bunch :: rest, m =>
    let startTime := applyOffset bunch.startTimeBin
    bunchLoop w rand applyOffset position threshold baseline rest
      (sampleLoop w rand position threshold baseline startTime bunch.signals
        bunch.signals.length 0 (m, false)).1

/-- The slot of channel `index` and the channel map after the lookup of
`AddChannel` (lines 207-216). -/
def assignPosition (m : ChannelMerger) (index : Nat) : Nat × List (Nat × Nat) :=
  let position := m.mChannelPositions.length % UINT_MOD
  match m.mChannelPositions.lookup index with
  | none => (position, mapInsert index position m.mChannelPositions)
  | some p => (p, m.mChannelPositions)

/-- The threshold used by the ingestion loop (`AddChannel`, lines 223-234). -/
def ingestThreshold (w : Nat) (m : ChannelMerger) (baseline : Nat) : Nat :=
  let threshold := m.mZSThreshold
  if threshold ≠ VOID_SIGNAL w then
    let threshold :=
      if m.mBaselineshift < 0 then toUnsigned ((threshold : Int) + -m.mBaselineshift)
      else if threshold ≤ toUnsigned m.mBaselineshift then 0
      else toUnsigned ((threshold : Int) - m.mBaselineshift)
    (threshold + baseline) % UINT_MOD
  else threshold

/-- The new buffer size chosen by `AddChannel` (lines 239-246). -/
def growthSize (m : ChannelMerger) (reqsize : Nat) : Nat :=
  if m.mBufferSize = 0 ∧ reqsize < m.mInitialBufferSize then m.mInitialBufferSize
  else if reqsize < (2 * m.mBufferSize) % UINT_MOD then (2 * m.mBufferSize) % UINT_MOD
  else reqsize

/-- The state of `AddChannel` when it reaches the assertion of line 251:
channel looked up, buffers grown. Returns the state and the slot. -/
def prepareChannel (w : Nat) (m : ChannelMerger) (index : Nat) : ChannelMerger × Nat :=
  let ap := assignPosition m index
  let position := ap.1
  let m := { m with mChannelPositions := ap.2 }
  let reqsize := ((position + 1) * (m.mChannelLenght * sizeofBuffer w)) % UINT_MOD
  let m := if reqsize > m.mBufferSize then GrowBuffer w m (growthSize m reqsize) else m
  (m, position)

/-- `ChannelMerger::AddChannel` with assertions disabled. -/
def AddChannel (w : Nat) (rand : Nat → Nat) (applyOffset : Int → Int) (m : ChannelMerger)
    (index : Nat) (stream : List Bunch) : ChannelMerger :=
  let baseline := (m.mChannelBaseline.lookup index).getD 0
  let threshold := ingestThreshold w m baseline
  let pc := prepareChannel w m index
  let position := (pc.2 * pc.1.mChannelLenght) % UINT_MOD
  bunchLoop w rand applyOffset position threshold baseline stream pc.1

/-- Where `SignalBufferZeroSuppression` writes: `target` is `NULL`, a vector
of its own, or the input buffer itself. -/
inductive Target where
  | null : Target
  | separate : List Nat → Target
  | aliased : Target
  deriving DecidableEq

/-- The variables of the loop of `SignalBufferZeroSuppression`: the memory
behind `buffer` and `target`, the peak flag and the counter. -/
structure ZSLoop where
  buffer : List Nat
  target : Target
  bSignalPeak : Bool
  nFilledTimebins : Nat

/-- The peak decision of `SignalBufferZeroSuppression` (lines 664-690) at
timebin `i`: the peak flag after the timebin and `currentSignal`, which is
`VOID_SIGNAL` for a suppressed timebin. -/
def zsDecide (w threshold : Nat) (buffer : List Nat) (i : Nat) (bSignalPeak : Bool) :
    Bool × Nat :=
  let currentSignal := readAt buffer i
  let currentSignal := if currentSignal = VOID_SIGNAL w then 0 else currentSignal
  if bSignalPeak = false ∧ currentSignal > threshold ∧
      i ≥ 1 ∧ readAt buffer (i - 1) > threshold ∧ readAt buffer (i - 1) ≠ VOID_SIGNAL w then
    (true, currentSignal)
  else if bSignalPeak = true ∧ currentSignal > threshold then
    (bSignalPeak, currentSignal)
  else if bSignalPeak = true ∧ currentSignal ≤ threshold then
    if (i ≥ 1 ∧ readAt buffer (i - 1) ≠ VOID_SIGNAL w ∧ readAt buffer (i - 1) > threshold) ∨
        (i ≥ 2 ∧ readAt buffer (i - 1) ≠ VOID_SIGNAL w ∧
          readAt buffer (i - 2) ≠ VOID_SIGNAL w ∧ readAt buffer (i - 2) > threshold) then
      (bSignalPeak, currentSignal)
    else
      (false, VOID_SIGNAL w)
  else
    (bSignalPeak, VOID_SIGNAL w)

/-- The baseline shift correction of a kept sample
(`SignalBufferZeroSuppression`, lines 692-700). -/
def shiftCorrect (w : Nat) (baselineshift : Int) (currentSignal : Nat) : Nat :=
  if currentSignal ≠ VOID_SIGNAL w then
    if baselineshift < 0 then
      if toSigned currentSignal > -baselineshift then
        toUnsigned ((currentSignal : Int) - -baselineshift)
      else 0
    else toUnsigned ((currentSignal : Int) + baselineshift)
  else currentSignal

/-- The body of the loop of `SignalBufferZeroSuppression` for timebin `i`.
The write to `target[i]` (lines 702-708) comes before the test of `buffer[i]`
for the counter (line 709), so with `target` aliased to `buffer` the counter
test reads the cell just written. -/
def zsBody (w threshold : Nat) (baselineshift : Int) (i : Nat) (s : ZSLoop) : ZSLoop :=
  let d := zsDecide w threshold s.buffer i s.bSignalPeak
  let currentSignal := shiftCorrect w baselineshift d.2
  let value :=
    if readAt s.buffer i ≠ VOID_SIGNAL w then toBuffer w currentSignal else VOID_SIGNAL w
  let buffer := match s.target with
    | Target.aliased => s.buffer.set i value
    | _ => s.buffer
  let target := match s.target with
    | Target.separate t => Target.separate (t.set i value)
    | other => other
  let n :=
    if currentSignal ≠ VOID_SIGNAL w ∧ readAt buffer i ≠ VOID_SIGNAL w then s.nFilledTimebins + 1
    else s.nFilledTimebins
  { buffer := buffer, target := target, bSignalPeak := d.1, nFilledTimebins := n }

/-- The loop `for (int i=size-1; i>=0; i--)` with `k` timebins left: the next
timebin is `k-1`. -/
def zsLoop (w threshold : Nat) (baselineshift : Int) : Nat → ZSLoop → ZSLoop
  | 0, s => s
  | k + 1, s => zsLoop w threshold baselineshift k (zsBody w threshold baselineshift k s)

/-- Number of iterations of `for (int i=size-1; i>=0; i--)` for an `unsigned`
size: the start value is the `int` conversion of `size-1`. -/
def zsIterations (size : Nat) : Nat :=
  (toSigned (toUnsigned ((size : Int) - 1)) + 1).toNat

/-- `ChannelMerger::SignalBufferZeroSuppression`: the returned `int` and the
memory behind `buffer` and `target` after the call. -/
def SignalBufferZeroSuppression (w : Nat) (buffer : Option (List Nat)) (size threshold : Nat)
    (baselineshift : Int) (target : Target) : Int × Option (List Nat) × Target :=
  match buffer with
  | none => (-1, none, target)
  | some b =>
    let s := zsLoop w threshold baselineshift (zsIterations size)
      { buffer := b, target := target, bSignalPeak := false, nFilledTimebins := 0 }
    (toSigned s.nFilledTimebins, some s.buffer, s.target)

/-- The pointer `mBuffer + position`. -/
def offsetPtr (buffer : Option (List Nat)) (position : Nat) : Option (List Nat) :=
  buffer.map (fun b => b.drop position)

/-- The loop over the channels of `CalculateZeroSuppression` (lines 643-653). -/
def zeroSuppressChannels (w threshold : Nat) (bApply bSetOccupancy : Bool) :
    List (Nat × Nat) → ChannelMerger → ChannelMerger
  | [], m => m
  | (index, slot) :: rest, m =>
    let position := (slot * m.mChannelLenght) % UINT_MOD
    let r := SignalBufferZeroSuppression w (offsetPtr m.mBuffer position) m.mChannelLenght
      threshold m.mBaselineshift (if bApply then Target.aliased else Target.null)
    let m := { m with
      mBuffer := match m.mBuffer, r.2.1 with
        | some b, some c => some (b.take position ++ c)
        | mb, _ => mb }
    let m :=
      if r.1 ≥ 0 ∧ bSetOccupancy = true then
        { m with mChannelOccupancy := mapInsert index r.1 m.mChannelOccupancy }
      else m
    zeroSuppressChannels w threshold bApply bSetOccupancy rest m

/-- `ChannelMerger::CalculateZeroSuppression`. -/
def CalculateZeroSuppression (w : Nat) (m : ChannelMerger) (bApply bSetOccupancy : Bool) :
    ChannelMerger :=
  let threshold := GetThreshold w m
  if threshold = VOID_SIGNAL w then m
  else zeroSuppressChannels w threshold bApply bSetOccupancy m.mChannelPositions m

/-- The samples kept by the ingestion scan of one bunch: entry `i` tells
whether `inlineZS` keeps sample `i` when the bunch is scanned from sample 0,
entered at sample `i` with `n` samples left. -/
def inlineKept (w threshold : Nat) (signals : List Nat) : Nat → Nat → Bool → List Bool
  | 0, _, _ => []
  | n + 1, i, bSignalPeak =>
    (inlineZS w threshold signals i bSignalPeak).2 ::
      inlineKept w threshold signals n (i + 1) (inlineZS w threshold signals i bSignalPeak).1

/-- The values of `currentSignal` handed to the cell store for the samples of
one bunch, scanned from sample `i` with `n` samples left. -/
def inlineSignals (w : Nat) (m : ChannelMerger) (threshold baseline : Nat)
    (signals : List Nat) : Nat → Nat → Bool → List Nat
  | 0, _, _ => []
  | n + 1, i, bSignalPeak =>
    currentSignalOf w m threshold baseline signals i bSignalPeak ::
      inlineSignals w m threshold baseline signals n (i + 1)
        (inlineZS w threshold signals i bSignalPeak).1

/-- The timebins kept by the standalone pass, listed in scan order (from
timebin `k-1` down to 0): whether `zsDecide` leaves a `currentSignal` other
than `VOID_SIGNAL`. -/
def zsKept (w threshold : Nat) (buffer : List Nat) : Nat → Bool → List Bool
  | 0, _ => []
  | k + 1, bSignalPeak =>
    decide ((zsDecide w threshold buffer k bSignalPeak).2 ≠ VOID_SIGNAL w) ::
      zsKept w threshold buffer k (zsDecide w threshold buffer k bSignalPeak).1

/-- The flag `bSignalPeak` when the ingestion scan of a bunch, started at
sample 0, reaches sample `i`. -/
def inlinePeakAt (w threshold : Nat) (signals : List Nat) : Nat → Bool
  | 0 => false
  | i + 1 => (inlineZS w threshold signals i (inlinePeakAt w threshold signals i)).1

/-! ## The standalone scan over the cells in scan order

The loop of `SignalBufferZeroSuppression` visits the cells from the high index
down and looks ahead at the next two cells of that order.  The definitions of
this section are the same scan over the list of the cells in scan order (the
head is the cell visited first), used to reason about the loop;
`zsDecide_eq_scanStep` and the theorems after it show that the loop computes
exactly this. -/

/-- The lookahead of the peak rule at the next cell of the scan: it exists, is
not `VOID_SIGNAL` and is above threshold. -/
def ahead1 (w threshold : Nat) : List Nat → Bool
  | y :: _ => decide (y ≠ VOID_SIGNAL w ∧ y > threshold)
  | [] => false

/-- The lookahead of the peak rule at the next but one cell of the scan: the
next two cells exist, neither is `VOID_SIGNAL` and the second is above
threshold. -/
def ahead2 (w threshold : Nat) : List Nat → Bool
  | y :: z :: _ => decide (y ≠ VOID_SIGNAL w ∧ z ≠ VOID_SIGNAL w ∧ z > threshold)
  | _ => false

/-- The peak decision for the cell `x` followed, in scan order, by `rest`: the
peak flag after the cell and `currentSignal`. -/
def scanStep (w threshold : Nat) (bSignalPeak : Bool) (x : Nat) (rest : List Nat) :
    Bool × Nat :=
  let currentSignal := if x = VOID_SIGNAL w then 0 else x
  if bSignalPeak = false ∧ currentSignal > threshold ∧ ahead1 w threshold rest = true then
    (true, currentSignal)
  else if bSignalPeak = true ∧ currentSignal > threshold then
    (bSignalPeak, currentSignal)
  else if bSignalPeak = true ∧ currentSignal ≤ threshold then
    if ahead1 w threshold rest = true ∨ ahead2 w threshold rest = true then
      (bSignalPeak, currentSignal)
    else
      (false, VOID_SIGNAL w)
  else
    (bSignalPeak, VOID_SIGNAL w)

/-- The value written to the target for the cell `x`. -/
def scanValue (w threshold : Nat) (baselineshift : Int) (bSignalPeak : Bool) (x : Nat)
    (rest : List Nat) : Nat :=
  if x ≠ VOID_SIGNAL w then
    toBuffer w (shiftCorrect w baselineshift (scanStep w threshold bSignalPeak x rest).2)
  else VOID_SIGNAL w

/-- Whether the cell `x` is counted as filled; `aliased` tells whether the
target is the buffer itself. -/
def scanCounted (w threshold : Nat) (baselineshift : Int) (aliased : Bool) (bSignalPeak : Bool)
    (x : Nat) (rest : List Nat) : Bool :=
  decide (shiftCorrect w baselineshift (scanStep w threshold bSignalPeak x rest).2 ≠ VOID_SIGNAL w ∧
    (if aliased then scanValue w threshold baselineshift bSignalPeak x rest else x)
      ≠ VOID_SIGNAL w)

/-- The values written for the cells of a scan, in scan order. -/
def scanValues (w threshold : Nat) (baselineshift : Int) : Bool → List Nat → List Nat
  | _, [] => []
  | pk, x :: rest =>
    scanValue w threshold baselineshift pk x rest ::
      scanValues w threshold baselineshift (scanStep w threshold pk x rest).1 rest

/-- The number of cells of a scan counted as filled. -/
def scanCount (w threshold : Nat) (baselineshift : Int) (aliased : Bool) : Bool → List Nat → Nat
  | _, [] => 0
  | pk, x :: rest =>
    (if scanCounted w threshold baselineshift aliased pk x rest then 1 else 0) +
      scanCount w threshold baselineshift aliased (scanStep w threshold pk x rest).1 rest

/-- The peak flag at the end of a scan. -/
def scanFlag (w threshold : Nat) : Bool → List Nat → Bool
  | pk, [] => pk
  | pk, x :: rest => scanFlag w threshold (scanStep w threshold pk x rest).1 rest

/-- The cells kept by the peak rule in a scan, in scan order. -/
def scanKept (w threshold : Nat) : Bool → List Nat → List Bool
  | _, [] => []
  | pk, x :: rest =>
    decide ((scanStep w threshold pk x rest).2 ≠ VOID_SIGNAL w) ::
      scanKept w threshold (scanStep w threshold pk x rest).1 rest

end ChannelMerger

namespace ChannelMerger

/-- Whether the scan rule keeps the cell `x` followed by `rest`: a peak
starts on a cell above threshold whose next cell is above threshold, and an
active peak goes on over a cell above threshold or a dip bridged by one of
the two lookaheads.  `scanStep_eq_keeps` shows that this is the peak flag and
the keep decision of `scanStep`. -/
def scanKeeps (w threshold : Nat) (bSignalPeak : Bool) (x : Nat) (rest : List Nat) : Bool :=
  let currentSignal := if x = VOID_SIGNAL w then 0 else x
  (!bSignalPeak && decide (currentSignal > threshold) && ahead1 w threshold rest) ||
    (bSignalPeak && (decide (currentSignal > threshold) || ahead1 w threshold rest ||
      ahead2 w threshold rest))

/-- The cells of a scan after suppression without baseline shift: a kept cell
keeps its content, every other cell becomes `VOID_SIGNAL`. -/
def keepScan (w threshold : Nat) : Bool → List Nat → List Nat
  | _, [] => []
  | pk, x :: rest =>
    (if scanKeeps w threshold pk x rest then x else VOID_SIGNAL w) ::
      keepScan w threshold (scanKeeps w threshold pk x rest) rest

end ChannelMerger

namespace ChannelMerger

/-- The condition of the assertion of line 251 of `AddChannel`,
`position+mChannelLenght<=mBufferSize`, evaluated after the growth step with
`position` already multiplied by the channel length. -/
def capacityAssertion (w : Nat) (m : ChannelMerger) (index : Nat) : Bool :=
  let pc := prepareChannel w m index
  let position := (pc.2 * pc.1.mChannelLenght) % UINT_MOD
  decide ((position + pc.1.mChannelLenght) % UINT_MOD ≤ pc.1.mBufferSize)

/-- Two states have the same layout: capacity, channel length, initial size,
channel index and the number of cells of each buffer agree. -/
def sameLayout (m m1 : ChannelMerger) : Prop :=
  m1.mBufferSize = m.mBufferSize ∧ m1.mChannelLenght = m.mChannelLenght ∧
  m1.mInitialBufferSize = m.mInitialBufferSize ∧
  m1.mChannelPositions = m.mChannelPositions ∧
  (m1.mBuffer.getD []).length = (m.mBuffer.getD []).length ∧
  (m1.mUnderflowBuffer.getD []).length = (m.mUnderflowBuffer.getD []).length

end ChannelMerger

/-! ## The Huffman bit count of `DoHuffmanCompression` -/

namespace ChannelMerger

/-- The signal coded for one cell (`DoHuffmanCompression`, lines 836-844):
`VOID_SIGNAL` reads as 0 and a value of `signalRange = 1024` or above is
clamped to 1023. -/
def huffmanSignal (w : Nat) (cell : Nat) : Nat :=
  let signal := if cell = VOID_SIGNAL w then 0 else cell
  if signal ≥ 1024 then 1023 else signal

/-- The value handed to the coder (lines 846-856): the difference to the
previous signal, taken in `int`, offset by the signal range and converted to a
64 bit unsigned word. -/
def huffmanSymbol (signal lastSignal : Nat) : Nat :=
  let signalDiff : Int := toSigned signal
  let signalDiff : Int := toSigned (toUnsigned (signalDiff - (lastSignal : Int)))
  let signalDiff : Int := toSigned (toUnsigned (signalDiff + 1024))
  (signalDiff % (2 ^ 64 : Int)).toNat

/-- The bits charged for one symbol of code length `length` (lines 862-867);
`bitcount` is an `unsigned`, `signalBitLength` is 10. -/
def chargeSymbol (symbolCutoffLength length bitcount : Nat) : Nat :=
  if symbolCutoffLength = 0 ∨ length < symbolCutoffLength then
    (bitcount + length) % UINT_MOD
  else
    ((bitcount + symbolCutoffLength) % UINT_MOD + 10) % UINT_MOD

/-- The body of the loop over the timebins of a channel (lines 835-870) on the
pair `(bitcount, lastSignal)`.  `codeLength v` is the length that
`pHuffman->Encode(v, length)` leaves in `length`; in training mode the value
is handed to the coder and nothing is charged. -/
def huffmanBody (w : Nat) (codeLength : Nat → Nat) (bTrainingMode : Bool)
    (symbolCutoffLength : Nat) (buffer : List Nat) (position : Nat) (st : Nat × Nat)
    (i : Nat) : Nat × Nat :=
  let signal := huffmanSignal w (readAt buffer ((position + i) % UINT_MOD))
  let v := huffmanSymbol signal st.2
  let bitcount :=
    if bTrainingMode then st.1 else chargeSymbol symbolCutoffLength (codeLength v) st.1
  (bitcount, signal)

/-- The charged bit count of the channel at `position` after the loop over its
timebins. -/
def huffmanBitcount (w : Nat) (codeLength : Nat → Nat) (bTrainingMode : Bool)
    (symbolCutoffLength : Nat) (buffer : List Nat) (position channelLength : Nat) : Nat :=
  ((List.range channelLength).foldl
    (huffmanBody w codeLength bTrainingMode symbolCutoffLength buffer position) (0, 0)).1

/-- The statement `bitcount+=(40-bitcount%40)` of line 874. -/
def alignBitcount (bitcount : Nat) : Nat :=
  (bitcount + (40 - bitcount % 40)) % UINT_MOD

/-- What is filled for one channel (lines 873-885): nothing in training mode
or for a bit count of 0, otherwise the aligned bit count and the `unsigned`
product `mChannelLenght*signalBitLength`; `HuffmanFactor` is the quotient of
the second by the first, taken in `Float_t`. -/
def huffmanChannel (w : Nat) (codeLength : Nat → Nat) (bTrainingMode : Bool)
    (symbolCutoffLength : Nat) (m : ChannelMerger) (slot : Nat) : Option (Nat × Nat) :=
  let position := (slot * m.mChannelLenght) % UINT_MOD
  let bitcount := huffmanBitcount w codeLength bTrainingMode symbolCutoffLength
    (m.mBuffer.getD []) position m.mChannelLenght
  if bTrainingMode = false ∧ bitcount > 0 then
    some (alignBitcount bitcount, (m.mChannelLenght * 10) % UINT_MOD)
  else none

/-- `ChannelMerger::DoHuffmanCompression`: for every indexed channel, in the
order of the index, what is filled for it. -/
def DoHuffmanCompression (w : Nat) (codeLength : Nat → Nat) (bTrainingMode : Bool)
    (symbolCutoffLength : Nat) (m : ChannelMerger) : List (Nat × Option (Nat × Nat)) :=
  m.mChannelPositions.map
    (fun p => (p.1, huffmanChannel w codeLength bTrainingMode symbolCutoffLength m p.2))

end ChannelMerger

/-! ## The common mode correction of `ApplyCommonModeEffect` -/

namespace ChannelMerger

/-- The vector behind `&zsSignal[0]` after a call of the pass. -/
def targetVector (old : List Nat) : Target → List Nat
  | Target.separate t => t
  | _ => old

/-- The loop of lines 962-965: the zero suppressed signal of a channel is
added to `cmSignal`, a `VOID_SIGNAL` entry is skipped; the sum is stored in a
`buffer_t`. -/
def cmAdd (w : Nat) (channelLength : Nat) (zsSignal cmSignal : List Nat) : List Nat :=
  (List.range channelLength).foldl
    (fun cm i =>
      if readAt zsSignal i = VOID_SIGNAL w then cm
      else cm.set i (toBuffer w (readAt cm i + readAt zsSignal i)))
    cmSignal

/-- The first loop over the channels (lines 956-966): the returned `int` of
the pass when it is negative (0 otherwise), `cmSignal` and `zsSignal`.  The
pass is called with a target of its own and does not write to the buffer. -/
def cmSum (w : Nat) (m : ChannelMerger) :
    List (Nat × Nat) → List Nat → List Nat → Int × List Nat × List Nat
  | [], cmSignal, zsSignal => (0, cmSignal, zsSignal)
  | (_, slot) :: rest, cmSignal, zsSignal =>
    let position := (slot * m.mChannelLenght) % UINT_MOD
    let r := SignalBufferZeroSuppression w (offsetPtr m.mBuffer position) m.mChannelLenght
      (GetThreshold w m) m.mBaselineshift (Target.separate zsSignal)
    if r.1 < 0 then (r.1, cmSignal, zsSignal)
    else
      let zsSignal := targetVector zsSignal r.2.2
      cmSum w m rest (cmAdd w m.mChannelLenght zsSignal cmSignal) zsSignal

/-- The value of `cmImpact` for one timebin (lines 981-989): the ensemble
signal without the signal of the channel itself, divided by the scaling
factor. -/
def cmImpactOf (w : Nat) (cm zs scalingFactor : Nat) : Nat :=
  let cmImpact := cm
  let cmImpact :=
    if zs ≠ VOID_SIGNAL w then (if cmImpact > zs then cmImpact - zs else 0) else cmImpact
  cmImpact / scalingFactor

/-- The state of the loop over the timebins of a channel in the second loop of
`ApplyCommonModeEffect`: the memory behind `mBuffer` and the counters. -/
structure CMLoop where
  buffer : List Nat
  nUnderflow : Nat
  nUnderflowChannels : Nat
  bHaveUnderflow : Bool
deriving DecidableEq

/-- The body of the loop over the timebins (lines 980-997). -/
def cmCellBody (w : Nat) (cmSignal zsSignal : List Nat) (scalingFactor position : Nat)
    (s : CMLoop) (i : Nat) : CMLoop :=
  let cmImpact := cmImpactOf w (readAt cmSignal i) (readAt zsSignal i) scalingFactor
  let cell := (position + i) % UINT_MOD
  if readAt s.buffer cell < cmImpact then
    { buffer := s.buffer.set cell 0
      nUnderflow := (s.nUnderflow + 1) % UINT_MOD
      nUnderflowChannels :=
        if s.bHaveUnderflow then s.nUnderflowChannels
        else (s.nUnderflowChannels + 1) % UINT_MOD
      bHaveUnderflow := true }
  else
    { s with
      buffer := s.buffer.set cell
        (toBuffer w (toUnsigned ((readAt s.buffer cell : Int) - (cmImpact : Int)))) }

/-- The second loop over the channels (lines 973-998): the returned `int` of
the pass when it is negative (0 otherwise), the state and the two counters. -/
def cmCorrect (w : Nat) (cmSignal : List Nat) (scalingFactor : Nat) :
    List (Nat × Nat) → ChannelMerger → List Nat → Nat → Nat → Int × ChannelMerger × Nat × Nat
  | [], m, _, nUnderflow, nUnderflowChannels => (0, m, nUnderflow, nUnderflowChannels)
  | (_, slot) :: rest, m, zsSignal, nUnderflow, nUnderflowChannels =>
    let position := (slot * m.mChannelLenght) % UINT_MOD
    let r := SignalBufferZeroSuppression w (offsetPtr m.mBuffer position) m.mChannelLenght
      (GetThreshold w m) m.mBaselineshift (Target.separate zsSignal)
    if r.1 < 0 then (r.1, m, nUnderflow, nUnderflowChannels)
    else
      let zsSignal := targetVector zsSignal r.2.2
      let s := (List.range m.mChannelLenght).foldl
        (cmCellBody w cmSignal zsSignal scalingFactor position)
        { buffer := m.mBuffer.getD [], nUnderflow := nUnderflow,
          nUnderflowChannels := nUnderflowChannels, bHaveUnderflow := false }
      cmCorrect w cmSignal scalingFactor rest
        { m with mBuffer := m.mBuffer.map (fun _ => s.buffer) } zsSignal
        s.nUnderflow s.nUnderflowChannels

/-- `ChannelMerger::ApplyCommonModeEffect`: the returned `int`, the state and
the two counters of the report line.  A negative `scalingFactor` stands for
the number of channels. -/
def ApplyCommonModeEffect (w : Nat) (m : ChannelMerger) (scalingFactor : Int) :
    Int × ChannelMerger × Nat × Nat :=
  let p := cmSum w m m.mChannelPositions (List.replicate m.mChannelLenght 0)
    (List.replicate m.mChannelLenght 0)
  if p.1 < 0 then (p.1, m, 0, 0)
  else
    let scalingFactor :=
      if scalingFactor < 0 then toSigned m.mChannelPositions.length else scalingFactor
    cmCorrect w p.2.1 (toUnsigned scalingFactor) m.mChannelPositions m p.2.2 0 0

/-- The zero suppressed vector of the channel in `slot`, computed by the pass
on the buffer of `m`, with `VOID_SIGNAL` counted as 0. -/
def zsProfile (w : Nat) (m : ChannelMerger) (slot : Nat) : List Nat :=
  (targetVector []
    (SignalBufferZeroSuppression w (offsetPtr m.mBuffer ((slot * m.mChannelLenght) % UINT_MOD))
      m.mChannelLenght (GetThreshold w m) m.mBaselineshift
      (Target.separate (List.replicate m.mChannelLenght 0))).2.2).map
    (fun v => if v = VOID_SIGNAL w then 0 else v)

/-- The ensemble signal at timebin `t`: the sum of the zero suppressed vectors
of all indexed channels. -/
def ensembleAt (w : Nat) (m : ChannelMerger) (t : Nat) : Nat :=
  (m.mChannelPositions.map (fun p => readAt (zsProfile w m p.2) t)).sum

/-- The amount the common mode correction takes from timebin `t` of the
channel in `slot` for the scaling factor `s`. -/
def cmAmount (w : Nat) (m : ChannelMerger) (s slot t : Nat) : Nat :=
  (ensembleAt w m t - readAt (zsProfile w m slot) t) / s

end ChannelMerger

namespace ChannelMerger

/-- The values of the scan for the channel of `channelLength` cells at
`position` of the buffer `b`, in the order of the timebins. -/
def channelZS (w threshold : Nat) (baselineshift : Int) (channelLength : Nat) (b : List Nat)
    (position : Nat) : List Nat :=
  (scanValues w threshold baselineshift false
    ((b.drop position).take channelLength).reverse).reverse

/-- The value `v` with `VOID_SIGNAL` counted as 0. -/
def voidAsZero (w : Nat) (v : Nat) : Nat :=
  if v = VOID_SIGNAL w then 0 else v

end ChannelMerger

/-! ## The symbols handed to the coder by `DoHuffmanCompression` -/

namespace ChannelMerger

/-- The value of `signalDiff` after `signalDiff+=signalRange` (lines 846-849),
in `int`. -/
def huffmanDiff (signal lastSignal : Nat) : Int :=
  let signalDiff : Int := toSigned signal
  let signalDiff : Int := toSigned (toUnsigned (signalDiff - (lastSignal : Int)))
  toSigned (toUnsigned (signalDiff + 1024))

/-- The condition of the assertion of line 855,
`signalDiff>=0 && (unsigned)signalDiff<2*signalRange`. -/
def huffmanAssertion (signal lastSignal : Nat) : Bool :=
  decide (huffmanDiff signal lastSignal ≥ 0 ∧
    toUnsigned (huffmanDiff signal lastSignal) < (2 * 1024) % UINT_MOD)

/-- The value of `lastSignal` when the loop over the timebins reaches timebin
`i`: 0 at the start of the channel, the signal coded for timebin `i-1`
afterwards. -/
def huffmanLast (w : Nat) (buffer : List Nat) (position : Nat) : Nat → Nat
  | 0 => 0
  | i + 1 => huffmanSignal w (readAt buffer ((position + i) % UINT_MOD))

/-- The body of the loop over the timebins (lines 835-871) on the pair of the
values handed to the coder so far, by `AddTrainingValue` or by `Encode`, and
`lastSignal`. -/
def huffmanTraceBody (w : Nat) (buffer : List Nat) (position : Nat) (st : List Nat × Nat)
    (i : Nat) : List Nat × Nat :=
  let signal := huffmanSignal w (readAt buffer ((position + i) % UINT_MOD))
  (st.1 ++ [huffmanSymbol signal st.2], signal)

/-- The values handed to the coder for the channel at `position`, in the order
of the calls. -/
def huffmanSymbols (w : Nat) (buffer : List Nat) (position channelLength : Nat) : List Nat :=
  ((List.range channelLength).foldl (huffmanTraceBody w buffer position) ([], 0)).1

end ChannelMerger

/-! ## Channel keys -/

/-- The key of a channel, `DDLNumber<<16 | HWAddress` on `unsigned` values
(`MergeCollisions`, line 110). -/
def packIndex (DDLNumber HWAddress : Nat) : Nat :=
  ((DDLNumber <<< 16) % UINT_MOD) ||| HWAddress

/-- The link number of a key, `(index&0xffff0000)>>16` (`WriteTimeframe`,
line 741). -/
def unpackDDLNumber (index : Nat) : Nat := (index &&& 0xffff0000) >>> 16

/-- The hardware address of a key, `index&0x0000ffff` (`WriteTimeframe`,
line 742). -/
def unpackHWAddr (index : Nat) : Nat := index &&& 0x0000ffff

namespace ChannelMerger

/-- A sequence of calls of `AddChannel` on one merger: each call comes with
the effect of its `offset` on the start time of a bunch, the key of the
channel and the bunches of the stream. -/
def addChannels (w : Nat) (rand : Nat → Nat) :
    List ((Int → Int) × Nat × List Bunch) → ChannelMerger → ChannelMerger
  | [], m => m
  | c :: rest, m => addChannels w rand rest (AddChannel w rand c.1 m c.2.1 c.2.2)

end ChannelMerger

/-! ## The dump of `WriteSystemcInputFile` -/

namespace ChannelMerger

/-- The loop `for (unsigned i=startTime; i>lowerBound; --i)` (lines 932-939)
entered with the value `i`: the records `(i, signal)` it writes. -/
def systemcLoop (w : Nat) (buffer : List Nat) (position lowerBound : Nat) :
    Nat → List (Nat × Nat)
  | 0 => []
  | i + 1 =>
    if i + 1 > lowerBound then
      let signal := readAt buffer ((position + (i + 1)) % UINT_MOD)
      let signal := if signal = VOID_SIGNAL w then 0 else signal
      (i + 1, signal) :: systemcLoop w buffer position lowerBound i
    else []

/-- What `WriteSystemcInputFile` writes for the channel with key `index` in
`slot`: the hardware address of the line `hw=`, the bunch header
`startTime bunchLength` and the records. -/
def systemcChannel (w : Nat) (m : ChannelMerger) (index slot : Nat) :
    Nat × (Nat × Nat) × List (Nat × Nat) :=
  let position := (slot * m.mChannelLenght) % UINT_MOD
  let startTime := 1021
  let bunchLength := 980
  let lowerBound := startTime - bunchLength
  (unpackHWAddr index, (startTime, bunchLength),
    systemcLoop w (m.mBuffer.getD []) position lowerBound startTime)

/-- `ChannelMerger::WriteSystemcInputFile` for a file that can be written:
what is written for the indexed channels, in the order of the index. -/
def WriteSystemcInputFile (w : Nat) (m : ChannelMerger) :
    List (Nat × (Nat × Nat) × List (Nat × Nat)) :=
  m.mChannelPositions.map (fun p => systemcChannel w m p.1 p.2)

end ChannelMerger

/-! ## The dump of `WriteTimeframe` -/

namespace ChannelMerger

/-- The variables of the loop of `WriteTimeframe` that finds the bunches of a
channel; the two arrays are maps from the index to the value. -/
structure WTLoop where
  NBunches : Nat
  nBunchSamples : Nat
  BunchLength : Nat → Nat
  BunchTime : Nat → Nat

/-- The end of a bunch, `BunchLength[NBunches++]=nBunchSamples;
nBunchSamples=0` (lines 752-753 and 763-764). -/
def wtEndBunch (s : WTLoop) : WTLoop :=
  { s with
    BunchLength := Function.update s.BunchLength s.NBunches s.nBunchSamples
    NBunches := (s.NBunches + 1) % UINT_MOD
    nBunchSamples := 0 }

/-- The body of the loop over the timebins (lines 746-760) for timebin
`iSignal`. -/
def wtBody (w : Nat) (buffer : List Nat) (position iSignal : Nat) (s : WTLoop) : WTLoop :=
  let signal := readAt buffer ((position + iSignal) % UINT_MOD)
  if signal = VOID_SIGNAL w then
    if s.nBunchSamples > 0 then wtEndBunch s else s
  else
    { s with
      BunchTime :=
        if s.nBunchSamples = 0 then Function.update s.BunchTime s.NBunches iSignal
        else s.BunchTime
      nBunchSamples := s.nBunchSamples + 1 }

/-- The loop `for (int iSignal=mChannelLenght-1; iSignal>=0; iSignal--)` with
`k` timebins left: the next timebin is `k-1`. -/
def wtLoop (w : Nat) (buffer : List Nat) (position : Nat) : Nat → WTLoop → WTLoop
  | 0, s => s
  | k + 1, s => wtLoop w buffer position k (wtBody w buffer position k s)

/-- The bunches of the channel at `position` found by lines 743-765; the
arrays, which are not initialised, start as zeros. -/
def wtScan (w : Nat) (buffer : List Nat) (position channelLength : Nat) : WTLoop :=
  let s := wtLoop w buffer position (zsIterations channelLength)
    { NBunches := 0, nBunchSamples := 0, BunchLength := fun _ => 0, BunchTime := fun _ => 0 }
  if s.nBunchSamples > 0 then wtEndBunch s else s

/-- The bunches written for the channel at `position` (lines 772-778): for
each bunch its length, its start timebin and the samples
`mBuffer[position+BunchTime[iBunch]-i]`. -/
def wtBunches (w : Nat) (buffer : List Nat) (position channelLength : Nat) :
    List (Nat × Nat × List Nat) :=
  let s := wtScan w buffer position channelLength
  (List.range s.NBunches).map (fun iBunch =>
    (s.BunchLength iBunch, s.BunchTime iBunch,
      (List.range (s.BunchLength iBunch)).map (fun (i : Nat) =>
        readAt buffer
          (toUnsigned ((((position + s.BunchTime iBunch) % UINT_MOD : Nat) : Int) - (i : Int))))))

/-- `ChannelMerger::WriteTimeframe` for a file that can be written: for every
indexed channel, in the order of the index, the link number, the hardware
address, the number of bunches and the bunches. -/
def WriteTimeframe (w : Nat) (m : ChannelMerger) :
    List (Nat × Nat × Nat × List (Nat × Nat × List Nat)) :=
  m.mChannelPositions.map (fun p =>
    (unpackDDLNumber p.1, unpackHWAddr p.1,
      (wtScan w (m.mBuffer.getD []) ((p.2 * m.mChannelLenght) % UINT_MOD)
        m.mChannelLenght).NBunches,
      wtBunches w (m.mBuffer.getD []) ((p.2 * m.mChannelLenght) % UINT_MOD) m.mChannelLenght))

/-- The replay of one bunch of a dump onto a channel: sample `j` of the bunch
is written to timebin `start - j`. -/
def replayBunch (channel : List Nat) (bunch : Nat × Nat × List Nat) : List Nat :=
  (List.range bunch.1).foldl (fun c j => c.set (bunch.2.1 - j) (readAt bunch.2.2 j)) channel

/-- The replay of the bunches of a dump onto a channel of `channelLength`
cells that all hold `VOID_SIGNAL`. -/
def replayBunches (w : Nat) (channelLength : Nat) (bunches : List (Nat × Nat × List Nat)) :
    List Nat :=
  bunches.foldl replayBunch (List.replicate channelLength (VOID_SIGNAL w))

/-- A maximal run of cells other than `VOID_SIGNAL` in a channel: the `len`
cells from timebin `start` downwards hold a sample, and the cell above
`start` and the cell below the run, where the channel has them, hold
`VOID_SIGNAL`. -/
def isMaximalRun (w : Nat) (channel : List Nat) (len start : Nat) : Prop :=
  1 ≤ len ∧ start < channel.length ∧ len ≤ start + 1 ∧
  (∀ j, j < len → readAt channel (start - j) ≠ VOID_SIGNAL w) ∧
  (start + 1 < channel.length → readAt channel (start + 1) = VOID_SIGNAL w) ∧
  (len ≤ start → readAt channel (start - len) = VOID_SIGNAL w)

end ChannelMerger

namespace ChannelMerger

/-- The baseline shift correction of a sample `v` as a cell of the sample word
holds it: `max(v - |shift|, 0)` for a negative shift, `v + shift` reduced
modulo `2^w` otherwise. -/
def shiftedSample (w : Nat) (baselineshift : Int) (v : Nat) : Nat :=
  if baselineshift < 0 then v - baselineshift.natAbs
  else (v + baselineshift.toNat) % 2 ^ w

end ChannelMerger

namespace ChannelMerger

/-- What holds of the variables of the bunch loop of `WriteTimeframe` when
the timebins from `k` up to the end of a channel of `L` cells are done;
`cell t` is the cell of timebin `t`.  The bunches closed so far are runs of
samples that end on a `VOID_SIGNAL` cell at or above timebin
`k + nBunchSamples`, their start timebins go down, the open bunch is the run
of the `nBunchSamples` cells from `k` up, and every sample above these is in
a closed bunch. -/
structure WTInv (w : Nat) (cell : Nat → Nat) (L k : Nat) (s : WTLoop) : Prop where
  nb : s.NBunches + k ≤ L
  ns : s.nBunchSamples + k ≤ L
  closed : ∀ i, i < s.NBunches →
    1 ≤ s.BunchLength i ∧ s.BunchLength i ≤ s.BunchTime i ∧ s.BunchTime i < L ∧
    k + s.nBunchSamples ≤ s.BunchTime i - s.BunchLength i ∧
    (∀ j, j < s.BunchLength i → cell (s.BunchTime i - j) ≠ VOID_SIGNAL w) ∧
    cell (s.BunchTime i - s.BunchLength i) = VOID_SIGNAL w ∧
    (s.BunchTime i + 1 < L → cell (s.BunchTime i + 1) = VOID_SIGNAL w)
  order : ∀ i j, i < j → j < s.NBunches → s.BunchTime j < s.BunchTime i
  opened : 0 < s.nBunchSamples →
    s.BunchTime s.NBunches + 1 = k + s.nBunchSamples ∧
    (∀ t, k ≤ t → t < k + s.nBunchSamples → cell t ≠ VOID_SIGNAL w) ∧
    (k + s.nBunchSamples < L → cell (k + s.nBunchSamples) = VOID_SIGNAL w)
  idle : s.nBunchSamples = 0 → k < L → cell k = VOID_SIGNAL w
  cover : ∀ t, k + s.nBunchSamples ≤ t → t < L → cell t ≠ VOID_SIGNAL w →
    ∃ i, i < s.NBunches ∧ s.BunchTime i - s.BunchLength i < t ∧ t ≤ s.BunchTime i

end ChannelMerger

namespace ChannelMerger

/-- The state `r` differs from the state `m` at most in the occupancy map. -/
def sameButOccupancy (m r : ChannelMerger) : Prop :=
  r.mChannelLenght = m.mChannelLenght ∧ r.mInitialBufferSize = m.mInitialBufferSize ∧
  r.mBufferSize = m.mBufferSize ∧ r.mBuffer = m.mBuffer ∧
  r.mUnderflowBuffer = m.mUnderflowBuffer ∧ r.mChannelPositions = m.mChannelPositions ∧
  r.mChannelBaseline = m.mChannelBaseline ∧ r.mZSThreshold = m.mZSThreshold ∧
  r.mBaselineshift = m.mBaselineshift ∧ r.mSignalOverflowCount = m.mSignalOverflowCount ∧
  r.mNoiseFactor = m.mNoiseFactor ∧ r.randCalls = m.randCalls

/-- The body of the loop over the timebins of `ApplyCommonModeEffect` with the
division `cmImpact/=scalingFactor` checked: `none` when the division is
evaluated with the divisor 0. -/
def cmCellBodyChecked (w : Nat) (cmSignal zsSignal : List Nat) (scalingFactor position : Nat)
    (s : Option CMLoop) (i : Nat) : Option CMLoop :=
  match s with
  | none => none
  | some s =>
    if scalingFactor = 0 then none
    else some (cmCellBody w cmSignal zsSignal scalingFactor position s i)

/-- The second loop over the channels with the division checked. -/
def cmCorrectChecked (w : Nat) (cmSignal : List Nat) (scalingFactor : Nat) :
    List (Nat × Nat) → ChannelMerger → List Nat → Nat → Nat →
      Option (Int × ChannelMerger × Nat × Nat)
  | [], m, _, nUnderflow, nUnderflowChannels => some (0, m, nUnderflow, nUnderflowChannels)
  | (_, slot) :: rest, m, zsSignal, nUnderflow, nUnderflowChannels =>
    let position := (slot * m.mChannelLenght) % UINT_MOD
    let r := SignalBufferZeroSuppression w (offsetPtr m.mBuffer position) m.mChannelLenght
      (GetThreshold w m) m.mBaselineshift (Target.separate zsSignal)
    if r.1 < 0 then some (r.1, m, nUnderflow, nUnderflowChannels)
    else
      let zsSignal := targetVector zsSignal r.2.2
      match (List.range m.mChannelLenght).foldl
        (cmCellBodyChecked w cmSignal zsSignal scalingFactor position)
        (some { buffer := m.mBuffer.getD [], nUnderflow := nUnderflow,
                nUnderflowChannels := nUnderflowChannels, bHaveUnderflow := false }) with
      | none => none
      | some s =>
        cmCorrectChecked w cmSignal scalingFactor rest
          { m with mBuffer := m.mBuffer.map (fun _ => s.buffer) } zsSignal
          s.nUnderflow s.nUnderflowChannels

/-- `ChannelMerger::ApplyCommonModeEffect` with the division checked: `none`
when a division by zero is evaluated. -/
def ApplyCommonModeEffectChecked (w : Nat) (m : ChannelMerger) (scalingFactor : Int) :
    Option (Int × ChannelMerger × Nat × Nat) :=
  let p := cmSum w m m.mChannelPositions (List.replicate m.mChannelLenght 0)
    (List.replicate m.mChannelLenght 0)
  if p.1 < 0 then some (p.1, m, 0, 0)
  else
    let scalingFactor :=
      if scalingFactor < 0 then toSigned m.mChannelPositions.length else scalingFactor
    cmCorrectChecked w p.2.1 (toUnsigned scalingFactor) m.mChannelPositions m p.2.2 0 0

end ChannelMerger

/-! ## A small concrete state -/

/-- A merger for a 16 bit sample word with channels of 4 timebins, one indexed
channel (key 7, slot 0) and buffers of 8 cells that hold no sample yet. -/
def exampleMerger : ChannelMerger :=
  { mChannelLenght := 4
    mInitialBufferSize := 8
    mBufferSize := 8
    mBuffer := some (List.replicate 8 65535)
    mUnderflowBuffer := some (List.replicate 8 65535)
    mChannelPositions := [(7, 0)]
    mChannelBaseline := []
    mChannelOccupancy := []
    mZSThreshold := 65535
    mBaselineshift := 0
    mSignalOverflowCount := 0
    mNoiseFactor := 0
    randCalls := 0 }

/-- The state `exampleMerger` with zero suppression enabled at threshold 5. -/
def exampleMergerZS : ChannelMerger :=
  { exampleMerger with mZSThreshold := 5 }

/-- The state `exampleMergerZS` whose cell 3 of the current buffer holds 10. -/
def exampleMergerFilled : ChannelMerger :=
  { exampleMergerZS with mBuffer := some ((List.replicate 8 65535).set 3 10) }

/-- The state `exampleMergerZS` with two indexed channels (keys 7 and 9, slots
0 and 1) that both hold the samples 10, 0, 20, 30. -/
def exampleMergerCM : ChannelMerger :=
  { exampleMergerZS with
    mBuffer := some [10, 0, 20, 30, 10, 0, 20, 30]
    mChannelPositions := [(7, 0), (9, 1)] }

/-- The state `exampleMergerZS` with two indexed channels: slot 0 holds the
samples 10, 0, 20, 30 and the four cells of slot 1 hold no sample. -/
def exampleMergerCMVoid : ChannelMerger :=
  { exampleMergerZS with
    mBuffer := some [10, 0, 20, 30, 65535, 65535, 65535, 65535]
    mChannelPositions := [(7, 0), (9, 1)] }

/-! ## Theorems -/

theorem memsetVoid_all (w : Nat) (d : List Nat) :
    memsetVoid w d 0 d.length = List.replicate d.length (VOID_SIGNAL w) := by
  simp [memsetVoid]

/-- C1: for a state whose buffers are allocated with `mBufferSize` cells,
`StartTimeframe` makes the current buffer the former underflow buffer, cell
for cell, and leaves an underflow buffer of `mBufferSize` cells that all hold
`VOID_SIGNAL`. -/
theorem StartTimeframe_swaps_and_clears (w : Nat) (m : ChannelMerger) (b u : List Nat)
    (hb : m.mBuffer = some b) (hu : m.mUnderflowBuffer = some u)
    (hbl : b.length = m.mBufferSize) (hul : u.length = m.mBufferSize) :
    (ChannelMerger.StartTimeframe w m).mBuffer = some u ∧
    (∀ i, i < m.mBufferSize →
      ((ChannelMerger.StartTimeframe w m).mBuffer.getD []).get? i = u.get? i) ∧
    (ChannelMerger.StartTimeframe w m).mUnderflowBuffer
      = some (List.replicate m.mBufferSize (VOID_SIGNAL w)) ∧
    (∀ p, (ChannelMerger.StartTimeframe w m).mUnderflowBuffer = some p →
      p.length = u.length ∧ ∀ x ∈ p, x = VOID_SIGNAL w) := by
  have h1 : (ChannelMerger.StartTimeframe w m).mBuffer = some u := by
    simp [ChannelMerger.StartTimeframe, hu]
  have h2 : (ChannelMerger.StartTimeframe w m).mUnderflowBuffer
      = some (List.replicate m.mBufferSize (VOID_SIGNAL w)) := by
    simp only [ChannelMerger.StartTimeframe, hb, Option.map_some']
    rw [← hbl, memsetVoid_all]
  refine ⟨h1, ?_, h2, ?_⟩
  · intro i _
    rw [h1]; rfl
  · intro p hp
    rw [h2] at hp
    cases hp
    refine ⟨by simp [hul], ?_⟩
    intro x hx
    exact (List.mem_replicate.mp hx).2

theorem StartTimeframe_swaps_and_clears_witness :
    (ChannelMerger.StartTimeframe 16 exampleMergerFilled).mUnderflowBuffer
      = some (List.replicate exampleMergerFilled.mBufferSize (VOID_SIGNAL 16)) :=
  (StartTimeframe_swaps_and_clears 16 exampleMergerFilled
    ((List.replicate 8 65535).set 3 10) (List.replicate 8 65535) rfl rfl rfl rfl).2.2.1

/-! ### Word arithmetic -/

theorem toUnsigned_natCast (x : Nat) (h : x < 2 ^ 32) : toUnsigned (x : Int) = x := by
  unfold toUnsigned UINT_MOD
  have : ((x : Int) % ((2 ^ 32 : Nat) : Int)) = x := by
    rw [← Int.natCast_mod]; congr 1
    exact Nat.mod_eq_of_lt h
  rw [this]; simp

theorem toSigned_of_lt (x : Nat) (h : x < 2 ^ 31) : toSigned x = x := by
  unfold toSigned UINT_MOD
  have h2 : x % 2 ^ 32 = x := Nat.mod_eq_of_lt (by omega)
  rw [h2, if_pos h]

theorem pow_word_bounds (w : Nat) (hw : 11 ≤ w) (hw32 : w ≤ 32) :
    2048 ≤ 2 ^ w ∧ 2 ^ w ≤ 2 ^ 32 := by
  constructor
  · calc 2048 = 2 ^ 11 := by norm_num
      _ ≤ 2 ^ w := Nat.pow_le_pow_right (by norm_num) hw
  · exact Nat.pow_le_pow_right (by norm_num) hw32

/-! ### Array reads and writes -/

theorem readAt_cons_zero (x : Nat) (l : List Nat) : readAt (x :: l) 0 = x := rfl

theorem readAt_cons_succ (x : Nat) (l : List Nat) (i : Nat) :
    readAt (x :: l) (i + 1) = readAt l i := rfl

theorem readAt_set_self (l : List Nat) (i v : Nat) (h : i < l.length) :
    readAt (l.set i v) i = v := by
  unfold readAt
  rw [List.getD_eq_getElem _ _ (by simpa using h)]
  simp

theorem readAt_set_ne (l : List Nat) (i j v : Nat) (h : i ≠ j) :
    readAt (l.set i v) j = readAt l j := by
  unfold readAt
  simp [List.getElem?_set_ne h]

theorem set_readAt_self (l : List Nat) (i : Nat) : l.set i (readAt l i) = l := by
  induction l generalizing i with
  | nil => rfl
  | cons x xs ih =>
    cases i with
    | zero => rfl
    | succ j => simp only [List.set_cons_succ, readAt_cons_succ, ih]

/-! ### Ingestion: routing and accumulation -/

/-- A sample with timebin `t` in `[0, L)` goes to cell `position + t` of the
current buffer. -/
theorem accumulate_current (w : Nat) (rand : Nat → Nat) (m : ChannelMerger) (b : List Nat)
    (position t cs os : Nat) (hL : m.mChannelLenght < 2 ^ 31) (ht : t < m.mChannelLenght)
    (hb : m.mBuffer = some b) (h32 : position + t < 2 ^ 32) :
    ChannelMerger.accumulate w rand m position (t : Int) cs os =
      { m with
        mBuffer := some (b.set (position + t)
          (ChannelMerger.storeCell w m (rand m.randCalls) (readAt b (position + t)) cs os).1)
        mSignalOverflowCount :=
          if (ChannelMerger.storeCell w m (rand m.randCalls) (readAt b (position + t)) cs os).2.1
          then m.mSignalOverflowCount + 1 else m.mSignalOverflowCount
        randCalls :=
          if (ChannelMerger.storeCell w m (rand m.randCalls) (readAt b (position + t)) cs os).2.2
          then m.randCalls + 1 else m.randCalls } := by
  have h1 : toUnsigned ((position : Int) + (t : Int)) = position + t := by
    have := toUnsigned_natCast (position + t) h32
    simpa using this
  have h2 : ((t : Int) < toSigned m.mChannelLenght ∧ (t : Int) ≥ 0) := by
    rw [toSigned_of_lt _ hL]; constructor
    · exact_mod_cast ht
    · exact Int.natCast_nonneg t
  unfold ChannelMerger.accumulate
  simp only [h2, and_self, if_true, hb, h1]

/-- One sample with zero suppression disabled, no baseline and no shift:
the sample itself is handed to the cell store. -/
theorem sampleBody_plain (w : Nat) (rand : Nat → Nat) (position : Nat) (startTime : Int)
    (a : Nat) (m : ChannelMerger) (pk : Bool) (hshift : m.mBaselineshift = 0) :
    ChannelMerger.sampleBody w rand position (VOID_SIGNAL w) 0 startTime [a] 0 (m, pk)
      = (ChannelMerger.accumulate w rand m position startTime a a, pk) := by
  simp [ChannelMerger.sampleBody, ChannelMerger.currentSignalOf, ChannelMerger.originalSignalOf,
    ChannelMerger.inlineZS, hshift, toUnsigned, readAt_cons_zero]

theorem storeCell_void_plain (w : Nat) (m : ChannelMerger) (r a : Nat)
    (hnoise : m.mNoiseFactor ≤ 1) (ha : a < 2 ^ w) :
    ChannelMerger.storeCell w m r (VOID_SIGNAL w) a a = (a, false, false) := by
  have hb : toBuffer w a = a := Nat.mod_eq_of_lt ha
  unfold ChannelMerger.storeCell
  rw [if_pos rfl]
  by_cases h : a = 0 ∧ m.mNoiseFactor ≥ 1
  · have h1 : m.mNoiseFactor = 1 := le_antisymm hnoise h.2
    have h2 : toUnsigned m.mNoiseFactor = 1 := by rw [h1]; exact toUnsigned_natCast 1 (by norm_num)
    rw [if_pos h]
    simp [ChannelMerger.ManipulateNoise, h2, hb]
  · rw [if_neg h, hb]

theorem storeCell_add_plain (w : Nat) (m : ChannelMerger) (r c a : Nat)
    (hw : 2 ^ w ≤ 2 ^ 32) (hcv : c ≠ VOID_SIGNAL w)
    (ha : a ≤ MAX_ACCUMULATED_SIGNAL w) (hpos : 2 ≤ 2 ^ w) :
    ChannelMerger.storeCell w m r c a a
      = (min (c + a) (MAX_ACCUMULATED_SIGNAL w), decide (MAX_ACCUMULATED_SIGNAL w < c + a), false) := by
  have hM : MAX_ACCUMULATED_SIGNAL w = 2 ^ w - 2 := by
    unfold MAX_ACCUMULATED_SIGNAL VOID_SIGNAL; omega
  have h1 : toUnsigned ((MAX_ACCUMULATED_SIGNAL w : Int) - (a : Int)) = MAX_ACCUMULATED_SIGNAL w - a := by
    rw [← Int.ofNat_sub ha]
    exact toUnsigned_natCast _ (by omega)
  unfold ChannelMerger.storeCell
  rw [if_neg hcv, h1]
  by_cases h : c > MAX_ACCUMULATED_SIGNAL w - a
  · rw [if_pos h]
    have h3 : MAX_ACCUMULATED_SIGNAL w < c + a := by omega
    simp [h3, Nat.min_eq_right (le_of_lt h3)]
  · rw [if_neg h]
    have h3 : c + a ≤ MAX_ACCUMULATED_SIGNAL w := by omega
    have h4 : ¬ (MAX_ACCUMULATED_SIGNAL w < c + a) := by omega
    have h5 : (c + a) % UINT_MOD = c + a := Nat.mod_eq_of_lt (by unfold UINT_MOD; omega)
    have h6 : toBuffer w (c + a) = c + a := Nat.mod_eq_of_lt (by omega)
    simp [h4, Nat.min_eq_left h3, h5, h6]

/-- The state after a run of additions into one cell of the current buffer. -/
theorem bunchLoop_single (w : Nat) (rand : Nat → Nat) (applyOffset : Int → Int)
    (position threshold baseline : Nat) (t0 : Int) (a : Nat) (rest : List Bunch)
    (m : ChannelMerger) :
    ChannelMerger.bunchLoop w rand applyOffset position threshold baseline
        (Bunch.mk t0 [a] :: rest) m
      = ChannelMerger.bunchLoop w rand applyOffset position threshold baseline rest
          (ChannelMerger.sampleBody w rand position threshold baseline (applyOffset t0) [a] 0
            (m, false)).1 := by
  simp [ChannelMerger.bunchLoop, ChannelMerger.sampleLoop]

theorem bunchLoop_append (w : Nat) (rand : Nat → Nat) (applyOffset : Int → Int)
    (position threshold baseline : Nat) (s1 s2 : List Bunch) (m : ChannelMerger) :
    ChannelMerger.bunchLoop w rand applyOffset position threshold baseline (s1 ++ s2) m
      = ChannelMerger.bunchLoop w rand applyOffset position threshold baseline s2
          (ChannelMerger.bunchLoop w rand applyOffset position threshold baseline s1 m) := by
  induction s1 generalizing m with
  | nil => rfl
  | cons x xs ih => simp [ChannelMerger.bunchLoop, ih]

/-- One addition into a cell of the current buffer that already holds a value. -/
theorem plain_step_nonvoid (w : Nat) (rand : Nat → Nat) (applyOffset : Int → Int)
    (m : ChannelMerger) (b : List Nat) (position t : Nat) (t0 : Int) (a : Nat)
    (hw : 11 ≤ w) (hw32 : w ≤ 32)
    (hshift : m.mBaselineshift = 0)
    (hL : m.mChannelLenght < 2 ^ 31) (ht0 : applyOffset t0 = (t : Int))
    (ht : t < m.mChannelLenght) (hb : m.mBuffer = some b) (h32 : position + t < 2 ^ 32)
    (hc : readAt b (position + t) ≤ MAX_ACCUMULATED_SIGNAL w) (ha : a < 1024) :
    (ChannelMerger.sampleBody w rand position (VOID_SIGNAL w) 0 (applyOffset t0) [a] 0
        (m, false)).1
      = { m with
          mBuffer := some (b.set (position + t)
            (min (readAt b (position + t) + a) (MAX_ACCUMULATED_SIGNAL w)))
          mSignalOverflowCount := m.mSignalOverflowCount +
            (if MAX_ACCUMULATED_SIGNAL w < readAt b (position + t) + a then 1 else 0) } := by
  obtain ⟨hp1, hp2⟩ := pow_word_bounds w hw hw32
  have hM : MAX_ACCUMULATED_SIGNAL w = 2 ^ w - 2 := by
    unfold MAX_ACCUMULATED_SIGNAL VOID_SIGNAL; omega
  have hV : VOID_SIGNAL w = 2 ^ w - 1 := rfl
  rw [sampleBody_plain w rand position _ a m false hshift, ht0,
    accumulate_current w rand m b position t a a hL ht hb h32,
    storeCell_add_plain w m _ _ a hp2 (by omega) (by omega) (by omega)]
  simp
  split_ifs <;> rfl

/-- The first write into a `VOID_SIGNAL` cell of the current buffer. -/
theorem plain_step_void (w : Nat) (rand : Nat → Nat) (applyOffset : Int → Int)
    (m : ChannelMerger) (b : List Nat) (position t : Nat) (t0 : Int) (a : Nat)
    (hw : 11 ≤ w) (hw32 : w ≤ 32)
    (hshift : m.mBaselineshift = 0) (hnoise : m.mNoiseFactor ≤ 1)
    (hL : m.mChannelLenght < 2 ^ 31) (ht0 : applyOffset t0 = (t : Int))
    (ht : t < m.mChannelLenght) (hb : m.mBuffer = some b) (h32 : position + t < 2 ^ 32)
    (hc : readAt b (position + t) = VOID_SIGNAL w) (ha : a < 1024) :
    (ChannelMerger.sampleBody w rand position (VOID_SIGNAL w) 0 (applyOffset t0) [a] 0
        (m, false)).1
      = { m with mBuffer := some (b.set (position + t) a) } := by
  obtain ⟨hp1, hp2⟩ := pow_word_bounds w hw hw32
  rw [sampleBody_plain w rand position _ a m false hshift, ht0,
    accumulate_current w rand m b position t a a hL ht hb h32, hc,
    storeCell_void_plain w m _ a hnoise (by omega)]
  simp

/-- A run of additions into one cell of the current buffer that already holds
a value: the cell saturates at the ceiling, and the overflow counter moves
only if the ceiling is exceeded. -/
theorem plain_run_nonvoid (w : Nat) (rand : Nat → Nat) (applyOffset : Int → Int)
    (position t : Nat) (t0 : Int) (hw : 11 ≤ w) (hw32 : w ≤ 32)
    (ht0 : applyOffset t0 = (t : Int)) (h32 : position + t < 2 ^ 32) (as : List Nat) :
    ∀ (m : ChannelMerger) (b : List Nat),
      m.mBaselineshift = 0 → m.mChannelLenght < 2 ^ 31 → t < m.mChannelLenght →
      m.mBuffer = some b → position + t < b.length →
      readAt b (position + t) ≤ MAX_ACCUMULATED_SIGNAL w → (∀ a ∈ as, a < 1024) →
      ∃ k, ChannelMerger.bunchLoop w rand applyOffset position (VOID_SIGNAL w) 0
            (as.map (fun a => Bunch.mk t0 [a])) m
          = { m with
              mBuffer := some (b.set (position + t)
                (min (readAt b (position + t) + as.sum) (MAX_ACCUMULATED_SIGNAL w)))
              mSignalOverflowCount := m.mSignalOverflowCount + k } ∧
        (readAt b (position + t) + as.sum ≤ MAX_ACCUMULATED_SIGNAL w → k = 0) := by
  induction as with
  | nil =>
    intro m b _ _ _ hb _ hc _
    refine ⟨0, ?_, fun _ => rfl⟩
    rw [List.sum_nil, Nat.add_zero, Nat.add_zero, Nat.min_eq_left hc, set_readAt_self, ← hb]
    rfl
  | cons a as ih =>
    intro m b hshift hL ht hb hlen hc has
    have ha : a < 1024 := has a (List.mem_cons_self a as)
    have has2 : ∀ x ∈ as, x < 1024 := fun x hx => has x (List.mem_cons_of_mem a hx)
    rw [List.map_cons, bunchLoop_single,
      plain_step_nonvoid w rand applyOffset m b position t t0 a hw hw32 hshift hL ht0 ht hb h32 hc ha]
    generalize hcdef : readAt b (position + t) = c at hc ⊢
    have hget : readAt (b.set (position + t) (min (c + a) (MAX_ACCUMULATED_SIGNAL w)))
        (position + t) = min (c + a) (MAX_ACCUMULATED_SIGNAL w) :=
      readAt_set_self b _ _ hlen
    obtain ⟨k, hk, hk0⟩ := ih
      { m with
        mBuffer := some (b.set (position + t) (min (c + a) (MAX_ACCUMULATED_SIGNAL w)))
        mSignalOverflowCount := m.mSignalOverflowCount +
          (if MAX_ACCUMULATED_SIGNAL w < c + a then 1 else 0) }
      (b.set (position + t) (min (c + a) (MAX_ACCUMULATED_SIGNAL w)))
      hshift hL ht rfl (by simpa using hlen) (by rw [hget]; exact Nat.min_le_right _ _) has2
    refine ⟨(if MAX_ACCUMULATED_SIGNAL w < c + a then 1 else 0) + k, ?_, ?_⟩
    · rw [hk, hget]
      have hmin : min (min (c + a) (MAX_ACCUMULATED_SIGNAL w) + as.sum)
            (MAX_ACCUMULATED_SIGNAL w)
          = min (c + (a :: as).sum) (MAX_ACCUMULATED_SIGNAL w) := by
        rw [List.sum_cons]; omega
      rw [hmin, List.set_set, Nat.add_assoc]
    · intro hle
      rw [List.sum_cons] at hle
      have h1 : ¬ (MAX_ACCUMULATED_SIGNAL w < c + a) := by omega
      have h2 : k = 0 := hk0 (by rw [hget, Nat.min_eq_left (by omega)]; omega)
      simp [h1, h2]

/-- A run of additions that starts on a `VOID_SIGNAL` cell of the current
buffer. -/
theorem plain_run_void (w : Nat) (rand : Nat → Nat) (applyOffset : Int → Int)
    (position t : Nat) (t0 : Int) (hw : 11 ≤ w) (hw32 : w ≤ 32)
    (ht0 : applyOffset t0 = (t : Int)) (h32 : position + t < 2 ^ 32) (as : List Nat)
    (m : ChannelMerger) (b : List Nat)
    (hshift : m.mBaselineshift = 0) (hnoise : m.mNoiseFactor ≤ 1)
    (hL : m.mChannelLenght < 2 ^ 31) (ht : t < m.mChannelLenght)
    (hb : m.mBuffer = some b) (hlen : position + t < b.length)
    (hvoid : readAt b (position + t) = VOID_SIGNAL w) (has : ∀ a ∈ as, a < 1024)
    (hne : as ≠ []) :
    ∃ k, ChannelMerger.bunchLoop w rand applyOffset position (VOID_SIGNAL w) 0
          (as.map (fun a => Bunch.mk t0 [a])) m
        = { m with
            mBuffer := some (b.set (position + t) (min as.sum (MAX_ACCUMULATED_SIGNAL w)))
            mSignalOverflowCount := m.mSignalOverflowCount + k } ∧
      (as.sum ≤ MAX_ACCUMULATED_SIGNAL w → k = 0) := by
  obtain ⟨hp1, hp2⟩ := pow_word_bounds w hw hw32
  have hM : MAX_ACCUMULATED_SIGNAL w = 2 ^ w - 2 := by
    unfold MAX_ACCUMULATED_SIGNAL VOID_SIGNAL; omega
  cases as with
  | nil => exact absurd rfl hne
  | cons a rest =>
    have ha : a < 1024 := has a (List.mem_cons_self a rest)
    have has2 : ∀ x ∈ rest, x < 1024 := fun x hx => has x (List.mem_cons_of_mem a hx)
    rw [List.map_cons, bunchLoop_single,
      plain_step_void w rand applyOffset m b position t t0 a hw hw32 hshift hnoise hL ht0 ht hb
        h32 hvoid ha]
    have hget : readAt (b.set (position + t) a) (position + t) = a :=
      readAt_set_self b _ _ hlen
    obtain ⟨k, hk, hk0⟩ := plain_run_nonvoid w rand applyOffset position t t0 hw hw32 ht0 h32 rest
      { m with mBuffer := some (b.set (position + t) a) } (b.set (position + t) a)
      hshift hL ht rfl (by simpa using hlen) (by rw [hget]; omega) has2
    refine ⟨k, ?_, ?_⟩
    · rw [hk, hget, List.set_set, List.sum_cons]
    · intro hle
      rw [List.sum_cons] at hle
      exact hk0 (by rw [hget]; exact hle)

theorem readAt_append_left (l ext : List Nat) (j : Nat) (h : j < l.length) :
    readAt (l ++ ext) j = readAt l j := by
  unfold readAt
  simp [List.getElem?_append_left h]

/-- The reallocation of one buffer that holds `oldsize` cells keeps these
cells and appends cells that hold `VOID_SIGNAL`. -/
theorem growOne_some (w : Nat) (b : List Nat) (newsize : Nat) :
    ChannelMerger.growOne w (some b) b.length newsize
      = b ++ List.replicate (newsize - b.length) (VOID_SIGNAL w) := by
  have h1 : memcpyCells (List.replicate newsize 0) b b.length
      = b ++ List.replicate (newsize - b.length) 0 := by
    simp [memcpyCells]
  unfold ChannelMerger.growOne
  simp only [h1]
  unfold memsetVoid
  have h2 : b.length + (newsize - b.length) = (b ++ List.replicate (newsize - b.length) 0).length := by
    simp
  rw [List.take_left' rfl, h2, List.drop_length, List.append_nil]
  simp

/-- For a channel that is already indexed, `AddChannel` reaches the loop over
the bunches with the slot of the channel and a state that differs from the
initial one at most by the cells appended to the buffers. -/
theorem AddChannel_known_channel (w : Nat) (rand : Nat → Nat) (applyOffset : Int → Int)
    (m : ChannelMerger) (index s : Nat) (b : List Nat)
    (hslot : m.mChannelPositions.lookup index = some s)
    (hb : m.mBuffer = some b) (hbl : b.length = m.mBufferSize) :
    ∃ (m1 : ChannelMerger) (ext : List Nat),
      (∀ stream, ChannelMerger.AddChannel w rand applyOffset m index stream
        = ChannelMerger.bunchLoop w rand applyOffset ((s * m.mChannelLenght) % UINT_MOD)
            (ChannelMerger.ingestThreshold w m ((m.mChannelBaseline.lookup index).getD 0))
            ((m.mChannelBaseline.lookup index).getD 0) stream m1) ∧
      m1.mBuffer = some (b ++ ext) ∧ m1.mBaselineshift = m.mBaselineshift ∧
      m1.mNoiseFactor = m.mNoiseFactor ∧ m1.mChannelLenght = m.mChannelLenght ∧
      m1.mSignalOverflowCount = m.mSignalOverflowCount := by
  have hprep : ChannelMerger.prepareChannel w m index
      = (if ((s + 1) * (m.mChannelLenght * sizeofBuffer w)) % UINT_MOD > m.mBufferSize then
          ChannelMerger.GrowBuffer w m (ChannelMerger.growthSize m
            (((s + 1) * (m.mChannelLenght * sizeofBuffer w)) % UINT_MOD))
        else m, s) := by
    simp [ChannelMerger.prepareChannel, ChannelMerger.assignPosition, hslot]
  have hgrow : ∀ newsize, ∃ ext, (ChannelMerger.GrowBuffer w m newsize).mBuffer = some (b ++ ext) ∧
      (ChannelMerger.GrowBuffer w m newsize).mBaselineshift = m.mBaselineshift ∧
      (ChannelMerger.GrowBuffer w m newsize).mNoiseFactor = m.mNoiseFactor ∧
      (ChannelMerger.GrowBuffer w m newsize).mChannelLenght = m.mChannelLenght ∧
      (ChannelMerger.GrowBuffer w m newsize).mSignalOverflowCount = m.mSignalOverflowCount := by
    intro newsize
    unfold ChannelMerger.GrowBuffer
    by_cases hn : newsize ≤ m.mBufferSize
    · rw [if_pos hn]
      exact ⟨[], by rw [hb, List.append_nil], rfl, rfl, rfl, rfl⟩
    · rw [if_neg hn]
      refine ⟨List.replicate (newsize - b.length) (VOID_SIGNAL w), ?_, rfl, rfl, rfl, rfl⟩
      simp only [hb]
      rw [← hbl, growOne_some w b newsize]
  by_cases hreq : ((s + 1) * (m.mChannelLenght * sizeofBuffer w)) % UINT_MOD > m.mBufferSize
  · rw [if_pos hreq] at hprep
    obtain ⟨ext, h1, h2, h3, h4, h5⟩ := hgrow (ChannelMerger.growthSize m
      (((s + 1) * (m.mChannelLenght * sizeofBuffer w)) % UINT_MOD))
    refine ⟨_, ext, ?_, h1, h2, h3, h4, h5⟩
    intro stream
    simp only [ChannelMerger.AddChannel, hprep, h4]
  · rw [if_neg hreq] at hprep
    refine ⟨m, [], ?_, by rw [hb, List.append_nil], rfl, rfl, rfl, rfl⟩
    intro stream
    simp only [ChannelMerger.AddChannel, hprep]

/-- C2: saturating accumulation into one cell of the current buffer.  With
zero suppression disabled, no baseline, baseline shift 0 and noise
manipulation off, `AddChannel` fed with the samples `a1..an` (each below 1024,
one per bunch, all on timebin `t` of an indexed channel whose cell is
`VOID_SIGNAL`) leaves the cell at `min (a1+...+an) MAX_ACCUMULATED_SIGNAL` and
changes no other cell (`ext` stands for the cells that the growth step of
`AddChannel` appends, if any); the overflow counter is unchanged while the sum
stays within the ceiling, and the first addition that exceeds the ceiling
stores the ceiling and increments the counter by exactly 1. -/
theorem AddChannel_saturating_accumulation (w : Nat) (rand : Nat → Nat)
    (applyOffset : Int → Int) (m : ChannelMerger) (index s : Nat) (b : List Nat)
    (t0 : Int) (t : Nat) (samples : List Nat)
    (hw : 11 ≤ w) (hw32 : w ≤ 32)
    (hslot : m.mChannelPositions.lookup index = some s)
    (hzs : m.mZSThreshold = VOID_SIGNAL w) (hbase : m.mChannelBaseline.lookup index = none)
    (hshift : m.mBaselineshift = 0) (hnoise : m.mNoiseFactor ≤ 1)
    (hL : m.mChannelLenght < 2 ^ 31) (ht0 : applyOffset t0 = (t : Int))
    (ht : t < m.mChannelLenght) (hb : m.mBuffer = some b) (hbl : b.length = m.mBufferSize)
    (hlen : (s * m.mChannelLenght) % UINT_MOD + t < b.length)
    (h32 : (s * m.mChannelLenght) % UINT_MOD + t < 2 ^ 32)
    (hvoid : readAt b ((s * m.mChannelLenght) % UINT_MOD + t) = VOID_SIGNAL w)
    (hs : ∀ a ∈ samples, a < 1024) (hne : samples ≠ []) :
    ∃ ext : List Nat,
      (ChannelMerger.AddChannel w rand applyOffset m index
          (samples.map (fun a => Bunch.mk t0 [a]))).mBuffer
        = some ((b ++ ext).set ((s * m.mChannelLenght) % UINT_MOD + t)
            (min samples.sum (MAX_ACCUMULATED_SIGNAL w))) ∧
      (samples.sum ≤ MAX_ACCUMULATED_SIGNAL w →
        (ChannelMerger.AddChannel w rand applyOffset m index
          (samples.map (fun a => Bunch.mk t0 [a]))).mSignalOverflowCount
          = m.mSignalOverflowCount) ∧
      (∀ (pre : List Nat) (a : Nat), samples = pre ++ [a] → pre ≠ [] →
        pre.sum ≤ MAX_ACCUMULATED_SIGNAL w → MAX_ACCUMULATED_SIGNAL w < pre.sum + a →
        (ChannelMerger.AddChannel w rand applyOffset m index
            (pre.map (fun a => Bunch.mk t0 [a]))).mBuffer
          = some ((b ++ ext).set ((s * m.mChannelLenght) % UINT_MOD + t) pre.sum) ∧
        (ChannelMerger.AddChannel w rand applyOffset m index
            (samples.map (fun a => Bunch.mk t0 [a]))).mBuffer
          = some ((b ++ ext).set ((s * m.mChannelLenght) % UINT_MOD + t)
              (MAX_ACCUMULATED_SIGNAL w)) ∧
        (ChannelMerger.AddChannel w rand applyOffset m index
            (samples.map (fun a => Bunch.mk t0 [a]))).mSignalOverflowCount
          = m.mSignalOverflowCount + 1) := by
  have hthr : ChannelMerger.ingestThreshold w m ((m.mChannelBaseline.lookup index).getD 0)
      = VOID_SIGNAL w := by
    simp [ChannelMerger.ingestThreshold, hzs]
  have hbline : (m.mChannelBaseline.lookup index).getD 0 = 0 := by rw [hbase]; rfl
  obtain ⟨m1, ext, hred, hb1, hshift1, hnoise1, hL1, hcount1⟩ :=
    AddChannel_known_channel w rand applyOffset m index s b hslot hb hbl
  rw [hthr, hbline] at hred
  rw [← hshift1] at hshift
  rw [← hnoise1] at hnoise
  rw [← hL1] at hL ht hlen h32 hvoid
  simp only [← hL1] at hred
  simp only [← hL1, ← hcount1]
  have hlen1 : (s * m1.mChannelLenght) % UINT_MOD + t < (b ++ ext).length := by
    rw [List.length_append]; omega
  have hvoid1 : readAt (b ++ ext) ((s * m1.mChannelLenght) % UINT_MOD + t) = VOID_SIGNAL w := by
    rw [readAt_append_left b ext _ hlen]; exact hvoid
  refine ⟨ext, ?_⟩
  obtain ⟨k, hk, hk0⟩ := plain_run_void w rand applyOffset _ t t0 hw hw32 ht0 h32 samples m1
    (b ++ ext) hshift hnoise hL ht hb1 hlen1 hvoid1 hs hne
  refine ⟨by rw [hred, hk], fun hle => by rw [hred, hk, hk0 hle]; rfl, ?_⟩
  intro pre a hsplit hpre hsum hover
  have hpre_lt : ∀ x ∈ pre, x < 1024 := fun x hx => hs x (by rw [hsplit]; simp [hx])
  have ha : a < 1024 := hs a (by rw [hsplit]; simp)
  obtain ⟨k1, hk1, hk10⟩ := plain_run_void w rand applyOffset _ t t0 hw hw32 ht0 h32 pre m1
    (b ++ ext) hshift hnoise hL ht hb1 hlen1 hvoid1 hpre_lt hpre
  have hk1z : k1 = 0 := hk10 hsum
  have hget : readAt ((b ++ ext).set ((s * m1.mChannelLenght) % UINT_MOD + t) pre.sum)
      ((s * m1.mChannelLenght) % UINT_MOD + t) = pre.sum := readAt_set_self _ _ _ hlen1
  have hstep := plain_step_nonvoid w rand applyOffset
    { m1 with
      mBuffer := some ((b ++ ext).set ((s * m1.mChannelLenght) % UINT_MOD + t) pre.sum)
      mSignalOverflowCount := m1.mSignalOverflowCount + 0 }
    ((b ++ ext).set ((s * m1.mChannelLenght) % UINT_MOD + t) pre.sum)
    ((s * m1.mChannelLenght) % UINT_MOD) t t0 a hw hw32 hshift hL ht0 ht rfl h32
    (by rw [hget]; exact hsum) ha
  have hfinal : ChannelMerger.bunchLoop w rand applyOffset ((s * m1.mChannelLenght) % UINT_MOD)
      (VOID_SIGNAL w) 0 (samples.map (fun a => Bunch.mk t0 [a])) m1
      = { m1 with
          mBuffer := some ((b ++ ext).set ((s * m1.mChannelLenght) % UINT_MOD + t)
            (MAX_ACCUMULATED_SIGNAL w))
          mSignalOverflowCount := m1.mSignalOverflowCount + 1 } := by
    rw [hsplit, List.map_append, bunchLoop_append, hk1, hk1z, Nat.min_eq_left hsum,
      List.map_cons, List.map_nil, bunchLoop_single, hstep,
      hget, List.set_set, Nat.min_eq_right (le_of_lt hover), if_pos hover]
    rfl
  refine ⟨?_, ?_, ?_⟩
  · rw [hred, hk1, Nat.min_eq_left hsum]
  · rw [hred, hfinal]
  · rw [hred, hfinal]

theorem AddChannel_saturating_accumulation_witness :
    ∃ ext : List Nat,
      (ChannelMerger.AddChannel 16 (fun _ => 0) id exampleMerger 7
          ((List.replicate 64 1023 ++ [1000]).map (fun a => Bunch.mk 3 [a]))).mBuffer
        = some ((List.replicate 8 65535 ++ ext).set
            ((0 * exampleMerger.mChannelLenght) % UINT_MOD + 3) (MAX_ACCUMULATED_SIGNAL 16)) ∧
      (ChannelMerger.AddChannel 16 (fun _ => 0) id exampleMerger 7
          ((List.replicate 64 1023 ++ [1000]).map (fun a => Bunch.mk 3 [a]))).mSignalOverflowCount
        = exampleMerger.mSignalOverflowCount + 1 :=
  (AddChannel_saturating_accumulation 16 (fun _ => 0) id exampleMerger 7 0
    (List.replicate 8 65535) 3 3 (List.replicate 64 1023 ++ [1000]) (by decide) (by decide) rfl
    rfl rfl rfl (by decide) (by decide) rfl (by decide) rfl rfl (by decide) (by decide)
    rfl (by decide) (by decide)).elim
    (fun ext h => ⟨ext, (h.2.2 (List.replicate 64 1023) 1000 rfl (by decide) (by decide)
      (by decide)).2⟩)

/-- A sample with timebin in `[-L, 0)` goes to cell `position + timebin + L`
of the underflow buffer; the overflow counter is not touched. -/
theorem accumulate_underflow (w : Nat) (rand : Nat → Nat) (m : ChannelMerger) (u : List Nat)
    (position t cs os : Nat) (timebin : Int) (hL : m.mChannelLenght < 2 ^ 31)
    (hneg : timebin < 0) (ht : timebin + (m.mChannelLenght : Int) = (t : Int))
    (hu : m.mUnderflowBuffer = some u) (h32 : position + t < 2 ^ 32) :
    ChannelMerger.accumulate w rand m position timebin cs os =
      { m with
        mUnderflowBuffer := some (u.set (position + t)
          (ChannelMerger.storeCell w m (rand m.randCalls) (readAt u (position + t)) cs os).1)
        randCalls :=
          if (ChannelMerger.storeCell w m (rand m.randCalls) (readAt u (position + t)) cs os).2.2
          then m.randCalls + 1 else m.randCalls } := by
  have h1 : toUnsigned ((position : Int) + (t : Int)) = position + t := by
    have := toUnsigned_natCast (position + t) h32
    simpa using this
  have h2 : ¬ (timebin < (m.mChannelLenght : Int) ∧ timebin ≥ 0) := by
    intro h; omega
  have h3 : timebin < 0 ∧ timebin + (m.mChannelLenght : Int) ≥ 0 := by omega
  unfold ChannelMerger.accumulate
  simp only [toSigned_of_lt _ hL, h2, h3, and_self, if_true, if_false, hu, ht, h1]
  rw [if_pos ⟨trivial, Int.natCast_nonneg t⟩]

/-- A sample whose timebin is outside `[-L, L)` changes nothing. -/
theorem accumulate_out_of_range (w : Nat) (rand : Nat → Nat) (m : ChannelMerger)
    (position cs os : Nat) (timebin : Int) (hL : m.mChannelLenght < 2 ^ 31)
    (hout : timebin < -(m.mChannelLenght : Int) ∨ timebin ≥ (m.mChannelLenght : Int)) :
    ChannelMerger.accumulate w rand m position timebin cs os = m := by
  have h2 : ¬ (timebin < (m.mChannelLenght : Int) ∧ timebin ≥ 0) := by omega
  have h3 : ¬ (timebin < 0 ∧ timebin + (m.mChannelLenght : Int) ≥ 0) := by omega
  unfold ChannelMerger.accumulate
  simp only [toSigned_of_lt _ hL, h2, h3, if_false]

/-- C3 fails as stated: with threshold 5 the single sample 3 is suppressed, so
its `currentSignal` is 0 and a cell that holds 10 stays at 10, yet on a
`VOID_SIGNAL` cell the same sample leaves 3, the `originalSignal`. -/
theorem first_write_not_currentSignal :
    ChannelMerger.currentSignalOf 16 exampleMergerZS 5 0 [3] 0 false = 0 ∧
    (ChannelMerger.AddChannel 16 (fun _ => 0) id exampleMergerFilled 7 [Bunch.mk 3 [3]]).mBuffer
      = some [65535, 65535, 65535, 10, 65535, 65535, 65535, 65535] ∧
    exampleMergerZS.mBuffer
      = some [65535, 65535, 65535, 65535, 65535, 65535, 65535, 65535] ∧
    (ChannelMerger.AddChannel 16 (fun _ => 0) id exampleMergerZS 7 [Bunch.mk 3 [3]]).mBuffer
      = some [65535, 65535, 65535, 3, 65535, 65535, 65535, 65535] := by
  refine ⟨by decide, by decide, by decide, by decide⟩

/-- C3 (amended): when the sample loop of `AddChannel` writes a sample into a
cell that holds `VOID_SIGNAL`, and the noise substitution does not trigger,
the cell afterwards holds `originalSignal`, the raw sample minus the channel
baseline floored at 0 and stored in the sample word, for every raw sample,
baseline, baseline shift, threshold and peak state, in the current buffer
(timebin in `[0, L)`) and in the underflow buffer (timebin in `[-L, 0)`)
alike; the zero suppression decision does not enter the stored value. -/
theorem first_write_stores_originalSignal (w : Nat) (rand : Nat → Nat)
    (position threshold baseline : Nat) (startTime : Int) (signals : List Nat) (i : Nat)
    (pk : Bool) (m : ChannelMerger) (b u : List Nat)
    (hL : m.mChannelLenght < 2 ^ 31)
    (hb : m.mBuffer = some b) (hu : m.mUnderflowBuffer = some u)
    (hnoise : ¬ (ChannelMerger.currentSignalOf w m threshold baseline signals i pk = 0 ∧
      m.mNoiseFactor ≥ 1)) :
    (∀ t : Nat, startTime - (i : Int) = (t : Int) → t < m.mChannelLenght →
      position + t < 2 ^ 32 → readAt b (position + t) = VOID_SIGNAL w →
      (ChannelMerger.sampleBody w rand position threshold baseline startTime signals i
          (m, pk)).1.mBuffer
        = some (b.set (position + t)
            (toBuffer w (ChannelMerger.originalSignalOf baseline signals i)))) ∧
    (∀ t : Nat, startTime - (i : Int) < 0 →
      startTime - (i : Int) + (m.mChannelLenght : Int) = (t : Int) →
      position + t < 2 ^ 32 → readAt u (position + t) = VOID_SIGNAL w →
      (ChannelMerger.sampleBody w rand position threshold baseline startTime signals i
          (m, pk)).1.mUnderflowBuffer
        = some (u.set (position + t)
            (toBuffer w (ChannelMerger.originalSignalOf baseline signals i)))) ∧
    ChannelMerger.originalSignalOf baseline signals i = readAt signals i - baseline := by
  have hstore : ∀ r, ChannelMerger.storeCell w m r (VOID_SIGNAL w)
      (ChannelMerger.currentSignalOf w m threshold baseline signals i pk)
      (ChannelMerger.originalSignalOf baseline signals i)
      = (toBuffer w (ChannelMerger.originalSignalOf baseline signals i), false, false) := by
    intro r
    unfold ChannelMerger.storeCell
    rw [if_pos rfl, if_neg hnoise]
  refine ⟨?_, ?_, ?_⟩
  · intro t htb ht h32 hvoid
    unfold ChannelMerger.sampleBody
    simp only [htb]
    rw [accumulate_current w rand m b position t _ _ hL ht hb h32, hvoid, hstore]
  · intro t hneg htb h32 hvoid
    unfold ChannelMerger.sampleBody
    simp only []
    rw [accumulate_underflow w rand m u position t _ _ _ hL hneg htb hu h32, hvoid, hstore]
  · unfold ChannelMerger.originalSignalOf
    simp only []
    split_ifs with h
    · omega
    · rfl

theorem first_write_stores_originalSignal_witness :
    (ChannelMerger.sampleBody 16 (fun _ => 0) 0 5 0 3 [3] 0 (exampleMergerZS, false)).1.mBuffer
      = some ((List.replicate 8 65535).set (0 + 3)
          (toBuffer 16 (ChannelMerger.originalSignalOf 0 [3] 0))) ∧
    (ChannelMerger.sampleBody 16 (fun _ => 0) 0 5 0 (-1) [3] 0
        (exampleMergerZS, false)).1.mUnderflowBuffer
      = some ((List.replicate 8 65535).set (0 + 3)
          (toBuffer 16 (ChannelMerger.originalSignalOf 0 [3] 0))) :=
  ⟨(first_write_stores_originalSignal 16 (fun _ => 0) 0 5 0 3 [3] 0 false exampleMergerZS
      (List.replicate 8 65535) (List.replicate 8 65535) (by decide) rfl rfl (by decide)).1
      3 rfl (by decide) (by decide) rfl,
    (first_write_stores_originalSignal 16 (fun _ => 0) 0 5 0 (-1) [3] 0 false exampleMergerZS
      (List.replicate 8 65535) (List.replicate 8 65535) (by decide) rfl rfl (by decide)).2.1
      3 (by decide) rfl (by decide) rfl⟩

/-- C4: timebin routing in the sample loop of `AddChannel`.  For the channel
in slot `s` (position `s*L`) and a sample with timebin `startTime - i`: if the
timebin is `t` with `0 <= t < L`, the underflow buffer is unchanged and the
current buffer changes at most in cell `s*L + t`; if the timebin is negative
and `timebin + L = t >= 0`, the current buffer is unchanged and the underflow
buffer changes at most in cell `s*L + t`. -/
theorem sampleBody_routing (w : Nat) (rand : Nat → Nat) (s threshold baseline : Nat)
    (startTime : Int) (signals : List Nat) (i : Nat) (pk : Bool) (m : ChannelMerger)
    (hL : m.mChannelLenght < 2 ^ 31)
    (hfit : s * m.mChannelLenght + m.mChannelLenght ≤ 2 ^ 32) :
    (∀ t : Nat, startTime - (i : Int) = (t : Int) → t < m.mChannelLenght →
      (ChannelMerger.sampleBody w rand (s * m.mChannelLenght) threshold baseline startTime
          signals i (m, pk)).1.mUnderflowBuffer = m.mUnderflowBuffer ∧
      ∃ v, (ChannelMerger.sampleBody w rand (s * m.mChannelLenght) threshold baseline startTime
          signals i (m, pk)).1.mBuffer
        = m.mBuffer.map (fun b => b.set (s * m.mChannelLenght + t) v)) ∧
    (∀ t : Nat, startTime - (i : Int) < 0 →
      startTime - (i : Int) + (m.mChannelLenght : Int) = (t : Int) →
      (ChannelMerger.sampleBody w rand (s * m.mChannelLenght) threshold baseline startTime
          signals i (m, pk)).1.mBuffer = m.mBuffer ∧
      ∃ v, (ChannelMerger.sampleBody w rand (s * m.mChannelLenght) threshold baseline startTime
          signals i (m, pk)).1.mUnderflowBuffer
        = m.mUnderflowBuffer.map (fun u => u.set (s * m.mChannelLenght + t) v)) := by
  constructor
  · intro t htb ht
    have h32 : s * m.mChannelLenght + t < 2 ^ 32 := by omega
    unfold ChannelMerger.sampleBody
    simp only [htb]
    cases hb : m.mBuffer with
    | none =>
      have hacc : ∀ cs os, ChannelMerger.accumulate w rand m (s * m.mChannelLenght) (t : Int) cs os
          = m := by
        intro cs os
        have h2 : ((t : Int) < (m.mChannelLenght : Int) ∧ (t : Int) ≥ 0) :=
          ⟨by exact_mod_cast ht, Int.natCast_nonneg t⟩
        unfold ChannelMerger.accumulate
        simp only [toSigned_of_lt _ hL, h2, and_self, if_true, hb]
      rw [hacc]
      exact ⟨rfl, 0, by rw [hb]; rfl⟩
    | some b =>
      rw [accumulate_current w rand m b (s * m.mChannelLenght) t _ _ hL ht hb h32]
      exact ⟨rfl, _, rfl⟩
  · intro t hneg htb
    have h32 : s * m.mChannelLenght + t < 2 ^ 32 := by omega
    unfold ChannelMerger.sampleBody
    simp only []
    cases hu : m.mUnderflowBuffer with
    | none =>
      have hacc : ∀ cs os, ChannelMerger.accumulate w rand m (s * m.mChannelLenght)
          (startTime - (i : Int)) cs os = m := by
        intro cs os
        have h2 : ¬ (startTime - (i : Int) < (m.mChannelLenght : Int) ∧ startTime - (i : Int) ≥ 0) := by
          omega
        have h3 : startTime - (i : Int) < 0 ∧ startTime - (i : Int) + (m.mChannelLenght : Int) ≥ 0 := by
          omega
        unfold ChannelMerger.accumulate
        simp only [toSigned_of_lt _ hL, h2, h3, and_self, if_true, if_false, hu]
      rw [hacc]
      exact ⟨rfl, 0, by rw [hu]; rfl⟩
    | some u =>
      rw [accumulate_underflow w rand m u (s * m.mChannelLenght) t _ _ _ hL hneg htb hu h32]
      exact ⟨rfl, _, rfl⟩

theorem sampleBody_routing_witness :
    ((ChannelMerger.sampleBody 16 (fun _ => 0) (0 * exampleMergerZS.mChannelLenght) 5 0 3
        [9, 8] 1 (exampleMergerZS, true)).1.mUnderflowBuffer = exampleMergerZS.mUnderflowBuffer ∧
      ∃ v, (ChannelMerger.sampleBody 16 (fun _ => 0) (0 * exampleMergerZS.mChannelLenght) 5 0 3
          [9, 8] 1 (exampleMergerZS, true)).1.mBuffer
        = exampleMergerZS.mBuffer.map
            (fun b => b.set (0 * exampleMergerZS.mChannelLenght + 2) v)) ∧
    ((ChannelMerger.sampleBody 16 (fun _ => 0) (0 * exampleMergerZS.mChannelLenght) 5 0 0
        [9, 8] 1 (exampleMergerZS, true)).1.mBuffer = exampleMergerZS.mBuffer ∧
      ∃ v, (ChannelMerger.sampleBody 16 (fun _ => 0) (0 * exampleMergerZS.mChannelLenght) 5 0 0
          [9, 8] 1 (exampleMergerZS, true)).1.mUnderflowBuffer
        = exampleMergerZS.mUnderflowBuffer.map
            (fun u => u.set (0 * exampleMergerZS.mChannelLenght + 3) v)) :=
  ⟨(sampleBody_routing 16 (fun _ => 0) 0 5 0 3 [9, 8] 1 true exampleMergerZS
      (by decide) (by decide)).1 2 rfl (by decide),
    (sampleBody_routing 16 (fun _ => 0) 0 5 0 0 [9, 8] 1 true exampleMergerZS
      (by decide) (by decide)).2 3 (by decide) rfl⟩

/-- C5: a sample whose timebin `startTime - i` is below `-L` or at least `L`
is dropped: the body of the sample loop leaves the whole merger state (both
buffers, the overflow counter and everything else) unchanged, and the loop
goes on with sample `i+1`. -/
theorem out_of_range_sample_dropped (w : Nat) (rand : Nat → Nat)
    (position threshold baseline : Nat) (startTime : Int) (signals : List Nat) (n i : Nat)
    (pk : Bool) (m : ChannelMerger) (hL : m.mChannelLenght < 2 ^ 31)
    (hout : startTime - (i : Int) < -(m.mChannelLenght : Int) ∨
      startTime - (i : Int) ≥ (m.mChannelLenght : Int)) :
    ChannelMerger.sampleBody w rand position threshold baseline startTime signals i (m, pk)
      = (m, (ChannelMerger.inlineZS w threshold signals i pk).1) ∧
    ChannelMerger.sampleLoop w rand position threshold baseline startTime signals (n + 1) i (m, pk)
      = ChannelMerger.sampleLoop w rand position threshold baseline startTime signals n (i + 1)
          (m, (ChannelMerger.inlineZS w threshold signals i pk).1) := by
  have h1 : ChannelMerger.sampleBody w rand position threshold baseline startTime signals i (m, pk)
      = (m, (ChannelMerger.inlineZS w threshold signals i pk).1) := by
    unfold ChannelMerger.sampleBody
    simp only []
    rw [accumulate_out_of_range w rand m position _ _ _ hL hout]
  refine ⟨h1, ?_⟩
  rw [ChannelMerger.sampleLoop, h1]

theorem out_of_range_sample_dropped_witness :
    ChannelMerger.sampleBody 16 (fun _ => 0) 0 5 0 9 [9, 8] 0 (exampleMergerZS, false)
      = (exampleMergerZS, (ChannelMerger.inlineZS 16 5 [9, 8] 0 false).1) :=
  (out_of_range_sample_dropped 16 (fun _ => 0) 0 5 0 9 [9, 8] 1 0 false exampleMergerZS
    (by decide) (Or.inr (by decide))).1

/-! ### The zero suppression peak algorithm -/

theorem VOID_SIGNAL_ge (w : Nat) (hw : 4 ≤ w) : 15 ≤ VOID_SIGNAL w := by
  have : 2 ^ 4 ≤ 2 ^ w := Nat.pow_le_pow_right (by norm_num) hw
  unfold VOID_SIGNAL; omega

theorem toBuffer_VOID (w : Nat) : toBuffer w (VOID_SIGNAL w) = VOID_SIGNAL w := by
  have : 0 < 2 ^ w := Nat.pow_pos (by norm_num)
  exact Nat.mod_eq_of_lt (by unfold VOID_SIGNAL; omega)

theorem toUnsigned_neg_one : toUnsigned (-1) = 2 ^ 32 - 1 := by decide

theorem zsIterations_of_lt (size : Nat) (h : size < 2 ^ 31) :
    ChannelMerger.zsIterations size = size := by
  unfold ChannelMerger.zsIterations
  cases size with
  | zero =>
    have h1 : ((0 : Nat) : Int) - 1 = -1 := by norm_num
    rw [h1, toUnsigned_neg_one]
    decide
  | succ n =>
    have h1 : (((n + 1 : Nat) : Int) - 1) = (n : Int) := by push_cast; ring
    rw [h1, toUnsigned_natCast n (by omega), toSigned_of_lt n (by omega)]
    omega

/-- C6: the scenario with threshold 5 (baseline 0, baseline shift 0) and the
samples 0,0,8,9,3,7,2,0,0 in scan order.  The ingestion scan keeps exactly the
samples 8,9,3,7 at positions 2..5 and hands 0 to the cell store for the other
positions; the standalone pass on the channel that holds the samples in
reverse (so that its scan from the high index down visits them in the same
order) keeps the same four samples, writes `VOID_SIGNAL` for the others, both
into a separate target and in place, and returns 4. -/
theorem zero_suppression_scenario (w : Nat) (hw : 4 ≤ w) :
    ChannelMerger.inlineKept w 5 [0, 0, 8, 9, 3, 7, 2, 0, 0] 9 0 false
      = [false, false, true, true, true, true, false, false, false] ∧
    (∀ m : ChannelMerger, m.mBaselineshift = 0 →
      ChannelMerger.inlineSignals w m 5 0 [0, 0, 8, 9, 3, 7, 2, 0, 0] 9 0 false
        = [0, 0, 8, 9, 3, 7, 0, 0, 0]) ∧
    ChannelMerger.zsKept w 5 [0, 0, 2, 7, 3, 9, 8, 0, 0] 9 false
      = [false, false, true, true, true, true, false, false, false] ∧
    ChannelMerger.SignalBufferZeroSuppression w (some [0, 0, 2, 7, 3, 9, 8, 0, 0]) 9 5 0
        (ChannelMerger.Target.separate [0, 0, 0, 0, 0, 0, 0, 0, 0])
      = (4, some [0, 0, 2, 7, 3, 9, 8, 0, 0],
          ChannelMerger.Target.separate [VOID_SIGNAL w, VOID_SIGNAL w, VOID_SIGNAL w, 7, 3, 9, 8,
            VOID_SIGNAL w, VOID_SIGNAL w]) ∧
    ChannelMerger.SignalBufferZeroSuppression w (some [0, 0, 2, 7, 3, 9, 8, 0, 0]) 9 5 0
        ChannelMerger.Target.aliased
      = (4, some [VOID_SIGNAL w, VOID_SIGNAL w, VOID_SIGNAL w, 7, 3, 9, 8,
            VOID_SIGNAL w, VOID_SIGNAL w], ChannelMerger.Target.aliased) := by
  have hV := VOID_SIGNAL_ge w hw
  have hp : 2 ^ 4 ≤ 2 ^ w := Nat.pow_le_pow_right (by norm_num) hw
  have h0 : (0 : Nat) ≠ VOID_SIGNAL w := by omega
  have h2 : (2 : Nat) ≠ VOID_SIGNAL w := by omega
  have h3 : (3 : Nat) ≠ VOID_SIGNAL w := by omega
  have h5 : (5 : Nat) ≠ VOID_SIGNAL w := by omega
  have h7 : (7 : Nat) ≠ VOID_SIGNAL w := by omega
  have h8 : (8 : Nat) ≠ VOID_SIGNAL w := by omega
  have h9 : (9 : Nat) ≠ VOID_SIGNAL w := by omega
  have b3 : toBuffer w 3 = 3 := Nat.mod_eq_of_lt (by omega)
  have b7 : toBuffer w 7 = 7 := Nat.mod_eq_of_lt (by omega)
  have b8 : toBuffer w 8 = 8 := Nat.mod_eq_of_lt (by omega)
  have b9 : toBuffer w 9 = 9 := Nat.mod_eq_of_lt (by omega)
  have u3 : toUnsigned 3 = 3 := by decide
  have u7 : toUnsigned 7 = 7 := by decide
  have u8 : toUnsigned 8 = 8 := by decide
  have u9 : toUnsigned 9 = 9 := by decide
  have s4 : toSigned 4 = 4 := by decide
  have hit : ChannelMerger.zsIterations 9 = 9 := zsIterations_of_lt 9 (by norm_num)
  refine ⟨?_, ?_, ?_, ?_, ?_⟩
  · simp [ChannelMerger.inlineKept, ChannelMerger.inlineZS, h5, readAt]
  · intro m hshift
    have u0 : toUnsigned 0 = 0 := by decide
    simp [ChannelMerger.inlineSignals, ChannelMerger.currentSignalOf, ChannelMerger.inlineZS,
      h5, readAt, hshift, u0]
  · simp [ChannelMerger.zsKept, ChannelMerger.zsDecide, readAt, h0, h2, h3, h7, h8, h9,
      h0.symm, h2.symm, h3.symm, h7.symm, h8.symm, h9.symm]
  · simp [ChannelMerger.SignalBufferZeroSuppression, hit, ChannelMerger.zsLoop,
      ChannelMerger.zsBody, ChannelMerger.zsDecide, ChannelMerger.shiftCorrect, readAt,
      h0, h2, h3, h7, h8, h9, h0.symm, h2.symm, h3.symm, h7.symm, h8.symm, h9.symm,
      b3, b7, b8, b9, u3, u7, u8, u9, s4, toBuffer_VOID]
  · simp [ChannelMerger.SignalBufferZeroSuppression, hit, ChannelMerger.zsLoop,
      ChannelMerger.zsBody, ChannelMerger.zsDecide, ChannelMerger.shiftCorrect, readAt,
      h0, h2, h3, h7, h8, h9, h0.symm, h2.symm, h3.symm, h7.symm, h8.symm, h9.symm,
      b3, b7, b8, b9, u3, u7, u8, u9, s4, toBuffer_VOID]

theorem zero_suppression_scenario_witness :
    ChannelMerger.inlineSignals 16 exampleMergerZS 5 0 [0, 0, 8, 9, 3, 7, 2, 0, 0] 9 0 false
      = [0, 0, 8, 9, 3, 7, 0, 0, 0] ∧
    ChannelMerger.SignalBufferZeroSuppression 16 (some [0, 0, 2, 7, 3, 9, 8, 0, 0]) 9 5 0
        ChannelMerger.Target.aliased
      = (4, some [VOID_SIGNAL 16, VOID_SIGNAL 16, VOID_SIGNAL 16, 7, 3, 9, 8,
            VOID_SIGNAL 16, VOID_SIGNAL 16], ChannelMerger.Target.aliased) :=
  ⟨(zero_suppression_scenario 16 (by decide)).2.1 exampleMergerZS rfl,
    (zero_suppression_scenario 16 (by decide)).2.2.2.2⟩

/-! ### The standalone pass as a scan over the cells in scan order -/

theorem readAt_take (l : List Nat) (k j : Nat) (h : j < k) : readAt (l.take k) j = readAt l j := by
  unfold readAt
  simp [List.getElem?_take, h]

theorem take_succ_reverse (l : List Nat) (k : Nat) (h : k < l.length) :
    (l.take (k + 1)).reverse = readAt l k :: (l.take k).reverse := by
  rw [List.take_succ, List.reverse_append]
  have : l[k]? = some (readAt l k) := by
    unfold readAt
    rw [List.getD_eq_getElem _ _ h, List.getElem?_eq_getElem h]
  rw [this]; rfl

theorem ahead1_take_reverse (w thr : Nat) (b : List Nat) (k : Nat) (h : k ≤ b.length) :
    (ChannelMerger.ahead1 w thr (b.take k).reverse = true) ↔
      (k ≥ 1 ∧ readAt b (k - 1) ≠ VOID_SIGNAL w ∧ readAt b (k - 1) > thr) := by
  cases k with
  | zero => simp [ChannelMerger.ahead1]
  | succ j =>
    rw [take_succ_reverse b j (by omega)]
    simp [ChannelMerger.ahead1]

theorem ahead2_take_reverse (w thr : Nat) (b : List Nat) (k : Nat) (h : k ≤ b.length) :
    (ChannelMerger.ahead2 w thr (b.take k).reverse = true) ↔
      (k ≥ 2 ∧ readAt b (k - 1) ≠ VOID_SIGNAL w ∧ readAt b (k - 2) ≠ VOID_SIGNAL w ∧
        readAt b (k - 2) > thr) := by
  cases k with
  | zero => simp [ChannelMerger.ahead2]
  | succ j =>
    cases j with
    | zero =>
      rw [take_succ_reverse b 0 (by omega)]
      simp [ChannelMerger.ahead2]
    | succ i =>
      rw [take_succ_reverse b (i + 1) (by omega), take_succ_reverse b i (by omega)]
      simp [ChannelMerger.ahead2]

/-- The decision of the loop at timebin `k` is the decision of the scan for
the cell `buffer[k]` followed by the cells below it, high index first. -/
theorem zsDecide_eq_scanStep (w thr : Nat) (b : List Nat) (k : Nat) (pk : Bool)
    (h : k ≤ b.length) :
    ChannelMerger.zsDecide w thr b k pk
      = ChannelMerger.scanStep w thr pk (readAt b k) (b.take k).reverse := by
  have h1 := ahead1_take_reverse w thr b k h
  have h2 := ahead2_take_reverse w thr b k h
  unfold ChannelMerger.zsDecide ChannelMerger.scanStep
  simp only [h1, h2]
  have e1 : (pk = false ∧ (if readAt b k = VOID_SIGNAL w then 0 else readAt b k) > thr ∧
        k ≥ 1 ∧ readAt b (k - 1) > thr ∧ readAt b (k - 1) ≠ VOID_SIGNAL w) ↔
      (pk = false ∧ (if readAt b k = VOID_SIGNAL w then 0 else readAt b k) > thr ∧
        k ≥ 1 ∧ readAt b (k - 1) ≠ VOID_SIGNAL w ∧ readAt b (k - 1) > thr) := by
    constructor <;> rintro ⟨a, b, c, d, e⟩ <;> exact ⟨a, b, c, e, d⟩
  simp only [e1]

theorem take_set_self (l : List Nat) (k v : Nat) : (l.set k v).take k = l.take k := by
  rw [List.set_take]
  exact List.set_eq_of_length_le (by simp)

theorem drop_set_self (l : List Nat) (k v : Nat) (h : k < l.length) :
    (l.set k v).drop k = v :: l.drop (k + 1) := by
  rw [List.drop_set, if_neg (Nat.lt_irrefl k), Nat.sub_self, List.drop_eq_getElem_cons h]
  rfl

/-- The loop with the target aliased to the buffer, `k` timebins left: the
cells below `k` are replaced by the values of the scan. -/
theorem zsLoop_aliased (w thr : Nat) (shift : Int) (k : Nat) :
    ∀ (b : List Nat) (pk : Bool) (n : Nat), k ≤ b.length →
      ChannelMerger.zsLoop w thr shift k
          { buffer := b, target := ChannelMerger.Target.aliased, bSignalPeak := pk,
            nFilledTimebins := n }
        = { buffer := (ChannelMerger.scanValues w thr shift pk (b.take k).reverse).reverse
              ++ b.drop k,
            target := ChannelMerger.Target.aliased,
            bSignalPeak := ChannelMerger.scanFlag w thr pk (b.take k).reverse,
            nFilledTimebins := n + ChannelMerger.scanCount w thr shift true pk (b.take k).reverse } := by
  induction k with
  | zero =>
    intro b pk n _
    simp [ChannelMerger.zsLoop, ChannelMerger.scanValues, ChannelMerger.scanFlag,
      ChannelMerger.scanCount]
  | succ k ih =>
    intro b pk n hk
    have hlt : k < b.length := by omega
    have hbody : ChannelMerger.zsBody w thr shift k
        { buffer := b, target := ChannelMerger.Target.aliased, bSignalPeak := pk,
          nFilledTimebins := n }
        = { buffer := b.set k (ChannelMerger.scanValue w thr shift pk (readAt b k) (b.take k).reverse),
            target := ChannelMerger.Target.aliased,
            bSignalPeak := (ChannelMerger.scanStep w thr pk (readAt b k) (b.take k).reverse).1,
            nFilledTimebins := n +
              (if ChannelMerger.scanCounted w thr shift true pk (readAt b k) (b.take k).reverse
                then 1 else 0) } := by
      unfold ChannelMerger.zsBody
      simp only [zsDecide_eq_scanStep w thr b k pk (le_of_lt hlt)]
      have hv : (if readAt b k ≠ VOID_SIGNAL w then
            toBuffer w (ChannelMerger.shiftCorrect w shift
              (ChannelMerger.scanStep w thr pk (readAt b k) (b.take k).reverse).2)
          else VOID_SIGNAL w)
          = ChannelMerger.scanValue w thr shift pk (readAt b k) (b.take k).reverse := rfl
      rw [hv, readAt_set_self b k _ hlt]
      simp only [ChannelMerger.scanCounted, if_true]
      congr 1
      split_ifs <;> simp_all
    rw [ChannelMerger.zsLoop, hbody, ih _ _ _ (by simpa using le_of_lt hlt),
      take_set_self, drop_set_self b k _ hlt, take_succ_reverse b k hlt]
    simp [ChannelMerger.scanValues, ChannelMerger.scanFlag, ChannelMerger.scanCount,
      Nat.add_assoc]

/-- The loop with a target vector of its own, `k` timebins left: the buffer
is only read, the cells below `k` of the target receive the values of the
scan. -/
theorem zsLoop_separate (w thr : Nat) (shift : Int) (k : Nat) :
    ∀ (b t : List Nat) (pk : Bool) (n : Nat), k ≤ b.length → k ≤ t.length →
      ChannelMerger.zsLoop w thr shift k
          { buffer := b, target := ChannelMerger.Target.separate t, bSignalPeak := pk,
            nFilledTimebins := n }
        = { buffer := b,
            target := ChannelMerger.Target.separate
              ((ChannelMerger.scanValues w thr shift pk (b.take k).reverse).reverse ++ t.drop k),
            bSignalPeak := ChannelMerger.scanFlag w thr pk (b.take k).reverse,
            nFilledTimebins := n + ChannelMerger.scanCount w thr shift false pk (b.take k).reverse } := by
  induction k with
  | zero =>
    intro b t pk n _ _
    simp [ChannelMerger.zsLoop, ChannelMerger.scanValues, ChannelMerger.scanFlag,
      ChannelMerger.scanCount]
  | succ k ih =>
    intro b t pk n hk hkt
    have hlt : k < b.length := by omega
    have hltt : k < t.length := by omega
    have hbody : ChannelMerger.zsBody w thr shift k
        { buffer := b, target := ChannelMerger.Target.separate t, bSignalPeak := pk,
          nFilledTimebins := n }
        = { buffer := b,
            target := ChannelMerger.Target.separate
              (t.set k (ChannelMerger.scanValue w thr shift pk (readAt b k) (b.take k).reverse)),
            bSignalPeak := (ChannelMerger.scanStep w thr pk (readAt b k) (b.take k).reverse).1,
            nFilledTimebins := n +
              (if ChannelMerger.scanCounted w thr shift false pk (readAt b k) (b.take k).reverse
                then 1 else 0) } := by
      unfold ChannelMerger.zsBody
      simp only [zsDecide_eq_scanStep w thr b k pk (le_of_lt hlt)]
      have hv : (if readAt b k ≠ VOID_SIGNAL w then
            toBuffer w (ChannelMerger.shiftCorrect w shift
              (ChannelMerger.scanStep w thr pk (readAt b k) (b.take k).reverse).2)
          else VOID_SIGNAL w)
          = ChannelMerger.scanValue w thr shift pk (readAt b k) (b.take k).reverse := rfl
      rw [hv]
      simp only [ChannelMerger.scanCounted]
      congr 1
      split_ifs <;> simp_all
    rw [ChannelMerger.zsLoop, hbody, ih _ _ _ _ (le_of_lt hlt) (by simpa using le_of_lt hltt),
      drop_set_self t k _ hltt, take_succ_reverse b k hlt]
    simp [ChannelMerger.scanValues, ChannelMerger.scanFlag, ChannelMerger.scanCount,
      Nat.add_assoc]

/-- The loop without target, `k` timebins left: only the counter and the peak
flag change. -/
theorem zsLoop_null (w thr : Nat) (shift : Int) (k : Nat) :
    ∀ (b : List Nat) (pk : Bool) (n : Nat), k ≤ b.length →
      ChannelMerger.zsLoop w thr shift k
          { buffer := b, target := ChannelMerger.Target.null, bSignalPeak := pk,
            nFilledTimebins := n }
        = { buffer := b, target := ChannelMerger.Target.null,
            bSignalPeak := ChannelMerger.scanFlag w thr pk (b.take k).reverse,
            nFilledTimebins := n + ChannelMerger.scanCount w thr shift false pk (b.take k).reverse } := by
  induction k with
  | zero =>
    intro b pk n _
    simp [ChannelMerger.zsLoop, ChannelMerger.scanFlag, ChannelMerger.scanCount]
  | succ k ih =>
    intro b pk n hk
    have hlt : k < b.length := by omega
    have hbody : ChannelMerger.zsBody w thr shift k
        { buffer := b, target := ChannelMerger.Target.null, bSignalPeak := pk,
          nFilledTimebins := n }
        = { buffer := b, target := ChannelMerger.Target.null,
            bSignalPeak := (ChannelMerger.scanStep w thr pk (readAt b k) (b.take k).reverse).1,
            nFilledTimebins := n +
              (if ChannelMerger.scanCounted w thr shift false pk (readAt b k) (b.take k).reverse
                then 1 else 0) } := by
      unfold ChannelMerger.zsBody
      simp only [zsDecide_eq_scanStep w thr b k pk (le_of_lt hlt)]
      simp only [ChannelMerger.scanCounted]
      congr 1
      split_ifs <;> simp_all
    rw [ChannelMerger.zsLoop, hbody, ih _ _ _ (le_of_lt hlt), take_succ_reverse b k hlt]
    simp [ChannelMerger.scanFlag, ChannelMerger.scanCount, Nat.add_assoc]

/-- The kept cells listed by `zsKept` are those of the scan. -/
theorem zsKept_eq_scanKept (w thr : Nat) (b : List Nat) (k : Nat) :
    ∀ (pk : Bool), k ≤ b.length →
      ChannelMerger.zsKept w thr b k pk = ChannelMerger.scanKept w thr pk (b.take k).reverse := by
  induction k with
  | zero => intro pk _; simp [ChannelMerger.zsKept, ChannelMerger.scanKept]
  | succ k ih =>
    intro pk hk
    have hlt : k < b.length := by omega
    rw [ChannelMerger.zsKept, zsDecide_eq_scanStep w thr b k pk (le_of_lt hlt),
      ih _ (le_of_lt hlt), take_succ_reverse b k hlt]
    simp [ChannelMerger.scanKept]

/-! ### Properties of the peak rule -/

/-- With the threshold at `VOID_SIGNAL` the ingestion scan never enters a
peak. -/
theorem inlinePeakAt_void (w : Nat) (s : List Nat) (i : Nat) :
    ChannelMerger.inlinePeakAt w (VOID_SIGNAL w) s i = false := by
  induction i with
  | zero => rfl
  | succ i ih => simp [ChannelMerger.inlinePeakAt, ChannelMerger.inlineZS, ih]

/-- C7: dip bridging.  In the ingestion scan of a bunch `s` that reaches
sample `i` with the peak active: a dip of one or two samples at or below
threshold followed by a sample above threshold is kept and the peak stays
active, whereas three consecutive samples at or below threshold are all
suppressed and the peak flag is down from the first of them on.  In the
standalone pass entered at timebin `j` with the peak active (scan towards
lower timebins, lookahead `buffer[j-1]`, `buffer[j-2]`): the same, with the
kept dip samples keeping their value and the suppressed ones becoming
`VOID_SIGNAL`. -/
theorem dip_bridging (w thr : Nat) (s : List Nat) (i : Nat) (b : List Nat) (j : Nat)
    (hpk : ChannelMerger.inlinePeakAt w thr s i = true) :
    (readAt s i ≤ thr → i + 1 < s.length → readAt s (i + 1) > thr →
      (ChannelMerger.inlineZS w thr s i (ChannelMerger.inlinePeakAt w thr s i)).2 = true ∧
      ChannelMerger.inlinePeakAt w thr s (i + 1) = true) ∧
    (readAt s i ≤ thr → readAt s (i + 1) ≤ thr → i + 2 < s.length → readAt s (i + 2) > thr →
      (ChannelMerger.inlineZS w thr s i (ChannelMerger.inlinePeakAt w thr s i)).2 = true ∧
      (ChannelMerger.inlineZS w thr s (i + 1) (ChannelMerger.inlinePeakAt w thr s (i + 1))).2
        = true ∧
      ChannelMerger.inlinePeakAt w thr s (i + 1) = true ∧
      ChannelMerger.inlinePeakAt w thr s (i + 2) = true) ∧
    (readAt s i ≤ thr → readAt s (i + 1) ≤ thr → readAt s (i + 2) ≤ thr →
      (ChannelMerger.inlineZS w thr s i (ChannelMerger.inlinePeakAt w thr s i)).2 = false ∧
      (ChannelMerger.inlineZS w thr s (i + 1) (ChannelMerger.inlinePeakAt w thr s (i + 1))).2
        = false ∧
      (ChannelMerger.inlineZS w thr s (i + 2) (ChannelMerger.inlinePeakAt w thr s (i + 2))).2
        = false ∧
      ChannelMerger.inlinePeakAt w thr s (i + 1) = false ∧
      ChannelMerger.inlinePeakAt w thr s (i + 2) = false ∧
      ChannelMerger.inlinePeakAt w thr s (i + 3) = false) ∧
    (readAt b j ≠ VOID_SIGNAL w → readAt b j ≤ thr → j ≥ 1 →
      readAt b (j - 1) ≠ VOID_SIGNAL w → readAt b (j - 1) > thr →
      ChannelMerger.zsDecide w thr b j true = (true, readAt b j)) ∧
    (readAt b j ≠ VOID_SIGNAL w → readAt b j ≤ thr → j ≥ 2 →
      readAt b (j - 1) ≠ VOID_SIGNAL w → readAt b (j - 1) ≤ thr →
      readAt b (j - 2) ≠ VOID_SIGNAL w → readAt b (j - 2) > thr →
      ChannelMerger.zsDecide w thr b j true = (true, readAt b j) ∧
      ChannelMerger.zsDecide w thr b (j - 1) true = (true, readAt b (j - 1))) ∧
    (j ≥ 2 → readAt b j ≤ thr → readAt b (j - 1) ≤ thr → readAt b (j - 2) ≤ thr →
      ChannelMerger.zsDecide w thr b j true = (false, VOID_SIGNAL w) ∧
      ChannelMerger.zsDecide w thr b (j - 1) false = (false, VOID_SIGNAL w) ∧
      ChannelMerger.zsDecide w thr b (j - 2) false = (false, VOID_SIGNAL w)) := by
  have hthr : thr ≠ VOID_SIGNAL w := by
    intro h
    rw [h, inlinePeakAt_void] at hpk
    exact Bool.false_ne_true hpk
  refine ⟨?_, ?_, ?_, ?_, ?_, ?_⟩
  · intro h0 hl h1
    have e : ChannelMerger.inlineZS w thr s i true = (true, true) := by
      simp [ChannelMerger.inlineZS, hthr, h0, hl, h1, Nat.not_lt.mpr h0]
    rw [ChannelMerger.inlinePeakAt, hpk, e]
    exact ⟨rfl, rfl⟩
  · intro h0 h1 hl h2
    have e0 : ChannelMerger.inlineZS w thr s i true = (true, true) := by
      simp [ChannelMerger.inlineZS, hthr, h0, hl, h2, Nat.not_lt.mpr h0]
    have e1 : ChannelMerger.inlineZS w thr s (i + 1) true = (true, true) := by
      simp [ChannelMerger.inlineZS, hthr, h1, hl, h2, Nat.not_lt.mpr h1]
    have p1 : ChannelMerger.inlinePeakAt w thr s (i + 1) = true := by
      rw [ChannelMerger.inlinePeakAt, hpk, e0]
    have p2 : ChannelMerger.inlinePeakAt w thr s (i + 2) = true := by
      rw [ChannelMerger.inlinePeakAt, p1, e1]
    rw [hpk, p1, e0, e1]
    exact ⟨rfl, rfl, rfl, p2⟩
  · intro h0 h1 h2
    have e0 : ChannelMerger.inlineZS w thr s i true = (false, false) := by
      simp [ChannelMerger.inlineZS, hthr, h0, Nat.not_lt.mpr h0, Nat.not_lt.mpr h1,
        Nat.not_lt.mpr h2]
    have e1 : ChannelMerger.inlineZS w thr s (i + 1) false = (false, false) := by
      simp [ChannelMerger.inlineZS, hthr, Nat.not_lt.mpr h1]
    have e2 : ChannelMerger.inlineZS w thr s (i + 2) false = (false, false) := by
      simp [ChannelMerger.inlineZS, hthr, Nat.not_lt.mpr h2]
    have p1 : ChannelMerger.inlinePeakAt w thr s (i + 1) = false := by
      rw [ChannelMerger.inlinePeakAt, hpk, e0]
    have p2 : ChannelMerger.inlinePeakAt w thr s (i + 2) = false := by
      rw [ChannelMerger.inlinePeakAt, p1, e1]
    have p3 : ChannelMerger.inlinePeakAt w thr s (i + 3) = false := by
      rw [ChannelMerger.inlinePeakAt, p2, e2]
    rw [hpk, p1, p2, e0, e1, e2]
    exact ⟨rfl, rfl, rfl, rfl, rfl, p3⟩
  · intro hv h0 hj hv1 h1
    simp [ChannelMerger.zsDecide, hv, h0, hj, hv1, h1, Nat.not_lt.mpr h0]
  · intro hv h0 hj hv1 h1 hv2 h2
    have hj1 : j - 1 ≥ 1 := by omega
    have hj2 : j - 1 - 1 = j - 2 := by omega
    constructor
    · simp [ChannelMerger.zsDecide, hv, h0, hj, hv1, hv2, h2, Nat.not_lt.mpr h0]
    · simp [ChannelMerger.zsDecide, hv1, h1, hj1, hj2, hv2, h2, Nat.not_lt.mpr h1]
  · intro hj h0 h1 h2
    have hj2 : j - 1 - 1 = j - 2 := by omega
    have c0 : (if readAt b j = VOID_SIGNAL w then 0 else readAt b j) ≤ thr := by
      split_ifs <;> omega
    have c1 : (if readAt b (j - 1) = VOID_SIGNAL w then 0 else readAt b (j - 1)) ≤ thr := by
      split_ifs <;> omega
    have c2 : (if readAt b (j - 2) = VOID_SIGNAL w then 0 else readAt b (j - 2)) ≤ thr := by
      split_ifs <;> omega
    refine ⟨?_, ?_, ?_⟩
    · unfold ChannelMerger.zsDecide
      simp [Nat.not_lt.mpr c0, c0, Nat.not_lt.mpr h1, Nat.not_lt.mpr h2]
    · unfold ChannelMerger.zsDecide
      simp [Nat.not_lt.mpr c1]
    · unfold ChannelMerger.zsDecide
      simp [Nat.not_lt.mpr c2]

theorem dip_bridging_witness :
    ((ChannelMerger.inlineZS 16 5 [8, 9, 3, 7] 2
        (ChannelMerger.inlinePeakAt 16 5 [8, 9, 3, 7] 2)).2 = true ∧
      ChannelMerger.inlinePeakAt 16 5 [8, 9, 3, 7] (2 + 1) = true) ∧
    ChannelMerger.inlinePeakAt 16 5 [8, 9, 3, 2, 7] (2 + 2) = true ∧
    ChannelMerger.inlinePeakAt 16 5 [8, 9, 3, 2, 1, 7] (2 + 1) = false ∧
    ChannelMerger.zsDecide 16 5 [7, 3, 9, 8] 1 true = (true, readAt [7, 3, 9, 8] 1) ∧
    ChannelMerger.zsDecide 16 5 [7, 2, 3, 9, 8] (2 - 1) true
      = (true, readAt [7, 2, 3, 9, 8] (2 - 1)) ∧
    ChannelMerger.zsDecide 16 5 [7, 1, 2, 3, 9, 8] 3 true = (false, VOID_SIGNAL 16) :=
  ⟨(dip_bridging 16 5 [8, 9, 3, 7] 2 [] 0 (by decide)).1 (by decide) (by decide) (by decide),
    ((dip_bridging 16 5 [8, 9, 3, 2, 7] 2 [] 0 (by decide)).2.1 (by decide) (by decide)
      (by decide) (by decide)).2.2.2,
    ((dip_bridging 16 5 [8, 9, 3, 2, 1, 7] 2 [] 0 (by decide)).2.2.1 (by decide) (by decide)
      (by decide)).2.2.2.1,
    (dip_bridging 16 5 [8, 9, 3, 7] 2 [7, 3, 9, 8] 1 (by decide)).2.2.2.1 (by decide)
      (by decide) (by decide) (by decide) (by decide),
    ((dip_bridging 16 5 [8, 9, 3, 7] 2 [7, 2, 3, 9, 8] 2 (by decide)).2.2.2.2.1 (by decide)
      (by decide) (by decide) (by decide) (by decide) (by decide) (by decide)).2,
    ((dip_bridging 16 5 [8, 9, 3, 7] 2 [7, 1, 2, 3, 9, 8] 3 (by decide)).2.2.2.2.2 (by decide)
      (by decide) (by decide) (by decide)).1⟩

theorem readAt_append_right (pre l : List Nat) (j : Nat) :
    readAt (pre ++ l) (pre.length + j) = readAt l j := by
  unfold readAt
  simp [List.getElem?_append_right]

/-- The decision of the ingestion scan for a sample that is followed by
`rest` in its bunch is the decision of the scan rule, when zero suppression
is enabled and the bunch holds no `VOID_SIGNAL`. -/
theorem inlineZS_eq_scanStep (w thr : Nat) (pre : List Nat) (x : Nat) (rest : List Nat)
    (pk : Bool) (hthr : thr ≠ VOID_SIGNAL w) (hx : x ≠ VOID_SIGNAL w)
    (hrest : ∀ y ∈ rest, y ≠ VOID_SIGNAL w) :
    ChannelMerger.inlineZS w thr (pre ++ x :: rest) pre.length pk
      = ((ChannelMerger.scanStep w thr pk x rest).1,
          decide ((ChannelMerger.scanStep w thr pk x rest).2 ≠ VOID_SIGNAL w)) := by
  have r0 : readAt (pre ++ x :: rest) pre.length = x := by
    have := readAt_append_right pre (x :: rest) 0
    simpa using this
  have r1 : readAt (pre ++ x :: rest) (pre.length + 1) = readAt rest 0 :=
    readAt_append_right pre (x :: rest) 1
  have r2 : readAt (pre ++ x :: rest) (pre.length + 2) = readAt rest 1 :=
    readAt_append_right pre (x :: rest) 2
  unfold ChannelMerger.inlineZS ChannelMerger.scanStep
  simp only [r0, r1, r2, hthr, hx, ne_eq, not_false_eq_true, if_true, if_false,
    List.length_append, List.length_cons]
  cases rest with
  | nil =>
    rcases Nat.lt_or_ge thr x with h0 | h0 <;> cases pk <;>
      simp [ChannelMerger.ahead1, ChannelMerger.ahead2, h0, hx, Nat.not_le.mpr, Nat.not_lt.mpr]
  | cons y r =>
    have hy : y ≠ VOID_SIGNAL w := hrest y (List.mem_cons_self y r)
    cases r with
    | nil =>
      rcases Nat.lt_or_ge thr x with h0 | h0 <;> rcases Nat.lt_or_ge thr y with h1 | h1 <;>
        cases pk <;>
        simp [ChannelMerger.ahead1, ChannelMerger.ahead2, h0, h1, hx, hy, readAt_cons_zero,
          Nat.not_le.mpr, Nat.not_lt.mpr]
    | cons z r2 =>
      have hz : z ≠ VOID_SIGNAL w := hrest z (by simp)
      rcases Nat.lt_or_ge thr x with h0 | h0 <;> rcases Nat.lt_or_ge thr y with h1 | h1 <;>
        rcases Nat.lt_or_ge thr z with h2 | h2 <;> cases pk <;>
        simp [ChannelMerger.ahead1, ChannelMerger.ahead2, h0, h1, h2, hx, hy, hz,
          readAt_cons_zero, readAt_cons_succ, Nat.not_le.mpr, Nat.not_lt.mpr]

/-- The samples kept by the ingestion scan of the rest of a bunch are those
kept by the scan rule. -/
theorem inlineKept_eq_scanKept (w thr : Nat) (hthr : thr ≠ VOID_SIGNAL w) (suf : List Nat) :
    ∀ (pre : List Nat) (pk : Bool), (∀ y ∈ suf, y ≠ VOID_SIGNAL w) →
      ChannelMerger.inlineKept w thr (pre ++ suf) suf.length pre.length pk
        = ChannelMerger.scanKept w thr pk suf := by
  induction suf with
  | nil => intro pre pk _; rfl
  | cons x rest ih =>
    intro pre pk hs
    have hx : x ≠ VOID_SIGNAL w := hs x (List.mem_cons_self x rest)
    have hrest : ∀ y ∈ rest, y ≠ VOID_SIGNAL w := fun y hy => hs y (List.mem_cons_of_mem x hy)
    have hstep := inlineZS_eq_scanStep w thr pre x rest pk hthr hx hrest
    have hih := ih (pre ++ [x]) (ChannelMerger.scanStep w thr pk x rest).1 hrest
    rw [List.append_assoc, List.length_append] at hih
    simp only [List.singleton_append, List.length_singleton] at hih
    rw [List.length_cons, ChannelMerger.inlineKept, hstep, hih, ChannelMerger.scanKept]

/-- C8 fails as stated: at the threshold `VOID_SIGNAL` the ingestion scan is
switched off and keeps every sample, while the standalone pass run on the
reversed samples suppresses every sample (shown for sample words of 16 and of
32 bits). -/
theorem direction_symmetry_fails_at_void_threshold :
    ChannelMerger.inlineKept 16 (VOID_SIGNAL 16) [100, 200] 2 0 false = [true, true] ∧
    ChannelMerger.zsKept 16 (VOID_SIGNAL 16) [100, 200].reverse 2 false = [false, false] ∧
    ChannelMerger.inlineKept 32 (VOID_SIGNAL 32) [100, 200] 2 0 false = [true, true] ∧
    ChannelMerger.zsKept 32 (VOID_SIGNAL 32) [100, 200].reverse 2 false = [false, false] := by
  refine ⟨by decide, by decide, by decide, by decide⟩

/-- C8 (amended): direction symmetry of the peak rule.  For every threshold
other than `VOID_SIGNAL` (the value that switches the ingestion scan off) and
every sample sequence `s` without `VOID_SIGNAL`, the samples kept by the
ingestion scan of `s` are the samples kept by the standalone pass on the
channel that holds `s` reversed; both lists are in scan order. -/
theorem direction_symmetry (w thr : Nat) (s : List Nat) (hthr : thr ≠ VOID_SIGNAL w)
    (hs : ∀ x ∈ s, x ≠ VOID_SIGNAL w) :
    ChannelMerger.inlineKept w thr s s.length 0 false
      = ChannelMerger.zsKept w thr s.reverse s.length false := by
  have h1 := inlineKept_eq_scanKept w thr hthr s [] false hs
  have h2 := zsKept_eq_scanKept w thr s.reverse s.length false (by simp)
  have h3 : (s.reverse.take s.length).reverse = s := by
    rw [List.take_of_length_le (by simp), List.reverse_reverse]
  rw [h3] at h2
  simpa [h2] using h1

theorem direction_symmetry_witness :
    ChannelMerger.inlineKept 16 5 [0, 8, 9, 3, 7, 2] [0, 8, 9, 3, 7, 2].length 0 false
      = ChannelMerger.zsKept 16 5 [0, 8, 9, 3, 7, 2].reverse [0, 8, 9, 3, 7, 2].length false :=
  direction_symmetry 16 5 [0, 8, 9, 3, 7, 2] (by decide) (by decide)

/-! ### Suppression without baseline shift -/

theorem scanStep_eq_keeps (w thr : Nat) (pk : Bool) (x : Nat) (rest : List Nat) :
    ChannelMerger.scanStep w thr pk x rest
      = (ChannelMerger.scanKeeps w thr pk x rest,
          if ChannelMerger.scanKeeps w thr pk x rest then
            (if x = VOID_SIGNAL w then 0 else x)
          else VOID_SIGNAL w) := by
  unfold ChannelMerger.scanStep ChannelMerger.scanKeeps
  generalize (if x = VOID_SIGNAL w then 0 else x) = cur
  rcases Nat.lt_or_ge thr cur with h0 | h0 <;> cases pk <;>
    cases ChannelMerger.ahead1 w thr rest <;> cases ChannelMerger.ahead2 w thr rest <;>
    simp [h0, Nat.not_le.mpr, Nat.not_lt.mpr]

theorem keepScan_length (w thr : Nat) (r : List Nat) :
    ∀ pk, (ChannelMerger.keepScan w thr pk r).length = r.length := by
  induction r with
  | nil => intro pk; rfl
  | cons x rest ih => intro pk; simp [ChannelMerger.keepScan, ih]

/-- The lookahead at the next cell is not changed by the suppression of the
cells ahead, when these are entered with the peak active. -/
theorem ahead1_keepScan_true (w thr : Nat) (rest : List Nat) :
    ChannelMerger.ahead1 w thr (ChannelMerger.keepScan w thr true rest)
      = ChannelMerger.ahead1 w thr rest := by
  cases rest with
  | nil => rfl
  | cons y r =>
    simp only [ChannelMerger.keepScan, ChannelMerger.ahead1, ChannelMerger.scanKeeps]
    by_cases hy : y = VOID_SIGNAL w
    · simp [hy]
    · rcases Nat.lt_or_ge thr y with h | h
      · simp [hy, h]
      · have h' : ¬ (thr < y) := Nat.not_lt.mpr h
        simp only [hy, h', if_false, gt_iff_lt, decide_False, Bool.false_or, ne_eq,
          not_false_eq_true, and_false]
        split_ifs <;> simp [hy, h']

/-- A lookahead that succeeds after the suppression of the cells ahead
succeeds before it. -/
theorem ahead1_keepScan_le (w thr : Nat) (pk : Bool) (rest : List Nat)
    (h : ChannelMerger.ahead1 w thr (ChannelMerger.keepScan w thr pk rest) = true) :
    ChannelMerger.ahead1 w thr rest = true := by
  cases rest with
  | nil => exact h
  | cons y r =>
    simp only [ChannelMerger.keepScan, ChannelMerger.ahead1] at h ⊢
    split_ifs at h with hk
    · exact h
    · simp at h

theorem ahead2_keepScan_le (w thr : Nat) (pk : Bool) (rest : List Nat)
    (h : ChannelMerger.ahead2 w thr (ChannelMerger.keepScan w thr pk rest) = true) :
    ChannelMerger.ahead2 w thr rest = true := by
  cases rest with
  | nil => exact h
  | cons y r =>
    cases r with
    | nil => exact h
    | cons z r3 =>
      simp only [ChannelMerger.keepScan, ChannelMerger.ahead2] at h ⊢
      split_ifs at h with hk hk2 hk2
      · exact h
      · simp at h
      · simp at h
      · simp at h

/-- The lookahead at the next but one cell is not changed by the suppression
of the cells ahead, when these are entered with the peak active and the next
cell is not above threshold. -/
theorem ahead2_keepScan_true (w thr : Nat) (rest : List Nat)
    (h1 : ChannelMerger.ahead1 w thr rest = false)
    (h2 : ChannelMerger.ahead2 w thr rest = true) :
    ChannelMerger.ahead2 w thr (ChannelMerger.keepScan w thr true rest) = true := by
  cases rest with
  | nil => exact h2
  | cons y r =>
    cases r with
    | nil => exact h2
    | cons z r3 =>
      simp only [ChannelMerger.ahead1, ChannelMerger.ahead2, decide_eq_true_eq,
        decide_eq_false_iff_not] at h1 h2
      obtain ⟨hy, hz, hzt⟩ := h2
      have hyt : ¬ (y > thr) := fun h => h1 ⟨hy, h⟩
      have ky : ChannelMerger.scanKeeps w thr true y (z :: r3) = true := by
        simp [ChannelMerger.scanKeeps, ChannelMerger.ahead1, hz, hzt]
      have kz : ChannelMerger.scanKeeps w thr true z r3 = true := by
        simp [ChannelMerger.scanKeeps, hz, hzt]
      simp [ChannelMerger.keepScan, ChannelMerger.ahead2, ky, kz, hy, hz, hzt]

/-- The keep decision for a cell is the same after the suppression of the
scan as before it. -/
theorem scanKeeps_keepScan (w thr : Nat) (pk : Bool) (x : Nat) (rest : List Nat) :
    ChannelMerger.scanKeeps w thr pk
        (if ChannelMerger.scanKeeps w thr pk x rest then x else VOID_SIGNAL w)
        (ChannelMerger.keepScan w thr (ChannelMerger.scanKeeps w thr pk x rest) rest)
      = ChannelMerger.scanKeeps w thr pk x rest := by
  cases hK : ChannelMerger.scanKeeps w thr pk x rest with
  | true =>
    simp only [if_true]
    have a1 := ahead1_keepScan_true w thr rest
    unfold ChannelMerger.scanKeeps at hK ⊢
    rw [a1]
    cases pk with
    | false => simpa using hK
    | true =>
      cases h1 : ChannelMerger.ahead1 w thr rest with
      | true => simp
      | false =>
        cases h2 : ChannelMerger.ahead2 w thr rest with
        | true => simp [ahead2_keepScan_true w thr rest h1 h2]
        | false =>
          rw [h1, h2] at hK
          simp at hK
          simp [hK]
  | false =>
    have c1 : ChannelMerger.ahead1 w thr rest = false →
        ChannelMerger.ahead1 w thr (ChannelMerger.keepScan w thr false rest) = false := by
      intro h
      cases h' : ChannelMerger.ahead1 w thr (ChannelMerger.keepScan w thr false rest) with
      | false => rfl
      | true => rw [ahead1_keepScan_le w thr false rest h'] at h; exact absurd h (by simp)
    have c2 : ChannelMerger.ahead2 w thr rest = false →
        ChannelMerger.ahead2 w thr (ChannelMerger.keepScan w thr false rest) = false := by
      intro h
      cases h' : ChannelMerger.ahead2 w thr (ChannelMerger.keepScan w thr false rest) with
      | false => rfl
      | true => rw [ahead2_keepScan_le w thr false rest h'] at h; exact absurd h (by simp)
    unfold ChannelMerger.scanKeeps at hK ⊢
    cases pk with
    | false => simp
    | true =>
      simp at hK
      obtain ⟨⟨_, h1⟩, h2⟩ := hK
      simp [c1 h1, c2 h2]

/-- Suppression without baseline shift is idempotent on the scan. -/
theorem keepScan_idempotent (w thr : Nat) (r : List Nat) :
    ∀ pk, ChannelMerger.keepScan w thr pk (ChannelMerger.keepScan w thr pk r)
      = ChannelMerger.keepScan w thr pk r := by
  induction r with
  | nil => intro pk; rfl
  | cons x rest ih =>
    intro pk
    rw [ChannelMerger.keepScan, ChannelMerger.keepScan, scanKeeps_keepScan, ih]
    cases ChannelMerger.scanKeeps w thr pk x rest <;> simp

theorem shiftCorrect_zero (w x : Nat) (hx : x < 2 ^ 32) : ChannelMerger.shiftCorrect w 0 x = x := by
  unfold ChannelMerger.shiftCorrect
  rw [if_neg (lt_irrefl (0 : Int)), Int.add_zero, toUnsigned_natCast x hx]
  split_ifs <;> rfl

/-- Without baseline shift the value written for a cell is the cell itself
if it is kept and `VOID_SIGNAL` otherwise. -/
theorem scanValue_zero (w thr : Nat) (pk : Bool) (x : Nat) (rest : List Nat)
    (hw : w ≤ 32) (hx : x < 2 ^ w) :
    ChannelMerger.scanValue w thr 0 pk x rest
      = if ChannelMerger.scanKeeps w thr pk x rest then x else VOID_SIGNAL w := by
  have hp : 2 ^ w ≤ 2 ^ 32 := Nat.pow_le_pow_right (by norm_num) hw
  have hV : VOID_SIGNAL w < 2 ^ 32 := by unfold VOID_SIGNAL; omega
  unfold ChannelMerger.scanValue
  rw [scanStep_eq_keeps]
  by_cases hxv : x = VOID_SIGNAL w
  · simp [hxv]
  · cases ChannelMerger.scanKeeps w thr pk x rest with
    | true =>
      simp only [hxv, ne_eq, not_false_eq_true, if_true, if_false]
      rw [shiftCorrect_zero w x (by omega)]
      exact Nat.mod_eq_of_lt hx
    | false =>
      simp only [hxv, ne_eq, not_false_eq_true, if_true, if_false, Bool.false_eq_true]
      rw [shiftCorrect_zero w _ hV, toBuffer_VOID]

theorem scanValues_zero (w thr : Nat) (hw : w ≤ 32) (r : List Nat) :
    ∀ pk, (∀ x ∈ r, x < 2 ^ w) →
      ChannelMerger.scanValues w thr 0 pk r = ChannelMerger.keepScan w thr pk r := by
  induction r with
  | nil => intro pk _; rfl
  | cons x rest ih =>
    intro pk hwf
    have hx : x < 2 ^ w := hwf x (List.mem_cons_self x rest)
    have hrest : ∀ y ∈ rest, y < 2 ^ w := fun y hy => hwf y (List.mem_cons_of_mem x hy)
    rw [ChannelMerger.scanValues, ChannelMerger.keepScan, scanValue_zero w thr pk x rest hw hx,
      scanStep_eq_keeps, ih _ hrest]

/-- Without baseline shift a cell is counted as filled exactly if it is kept
and not `VOID_SIGNAL`, whether or not the target is the buffer itself. -/
theorem scanCounted_zero (w thr : Nat) (al pk : Bool) (x : Nat) (rest : List Nat)
    (hw : w ≤ 32) (hx : x < 2 ^ w) :
    ChannelMerger.scanCounted w thr 0 al pk x rest
      = decide ((if ChannelMerger.scanKeeps w thr pk x rest then x else VOID_SIGNAL w)
          ≠ VOID_SIGNAL w) := by
  have hp : 2 ^ w ≤ 2 ^ 32 := Nat.pow_le_pow_right (by norm_num) hw
  have hV : VOID_SIGNAL w < 2 ^ 32 := by unfold VOID_SIGNAL; omega
  unfold ChannelMerger.scanCounted
  rw [scanValue_zero w thr pk x rest hw hx, scanStep_eq_keeps]
  by_cases hxv : x = VOID_SIGNAL w
  · cases al <;> simp [hxv]
  · cases ChannelMerger.scanKeeps w thr pk x rest with
    | true =>
      simp only [hxv, if_true, if_false]
      rw [shiftCorrect_zero w x (by omega)]
      cases al <;> simp [hxv]
    | false =>
      simp only [if_false, Bool.false_eq_true]
      rw [shiftCorrect_zero w _ hV]
      simp

theorem scanCount_zero (w thr : Nat) (al : Bool) (hw : w ≤ 32) (r : List Nat) :
    ∀ pk, (∀ x ∈ r, x < 2 ^ w) →
      ChannelMerger.scanCount w thr 0 al pk r
        = (ChannelMerger.keepScan w thr pk r).countP (fun v => decide (v ≠ VOID_SIGNAL w)) := by
  induction r with
  | nil => intro pk _; rfl
  | cons x rest ih =>
    intro pk hwf
    have hx : x < 2 ^ w := hwf x (List.mem_cons_self x rest)
    have hrest : ∀ y ∈ rest, y < 2 ^ w := fun y hy => hwf y (List.mem_cons_of_mem x hy)
    rw [ChannelMerger.scanCount, ChannelMerger.keepScan, scanCounted_zero w thr al pk x rest hw hx,
      scanStep_eq_keeps, ih _ hrest, List.countP_cons]
    simp only []
    omega

theorem keepScan_wf (w thr : Nat) (r : List Nat) :
    ∀ pk, (∀ x ∈ r, x < 2 ^ w) → ∀ y ∈ ChannelMerger.keepScan w thr pk r, y < 2 ^ w := by
  induction r with
  | nil => intro pk _ y hy; simp [ChannelMerger.keepScan] at hy
  | cons x rest ih =>
    intro pk hwf y hy
    have hx : x < 2 ^ w := hwf x (List.mem_cons_self x rest)
    have hrest : ∀ y ∈ rest, y < 2 ^ w := fun y hy => hwf y (List.mem_cons_of_mem x hy)
    have hV : VOID_SIGNAL w < 2 ^ w := by
      have : 0 < 2 ^ w := Nat.pow_pos (by norm_num)
      unfold VOID_SIGNAL; omega
    rw [ChannelMerger.keepScan, List.mem_cons] at hy
    rcases hy with hy | hy
    · rw [hy]; split_ifs <;> assumption
    · exact ih _ hrest y hy

/-- The suppressed scan, cell by cell: a cell kept by the peak rule holds its
content, every other cell holds `VOID_SIGNAL`. -/
theorem keepScan_eq_zipWith (w thr : Nat) (r : List Nat) :
    ∀ pk, ChannelMerger.keepScan w thr pk r
      = List.zipWith (fun (kept : Bool) (x : Nat) => if kept = true then x else VOID_SIGNAL w)
          (ChannelMerger.scanKept w thr pk r) r := by
  induction r with
  | nil => intro pk; rfl
  | cons x rest ih =>
    intro pk
    rw [ChannelMerger.keepScan, ChannelMerger.scanKept, List.zipWith_cons_cons, ih,
      scanStep_eq_keeps]
    congr 1
    by_cases hxv : x = VOID_SIGNAL w
    · simp [hxv]
    · cases ChannelMerger.scanKeeps w thr pk x rest <;> simp [hxv]

/-- The in-place pass without baseline shift over the first `size` cells
behind `buffer`, in terms of the scan: the suppressed cells and the number of
cells left. -/
theorem SignalBufferZeroSuppression_inplace_zero (w thr : Nat) (b : List Nat) (size : Nat)
    (hw : w ≤ 32) (hwf : ∀ x ∈ b, x < 2 ^ w) (hsize : size < 2 ^ 31) (hle : size ≤ b.length) :
    ChannelMerger.SignalBufferZeroSuppression w (some b) size thr 0
        ChannelMerger.Target.aliased
      = ((((ChannelMerger.keepScan w thr false (b.take size).reverse).countP
            (fun v => decide (v ≠ VOID_SIGNAL w)) : Nat) : Int),
          some ((ChannelMerger.keepScan w thr false (b.take size).reverse).reverse
            ++ b.drop size),
          ChannelMerger.Target.aliased) := by
  have hwfr : ∀ x ∈ (b.take size).reverse, x < 2 ^ w :=
    fun x hx => hwf x (List.mem_of_mem_take (List.mem_reverse.mp hx))
  have hcount : (ChannelMerger.keepScan w thr false (b.take size).reverse).countP
      (fun v => decide (v ≠ VOID_SIGNAL w)) ≤ size := by
    have := List.countP_le_length (fun v => decide (v ≠ VOID_SIGNAL w))
      (l := ChannelMerger.keepScan w thr false (b.take size).reverse)
    rw [keepScan_length, List.length_reverse, List.length_take] at this
    omega
  unfold ChannelMerger.SignalBufferZeroSuppression
  simp only [zsIterations_of_lt size hsize]
  rw [zsLoop_aliased w thr 0 size b false 0 hle]
  simp only [Nat.zero_add]
  rw [scanValues_zero w thr hw _ false hwfr,
    scanCount_zero w thr true hw _ false hwfr, toSigned_of_lt _ (by omega)]

/-- C9: self-consistency of the suppression.  `SignalBufferZeroSuppression`
applied in place with baseline shift 0 to the channel of `size` cells behind
`buffer` leaves, in every cell that the peak rule keeps, the original content
and turns every other cell of the channel into `VOID_SIGNAL` (`c` is the
channel afterwards; the cells are compared in scan order, high timebin
first), and leaves the cells behind the channel alone; the returned count is
the number of cells of the channel left other than `VOID_SIGNAL`; and a
second pass with the same threshold changes no cell and returns the same
count. -/
theorem suppression_self_consistent (w thr : Nat) (b : List Nat) (size : Nat)
    (hw : w ≤ 32) (hwf : ∀ x ∈ b, x < 2 ^ w) (hsize : size < 2 ^ 31) (hle : size ≤ b.length) :
    ∃ (c : List Nat) (n : Nat),
      ChannelMerger.SignalBufferZeroSuppression w (some b) size thr 0
          ChannelMerger.Target.aliased
        = ((n : Int), some (c ++ b.drop size), ChannelMerger.Target.aliased) ∧
      c.length = size ∧
      c.reverse = List.zipWith
          (fun (kept : Bool) (x : Nat) => if kept = true then x else VOID_SIGNAL w)
          (ChannelMerger.zsKept w thr b size false) (b.take size).reverse ∧
      n = c.countP (fun v => decide (v ≠ VOID_SIGNAL w)) ∧
      ChannelMerger.SignalBufferZeroSuppression w (some (c ++ b.drop size)) size thr 0
          ChannelMerger.Target.aliased
        = ((n : Int), some (c ++ b.drop size), ChannelMerger.Target.aliased) := by
  have hwfr : ∀ x ∈ (b.take size).reverse, x < 2 ^ w :=
    fun x hx => hwf x (List.mem_of_mem_take (List.mem_reverse.mp hx))
  have hlen : (ChannelMerger.keepScan w thr false (b.take size).reverse).reverse.length = size := by
    rw [List.length_reverse, keepScan_length, List.length_reverse, List.length_take]
    omega
  have hwf1 : ∀ x ∈ (ChannelMerger.keepScan w thr false (b.take size).reverse).reverse
      ++ b.drop size, x < 2 ^ w := by
    intro x hx
    rcases List.mem_append.mp hx with h | h
    · exact keepScan_wf w thr _ false hwfr x (List.mem_reverse.mp h)
    · exact hwf x (List.mem_of_mem_drop h)
  have hkept : ChannelMerger.zsKept w thr b size false
      = ChannelMerger.scanKept w thr false (b.take size).reverse :=
    zsKept_eq_scanKept w thr b size false hle
  have htake : (((ChannelMerger.keepScan w thr false (b.take size).reverse).reverse
      ++ b.drop size).take size) = (ChannelMerger.keepScan w thr false (b.take size).reverse).reverse := by
    rw [List.take_append_of_le_length (by omega), List.take_of_length_le (by omega)]
  have hdrop : (((ChannelMerger.keepScan w thr false (b.take size).reverse).reverse
      ++ b.drop size).drop size) = b.drop size := by
    rw [List.drop_append_of_le_length (by omega), List.drop_of_length_le (by omega),
      List.nil_append]
  refine ⟨(ChannelMerger.keepScan w thr false (b.take size).reverse).reverse,
    (ChannelMerger.keepScan w thr false (b.take size).reverse).countP
      (fun v => decide (v ≠ VOID_SIGNAL w)),
    SignalBufferZeroSuppression_inplace_zero w thr b size hw hwf hsize hle, hlen, ?_, ?_, ?_⟩
  · rw [List.reverse_reverse, hkept, keepScan_eq_zipWith]
  · rw [List.countP_reverse]
  · rw [SignalBufferZeroSuppression_inplace_zero w thr _ size hw hwf1 hsize
        (by rw [List.length_append, hlen]; omega),
      htake, hdrop, List.reverse_reverse, keepScan_idempotent]

theorem suppression_self_consistent_witness :
    ∃ (c : List Nat) (n : Nat),
      ChannelMerger.SignalBufferZeroSuppression 16 (some [0, 0, 2, 7, 3, 9, 8, 0, 0, 6, 6])
          9 5 0 ChannelMerger.Target.aliased
        = ((n : Int), some (c ++ [0, 0, 2, 7, 3, 9, 8, 0, 0, 6, 6].drop 9),
            ChannelMerger.Target.aliased) ∧
      c.length = 9 ∧
      c.reverse = List.zipWith
          (fun (kept : Bool) (x : Nat) => if kept = true then x else VOID_SIGNAL 16)
          (ChannelMerger.zsKept 16 5 [0, 0, 2, 7, 3, 9, 8, 0, 0, 6, 6] 9 false)
          ([0, 0, 2, 7, 3, 9, 8, 0, 0, 6, 6].take 9).reverse ∧
      n = c.countP (fun v => decide (v ≠ VOID_SIGNAL 16)) ∧
      ChannelMerger.SignalBufferZeroSuppression 16
          (some (c ++ [0, 0, 2, 7, 3, 9, 8, 0, 0, 6, 6].drop 9)) 9 5 0
          ChannelMerger.Target.aliased
        = ((n : Int), some (c ++ [0, 0, 2, 7, 3, 9, 8, 0, 0, 6, 6].drop 9),
            ChannelMerger.Target.aliased) :=
  suppression_self_consistent 16 5 [0, 0, 2, 7, 3, 9, 8, 0, 0, 6, 6] 9 (by decide) (by decide)
    (by decide) (by decide)

/-! ### The count of filled timebins -/

/-- A cell that holds `VOID_SIGNAL` is never counted as filled. -/
theorem scanCounted_void (w thr : Nat) (shift : Int) (al pk : Bool) (rest : List Nat) :
    ChannelMerger.scanCounted w thr shift al pk (VOID_SIGNAL w) rest = false := by
  unfold ChannelMerger.scanCounted ChannelMerger.scanValue
  cases al <;> simp

/-- The count of a scan is at most the number of its cells other than
`VOID_SIGNAL`, for every baseline shift. -/
theorem scanCount_le (w thr : Nat) (shift : Int) (al : Bool) (r : List Nat) :
    ∀ pk, ChannelMerger.scanCount w thr shift al pk r
      ≤ r.countP (fun v => decide (v ≠ VOID_SIGNAL w)) := by
  induction r with
  | nil => intro pk; exact Nat.le_refl 0
  | cons x rest ih =>
    intro pk
    rw [ChannelMerger.scanCount, List.countP_cons]
    have h := ih (ChannelMerger.scanStep w thr pk x rest).1
    by_cases hx : x = VOID_SIGNAL w
    · rw [hx, scanCounted_void]
      rw [hx] at h
      simp only [Bool.false_eq_true, if_false]
      omega
    · have : decide (x ≠ VOID_SIGNAL w) = true := by simp [hx]
      rw [this]
      simp only [if_true]
      split_ifs <;> omega

/-- A kept sample stays below `VOID_SIGNAL` under the baseline shift
correction, if the sample plus the shift is below `VOID_SIGNAL`. -/
theorem shiftCorrect_lt (w : Nat) (shift : Int) (x : Nat) (hw : w ≤ 32) (hx : x < 2 ^ w)
    (hxv : x ≠ VOID_SIGNAL w) (hs : (x : Int) + shift < (VOID_SIGNAL w : Int)) :
    ChannelMerger.shiftCorrect w shift x < VOID_SIGNAL w := by
  have hp : 2 ^ w ≤ 2 ^ 32 := Nat.pow_le_pow_right (by norm_num) hw
  have hV : VOID_SIGNAL w = 2 ^ w - 1 := rfl
  have hxV : x < VOID_SIGNAL w := by omega
  unfold ChannelMerger.shiftCorrect
  rw [if_pos hxv]
  by_cases hneg : shift < 0
  · rw [if_pos hneg]
    by_cases hgt : toSigned x > -shift
    · rw [if_pos hgt]
      have hx31 : x < 2 ^ 31 := by
        by_contra hcon
        have h1 : x % UINT_MOD = x := Nat.mod_eq_of_lt (by unfold UINT_MOD; omega)
        unfold toSigned at hgt
        rw [h1, if_neg hcon] at hgt
        unfold UINT_MOD at hgt
        omega
      rw [toSigned_of_lt x hx31] at hgt
      obtain ⟨k, hk⟩ : ∃ k : Nat, (x : Int) - -shift = (k : Int) :=
        ⟨((x : Int) - -shift).toNat, (Int.toNat_of_nonneg (by omega)).symm⟩
      rw [hk, toUnsigned_natCast k (by omega)]
      omega
    · rw [if_neg hgt]; omega
  · rw [if_neg hneg]
    obtain ⟨k, hk⟩ : ∃ k : Nat, (x : Int) + shift = (k : Int) :=
      ⟨((x : Int) + shift).toNat, (Int.toNat_of_nonneg (by omega)).symm⟩
    rw [hk, toUnsigned_natCast k (by omega)]
    omega

/-- When the shift carries no sample onto `VOID_SIGNAL`, a cell is counted as
filled exactly if it is kept by the peak rule and not `VOID_SIGNAL`, and
exactly then the value written for it is not `VOID_SIGNAL`. -/
theorem scanCounted_eq (w thr : Nat) (shift : Int) (al pk : Bool) (x : Nat) (rest : List Nat)
    (hw : w ≤ 32) (hx : x < 2 ^ w)
    (hs : x ≠ VOID_SIGNAL w → (x : Int) + shift < (VOID_SIGNAL w : Int)) :
    ChannelMerger.scanCounted w thr shift al pk x rest
        = (decide ((ChannelMerger.scanStep w thr pk x rest).2 ≠ VOID_SIGNAL w) &&
            decide (x ≠ VOID_SIGNAL w)) ∧
    decide (ChannelMerger.scanValue w thr shift pk x rest ≠ VOID_SIGNAL w)
        = (decide ((ChannelMerger.scanStep w thr pk x rest).2 ≠ VOID_SIGNAL w) &&
            decide (x ≠ VOID_SIGNAL w)) := by
  have hp : 2 ^ w ≤ 2 ^ 32 := Nat.pow_le_pow_right (by norm_num) hw
  by_cases hxv : x = VOID_SIGNAL w
  · constructor
    · rw [hxv, scanCounted_void]; simp
    · unfold ChannelMerger.scanValue; simp [hxv]
  · have hV : VOID_SIGNAL w < 2 ^ w := by unfold VOID_SIGNAL; omega
    unfold ChannelMerger.scanCounted ChannelMerger.scanValue
    rw [scanStep_eq_keeps]
    cases ChannelMerger.scanKeeps w thr pk x rest with
    | true =>
      have hlt := shiftCorrect_lt w shift x hw hx hxv (hs hxv)
      have hne : ChannelMerger.shiftCorrect w shift x ≠ VOID_SIGNAL w := by omega
      have hb : toBuffer w (ChannelMerger.shiftCorrect w shift x)
          = ChannelMerger.shiftCorrect w shift x := Nat.mod_eq_of_lt (by omega)
      cases al <;> simp [hxv, hne, hb]
    | false =>
      have hsc : ChannelMerger.shiftCorrect w shift (VOID_SIGNAL w) = VOID_SIGNAL w := by
        unfold ChannelMerger.shiftCorrect; simp
      cases al <;> simp [hxv, hsc, toBuffer_VOID]

/-- When the shift carries no sample onto `VOID_SIGNAL`, the count of a scan
is the number of cells kept by the peak rule that are not `VOID_SIGNAL`, and
it is the number of values written that are not `VOID_SIGNAL`. -/
theorem scanCount_eq (w thr : Nat) (shift : Int) (al : Bool) (hw : w ≤ 32) (r : List Nat) :
    ∀ pk, (∀ x ∈ r, x < 2 ^ w) →
      (∀ x ∈ r, x ≠ VOID_SIGNAL w → (x : Int) + shift < (VOID_SIGNAL w : Int)) →
      ChannelMerger.scanCount w thr shift al pk r
          = ((ChannelMerger.scanKept w thr pk r).zip r).countP
              (fun p => p.1 && decide (p.2 ≠ VOID_SIGNAL w)) ∧
      (ChannelMerger.scanValues w thr shift pk r).countP (fun v => decide (v ≠ VOID_SIGNAL w))
          = ((ChannelMerger.scanKept w thr pk r).zip r).countP
              (fun p => p.1 && decide (p.2 ≠ VOID_SIGNAL w)) := by
  induction r with
  | nil => intro pk _ _; exact ⟨rfl, rfl⟩
  | cons x rest ih =>
    intro pk hwf hs
    have hx : x < 2 ^ w := hwf x (List.mem_cons_self x rest)
    have hrest : ∀ y ∈ rest, y < 2 ^ w := fun y hy => hwf y (List.mem_cons_of_mem x hy)
    have hsx := hs x (List.mem_cons_self x rest)
    have hsrest : ∀ y ∈ rest, y ≠ VOID_SIGNAL w → (y : Int) + shift < (VOID_SIGNAL w : Int) :=
      fun y hy => hs y (List.mem_cons_of_mem x hy)
    obtain ⟨e1, e2⟩ := scanCounted_eq w thr shift al pk x rest hw hx hsx
    obtain ⟨i1, i2⟩ := ih (ChannelMerger.scanStep w thr pk x rest).1 hrest hsrest
    rw [ChannelMerger.scanCount, ChannelMerger.scanValues, ChannelMerger.scanKept,
      List.zip_cons_cons, List.countP_cons, List.countP_cons, e1, e2, i1, i2]
    constructor
    · simp only []; omega
    · rfl

theorem scanCount_lt (w thr : Nat) (shift : Int) (al pk : Bool) (b : List Nat) (size : Nat)
    (hsize : size < 2 ^ 31) :
    ChannelMerger.scanCount w thr shift al pk (b.take size).reverse
        ≤ (b.take size).countP (fun v => decide (v ≠ VOID_SIGNAL w)) ∧
    ChannelMerger.scanCount w thr shift al pk (b.take size).reverse < 2 ^ 31 := by
  have h1 := scanCount_le w thr shift al (b.take size).reverse pk
  rw [List.countP_reverse] at h1
  have h2 := List.countP_le_length (fun v => decide (v ≠ VOID_SIGNAL w)) (l := b.take size)
  rw [List.length_take] at h2
  exact ⟨h1, by omega⟩

/-- The three ways to call the pass over the first `size` cells behind
`buffer`, in terms of the scan of these cells. -/
theorem SignalBufferZeroSuppression_eq_scan (w thr : Nat) (shift : Int) (b t : List Nat)
    (size : Nat) (hsize : size < 2 ^ 31) (hle : size ≤ b.length) (ht : t.length = size) :
    ChannelMerger.SignalBufferZeroSuppression w (some b) size thr shift ChannelMerger.Target.null
      = (((ChannelMerger.scanCount w thr shift false false (b.take size).reverse : Nat) : Int),
          some b, ChannelMerger.Target.null) ∧
    ChannelMerger.SignalBufferZeroSuppression w (some b) size thr shift
        (ChannelMerger.Target.separate t)
      = (((ChannelMerger.scanCount w thr shift false false (b.take size).reverse : Nat) : Int),
          some b,
          ChannelMerger.Target.separate
            (ChannelMerger.scanValues w thr shift false (b.take size).reverse).reverse) ∧
    ChannelMerger.SignalBufferZeroSuppression w (some b) size thr shift
        ChannelMerger.Target.aliased
      = (((ChannelMerger.scanCount w thr shift true false (b.take size).reverse : Nat) : Int),
          some ((ChannelMerger.scanValues w thr shift false (b.take size).reverse).reverse
            ++ b.drop size),
          ChannelMerger.Target.aliased) := by
  have hf := (scanCount_lt w thr shift false false b size hsize).2
  have ht' := (scanCount_lt w thr shift true false b size hsize).2
  unfold ChannelMerger.SignalBufferZeroSuppression
  simp only [zsIterations_of_lt size hsize]
  refine ⟨?_, ?_, ?_⟩
  · rw [zsLoop_null w thr shift size b false 0 hle]
    simp only [Nat.zero_add]
    rw [toSigned_of_lt _ hf]
  · rw [zsLoop_separate w thr shift size b t false 0 hle (by omega)]
    simp only [Nat.zero_add]
    rw [toSigned_of_lt _ hf, List.drop_of_length_le (by omega), List.append_nil]
  · rw [zsLoop_aliased w thr shift size b false 0 hle]
    simp only [Nat.zero_add]
    rw [toSigned_of_lt _ ht']

/-- C10: the occupancy count at a failing input.  With baseline shift 1 the
two samples 65534 (the accumulation ceiling of a 16 bit sample word) are kept
by the peak rule, but the shift correction turns `currentSignal` into
`VOID_SIGNAL`, the marker of a suppressed sample, so the pass returns 0 where
two timebins are filled and kept; the same happens for a 32 bit sample word
with the samples 4294967294. -/
theorem occupancy_count_misses_shifted_ceiling :
    ChannelMerger.zsKept 16 5 [65534, 65534] 2 false = [true, true] ∧
    ChannelMerger.SignalBufferZeroSuppression 16 (some [65534, 65534]) 2 5 1
        (ChannelMerger.Target.separate [0, 0])
      = (0, some [65534, 65534], ChannelMerger.Target.separate [65535, 65535]) ∧
    ChannelMerger.zsKept 32 5 [4294967294, 4294967294] 2 false = [true, true] ∧
    ChannelMerger.SignalBufferZeroSuppression 32 (some [4294967294, 4294967294]) 2 5 1
        (ChannelMerger.Target.separate [0, 0])
      = (0, some [4294967294, 4294967294],
          ChannelMerger.Target.separate [4294967295, 4294967295]) := by
  refine ⟨by decide, by decide, by decide, by decide⟩

theorem scanValues_length (w thr : Nat) (shift : Int) (r : List Nat) :
    ∀ pk, (ChannelMerger.scanValues w thr shift pk r).length = r.length := by
  induction r with
  | nil => intro pk; rfl
  | cons x rest ih => intro pk; simp [ChannelMerger.scanValues, ih]

/-- The occupancy count away from the marker collision.  For every channel
of `size` cells behind `buffer`, every threshold and every kind of target,
the value returned by `SignalBufferZeroSuppression` is never larger than the
number of cells of the channel other than `VOID_SIGNAL`, for every baseline
shift.  When the baseline shift carries no sample of the channel onto or
beyond `VOID_SIGNAL` (as every shift `<= 0` does), the value returned is the
number of timebins that are not `VOID_SIGNAL` in the input and kept by the
peak rule, and it is the number of entries other than `VOID_SIGNAL` of the
target after the pass, for a target vector of its own (`t1`) and for the
buffer as target (`c`). -/
theorem occupancy_count_without_collision (w thr : Nat) (shift : Int) (b t : List Nat) (size : Nat)
    (hw : w ≤ 32) (hwf : ∀ x ∈ b, x < 2 ^ w) (hsize : size < 2 ^ 31) (hle : size ≤ b.length)
    (ht : t.length = size) :
    (∃ n : Nat, (ChannelMerger.SignalBufferZeroSuppression w (some b) size thr shift
        ChannelMerger.Target.null).1 = (n : Int) ∧
      n ≤ (b.take size).countP (fun v => decide (v ≠ VOID_SIGNAL w))) ∧
    (∃ n : Nat, (ChannelMerger.SignalBufferZeroSuppression w (some b) size thr shift
        (ChannelMerger.Target.separate t)).1 = (n : Int) ∧
      n ≤ (b.take size).countP (fun v => decide (v ≠ VOID_SIGNAL w))) ∧
    (∃ n : Nat, (ChannelMerger.SignalBufferZeroSuppression w (some b) size thr shift
        ChannelMerger.Target.aliased).1 = (n : Int) ∧
      n ≤ (b.take size).countP (fun v => decide (v ≠ VOID_SIGNAL w))) ∧
    ((∀ x ∈ b.take size, x ≠ VOID_SIGNAL w → (x : Int) + shift < (VOID_SIGNAL w : Int)) →
      (ChannelMerger.SignalBufferZeroSuppression w (some b) size thr shift
          ChannelMerger.Target.null).1
        = ((((ChannelMerger.zsKept w thr b size false).zip (b.take size).reverse).countP
            (fun p => p.1 && decide (p.2 ≠ VOID_SIGNAL w)) : Nat) : Int) ∧
      (∃ t1 : List Nat,
        ChannelMerger.SignalBufferZeroSuppression w (some b) size thr shift
            (ChannelMerger.Target.separate t)
          = (((((ChannelMerger.zsKept w thr b size false).zip (b.take size).reverse).countP
              (fun p => p.1 && decide (p.2 ≠ VOID_SIGNAL w)) : Nat) : Int),
              some b, ChannelMerger.Target.separate t1) ∧
        t1.length = size ∧
        t1.countP (fun v => decide (v ≠ VOID_SIGNAL w))
          = ((ChannelMerger.zsKept w thr b size false).zip (b.take size).reverse).countP
              (fun p => p.1 && decide (p.2 ≠ VOID_SIGNAL w))) ∧
      (∃ c : List Nat,
        ChannelMerger.SignalBufferZeroSuppression w (some b) size thr shift
            ChannelMerger.Target.aliased
          = (((((ChannelMerger.zsKept w thr b size false).zip (b.take size).reverse).countP
              (fun p => p.1 && decide (p.2 ≠ VOID_SIGNAL w)) : Nat) : Int),
              some (c ++ b.drop size), ChannelMerger.Target.aliased) ∧
        c.length = size ∧
        c.countP (fun v => decide (v ≠ VOID_SIGNAL w))
          = ((ChannelMerger.zsKept w thr b size false).zip (b.take size).reverse).countP
              (fun p => p.1 && decide (p.2 ≠ VOID_SIGNAL w)))) := by
  obtain ⟨hnull, hsep, hali⟩ :=
    SignalBufferZeroSuppression_eq_scan w thr shift b t size hsize hle ht
  have hkept : ChannelMerger.zsKept w thr b size false
      = ChannelMerger.scanKept w thr false (b.take size).reverse :=
    zsKept_eq_scanKept w thr b size false hle
  have hlen : (ChannelMerger.scanValues w thr shift false (b.take size).reverse).reverse.length
      = size := by
    rw [List.length_reverse, scanValues_length, List.length_reverse, List.length_take]
    omega
  refine ⟨⟨_, by rw [hnull], (scanCount_lt w thr shift false false b size hsize).1⟩,
    ⟨_, by rw [hsep], (scanCount_lt w thr shift false false b size hsize).1⟩,
    ⟨_, by rw [hali], (scanCount_lt w thr shift true false b size hsize).1⟩, ?_⟩
  intro hs
  have hwfr : ∀ x ∈ (b.take size).reverse, x < 2 ^ w :=
    fun x hx => hwf x (List.mem_of_mem_take (List.mem_reverse.mp hx))
  have hsr : ∀ x ∈ (b.take size).reverse, x ≠ VOID_SIGNAL w →
      (x : Int) + shift < (VOID_SIGNAL w : Int) :=
    fun x hx => hs x (List.mem_reverse.mp hx)
  obtain ⟨cf, vf⟩ := scanCount_eq w thr shift false hw _ false hwfr hsr
  obtain ⟨ct, _⟩ := scanCount_eq w thr shift true hw _ false hwfr hsr
  rw [hkept]
  refine ⟨by rw [hnull, cf], ⟨_, by rw [hsep, cf], hlen, ?_⟩, ⟨_, by rw [hali, ct], hlen, ?_⟩⟩
  · rw [List.countP_reverse, vf]
  · rw [List.countP_reverse, vf]

theorem occupancy_count_without_collision_example :
    (ChannelMerger.SignalBufferZeroSuppression 16 (some [0, 0, 2, 7, 3, 9, 8, 0, 0]) 9 5 (-2)
        ChannelMerger.Target.null).1
      = ((((ChannelMerger.zsKept 16 5 [0, 0, 2, 7, 3, 9, 8, 0, 0] 9 false).zip
            ([0, 0, 2, 7, 3, 9, 8, 0, 0].take 9).reverse).countP
          (fun p => p.1 && decide (p.2 ≠ VOID_SIGNAL 16)) : Nat) : Int) :=
  ((occupancy_count_without_collision 16 5 (-2) [0, 0, 2, 7, 3, 9, 8, 0, 0] [0, 0, 0, 0, 0, 0, 0, 0, 0] 9
    (by decide) (by decide) (by decide) (by decide) rfl).2.2.2 (by decide)).1

/-! ### The effective threshold -/

/-- C11 fails as stated: `threshold` is an `unsigned` word, so for a negative
baseline shift the sum `c + |shift|` wraps; with the cut 4294967295 and shift
-1 (16 bit sample word, so the cut is not `VOID_SIGNAL`) `GetThreshold`
returns 0, and so it does with the cut 4294967294 and shift -2 for a 32 bit
sample word. -/
theorem GetThreshold_wraps :
    ChannelMerger.GetThreshold 16
        { exampleMerger with mZSThreshold := 4294967295, mBaselineshift := -1 } = 0 ∧
    max ((4294967295 : Int) - (-1)) 0 = 4294967296 ∧
    ChannelMerger.GetThreshold 32
        { exampleMerger with mZSThreshold := 4294967294, mBaselineshift := -2 } = 0 ∧
    max ((4294967294 : Int) - (-2)) 0 = 4294967296 := by
  refine ⟨by decide, by decide, by decide, by decide⟩

theorem toUnsigned_of_nonneg (x : Int) (h0 : 0 ≤ x) (h1 : x < 2 ^ 32) :
    ((toUnsigned x : Nat) : Int) = x := by
  obtain ⟨k, hk⟩ : ∃ k : Nat, x = (k : Int) := ⟨x.toNat, (Int.toNat_of_nonneg h0).symm⟩
  rw [hk, toUnsigned_natCast k (by omega)]

/-- C11 (amended): the effective threshold.  With zero suppression enabled
(cut `c` other than `VOID_SIGNAL`) and a baseline shift for which `c - shift`
fits the `unsigned` word, `GetThreshold` returns `max (c - shift) 0`, that is
`c + |shift|` for a negative shift, 0 when `c <= shift` and `c - shift`
otherwise; with zero suppression disabled it returns `VOID_SIGNAL`
unchanged.  The threshold of the ingestion loop is the same value plus the
channel baseline. -/
theorem GetThreshold_effective (w : Nat) (m : ChannelMerger) (baseline : Nat)
    (hc : m.mZSThreshold < 2 ^ 32)
    (hs : -(2 : Int) ^ 31 ≤ m.mBaselineshift ∧ m.mBaselineshift < (2 : Int) ^ 31) :
    (m.mZSThreshold ≠ VOID_SIGNAL w →
      (m.mZSThreshold : Int) - m.mBaselineshift < (2 : Int) ^ 32 →
      ((ChannelMerger.GetThreshold w m : Nat) : Int)
          = max ((m.mZSThreshold : Int) - m.mBaselineshift) 0 ∧
      (m.mBaselineshift < 0 →
        ((ChannelMerger.GetThreshold w m : Nat) : Int)
          = (m.mZSThreshold : Int) + |m.mBaselineshift|) ∧
      (0 ≤ m.mBaselineshift → (m.mZSThreshold : Int) ≤ m.mBaselineshift →
        ChannelMerger.GetThreshold w m = 0) ∧
      (0 ≤ m.mBaselineshift → m.mBaselineshift < (m.mZSThreshold : Int) →
        ((ChannelMerger.GetThreshold w m : Nat) : Int)
          = (m.mZSThreshold : Int) - m.mBaselineshift) ∧
      ChannelMerger.ingestThreshold w m baseline
        = (ChannelMerger.GetThreshold w m + baseline) % UINT_MOD) ∧
    (m.mZSThreshold = VOID_SIGNAL w →
      ChannelMerger.GetThreshold w m = VOID_SIGNAL w ∧
      ChannelMerger.ingestThreshold w m baseline = VOID_SIGNAL w) := by
  constructor
  · intro hen hfit
    have hmain : ((ChannelMerger.GetThreshold w m : Nat) : Int)
        = max ((m.mZSThreshold : Int) - m.mBaselineshift) 0 := by
      unfold ChannelMerger.GetThreshold
      simp only [hen, if_false]
      by_cases hneg : m.mBaselineshift < 0
      · rw [if_pos hneg, toUnsigned_of_nonneg _ (by omega) (by omega)]
        rw [max_eq_left (by omega)]; ring
      · rw [if_neg hneg]
        have hu : ((toUnsigned m.mBaselineshift : Nat) : Int) = m.mBaselineshift :=
          toUnsigned_of_nonneg _ (by omega) (by omega)
        by_cases hle : m.mZSThreshold ≤ toUnsigned m.mBaselineshift
        · rw [if_pos hle]
          have : (m.mZSThreshold : Int) ≤ m.mBaselineshift := by
            rw [← hu]; exact_mod_cast hle
          rw [max_eq_right (by omega)]; rfl
        · rw [if_neg hle]
          have : m.mBaselineshift < (m.mZSThreshold : Int) := by
            rw [← hu]; exact_mod_cast Nat.lt_of_not_le hle
          rw [toUnsigned_of_nonneg _ (by omega) (by omega), max_eq_left (by omega)]
    refine ⟨hmain, ?_, ?_, ?_, ?_⟩
    · intro hneg
      rw [hmain, max_eq_left (by omega), abs_of_neg hneg]; ring
    · intro h0 hle
      have : ((ChannelMerger.GetThreshold w m : Nat) : Int) = 0 := by
        rw [hmain, max_eq_right (by omega)]
      exact_mod_cast this
    · intro h0 hlt
      rw [hmain, max_eq_left (by omega)]
    · unfold ChannelMerger.ingestThreshold ChannelMerger.GetThreshold
      simp only [hen, ne_eq, not_false_eq_true, if_true, if_false]
  · intro hdis
    unfold ChannelMerger.ingestThreshold ChannelMerger.GetThreshold
    simp [hdis]

theorem GetThreshold_effective_witness :
    ((ChannelMerger.GetThreshold 16 { exampleMergerZS with mBaselineshift := -3 } : Nat) : Int)
      = (({ exampleMergerZS with mBaselineshift := -3 } : ChannelMerger).mZSThreshold : Int)
        + |({ exampleMergerZS with mBaselineshift := -3 } : ChannelMerger).mBaselineshift| ∧
    ChannelMerger.GetThreshold 16 exampleMerger = VOID_SIGNAL 16 :=
  ⟨((GetThreshold_effective 16 { exampleMergerZS with mBaselineshift := -3 } 0 (by decide)
      (by decide)).1 (by decide) (by decide)).2.1 (by decide),
    ((GetThreshold_effective 16 exampleMerger 0 (by decide) (by decide)).2 rfl).1⟩

/-! ### Buffer growth -/

/-- C12: `GrowBuffer` is a no-op for a size that fits.  For every state and
every `newsize` up to the current capacity the call returns the state
unchanged (capacity and both buffers included), so any number of calls, one
included, leaves what no call leaves. -/
theorem GrowBuffer_noop (w : Nat) (m : ChannelMerger) (newsize : Nat)
    (h : newsize ≤ m.mBufferSize) :
    ChannelMerger.GrowBuffer w m newsize = m ∧
    (ChannelMerger.GrowBuffer w m newsize).mBufferSize = m.mBufferSize ∧
    (ChannelMerger.GrowBuffer w m newsize).mBuffer = m.mBuffer ∧
    (ChannelMerger.GrowBuffer w m newsize).mUnderflowBuffer = m.mUnderflowBuffer ∧
    ∀ k : Nat, (fun s => ChannelMerger.GrowBuffer w s newsize)^[k] m
      = ChannelMerger.GrowBuffer w m newsize := by
  have h1 : ChannelMerger.GrowBuffer w m newsize = m := by
    unfold ChannelMerger.GrowBuffer
    rw [if_pos h]
  refine ⟨h1, by rw [h1], by rw [h1], by rw [h1], ?_⟩
  intro k
  rw [h1]
  induction k with
  | zero => rfl
  | succ k ih => rw [Function.iterate_succ_apply, h1, ih]

theorem GrowBuffer_noop_witness :
    ChannelMerger.GrowBuffer 16 exampleMergerFilled 8 = exampleMergerFilled :=
  (GrowBuffer_noop 16 exampleMergerFilled 8 (by decide)).1

/-- The reallocation of one buffer, `NULL` or not, that holds `oldsize` cells:
the old cells followed by cells that hold `VOID_SIGNAL`. -/
theorem growOne_eq (w : Nat) (lastData : Option (List Nat)) (oldsize newsize : Nat)
    (h : (lastData.getD []).length = oldsize) :
    ChannelMerger.growOne w lastData oldsize newsize
      = lastData.getD [] ++ List.replicate (newsize - oldsize) (VOID_SIGNAL w) := by
  cases lastData with
  | some b =>
    simp only [Option.getD_some] at h ⊢
    rw [← h, growOne_some]
  | none =>
    simp only [Option.getD_none, List.length_nil] at h
    subst h
    simp [ChannelMerger.growOne, memsetVoid]

/-- C13: `GrowBuffer` preserves the content.  For a state whose buffers hold
`n = mBufferSize` cells and every `newsize > n`, after `GrowBuffer(newsize)`
the capacity is `newsize`, both buffers hold `newsize` cells, the cells
`[0, n)` of the current and of the underflow buffer hold their previous
values at the same offsets, and the cells `[n, newsize)` of both buffers
hold `VOID_SIGNAL`. -/
theorem GrowBuffer_preserves (w : Nat) (m : ChannelMerger) (newsize : Nat)
    (hb : (m.mBuffer.getD []).length = m.mBufferSize)
    (hu : (m.mUnderflowBuffer.getD []).length = m.mBufferSize)
    (hn : m.mBufferSize < newsize) :
    (ChannelMerger.GrowBuffer w m newsize).mBufferSize = newsize ∧
    (ChannelMerger.GrowBuffer w m newsize).mBuffer
      = some (m.mBuffer.getD [] ++ List.replicate (newsize - m.mBufferSize) (VOID_SIGNAL w)) ∧
    (ChannelMerger.GrowBuffer w m newsize).mUnderflowBuffer
      = some (m.mUnderflowBuffer.getD []
          ++ List.replicate (newsize - m.mBufferSize) (VOID_SIGNAL w)) ∧
    (((ChannelMerger.GrowBuffer w m newsize).mBuffer.getD []).length = newsize ∧
      ((ChannelMerger.GrowBuffer w m newsize).mUnderflowBuffer.getD []).length = newsize) ∧
    (∀ i, i < m.mBufferSize →
      readAt ((ChannelMerger.GrowBuffer w m newsize).mBuffer.getD []) i
        = readAt (m.mBuffer.getD []) i ∧
      readAt ((ChannelMerger.GrowBuffer w m newsize).mUnderflowBuffer.getD []) i
        = readAt (m.mUnderflowBuffer.getD []) i) ∧
    (∀ i, m.mBufferSize ≤ i → i < newsize →
      readAt ((ChannelMerger.GrowBuffer w m newsize).mBuffer.getD []) i = VOID_SIGNAL w ∧
      readAt ((ChannelMerger.GrowBuffer w m newsize).mUnderflowBuffer.getD []) i
        = VOID_SIGNAL w) := by
  have e1 : (ChannelMerger.GrowBuffer w m newsize).mBuffer
      = some (m.mBuffer.getD [] ++ List.replicate (newsize - m.mBufferSize) (VOID_SIGNAL w)) := by
    unfold ChannelMerger.GrowBuffer
    rw [if_neg (Nat.not_le.mpr hn)]
    simp only [growOne_eq w m.mBuffer m.mBufferSize newsize hb]
  have e2 : (ChannelMerger.GrowBuffer w m newsize).mUnderflowBuffer
      = some (m.mUnderflowBuffer.getD []
          ++ List.replicate (newsize - m.mBufferSize) (VOID_SIGNAL w)) := by
    unfold ChannelMerger.GrowBuffer
    rw [if_neg (Nat.not_le.mpr hn)]
    simp only [growOne_eq w m.mUnderflowBuffer m.mBufferSize newsize hu]
  have e0 : (ChannelMerger.GrowBuffer w m newsize).mBufferSize = newsize := by
    unfold ChannelMerger.GrowBuffer
    rw [if_neg (Nat.not_le.mpr hn)]
  have tail : ∀ (l : List Nat) (i : Nat), l.length = m.mBufferSize → m.mBufferSize ≤ i →
      i < newsize →
      readAt (l ++ List.replicate (newsize - m.mBufferSize) (VOID_SIGNAL w)) i = VOID_SIGNAL w := by
    intro l i hl h1 h2
    have hi : i = l.length + (i - l.length) := by omega
    rw [hi, readAt_append_right]
    unfold readAt
    rw [List.getD_eq_getElem _ _ (by simp; omega)]
    simp
  refine ⟨e0, e1, e2, ⟨?_, ?_⟩, ?_, ?_⟩
  · rw [e1]; simp [hb]; omega
  · rw [e2]; simp [hu]; omega
  · intro i hi
    rw [e1, e2]
    exact ⟨readAt_append_left _ _ i (by omega), readAt_append_left _ _ i (by omega)⟩
  · intro i h1 h2
    rw [e1, e2]
    exact ⟨tail _ i hb h1 h2, tail _ i hu h1 h2⟩

theorem GrowBuffer_preserves_witness :
    (ChannelMerger.GrowBuffer 16 exampleMergerFilled 12).mBuffer
      = some (exampleMergerFilled.mBuffer.getD []
          ++ List.replicate (12 - exampleMergerFilled.mBufferSize) (VOID_SIGNAL 16)) ∧
    (ChannelMerger.GrowBuffer 16 (ChannelMerger.init 16) 4).mBuffer
      = some ((ChannelMerger.init 16).mBuffer.getD []
          ++ List.replicate (4 - (ChannelMerger.init 16).mBufferSize) (VOID_SIGNAL 16)) :=
  ⟨(GrowBuffer_preserves 16 exampleMergerFilled 12 (by decide) (by decide) (by decide)).2.1,
    (GrowBuffer_preserves 16 (ChannelMerger.init 16) 4 (by decide) (by decide)
      (by decide)).2.1⟩

/-! ### The layout of the buffers during ingestion -/

theorem sameLayout_refl (m : ChannelMerger) : ChannelMerger.sameLayout m m :=
  ⟨rfl, rfl, rfl, rfl, rfl, rfl⟩

theorem sameLayout_trans (m m1 m2 : ChannelMerger) (h1 : ChannelMerger.sameLayout m m1)
    (h2 : ChannelMerger.sameLayout m1 m2) : ChannelMerger.sameLayout m m2 := by
  obtain ⟨a1, a2, a3, a4, a5, a6⟩ := h1
  obtain ⟨b1, b2, b3, b4, b5, b6⟩ := h2
  exact ⟨by rw [b1, a1], by rw [b2, a2], by rw [b3, a3], by rw [b4, a4], by rw [b5, a5],
    by rw [b6, a6]⟩

/-- The store of a sample changes no capacity, no channel index and no buffer
length. -/
theorem accumulate_sameLayout (w : Nat) (rand : Nat → Nat) (m : ChannelMerger)
    (position : Nat) (timebin : Int) (cs os : Nat) :
    ChannelMerger.sameLayout m (ChannelMerger.accumulate w rand m position timebin cs os) := by
  unfold ChannelMerger.accumulate
  simp only []
  split_ifs
  · cases hb : m.mBuffer with
    | none => simp only []; exact sameLayout_refl m
    | some b => exact ⟨rfl, rfl, rfl, rfl, by simp [hb], rfl⟩
  · cases hu : m.mUnderflowBuffer with
    | none => simp only []; exact sameLayout_refl m
    | some u => exact ⟨rfl, rfl, rfl, rfl, rfl, by simp [hu]⟩
  · exact sameLayout_refl m

theorem sampleLoop_sameLayout (w : Nat) (rand : Nat → Nat) (position threshold baseline : Nat)
    (startTime : Int) (signals : List Nat) (n : Nat) :
    ∀ (i : Nat) (st : ChannelMerger × Bool),
      ChannelMerger.sameLayout st.1
        (ChannelMerger.sampleLoop w rand position threshold baseline startTime signals n i st).1 := by
  induction n with
  | zero => intro i st; exact sameLayout_refl st.1
  | succ n ih =>
    intro i st
    rw [ChannelMerger.sampleLoop]
    refine sameLayout_trans _ _ _ ?_ (ih (i + 1) _)
    exact accumulate_sameLayout w rand st.1 position _ _ _

theorem bunchLoop_sameLayout (w : Nat) (rand : Nat → Nat) (applyOffset : Int → Int)
    (position threshold baseline : Nat) (stream : List Bunch) :
    ∀ m : ChannelMerger, ChannelMerger.sameLayout m
      (ChannelMerger.bunchLoop w rand applyOffset position threshold baseline stream m) := by
  induction stream with
  | nil => intro m; exact sameLayout_refl m
  | cons bunch rest ih =>
    intro m
    rw [ChannelMerger.bunchLoop]
    exact sameLayout_trans _ _ _ (sampleLoop_sameLayout w rand position threshold baseline _ _ _ 0
      (m, false)) (ih _)

/-- `AddChannel` ends with the layout of the state after its growth step. -/
theorem AddChannel_sameLayout (w : Nat) (rand : Nat → Nat) (applyOffset : Int → Int)
    (m : ChannelMerger) (index : Nat) (stream : List Bunch) :
    ChannelMerger.sameLayout (ChannelMerger.prepareChannel w m index).1
      (ChannelMerger.AddChannel w rand applyOffset m index stream) := by
  unfold ChannelMerger.AddChannel
  exact bunchLoop_sameLayout w rand applyOffset _ _ _ stream _

/-! ### The growth step of `AddChannel` -/

/-- The growth step in terms of the slot and of the required size. -/
theorem prepareChannel_eq (w : Nat) (m : ChannelMerger) (index : Nat) :
    ChannelMerger.prepareChannel w m index
      = (if (((ChannelMerger.assignPosition m index).1 + 1)
              * (m.mChannelLenght * sizeofBuffer w)) % UINT_MOD > m.mBufferSize then
          ChannelMerger.GrowBuffer w
            { m with mChannelPositions := (ChannelMerger.assignPosition m index).2 }
            (ChannelMerger.growthSize m
              ((((ChannelMerger.assignPosition m index).1 + 1)
                * (m.mChannelLenght * sizeofBuffer w)) % UINT_MOD))
        else { m with mChannelPositions := (ChannelMerger.assignPosition m index).2 },
        (ChannelMerger.assignPosition m index).1) := rfl

/-- The size chosen by the growth step is at least the required size. -/
theorem growthSize_ge (m : ChannelMerger) (req : Nat) : req ≤ ChannelMerger.growthSize m req := by
  unfold ChannelMerger.growthSize
  split_ifs with h1 h2
  · exact le_of_lt h1.2
  · exact le_of_lt h2
  · exact le_refl req

/-- The capacity after the growth step, when the required size exceeds the
capacity before it, is the size chosen by the growth step. -/
theorem prepareChannel_capacity (w : Nat) (m : ChannelMerger) (index : Nat)
    (hreq : m.mBufferSize < (((ChannelMerger.assignPosition m index).1 + 1)
      * (m.mChannelLenght * sizeofBuffer w)) % UINT_MOD) :
    (ChannelMerger.prepareChannel w m index).1.mBufferSize
      = ChannelMerger.growthSize m ((((ChannelMerger.assignPosition m index).1 + 1)
          * (m.mChannelLenght * sizeofBuffer w)) % UINT_MOD) := by
  have hge := growthSize_ge m ((((ChannelMerger.assignPosition m index).1 + 1)
    * (m.mChannelLenght * sizeofBuffer w)) % UINT_MOD)
  rw [prepareChannel_eq]
  simp only [gt_iff_lt, hreq, if_true]
  unfold ChannelMerger.GrowBuffer
  simp only []
  rw [if_neg (by omega)]

/-- C14 fails as stated: from the initial capacity 0 the first channel, which
requires 2048, makes the capacity `mInitialBufferSize` = 1228800000 and not
`max 2048 (2*0)`; and at the capacity 2457600000 the doubled capacity wraps in
the `unsigned` word, so a channel that requires 2457602048 makes the capacity
2457602048 and not `max 2457602048 (2*2457600000)`. -/
theorem growth_policy_fails_from_initial_capacity :
    (ChannelMerger.init 16).mBufferSize = 0 ∧
    (((ChannelMerger.assignPosition (ChannelMerger.init 16) 7).1 + 1)
      * ((ChannelMerger.init 16).mChannelLenght * sizeofBuffer 16)) % UINT_MOD = 2048 ∧
    (ChannelMerger.prepareChannel 16 (ChannelMerger.init 16) 7).1.mBufferSize = 1228800000 ∧
    max 2048 (2 * (ChannelMerger.init 16).mBufferSize) = 2048 ∧
    ChannelMerger.growthSize
        { ChannelMerger.init 16 with
          mBufferSize := 2457600000
          mBuffer := some (List.replicate 2457600000 65535)
          mUnderflowBuffer := some (List.replicate 2457600000 65535) } 2457602048
      = 2457602048 ∧
    max 2457602048 (2 * 2457600000) = 4915200000 := by
  refine ⟨rfl, by decide, ?_, by decide, by decide, by decide⟩
  rw [prepareChannel_capacity 16 (ChannelMerger.init 16) 7 (by decide)]
  decide

/-- C14 (amended): the growth policy.  Whenever the size required for a
channel exceeds the current capacity, the growth step of `AddChannel` makes
the new capacity `mInitialBufferSize` if the capacity is 0 and the required
size is below `mInitialBufferSize`, and otherwise, provided the doubled
capacity fits the `unsigned` word, exactly the larger of the required size and
twice the current capacity; the rest of `AddChannel` leaves the capacity
alone. -/
theorem growth_policy (w : Nat) (rand : Nat → Nat) (applyOffset : Int → Int)
    (m : ChannelMerger) (index : Nat) (stream : List Bunch)
    (hreq : m.mBufferSize < (((ChannelMerger.assignPosition m index).1 + 1)
      * (m.mChannelLenght * sizeofBuffer w)) % UINT_MOD) :
    (m.mBufferSize = 0 →
      (((ChannelMerger.assignPosition m index).1 + 1)
        * (m.mChannelLenght * sizeofBuffer w)) % UINT_MOD < m.mInitialBufferSize →
      (ChannelMerger.prepareChannel w m index).1.mBufferSize = m.mInitialBufferSize) ∧
    (¬ (m.mBufferSize = 0 ∧
        (((ChannelMerger.assignPosition m index).1 + 1)
          * (m.mChannelLenght * sizeofBuffer w)) % UINT_MOD < m.mInitialBufferSize) →
      2 * m.mBufferSize < 2 ^ 32 →
      (ChannelMerger.prepareChannel w m index).1.mBufferSize
        = max ((((ChannelMerger.assignPosition m index).1 + 1)
            * (m.mChannelLenght * sizeofBuffer w)) % UINT_MOD) (2 * m.mBufferSize)) ∧
    (ChannelMerger.AddChannel w rand applyOffset m index stream).mBufferSize
      = (ChannelMerger.prepareChannel w m index).1.mBufferSize := by
  refine ⟨?_, ?_, (AddChannel_sameLayout w rand applyOffset m index stream).1⟩
  · intro h0 hlt
    rw [prepareChannel_capacity w m index hreq]
    unfold ChannelMerger.growthSize
    rw [if_pos ⟨h0, hlt⟩]
  · intro hn h2
    rw [prepareChannel_capacity w m index hreq]
    unfold ChannelMerger.growthSize
    rw [if_neg hn, Nat.mod_eq_of_lt (show 2 * m.mBufferSize < UINT_MOD from h2)]
    split_ifs with h
    · rw [max_eq_right (le_of_lt h)]
    · rw [max_eq_left (Nat.le_of_not_lt h)]

theorem growth_policy_witness :
    (ChannelMerger.prepareChannel 16 (ChannelMerger.init 16) 7).1.mBufferSize
      = (ChannelMerger.init 16).mInitialBufferSize ∧
    (ChannelMerger.prepareChannel 16
        { exampleMerger with mChannelPositions := [(7, 0), (9, 1)] } 11).1.mBufferSize
      = max ((((ChannelMerger.assignPosition
            { exampleMerger with mChannelPositions := [(7, 0), (9, 1)] } 11).1 + 1)
          * (({ exampleMerger with mChannelPositions := [(7, 0), (9, 1)] } :
              ChannelMerger).mChannelLenght * sizeofBuffer 16)) % UINT_MOD)
        (2 * ({ exampleMerger with mChannelPositions := [(7, 0), (9, 1)] } :
              ChannelMerger).mBufferSize) :=
  ⟨(growth_policy 16 (fun _ => 0) id (ChannelMerger.init 16) 7 [] (by decide)).1 rfl
      (by decide),
    (growth_policy 16 (fun _ => 0) id { exampleMerger with mChannelPositions := [(7, 0), (9, 1)] }
      11 [] (by decide)).2.1 (by decide) (by decide)⟩

/-! ### The capacity invariant -/

theorem mem_mapInsert (k v : Nat) (l : List (Nat × Nat)) (p : Nat × Nat)
    (h : p ∈ mapInsert k v l) : p = (k, v) ∨ p ∈ l := by
  induction l with
  | nil =>
    simp only [mapInsert, List.mem_singleton] at h
    exact Or.inl h
  | cons q rest ih =>
    obtain ⟨k1, v1⟩ := q
    simp only [mapInsert] at h
    split_ifs at h with h1 h2
    · rcases List.mem_cons.mp h with h | h
      · exact Or.inl h
      · exact Or.inr h
    · rcases List.mem_cons.mp h with h | h
      · exact Or.inl h
      · exact Or.inr (List.mem_cons_of_mem _ h)
    · rcases List.mem_cons.mp h with h | h
      · exact Or.inr (by rw [h]; exact List.mem_cons_self _ _)
      · rcases ih h with h | h
        · exact Or.inl h
        · exact Or.inr (List.mem_cons_of_mem _ h)

/-- The channel index after the lookup of `AddChannel` holds the old entries
and at most the entry of the channel at hand. -/
theorem mem_assignPosition (m : ChannelMerger) (index : Nat) (p : Nat × Nat)
    (h : p ∈ (ChannelMerger.assignPosition m index).2) :
    p.2 = (ChannelMerger.assignPosition m index).1 ∨ p ∈ m.mChannelPositions := by
  unfold ChannelMerger.assignPosition at h ⊢
  cases hl : m.mChannelPositions.lookup index with
  | none =>
    rw [hl] at h
    simp only [] at h ⊢
    rcases mem_mapInsert _ _ _ _ h with h | h
    · exact Or.inl (by rw [h])
    · exact Or.inr h
  | some s =>
    rw [hl] at h
    exact Or.inr h

/-- The growth step never lowers the capacity, reaches the required size, keeps
the channel length, and leaves buffers of exactly the capacity. -/
theorem prepareChannel_layout (w : Nat) (m : ChannelMerger) (index : Nat)
    (hb : (m.mBuffer.getD []).length = m.mBufferSize)
    (hu : (m.mUnderflowBuffer.getD []).length = m.mBufferSize) :
    m.mBufferSize ≤ (ChannelMerger.prepareChannel w m index).1.mBufferSize ∧
    (((ChannelMerger.assignPosition m index).1 + 1)
        * (m.mChannelLenght * sizeofBuffer w)) % UINT_MOD
      ≤ (ChannelMerger.prepareChannel w m index).1.mBufferSize ∧
    (ChannelMerger.prepareChannel w m index).1.mChannelLenght = m.mChannelLenght ∧
    (ChannelMerger.prepareChannel w m index).1.mChannelPositions
      = (ChannelMerger.assignPosition m index).2 ∧
    (ChannelMerger.prepareChannel w m index).2 = (ChannelMerger.assignPosition m index).1 ∧
    ((ChannelMerger.prepareChannel w m index).1.mBuffer.getD []).length
      = (ChannelMerger.prepareChannel w m index).1.mBufferSize ∧
    ((ChannelMerger.prepareChannel w m index).1.mUnderflowBuffer.getD []).length
      = (ChannelMerger.prepareChannel w m index).1.mBufferSize := by
  have hge := growthSize_ge m ((((ChannelMerger.assignPosition m index).1 + 1)
    * (m.mChannelLenght * sizeofBuffer w)) % UINT_MOD)
  rw [prepareChannel_eq]
  by_cases hreq : (((ChannelMerger.assignPosition m index).1 + 1)
      * (m.mChannelLenght * sizeofBuffer w)) % UINT_MOD > m.mBufferSize
  · simp only [hreq, if_true]
    have hlt : m.mBufferSize < ChannelMerger.growthSize m
        ((((ChannelMerger.assignPosition m index).1 + 1)
          * (m.mChannelLenght * sizeofBuffer w)) % UINT_MOD) := by omega
    obtain ⟨g0, g1, g2, ⟨g3, g4⟩, _, _⟩ := GrowBuffer_preserves w
      { m with mChannelPositions := (ChannelMerger.assignPosition m index).2 }
      (ChannelMerger.growthSize m
        ((((ChannelMerger.assignPosition m index).1 + 1)
          * (m.mChannelLenght * sizeofBuffer w)) % UINT_MOD)) hb hu hlt
    refine ⟨by rw [g0]; omega, by rw [g0]; exact hge, ?_, ?_, trivial, by rw [g3, g0],
      by rw [g4, g0]⟩
    · unfold ChannelMerger.GrowBuffer
      simp only []
      rw [if_neg (by omega)]
    · unfold ChannelMerger.GrowBuffer
      simp only []
      rw [if_neg (by omega)]
  · simp only [hreq, if_false]
    exact ⟨le_refl _, by omega, trivial, trivial, trivial, hb, hu⟩

/-- C15: the capacity invariant.  For a state whose buffers hold `mBufferSize`
cells and whose capacity covers every assigned slot, and a call of
`AddChannel` for which `(slot+1) * L * sizeof(buffer_t)` does not overflow the
`unsigned` word: after the growth step the capacity is at least
`(slot+1) * L` for every assigned slot, the slot of the call included, the
assertion `position + L <= mBufferSize` holds, and every cell index
`slot*L + t` with `t < L` is inside both buffers; the state that `AddChannel`
returns satisfies the same invariant, so it holds again at the next call. -/
theorem capacity_invariant (w : Nat) (rand : Nat → Nat) (applyOffset : Int → Int)
    (m : ChannelMerger) (index : Nat) (stream : List Bunch)
    (hw : 8 ≤ w)
    (hb : (m.mBuffer.getD []).length = m.mBufferSize)
    (hu : (m.mUnderflowBuffer.getD []).length = m.mBufferSize)
    (hinv : ∀ p ∈ m.mChannelPositions, (p.2 + 1) * m.mChannelLenght ≤ m.mBufferSize)
    (hno : ((ChannelMerger.assignPosition m index).1 + 1)
      * (m.mChannelLenght * sizeofBuffer w) < 2 ^ 32) :
    (∀ p ∈ (ChannelMerger.prepareChannel w m index).1.mChannelPositions,
      (p.2 + 1) * (ChannelMerger.prepareChannel w m index).1.mChannelLenght
        ≤ (ChannelMerger.prepareChannel w m index).1.mBufferSize) ∧
    ChannelMerger.capacityAssertion w m index = true ∧
    (∀ t, t < (ChannelMerger.prepareChannel w m index).1.mChannelLenght →
      (ChannelMerger.prepareChannel w m index).2
          * (ChannelMerger.prepareChannel w m index).1.mChannelLenght + t
        < ((ChannelMerger.prepareChannel w m index).1.mBuffer.getD []).length ∧
      (ChannelMerger.prepareChannel w m index).2
          * (ChannelMerger.prepareChannel w m index).1.mChannelLenght + t
        < ((ChannelMerger.prepareChannel w m index).1.mUnderflowBuffer.getD []).length) ∧
    (∀ p ∈ (ChannelMerger.AddChannel w rand applyOffset m index stream).mChannelPositions,
      (p.2 + 1) * (ChannelMerger.AddChannel w rand applyOffset m index stream).mChannelLenght
        ≤ (ChannelMerger.AddChannel w rand applyOffset m index stream).mBufferSize) ∧
    ((ChannelMerger.AddChannel w rand applyOffset m index stream).mBuffer.getD []).length
      = (ChannelMerger.AddChannel w rand applyOffset m index stream).mBufferSize ∧
    ((ChannelMerger.AddChannel w rand applyOffset m index stream).mUnderflowBuffer.getD []).length
      = (ChannelMerger.AddChannel w rand applyOffset m index stream).mBufferSize := by
  obtain ⟨hcap, hreq, hL, hpos, hslot, hlb, hlu⟩ := prepareChannel_layout w m index hb hu
  obtain ⟨f1, f2, _, f4, f5, f6⟩ := AddChannel_sameLayout w rand applyOffset m index stream
  have hsz : 1 ≤ sizeofBuffer w := by unfold sizeofBuffer; omega
  rw [Nat.mod_eq_of_lt (show _ < UINT_MOD from hno)] at hreq
  have hslotL : ((ChannelMerger.assignPosition m index).1 + 1) * m.mChannelLenght
      ≤ (ChannelMerger.prepareChannel w m index).1.mBufferSize := by
    refine le_trans ?_ hreq
    exact Nat.mul_le_mul_left _ (Nat.le_mul_of_pos_right _ hsz)
  have hall : ∀ p ∈ (ChannelMerger.prepareChannel w m index).1.mChannelPositions,
      (p.2 + 1) * (ChannelMerger.prepareChannel w m index).1.mChannelLenght
        ≤ (ChannelMerger.prepareChannel w m index).1.mBufferSize := by
    intro p hp
    rw [hL]
    rw [hpos] at hp
    rcases mem_assignPosition m index p hp with h | h
    · rw [h]; exact hslotL
    · exact le_trans (hinv p h) hcap
  have hexp : ((ChannelMerger.assignPosition m index).1 + 1) * m.mChannelLenght
      = (ChannelMerger.assignPosition m index).1 * m.mChannelLenght + m.mChannelLenght := by
    ring
  have hlt32 : (ChannelMerger.assignPosition m index).1 * m.mChannelLenght + m.mChannelLenght
      < 2 ^ 32 := by
    have : ((ChannelMerger.assignPosition m index).1 + 1) * m.mChannelLenght
        ≤ ((ChannelMerger.assignPosition m index).1 + 1) * (m.mChannelLenght * sizeofBuffer w) :=
      Nat.mul_le_mul_left _ (Nat.le_mul_of_pos_right _ hsz)
    omega
  refine ⟨hall, ?_, ?_, ?_, by rw [f5, f1, hlb], by rw [f6, f1, hlu]⟩
  · unfold ChannelMerger.capacityAssertion
    simp only [hslot, hL, decide_eq_true_eq]
    rw [Nat.mod_eq_of_lt (show _ < UINT_MOD by unfold UINT_MOD; omega),
      Nat.mod_eq_of_lt (show _ < UINT_MOD by unfold UINT_MOD; omega)]
    omega
  · intro t ht
    rw [hL] at ht
    rw [hlb, hlu, hslot, hL]
    omega
  · intro p hp
    rw [f4] at hp
    rw [f2, f1]
    exact hall p hp

theorem capacity_invariant_witness :
    ChannelMerger.capacityAssertion 16 exampleMerger 9 = true ∧
    ((ChannelMerger.AddChannel 16 (fun _ => 0) id exampleMerger 9
        [Bunch.mk 3 [9, 8]]).mBuffer.getD []).length
      = (ChannelMerger.AddChannel 16 (fun _ => 0) id exampleMerger 9
        [Bunch.mk 3 [9, 8]]).mBufferSize :=
  ⟨(capacity_invariant 16 (fun _ => 0) id exampleMerger 9 [Bunch.mk 3 [9, 8]] (by decide)
      (by decide) (by decide) (by decide) (by decide)).2.1,
    (capacity_invariant 16 (fun _ => 0) id exampleMerger 9 [Bunch.mk 3 [9, 8]] (by decide)
      (by decide) (by decide) (by decide) (by decide)).2.2.2.2.1⟩

/-! ### The start of a timeframe and the overflow counter -/

/-- C16: `StartTimeframe` resets the run counters and leaves the
configuration alone.  After the call the overflow counter is 0 and every
occupancy entry holds -1, while the keys of the occupancy map, the channel
index, the capacity, the baselines, the zero suppression threshold with the
baseline shift (hence `GetThreshold`), the channel length, the initial size
and the noise factor are unchanged. -/
theorem StartTimeframe_resets_counters (w : Nat) (m : ChannelMerger) :
    (ChannelMerger.StartTimeframe w m).mSignalOverflowCount = 0 ∧
    (∀ e ∈ (ChannelMerger.StartTimeframe w m).mChannelOccupancy, e.2 = -1) ∧
    (ChannelMerger.StartTimeframe w m).mChannelOccupancy.map Prod.fst
      = m.mChannelOccupancy.map Prod.fst ∧
    (ChannelMerger.StartTimeframe w m).mChannelPositions = m.mChannelPositions ∧
    (ChannelMerger.StartTimeframe w m).mBufferSize = m.mBufferSize ∧
    (ChannelMerger.StartTimeframe w m).mChannelBaseline = m.mChannelBaseline ∧
    (ChannelMerger.StartTimeframe w m).mZSThreshold = m.mZSThreshold ∧
    (ChannelMerger.StartTimeframe w m).mBaselineshift = m.mBaselineshift ∧
    ChannelMerger.GetThreshold w (ChannelMerger.StartTimeframe w m)
      = ChannelMerger.GetThreshold w m ∧
    (ChannelMerger.StartTimeframe w m).mChannelLenght = m.mChannelLenght ∧
    (ChannelMerger.StartTimeframe w m).mInitialBufferSize = m.mInitialBufferSize ∧
    (ChannelMerger.StartTimeframe w m).mNoiseFactor = m.mNoiseFactor := by
  refine ⟨rfl, ?_, ?_, rfl, rfl, rfl, rfl, rfl, rfl, rfl, rfl, rfl⟩
  · intro e he
    simp only [ChannelMerger.StartTimeframe, List.mem_map] at he
    obtain ⟨a, _, ha⟩ := he
    rw [← ha]
  · simp [ChannelMerger.StartTimeframe, Function.comp_def]

/-- The value of `currentSignal` handed to the cell store is at most the raw
sample. -/
theorem currentSignalOf_le (w : Nat) (m : ChannelMerger) (threshold baseline : Nat)
    (signals : List Nat) (i : Nat) (pk : Bool) :
    ChannelMerger.currentSignalOf w m threshold baseline signals i pk ≤ readAt signals i := by
  unfold ChannelMerger.currentSignalOf
  simp only []
  split_ifs <;> omega

/-- The range overflow branch of the cell store: a cell that holds a value
and would exceed the ceiling is set to the ceiling. -/
theorem storeCell_overflow (w : Nat) (m : ChannelMerger) (r c cs os : Nat)
    (hw : 2 ^ w ≤ 2 ^ 32) (hcv : c ≠ VOID_SIGNAL w) (hcs : cs ≤ MAX_ACCUMULATED_SIGNAL w)
    (hover : MAX_ACCUMULATED_SIGNAL w < c + cs) :
    ChannelMerger.storeCell w m r c cs os = (MAX_ACCUMULATED_SIGNAL w, true, false) := by
  have hpos : 0 < 2 ^ w := Nat.pow_pos (by decide)
  have hM : MAX_ACCUMULATED_SIGNAL w < 2 ^ w := by
    unfold MAX_ACCUMULATED_SIGNAL VOID_SIGNAL; omega
  have h1 : toUnsigned ((MAX_ACCUMULATED_SIGNAL w : Int) - (cs : Int))
      = MAX_ACCUMULATED_SIGNAL w - cs := by
    rw [← Int.ofNat_sub hcs]
    exact toUnsigned_natCast _ (by omega)
  unfold ChannelMerger.storeCell
  rw [if_neg hcv, h1, if_pos (by omega)]

/-- C17: the overflow is counted for the current buffer only.  When the
sample loop of `AddChannel` (assertions disabled) adds a sample below 1024 to
a cell that holds a value and the sum would exceed
`MAX_ACCUMULATED_SIGNAL`: in the underflow buffer (timebin in `[-L, 0)`) the
cell is set to the ceiling and the overflow counter is unchanged; in the
current buffer (timebin in `[0, L)`) the cell is set to the ceiling and the
counter is incremented by 1. -/
theorem overflow_counted_for_current_only (w : Nat) (rand : Nat → Nat)
    (position threshold baseline : Nat) (startTime : Int) (signals : List Nat) (i : Nat)
    (pk : Bool) (m : ChannelMerger) (b u : List Nat)
    (hw : 11 ≤ w) (hw32 : w ≤ 32) (hL : m.mChannelLenght < 2 ^ 31)
    (hb : m.mBuffer = some b) (hu : m.mUnderflowBuffer = some u)
    (hsample : readAt signals i < 1024) :
    (∀ t : Nat, startTime - (i : Int) < 0 →
      startTime - (i : Int) + (m.mChannelLenght : Int) = (t : Int) →
      position + t < 2 ^ 32 → readAt u (position + t) ≠ VOID_SIGNAL w →
      MAX_ACCUMULATED_SIGNAL w < readAt u (position + t)
        + ChannelMerger.currentSignalOf w m threshold baseline signals i pk →
      (ChannelMerger.sampleBody w rand position threshold baseline startTime signals i
          (m, pk)).1.mUnderflowBuffer
        = some (u.set (position + t) (MAX_ACCUMULATED_SIGNAL w)) ∧
      (ChannelMerger.sampleBody w rand position threshold baseline startTime signals i
          (m, pk)).1.mSignalOverflowCount = m.mSignalOverflowCount) ∧
    (∀ t : Nat, startTime - (i : Int) = (t : Int) → t < m.mChannelLenght →
      position + t < 2 ^ 32 → readAt b (position + t) ≠ VOID_SIGNAL w →
      MAX_ACCUMULATED_SIGNAL w < readAt b (position + t)
        + ChannelMerger.currentSignalOf w m threshold baseline signals i pk →
      (ChannelMerger.sampleBody w rand position threshold baseline startTime signals i
          (m, pk)).1.mBuffer
        = some (b.set (position + t) (MAX_ACCUMULATED_SIGNAL w)) ∧
      (ChannelMerger.sampleBody w rand position threshold baseline startTime signals i
          (m, pk)).1.mSignalOverflowCount = m.mSignalOverflowCount + 1) := by
  obtain ⟨hp1, hp2⟩ := pow_word_bounds w hw hw32
  have hcs := currentSignalOf_le w m threshold baseline signals i pk
  have hM : MAX_ACCUMULATED_SIGNAL w = 2 ^ w - 2 := by
    unfold MAX_ACCUMULATED_SIGNAL VOID_SIGNAL; omega
  constructor
  · intro t hneg htb h32 hcv hover
    unfold ChannelMerger.sampleBody
    simp only []
    rw [accumulate_underflow w rand m u position t _ _ _ hL hneg htb hu h32,
      storeCell_overflow w m _ _ _ _ hp2 hcv (by omega) hover]
    exact ⟨rfl, rfl⟩
  · intro t htb ht h32 hcv hover
    unfold ChannelMerger.sampleBody
    simp only [htb]
    rw [accumulate_current w rand m b position t _ _ hL ht hb h32,
      storeCell_overflow w m _ _ _ _ hp2 hcv (by omega) hover]
    exact ⟨rfl, rfl⟩

theorem overflow_counted_for_current_only_witness :
    ((ChannelMerger.sampleBody 16 (fun _ => 0) 0 65535 0 (-1) [1000] 0
        ({ exampleMerger with mUnderflowBuffer := some (List.replicate 8 65000) }, false)
        ).1.mUnderflowBuffer
        = some ((List.replicate 8 65000).set (0 + 3) (MAX_ACCUMULATED_SIGNAL 16)) ∧
      (ChannelMerger.sampleBody 16 (fun _ => 0) 0 65535 0 (-1) [1000] 0
        ({ exampleMerger with mUnderflowBuffer := some (List.replicate 8 65000) }, false)
        ).1.mSignalOverflowCount
        = ({ exampleMerger with mUnderflowBuffer := some (List.replicate 8 65000) } :
            ChannelMerger).mSignalOverflowCount) ∧
    ((ChannelMerger.sampleBody 16 (fun _ => 0) 0 65535 0 3 [1000] 0
        ({ exampleMerger with mBuffer := some (List.replicate 8 65000) }, false)).1.mBuffer
        = some ((List.replicate 8 65000).set (0 + 3) (MAX_ACCUMULATED_SIGNAL 16)) ∧
      (ChannelMerger.sampleBody 16 (fun _ => 0) 0 65535 0 3 [1000] 0
        ({ exampleMerger with mBuffer := some (List.replicate 8 65000) }, false)
        ).1.mSignalOverflowCount
        = ({ exampleMerger with mBuffer := some (List.replicate 8 65000) } :
            ChannelMerger).mSignalOverflowCount + 1) :=
  ⟨(overflow_counted_for_current_only 16 (fun _ => 0) 0 65535 0 (-1) [1000] 0 false
      { exampleMerger with mUnderflowBuffer := some (List.replicate 8 65000) }
      (List.replicate 8 65535) (List.replicate 8 65000) (by decide) (by decide) (by decide)
      rfl rfl (by decide)).1 3 (by decide) rfl (by decide) (by decide) (by decide),
    (overflow_counted_for_current_only 16 (fun _ => 0) 0 65535 0 3 [1000] 0 false
      { exampleMerger with mBuffer := some (List.replicate 8 65000) }
      (List.replicate 8 65000) (List.replicate 8 65535) (by decide) (by decide) (by decide)
      rfl rfl (by decide)).2 3 rfl (by decide) (by decide) (by decide) (by decide)⟩

/-! ### The Huffman bit count -/

/-- The statement `bitcount+=(40-bitcount%40)` yields the smallest multiple of
40 that is strictly greater than the bit count. -/
theorem alignBitcount_eq (b : Nat) (hno : b + 40 < 2 ^ 32) :
    ChannelMerger.alignBitcount b = 40 * (b / 40 + 1) ∧
    (b % 40 ≠ 0 → ChannelMerger.alignBitcount b = 40 * ((b + 39) / 40)) ∧
    (b % 40 = 0 → ChannelMerger.alignBitcount b = b + 40) := by
  have h : ChannelMerger.alignBitcount b = b + (40 - b % 40) := by
    unfold ChannelMerger.alignBitcount UINT_MOD
    exact Nat.mod_eq_of_lt (by omega)
  rw [h]
  refine ⟨by omega, fun _ => by omega, fun _ => by omega⟩

/-- C19: the alignment of the bit count at a failing input.  In encoding mode
without cutoff, a channel of 4 timebins whose symbols all have code length 10
is charged 40 bits, a multiple of 40; the statement
`bitcount+=(40-bitcount%40)` makes the total 80, not 40, and the factor is
40/80 in place of 40/40.  The same holds for every charged bit count that is
a multiple of 40, as for 40 and 4000. -/
theorem alignment_adds_word_to_exact_multiple :
    ChannelMerger.huffmanBitcount 16 (fun _ => 10) false 0
        (exampleMerger.mBuffer.getD []) 0 exampleMerger.mChannelLenght = 40 ∧
    ChannelMerger.huffmanChannel 16 (fun _ => 10) false 0 exampleMerger 0 = some (80, 40) ∧
    ChannelMerger.DoHuffmanCompression 16 (fun _ => 10) false 0 exampleMerger
      = [(7, some (80, 40))] ∧
    ChannelMerger.alignBitcount 40 = 80 ∧
    ChannelMerger.alignBitcount 4000 = 4040 := by
  refine ⟨by decide, by decide, by decide, by decide, by decide⟩

/-- C20: the charge at the cutoff.  With the cutoff 12 a symbol of code
length 12, which does not exceed the cutoff, is charged 22 bits, not 12: on
the first timebin of the channel of `exampleMerger` the bit count goes from 0
to 22. -/
theorem escape_cost_at_cutoff_is_flat :
    ChannelMerger.chargeSymbol 12 12 0 = 22 ∧
    (ChannelMerger.huffmanBody 16 (fun _ => 12) false 12
      (exampleMerger.mBuffer.getD []) 0 (0, 0) 0).1 = 22 := by
  refine ⟨by decide, by decide⟩

/-- C20: the escape cost.  In encoding mode, when the `unsigned` bit count
does not wrap, the body of the loop over the timebins charges a symbol of
code length `l` as follows: with cutoff 0 it is charged `l` bits; with a
cutoff `c > 0` it is charged `l` bits when `l < c` and the flat cost `c + 10`
when `l ≥ c`.  In training mode nothing is charged. -/
theorem escape_cost (w : Nat) (codeLength : Nat → Nat) (symbolCutoffLength : Nat)
    (buffer : List Nat) (position bitcount lastSignal i : Nat)
    (hl : bitcount + codeLength (ChannelMerger.huffmanSymbol
      (ChannelMerger.huffmanSignal w (readAt buffer ((position + i) % UINT_MOD))) lastSignal)
      < 2 ^ 32)
    (hc : bitcount + symbolCutoffLength + 10 < 2 ^ 32) :
    (ChannelMerger.huffmanBody w codeLength false symbolCutoffLength buffer position
        (bitcount, lastSignal) i).1
      = bitcount +
        (if symbolCutoffLength = 0 then
          codeLength (ChannelMerger.huffmanSymbol
            (ChannelMerger.huffmanSignal w (readAt buffer ((position + i) % UINT_MOD)))
            lastSignal)
        else if codeLength (ChannelMerger.huffmanSymbol
            (ChannelMerger.huffmanSignal w (readAt buffer ((position + i) % UINT_MOD)))
            lastSignal) < symbolCutoffLength then
          codeLength (ChannelMerger.huffmanSymbol
            (ChannelMerger.huffmanSignal w (readAt buffer ((position + i) % UINT_MOD)))
            lastSignal)
        else symbolCutoffLength + 10) ∧
    (ChannelMerger.huffmanBody w codeLength true symbolCutoffLength buffer position
        (bitcount, lastSignal) i).1 = bitcount := by
  have hU : UINT_MOD = 2 ^ 32 := rfl
  refine ⟨?_, rfl⟩
  simp only [ChannelMerger.huffmanBody, ChannelMerger.chargeSymbol, Bool.false_eq_true,
    if_false]
  generalize codeLength (ChannelMerger.huffmanSymbol
    (ChannelMerger.huffmanSignal w (readAt buffer ((position + i) % UINT_MOD))) lastSignal)
    = l at hl ⊢
  by_cases h0 : symbolCutoffLength = 0
  · rw [if_pos (Or.inl h0), if_pos h0]
    exact Nat.mod_eq_of_lt (by rw [hU]; exact hl)
  · by_cases hlt : l < symbolCutoffLength
    · rw [if_pos (Or.inr hlt), if_neg h0, if_pos hlt]
      exact Nat.mod_eq_of_lt (by rw [hU]; exact hl)
    · rw [if_neg (by omega), if_neg h0, if_neg hlt,
        Nat.mod_eq_of_lt (a := bitcount + symbolCutoffLength) (by rw [hU]; omega),
        Nat.mod_eq_of_lt (by rw [hU]; omega)]
      omega

theorem escape_cost_witness :
    (ChannelMerger.huffmanBody 16 (fun v => v - 1012) false 12 [3, 3] 0 (7, 3) 1).1 = 29 ∧
    (ChannelMerger.huffmanBody 16 (fun v => v - 1012) true 12 [3, 3] 0 (7, 3) 1).1 = 7 :=
  escape_cost 16 (fun v => v - 1012) 12 [3, 3] 0 7 3 1 (by decide) (by decide)

/-! ### The common mode correction -/

theorem readAt_of_length_le (l : List Nat) (j : Nat) (h : l.length ≤ j) : readAt l j = 0 := by
  unfold readAt
  exact List.getD_eq_default _ _ h

theorem readAt_drop (l : List Nat) (k j : Nat) : readAt (l.drop k) j = readAt l (k + j) := by
  unfold readAt
  simp [List.getElem?_drop]

theorem readAt_replicate_zero (n j : Nat) : readAt (List.replicate n 0) j = 0 := by
  unfold readAt
  by_cases h : j < n
  · simp [List.getElem?_replicate, h]
  · simp [List.getElem?_replicate, h]

/-- Two buffers that agree on the cells of a channel have the same slice. -/
theorem slice_eq_of_readAt (b c : List Nat) (pos n : Nat) (hb : pos + n ≤ b.length)
    (hc : pos + n ≤ c.length) (h : ∀ t, t < n → readAt c (pos + t) = readAt b (pos + t)) :
    (c.drop pos).take n = (b.drop pos).take n := by
  apply List.ext_getElem
  · simp only [List.length_take, List.length_drop]; omega
  · intro i h1 h2
    have hi : i < n := by
      simp only [List.length_take, List.length_drop] at h1; omega
    have e := h i hi
    unfold readAt at e
    rw [List.getD_eq_getElem c 0 (by omega), List.getD_eq_getElem b 0 (by omega)] at e
    simp only [List.getElem_take, List.getElem_drop]
    exact e

/-- The pass called for a channel with a target vector of its own. -/
theorem pass_separate (w thr : Nat) (shift : Int) (b zs : List Nat) (pos n : Nat)
    (hn : n < 2 ^ 31) (hfit : pos + n ≤ b.length) (hzs : zs.length = n) :
    ChannelMerger.SignalBufferZeroSuppression w (ChannelMerger.offsetPtr (some b) pos) n thr
        shift (ChannelMerger.Target.separate zs)
      = (((ChannelMerger.scanCount w thr shift false false ((b.drop pos).take n).reverse : Nat)
            : Int),
          some (b.drop pos),
          ChannelMerger.Target.separate (ChannelMerger.channelZS w thr shift n b pos)) := by
  have h := (SignalBufferZeroSuppression_eq_scan w thr shift (b.drop pos) zs n hn
    (by rw [List.length_drop]; omega) hzs).2.1
  exact h

theorem channelZS_length (w thr : Nat) (shift : Int) (b : List Nat) (pos n : Nat)
    (hfit : pos + n ≤ b.length) :
    (ChannelMerger.channelZS w thr shift n b pos).length = n := by
  unfold ChannelMerger.channelZS
  rw [List.length_reverse, scanValues_length, List.length_reverse, List.length_take,
    List.length_drop]
  omega

theorem cmAdd_length (w : Nat) (zs : List Nat) (n : Nat) :
    ∀ cm : List Nat, (ChannelMerger.cmAdd w n zs cm).length = cm.length := by
  induction n with
  | zero => intro cm; rfl
  | succ k ih =>
    intro cm
    have ihk := ih cm
    unfold ChannelMerger.cmAdd at ihk ⊢
    rw [List.range_succ, List.foldl_append, List.foldl_cons, List.foldl_nil]
    split_ifs
    · exact ihk
    · rw [List.length_set]; exact ihk

/-- The cells of `cmSignal` after the signal of one channel is added. -/
theorem cmAdd_readAt (w : Nat) (zs : List Nat) (n : Nat) :
    ∀ (cm : List Nat) (j : Nat), readAt (ChannelMerger.cmAdd w n zs cm) j =
      if j < n ∧ j < cm.length then
        (if readAt zs j = VOID_SIGNAL w then readAt cm j
          else toBuffer w (readAt cm j + readAt zs j))
      else readAt cm j := by
  induction n with
  | zero => intro cm j; simp [ChannelMerger.cmAdd]
  | succ k ih =>
    intro cm j
    have ihk := ih cm
    have hlen := cmAdd_length w zs k cm
    unfold ChannelMerger.cmAdd at ihk hlen ⊢
    rw [List.range_succ, List.foldl_append, List.foldl_cons, List.foldl_nil]
    by_cases hv : readAt zs k = VOID_SIGNAL w
    · rw [if_pos hv, ihk j]
      by_cases hjk : j = k
      · subst hjk
        rw [if_neg (by omega), if_pos hv]
        split_ifs <;> rfl
      · by_cases hj : j < k
        · have h1 : (j < k ∧ j < cm.length) ↔ (j < k + 1 ∧ j < cm.length) := by omega
          simp only [h1]
        · rw [if_neg (by omega), if_neg (by omega)]
    · rw [if_neg hv]
      by_cases hjk : j = k
      · subst hjk
        by_cases hl : j < cm.length
        · rw [readAt_set_self _ _ _ (by rw [hlen]; exact hl), ihk j,
            if_neg (by omega), if_pos ⟨Nat.lt_succ_self j, hl⟩, if_neg hv]
        · rw [List.set_eq_of_length_le (by rw [hlen]; omega), ihk j, if_neg (by omega),
            if_neg (by omega)]
      · rw [readAt_set_ne _ _ _ _ (Ne.symm hjk), ihk j]
        by_cases hj : j < k
        · have h1 : (j < k ∧ j < cm.length) ↔ (j < k + 1 ∧ j < cm.length) := by omega
          simp only [h1]
        · rw [if_neg (by omega), if_neg (by omega)]

/-- The first loop over the channels: `cmSignal` receives, timebin by timebin,
the sum of the zero suppressed signals of the channels, as long as the sum
fits the sample word. -/
theorem cmSum_spec (w : Nat) (m : ChannelMerger) (b : List Nat) (hb : m.mBuffer = some b)
    (hL : m.mChannelLenght < 2 ^ 31) :
    ∀ (chans : List (Nat × Nat)) (cm zs : List Nat),
      (∀ p ∈ chans, p.2 * m.mChannelLenght + m.mChannelLenght ≤ b.length ∧
        p.2 * m.mChannelLenght < 2 ^ 32) →
      cm.length = m.mChannelLenght → zs.length = m.mChannelLenght →
      (∀ t, t < m.mChannelLenght →
        readAt cm t + (chans.map (fun p => ChannelMerger.voidAsZero w
          (readAt (ChannelMerger.channelZS w (ChannelMerger.GetThreshold w m) m.mBaselineshift
            m.mChannelLenght b (p.2 * m.mChannelLenght)) t))).sum < 2 ^ w) →
      (ChannelMerger.cmSum w m chans cm zs).1 = 0 ∧
      (ChannelMerger.cmSum w m chans cm zs).2.1.length = m.mChannelLenght ∧
      (ChannelMerger.cmSum w m chans cm zs).2.2.length = m.mChannelLenght ∧
      ∀ t, t < m.mChannelLenght →
        readAt (ChannelMerger.cmSum w m chans cm zs).2.1 t
          = readAt cm t + (chans.map (fun p => ChannelMerger.voidAsZero w
              (readAt (ChannelMerger.channelZS w (ChannelMerger.GetThreshold w m)
                m.mBaselineshift m.mChannelLenght b (p.2 * m.mChannelLenght)) t))).sum := by
  intro chans
  induction chans with
  | nil =>
    intro cm zs _ hcm hzs _
    exact ⟨rfl, hcm, hzs, fun t _ => by simp [ChannelMerger.cmSum]⟩
  | cons p rest ih =>
    intro cm zs hfit hcm hzs hsum
    obtain ⟨idx, slot⟩ := p
    have hp := hfit (idx, slot) (List.mem_cons_self _ _)
    have hpos : (slot * m.mChannelLenght) % UINT_MOD = slot * m.mChannelLenght :=
      Nat.mod_eq_of_lt hp.2
    have hpass := pass_separate w (ChannelMerger.GetThreshold w m) m.mBaselineshift b zs
      (slot * m.mChannelLenght) m.mChannelLenght hL hp.1 hzs
    have hzl := channelZS_length w (ChannelMerger.GetThreshold w m) m.mBaselineshift b
      (slot * m.mChannelLenght) m.mChannelLenght hp.1
    have hstep : ∀ t, t < m.mChannelLenght →
        readAt (ChannelMerger.cmAdd w m.mChannelLenght
          (ChannelMerger.channelZS w (ChannelMerger.GetThreshold w m) m.mBaselineshift
            m.mChannelLenght b (slot * m.mChannelLenght)) cm) t
          = readAt cm t + ChannelMerger.voidAsZero w
              (readAt (ChannelMerger.channelZS w (ChannelMerger.GetThreshold w m)
                m.mBaselineshift m.mChannelLenght b (slot * m.mChannelLenght)) t) := by
      intro t ht
      have hs := hsum t ht
      simp only [List.map_cons, List.sum_cons] at hs
      rw [cmAdd_readAt, if_pos ⟨ht, by omega⟩]
      unfold ChannelMerger.voidAsZero at hs ⊢
      by_cases hv : readAt (ChannelMerger.channelZS w (ChannelMerger.GetThreshold w m)
          m.mBaselineshift m.mChannelLenght b (slot * m.mChannelLenght)) t = VOID_SIGNAL w
      · rw [if_pos hv, if_pos hv]; rfl
      · rw [if_neg hv] at hs
        rw [if_neg hv, if_neg hv]
        exact Nat.mod_eq_of_lt (by omega)
    have hrec := ih (ChannelMerger.cmAdd w m.mChannelLenght
        (ChannelMerger.channelZS w (ChannelMerger.GetThreshold w m) m.mBaselineshift
          m.mChannelLenght b (slot * m.mChannelLenght)) cm)
      (ChannelMerger.channelZS w (ChannelMerger.GetThreshold w m) m.mBaselineshift
          m.mChannelLenght b (slot * m.mChannelLenght))
      (fun q hq => hfit q (List.mem_cons_of_mem _ hq))
      (by rw [cmAdd_length]; exact hcm) hzl
      (fun t ht => by
        have hs := hsum t ht
        simp only [List.map_cons, List.sum_cons] at hs
        rw [hstep t ht]; omega)
    have hunf : ChannelMerger.cmSum w m ((idx, slot) :: rest) cm zs
        = ChannelMerger.cmSum w m rest
            (ChannelMerger.cmAdd w m.mChannelLenght
              (ChannelMerger.channelZS w (ChannelMerger.GetThreshold w m) m.mBaselineshift
                m.mChannelLenght b (slot * m.mChannelLenght)) cm)
            (ChannelMerger.channelZS w (ChannelMerger.GetThreshold w m) m.mBaselineshift
              m.mChannelLenght b (slot * m.mChannelLenght)) := by
      simp only [ChannelMerger.cmSum, hpos, hb, hpass, ChannelMerger.targetVector]
      rw [if_neg (by omega)]
    rw [hunf]
    refine ⟨hrec.1, hrec.2.1, hrec.2.2.1, fun t ht => ?_⟩
    rw [hrec.2.2.2 t ht, hstep t ht]
    simp only [List.map_cons, List.sum_cons]
    omega

/-- The impact on one timebin is the ensemble signal without the signal of the
channel, `VOID_SIGNAL` counted as 0, divided by the scaling factor. -/
theorem cmImpactOf_eq (w e zs s : Nat) :
    ChannelMerger.cmImpactOf w e zs s = (e - ChannelMerger.voidAsZero w zs) / s := by
  unfold ChannelMerger.cmImpactOf ChannelMerger.voidAsZero
  by_cases hv : zs = VOID_SIGNAL w
  · simp [hv]
  · by_cases hgt : e > zs
    · simp [hv, hgt]
    · have h0 : e - zs = 0 := by omega
      simp [hv, hgt, h0]

/-- The buffer after the body of the loop over the timebins: the cell of the
timebin is lowered by the impact, with floor 0. -/
theorem cmCellBody_buffer (w : Nat) (cm zs : List Nat) (sf position : Nat)
    (s : ChannelMerger.CMLoop) (i : Nat) (hw : 2 ^ w ≤ 2 ^ 32)
    (hidx : position + i < 2 ^ 32) (hcell : readAt s.buffer (position + i) < 2 ^ w) :
    (ChannelMerger.cmCellBody w cm zs sf position s i).buffer
      = s.buffer.set (position + i)
          (readAt s.buffer (position + i)
            - ChannelMerger.cmImpactOf w (readAt cm i) (readAt zs i) sf) := by
  have hpos : (position + i) % UINT_MOD = position + i := Nat.mod_eq_of_lt hidx
  unfold ChannelMerger.cmCellBody
  simp only [hpos]
  generalize ChannelMerger.cmImpactOf w (readAt cm i) (readAt zs i) sf = a
  generalize readAt s.buffer (position + i) = c at hcell
  by_cases hlt : c < a
  · rw [if_pos hlt]
    have h0 : c - a = 0 := by omega
    simp only [h0]
  · rw [if_neg hlt]
    have hle : a ≤ c := by omega
    have h1 : toUnsigned ((c : Int) - (a : Int)) = c - a := by
      rw [← Int.ofNat_sub hle]
      exact toUnsigned_natCast _ (by omega)
    have h2 : toBuffer w (c - a) = c - a := Nat.mod_eq_of_lt (by omega)
    simp only [h1, h2]

/-- The buffer after the loop over the first `n` timebins of the channel at
`position`. -/
theorem cmCell_fold (w : Nat) (cm zs : List Nat) (sf position : Nat) (hw : 2 ^ w ≤ 2 ^ 32)
    (s0 : ChannelMerger.CMLoop) (hlen : s0.buffer.length ≤ 2 ^ 32)
    (hcells : ∀ j, readAt s0.buffer j < 2 ^ w) :
    ∀ n, position + n ≤ s0.buffer.length →
      ((List.range n).foldl (ChannelMerger.cmCellBody w cm zs sf position) s0).buffer.length
        = s0.buffer.length ∧
      ∀ j, readAt ((List.range n).foldl
          (ChannelMerger.cmCellBody w cm zs sf position) s0).buffer j
        = if position ≤ j ∧ j < position + n then
            readAt s0.buffer j
              - ChannelMerger.cmImpactOf w (readAt cm (j - position)) (readAt zs (j - position)) sf
          else readAt s0.buffer j := by
  intro n
  induction n with
  | zero =>
    intro _
    refine ⟨rfl, fun j => ?_⟩
    rw [if_neg (by omega)]; rfl
  | succ k ih =>
    intro hfit
    obtain ⟨ihl, ihr⟩ := ih (by omega)
    rw [List.range_succ, List.foldl_append, List.foldl_cons, List.foldl_nil]
    have hcur : readAt ((List.range k).foldl
        (ChannelMerger.cmCellBody w cm zs sf position) s0).buffer (position + k)
        = readAt s0.buffer (position + k) := by
      rw [ihr, if_neg (by omega)]
    rw [cmCellBody_buffer w cm zs sf position _ k hw (by omega)
      (by rw [hcur]; exact hcells _), hcur]
    refine ⟨by rw [List.length_set]; exact ihl, fun j => ?_⟩
    by_cases hj : j = position + k
    · subst hj
      rw [readAt_set_self _ _ _ (by rw [ihl]; omega), if_pos ⟨by omega, by omega⟩,
        Nat.add_sub_cancel_left]
    · rw [readAt_set_ne _ _ _ _ (Ne.symm hj), ihr]
      by_cases h1 : position ≤ j ∧ j < position + k
      · rw [if_pos h1, if_pos ⟨h1.1, by omega⟩]
      · rw [if_neg h1, if_neg (by omega)]

/-- The cells of two different slots do not overlap. -/
theorem slot_disjoint (n s q j : Nat) (h : s ≠ q) (hs : s * n ≤ j ∧ j < s * n + n) :
    ¬ (q * n ≤ j ∧ j < q * n + n) := by
  intro hq
  have h1 : j / n = s := Nat.div_eq_of_lt_le hs.1 (by rw [Nat.succ_mul]; exact hs.2)
  have h2 : j / n = q := Nat.div_eq_of_lt_le hq.1 (by rw [Nat.succ_mul]; exact hq.2)
  exact h (h1.symm.trans h2)

/-- The second loop over the channels, started on the buffer `bb`: for
channels in pairwise different slots inside the buffer, every cell of every
channel is lowered by the impact computed from `cmSignal` and the zero
suppressed signal of the channel in `bb`, and the other cells are left as
they are. -/
theorem cmCorrect_spec (w : Nat) (cm : List Nat) (sf : Nat) (hw : 2 ^ w ≤ 2 ^ 32) :
    ∀ (chans : List (Nat × Nat)) (m : ChannelMerger) (bb zs : List Nat) (nU nUC : Nat),
      m.mBuffer = some bb → m.mChannelLenght < 2 ^ 31 → bb.length ≤ 2 ^ 32 →
      (∀ j, readAt bb j < 2 ^ w) → zs.length = m.mChannelLenght →
      chans.Pairwise (fun p q => p.2 ≠ q.2) →
      (∀ p ∈ chans, p.2 * m.mChannelLenght + m.mChannelLenght ≤ bb.length) →
      (ChannelMerger.cmCorrect w cm sf chans m zs nU nUC).1 = 0 ∧
      ∃ bf, (ChannelMerger.cmCorrect w cm sf chans m zs nU nUC).2.1.mBuffer = some bf ∧
        bf.length = bb.length ∧
        (∀ p ∈ chans, ∀ t, t < m.mChannelLenght →
          readAt bf (p.2 * m.mChannelLenght + t)
            = readAt bb (p.2 * m.mChannelLenght + t)
              - ChannelMerger.cmImpactOf w (readAt cm t)
                  (readAt (ChannelMerger.channelZS w (ChannelMerger.GetThreshold w m)
                    m.mBaselineshift m.mChannelLenght bb (p.2 * m.mChannelLenght)) t) sf) ∧
        (∀ j, (∀ p ∈ chans, ¬ (p.2 * m.mChannelLenght ≤ j ∧
            j < p.2 * m.mChannelLenght + m.mChannelLenght)) → readAt bf j = readAt bb j) := by
  intro chans
  induction chans with
  | nil =>
    intro m bb zs nU nUC hb _ _ _ _ _ _
    refine ⟨rfl, bb, hb, rfl, fun p hp => absurd hp (List.not_mem_nil p), fun j _ => rfl⟩
  | cons p rest ih =>
    intro m bb zs nU nUC hb hL hlen hcells hzs hpw hfit
    obtain ⟨idx, slot⟩ := p
    have hp := hfit (idx, slot) (List.mem_cons_self _ _)
    have hpos : (slot * m.mChannelLenght) % UINT_MOD = slot * m.mChannelLenght := by
      apply Nat.mod_eq_of_lt
      show slot * m.mChannelLenght < 2 ^ 32
      rcases Nat.eq_zero_or_pos m.mChannelLenght with h0 | h0
      · rw [h0, Nat.mul_zero]; decide
      · have hp2 : slot * m.mChannelLenght + m.mChannelLenght ≤ bb.length := hp
        omega
    have hpass := pass_separate w (ChannelMerger.GetThreshold w m) m.mBaselineshift bb zs
      (slot * m.mChannelLenght) m.mChannelLenght hL hp hzs
    have hzl := channelZS_length w (ChannelMerger.GetThreshold w m) m.mBaselineshift bb
      (slot * m.mChannelLenght) m.mChannelLenght hp
    obtain ⟨hfl, hfr⟩ := cmCell_fold w cm
      (ChannelMerger.channelZS w (ChannelMerger.GetThreshold w m) m.mBaselineshift
        m.mChannelLenght bb (slot * m.mChannelLenght))
      sf (slot * m.mChannelLenght) hw
      { buffer := bb, nUnderflow := nU, nUnderflowChannels := nUC, bHaveUnderflow := false }
      hlen hcells m.mChannelLenght hp
    generalize hs : (List.range m.mChannelLenght).foldl
      (ChannelMerger.cmCellBody w cm
        (ChannelMerger.channelZS w (ChannelMerger.GetThreshold w m) m.mBaselineshift
          m.mChannelLenght bb (slot * m.mChannelLenght)) sf (slot * m.mChannelLenght))
      { buffer := bb, nUnderflow := nU, nUnderflowChannels := nUC, bHaveUnderflow := false }
      = s at hfl hfr
    simp only at hfl hfr
    have hunf : ChannelMerger.cmCorrect w cm sf ((idx, slot) :: rest) m zs nU nUC
        = ChannelMerger.cmCorrect w cm sf rest { m with mBuffer := some s.buffer }
            (ChannelMerger.channelZS w (ChannelMerger.GetThreshold w m) m.mBaselineshift
              m.mChannelLenght bb (slot * m.mChannelLenght))
            s.nUnderflow s.nUnderflowChannels := by
      simp only [ChannelMerger.cmCorrect, hpos, hb, hpass, ChannelMerger.targetVector,
        Option.getD_some, Option.map_some', hs]
      rw [if_neg (by omega)]
    have hpw2 : (∀ r ∈ rest, slot ≠ r.2) ∧ rest.Pairwise (fun p q => p.2 ≠ q.2) :=
      List.pairwise_cons.mp hpw
    have hcells2 : ∀ j, readAt s.buffer j < 2 ^ w := by
      intro j
      rw [hfr j]
      have := hcells j
      split_ifs <;> omega
    obtain ⟨hret, bf, hbf, hbl, hch, hout⟩ := ih { m with mBuffer := some s.buffer } s.buffer
      (ChannelMerger.channelZS w (ChannelMerger.GetThreshold w m) m.mBaselineshift
        m.mChannelLenght bb (slot * m.mChannelLenght))
      s.nUnderflow s.nUnderflowChannels rfl hL (by rw [hfl]; exact hlen) hcells2 hzl hpw2.2
      (fun q hq => by rw [hfl]; exact hfit q (List.mem_cons_of_mem _ hq))
    dsimp only at hch hout
    rw [hunf]
    refine ⟨hret, bf, hbf, by rw [hbl, hfl], ?_, ?_⟩
    · intro q hq t ht
      rcases List.mem_cons.mp hq with hhead | htail
      · subst hhead
        dsimp only
        rw [hout _ (fun r hr => slot_disjoint _ _ _ _ (hpw2.1 r hr) ⟨by omega, by omega⟩),
          hfr, if_pos ⟨by omega, by omega⟩, Nat.add_sub_cancel_left]
      · have hne : slot ≠ q.2 := hpw2.1 q htail
        have hq2 := hfit q hq
        have hsame : ∀ t, t < m.mChannelLenght →
            readAt s.buffer (q.2 * m.mChannelLenght + t)
              = readAt bb (q.2 * m.mChannelLenght + t) := by
          intro t ht
          rw [hfr, if_neg]
          exact slot_disjoint _ _ _ _ (Ne.symm hne) ⟨by omega, by omega⟩
        have hslice := slice_eq_of_readAt bb s.buffer (q.2 * m.mChannelLenght)
          m.mChannelLenght hq2 (by rw [hfl]; exact hq2) hsame
        have hz : ChannelMerger.channelZS w (ChannelMerger.GetThreshold w m) m.mBaselineshift
            m.mChannelLenght s.buffer (q.2 * m.mChannelLenght)
            = ChannelMerger.channelZS w (ChannelMerger.GetThreshold w m) m.mBaselineshift
              m.mChannelLenght bb (q.2 * m.mChannelLenght) := by
          unfold ChannelMerger.channelZS
          rw [hslice]
        have h1 := hch q htail t ht
        rw [hsame t ht] at h1
        rw [h1]
        exact congrArg (fun z => readAt bb (q.2 * m.mChannelLenght + t)
          - ChannelMerger.cmImpactOf w (readAt cm t) (readAt z t) sf) hz
    · intro j hj
      rw [hout j (fun r hr => hj r (List.mem_cons_of_mem _ hr)), hfr, if_neg]
      have := hj (idx, slot) (List.mem_cons_self _ _)
      simp only at this
      omega

theorem readAt_map_voidAsZero (w : Nat) (l : List Nat) :
    ∀ t, readAt (l.map (ChannelMerger.voidAsZero w)) t
      = ChannelMerger.voidAsZero w (readAt l t) := by
  induction l with
  | nil =>
    intro t
    show 0 = ChannelMerger.voidAsZero w 0
    unfold ChannelMerger.voidAsZero
    split_ifs <;> rfl
  | cons x xs ih =>
    intro t
    cases t with
    | zero => rfl
    | succ k => exact ih k

/-- The zero suppressed vector of a channel inside the buffer, in terms of the
scan of its cells. -/
theorem zsProfile_eq (w : Nat) (m : ChannelMerger) (b : List Nat) (slot : Nat)
    (hb : m.mBuffer = some b) (hL : m.mChannelLenght < 2 ^ 31)
    (hfit : slot * m.mChannelLenght + m.mChannelLenght ≤ b.length)
    (hpos : slot * m.mChannelLenght < 2 ^ 32) :
    ChannelMerger.zsProfile w m slot
      = (ChannelMerger.channelZS w (ChannelMerger.GetThreshold w m) m.mBaselineshift
          m.mChannelLenght b (slot * m.mChannelLenght)).map (ChannelMerger.voidAsZero w) := by
  have hmod : (slot * m.mChannelLenght) % UINT_MOD = slot * m.mChannelLenght :=
    Nat.mod_eq_of_lt hpos
  unfold ChannelMerger.zsProfile
  rw [hmod, hb, pass_separate w _ _ b _ _ _ hL hfit (List.length_replicate _ _)]
  rfl

theorem readAt_lt_of_forall (b : List Nat) (n : Nat) (hn : 0 < n) (h : ∀ v ∈ b, v < n) :
    ∀ j, readAt b j < n := by
  intro j
  by_cases hj : j < b.length
  · unfold readAt
    rw [List.getD_eq_getElem b 0 hj]
    exact h _ (List.getElem_mem hj)
  · rw [readAt_of_length_le b j (by omega)]
    exact hn

/-- C18: the arithmetic of the common mode correction.  For a merger whose
buffer holds cells of the sample word (`w ≤ 32` bits), with channels of fewer
than `2^31` timebins in pairwise different slots inside the buffer, a scaling
factor `0 < S < 2^31` and an ensemble signal that fits the sample word at
every timebin, `ApplyCommonModeEffect` returns 0 and every cell of every
indexed channel holds afterwards its former content minus the amount
`(E[t] - Z_c[t]) / S`, with floor 0 for the two differences and the rounded
down quotient, where `Z_c` is the zero suppressed vector of the channel
computed by the pass on the buffer before the call with `VOID_SIGNAL` counted
as 0 and `E[t]` is the sum of `Z_k[t]` over the indexed channels. -/
theorem common_mode_correction (w : Nat) (m : ChannelMerger) (b : List Nat) (S : Nat)
    (hw : w ≤ 32) (hL : m.mChannelLenght < 2 ^ 31) (hb : m.mBuffer = some b)
    (hlen : b.length ≤ 2 ^ 32) (hcell : ∀ v ∈ b, v < 2 ^ w)
    (hslots : m.mChannelPositions.Pairwise (fun p q => p.2 ≠ q.2))
    (hfit : ∀ p ∈ m.mChannelPositions, (p.2 + 1) * m.mChannelLenght ≤ b.length)
    (hS : 0 < S) (hS2 : S < 2 ^ 31)
    (hE : ∀ t, t < m.mChannelLenght → ChannelMerger.ensembleAt w m t < 2 ^ w) :
    (ChannelMerger.ApplyCommonModeEffect w m (S : Int)).1 = 0 ∧
    ∀ p ∈ m.mChannelPositions, ∀ t, t < m.mChannelLenght →
      readAt ((ChannelMerger.ApplyCommonModeEffect w m (S : Int)).2.1.mBuffer.getD [])
          (p.2 * m.mChannelLenght + t)
        = readAt b (p.2 * m.mChannelLenght + t) - ChannelMerger.cmAmount w m S p.2 t := by
  have _hS := hS
  have hcells := readAt_lt_of_forall b (2 ^ w) (Nat.pow_pos (by decide)) hcell
  have hw2 : 2 ^ w ≤ 2 ^ 32 := Nat.pow_le_pow_right (by decide) hw
  have hfit2 : ∀ p ∈ m.mChannelPositions,
      p.2 * m.mChannelLenght + m.mChannelLenght ≤ b.length := by
    intro p hp
    have := hfit p hp
    rw [Nat.succ_mul] at this
    exact this
  have hpos : ∀ p ∈ m.mChannelPositions, p.2 * m.mChannelLenght < 2 ^ 32 := by
    intro p hp
    rcases Nat.eq_zero_or_pos m.mChannelLenght with h0 | h0
    · rw [h0, Nat.mul_zero]; decide
    · have := hfit2 p hp
      omega
  have hprof : ∀ p ∈ m.mChannelPositions, ∀ t,
      readAt (ChannelMerger.zsProfile w m p.2) t
        = ChannelMerger.voidAsZero w
            (readAt (ChannelMerger.channelZS w (ChannelMerger.GetThreshold w m) m.mBaselineshift
              m.mChannelLenght b (p.2 * m.mChannelLenght)) t) := by
    intro p hp t
    rw [zsProfile_eq w m b p.2 hb hL (hfit2 p hp) (hpos p hp), readAt_map_voidAsZero]
  have hens : ∀ t, ChannelMerger.ensembleAt w m t
      = (m.mChannelPositions.map (fun p => ChannelMerger.voidAsZero w
          (readAt (ChannelMerger.channelZS w (ChannelMerger.GetThreshold w m) m.mBaselineshift
            m.mChannelLenght b (p.2 * m.mChannelLenght)) t))).sum := by
    intro t
    unfold ChannelMerger.ensembleAt
    exact congrArg List.sum (List.map_congr_left (fun p hp => hprof p hp t))
  obtain ⟨hret, hcl, hzl, hcm⟩ := cmSum_spec w m b hb hL m.mChannelPositions
    (List.replicate m.mChannelLenght 0) (List.replicate m.mChannelLenght 0)
    (fun p hp => ⟨hfit2 p hp, hpos p hp⟩) (List.length_replicate _ _)
    (List.length_replicate _ _)
    (fun t ht => by
      rw [readAt_replicate_zero, Nat.zero_add, ← hens t]
      exact hE t ht)
  generalize hP : ChannelMerger.cmSum w m m.mChannelPositions
    (List.replicate m.mChannelLenght 0) (List.replicate m.mChannelLenght 0) = P
    at hret hcl hzl hcm
  obtain ⟨hret2, bf, hbf, _, hch, _⟩ := cmCorrect_spec w P.2.1 S hw2 m.mChannelPositions m b
    P.2.2 0 0 hb hL hlen hcells hzl hslots hfit2
  have hun : ChannelMerger.ApplyCommonModeEffect w m (S : Int)
      = ChannelMerger.cmCorrect w P.2.1 S m.mChannelPositions m P.2.2 0 0 := by
    have hnn : ¬ ((S : Int) < 0) := by omega
    unfold ChannelMerger.ApplyCommonModeEffect
    simp only [hP, hret, lt_self_iff_false, if_false, hnn, toUnsigned_natCast S (by omega)]
  rw [hun]
  refine ⟨hret2, fun p hp t ht => ?_⟩
  rw [hbf, Option.getD_some, hch p hp t ht, cmImpactOf_eq, hcm t ht, readAt_replicate_zero,
    Nat.zero_add, ← hens t, ← hprof p hp t]
  rfl

theorem common_mode_correction_witness :
    ((ChannelMerger.ApplyCommonModeEffect 16 exampleMergerCM ((2 : Nat) : Int)).1 = 0 ∧
      ∀ p ∈ exampleMergerCM.mChannelPositions, ∀ t, t < exampleMergerCM.mChannelLenght →
        readAt ((ChannelMerger.ApplyCommonModeEffect 16 exampleMergerCM
            ((2 : Nat) : Int)).2.1.mBuffer.getD []) (p.2 * exampleMergerCM.mChannelLenght + t)
          = readAt [10, 0, 20, 30, 10, 0, 20, 30] (p.2 * exampleMergerCM.mChannelLenght + t)
            - ChannelMerger.cmAmount 16 exampleMergerCM 2 p.2 t) ∧
    ChannelMerger.zsProfile 16 exampleMergerCM 0 = [10, 0, 20, 30] ∧
    ChannelMerger.zsProfile 16 exampleMergerCM 1 = [10, 0, 20, 30] ∧
    (List.range 4).map (ChannelMerger.cmAmount 16 exampleMergerCM 2 0) = [5, 0, 10, 15] ∧
    (List.range 4).map (ChannelMerger.cmAmount 16 exampleMergerCM 2 1) = [5, 0, 10, 15] ∧
    (ChannelMerger.ApplyCommonModeEffect 16 exampleMergerCM 2).2.1.mBuffer
      = some [5, 0, 10, 15, 5, 0, 10, 15] :=
  ⟨common_mode_correction 16 exampleMergerCM [10, 0, 20, 30, 10, 0, 20, 30] 2 (by decide)
      (by decide) rfl (by decide) (by decide) (by decide) (by decide) (by decide) (by decide)
      (by decide),
    by decide, by decide, by decide, by decide, by decide⟩

/-! ### The symbols of the Huffman coder -/

theorem toSigned_toUnsigned (x : Int) (h1 : -(2 : Int) ^ 31 ≤ x) (h2 : x < (2 : Int) ^ 31) :
    toSigned (toUnsigned x) = x := by
  unfold toSigned toUnsigned UINT_MOD
  have hm : ((x % ((2 ^ 32 : Nat) : Int)).toNat : Int) = x % ((2 ^ 32 : Nat) : Int) :=
    Int.toNat_of_nonneg (Int.emod_nonneg _ (by norm_num))
  have hlt : (x % ((2 ^ 32 : Nat) : Int)).toNat < 2 ^ 32 := by
    have := Int.emod_lt_of_pos x (show (0 : Int) < ((2 ^ 32 : Nat) : Int) by norm_num)
    omega
  rw [Nat.mod_eq_of_lt hlt]
  split_ifs with h
  · rw [hm]; push_cast at *; omega
  · rw [hm]; push_cast at *; omega

/-- The signal coded for a cell is the cell with `VOID_SIGNAL` counted as 0,
clamped to 1023. -/
theorem huffmanSignal_eq (w cell : Nat) :
    ChannelMerger.huffmanSignal w cell = min (ChannelMerger.voidAsZero w cell) 1023 ∧
    ChannelMerger.huffmanSignal w cell < 1024 := by
  unfold ChannelMerger.huffmanSignal ChannelMerger.voidAsZero
  simp only []
  constructor <;> split_ifs <;> omega

/-- The difference of two signals below 1024, offset by the signal range. -/
theorem huffmanDiff_eq (s l : Nat) (hs : s < 1024) (hl : l < 1024) :
    ChannelMerger.huffmanDiff s l = (s : Int) - (l : Int) + 1024 ∧
    ((ChannelMerger.huffmanSymbol s l : Nat) : Int) = (s : Int) - (l : Int) + 1024 ∧
    ChannelMerger.huffmanAssertion s l = true := by
  have h0 : toSigned s = (s : Int) := toSigned_of_lt s (by omega)
  have h1 : toSigned (toUnsigned ((s : Int) - (l : Int))) = (s : Int) - (l : Int) :=
    toSigned_toUnsigned _ (by omega) (by omega)
  have h2 : toSigned (toUnsigned ((s : Int) - (l : Int) + 1024)) = (s : Int) - (l : Int) + 1024 :=
    toSigned_toUnsigned _ (by omega) (by omega)
  have hd : ChannelMerger.huffmanDiff s l = (s : Int) - (l : Int) + 1024 := by
    unfold ChannelMerger.huffmanDiff
    simp only [h0, h1, h2]
  have hsym : ChannelMerger.huffmanSymbol s l
      = (ChannelMerger.huffmanDiff s l % (2 ^ 64 : Int)).toNat := rfl
  refine ⟨hd, ?_, ?_⟩
  · rw [hsym, hd]
    have hnn : (0 : Int) ≤ (s : Int) - (l : Int) + 1024 := by omega
    rw [Int.emod_eq_of_lt hnn (by omega), Int.toNat_of_nonneg hnn]
  · unfold ChannelMerger.huffmanAssertion
    rw [hd]
    obtain ⟨k, hk⟩ : ∃ k : Nat, (s : Int) - (l : Int) + 1024 = (k : Int) :=
      ⟨((s : Int) - (l : Int) + 1024).toNat, (Int.toNat_of_nonneg (by omega)).symm⟩
    rw [hk, toUnsigned_natCast k (by omega)]
    have hU : (2 * 1024) % UINT_MOD = 2048 := by decide
    rw [hU]
    exact decide_eq_true ⟨by omega, by omega⟩

/-- The state of the loop that hands the symbols to the coder after `n`
timebins. -/
theorem huffmanTrace_fold (w : Nat) (buffer : List Nat) (position : Nat) :
    ∀ n, ((List.range n).foldl (ChannelMerger.huffmanTraceBody w buffer position) ([], 0)).1.length
        = n ∧
      ((List.range n).foldl (ChannelMerger.huffmanTraceBody w buffer position) ([], 0)).2
        = ChannelMerger.huffmanLast w buffer position n ∧
      ∀ i, i < n →
        readAt ((List.range n).foldl
            (ChannelMerger.huffmanTraceBody w buffer position) ([], 0)).1 i
          = ChannelMerger.huffmanSymbol
              (ChannelMerger.huffmanSignal w (readAt buffer ((position + i) % UINT_MOD)))
              (ChannelMerger.huffmanLast w buffer position i) := by
  intro n
  induction n with
  | zero => exact ⟨rfl, rfl, fun i hi => absurd hi (Nat.not_lt_zero i)⟩
  | succ k ih =>
    obtain ⟨hlen, hlast, hsym⟩ := ih
    rw [List.range_succ, List.foldl_append, List.foldl_cons, List.foldl_nil]
    generalize (List.range k).foldl (ChannelMerger.huffmanTraceBody w buffer position) ([], 0)
      = st at hlen hlast hsym
    unfold ChannelMerger.huffmanTraceBody
    refine ⟨by simp [hlen], rfl, fun i hi => ?_⟩
    by_cases hik : i < k
    · simp only []
      rw [readAt_append_left _ _ _ (by omega), hsym i hik]
    · have hi2 : i = k := by omega
      subst hi2
      simp only []
      have := readAt_append_right st.1 [ChannelMerger.huffmanSymbol
        (ChannelMerger.huffmanSignal w (readAt buffer ((position + i) % UINT_MOD))) st.2] 0
      rw [hlen, Nat.add_zero] at this
      rw [this, hlast]
      rfl

theorem huffmanLast_lt (w : Nat) (buffer : List Nat) (position i : Nat) :
    ChannelMerger.huffmanLast w buffer position i < 1024 := by
  cases i with
  | zero => exact Nat.zero_lt_succ _
  | succ k => exact (huffmanSignal_eq w _).2

/-- C21: the difference symbols are always in range.  For every content of the
buffer, every channel position and length, the loop hands one symbol per
timebin to the coder; the symbol of timebin `i` is
`clamp(x_i) - clamp(x_{i-1}) + 1024`, where `x_i` is the cell of the timebin,
`clamp(x)` is `min(x, 1023)` with `VOID_SIGNAL` counted as 0, and the previous
signal is 0 at timebin 0; every symbol is below 2048 and the condition of the
range assertion holds at every timebin. -/
theorem difference_symbols_in_range (w : Nat) (buffer : List Nat) (position channelLength : Nat) :
    (ChannelMerger.huffmanSymbols w buffer position channelLength).length = channelLength ∧
    ChannelMerger.huffmanLast w buffer position 0 = 0 ∧
    (∀ i, ChannelMerger.huffmanLast w buffer position (i + 1)
      = min (ChannelMerger.voidAsZero w (readAt buffer ((position + i) % UINT_MOD))) 1023) ∧
    ∀ i, i < channelLength →
      ((readAt (ChannelMerger.huffmanSymbols w buffer position channelLength) i : Nat) : Int)
        = ((min (ChannelMerger.voidAsZero w (readAt buffer ((position + i) % UINT_MOD))) 1023
              : Nat) : Int)
          - (ChannelMerger.huffmanLast w buffer position i : Int) + 1024 ∧
      readAt (ChannelMerger.huffmanSymbols w buffer position channelLength) i < 2048 ∧
      ChannelMerger.huffmanAssertion
        (ChannelMerger.huffmanSignal w (readAt buffer ((position + i) % UINT_MOD)))
        (ChannelMerger.huffmanLast w buffer position i) = true := by
  obtain ⟨hlen, _, hsym⟩ := huffmanTrace_fold w buffer position channelLength
  refine ⟨hlen, rfl, fun i => (huffmanSignal_eq w _).1, fun i hi => ?_⟩
  have hs := huffmanSignal_eq w (readAt buffer ((position + i) % UINT_MOD))
  have hl := huffmanLast_lt w buffer position i
  obtain ⟨_, hv, ha⟩ := huffmanDiff_eq _ _ hs.2 hl
  have hr : readAt (ChannelMerger.huffmanSymbols w buffer position channelLength) i
      = ChannelMerger.huffmanSymbol
          (ChannelMerger.huffmanSignal w (readAt buffer ((position + i) % UINT_MOD)))
          (ChannelMerger.huffmanLast w buffer position i) := hsym i hi
  rw [hr]
  refine ⟨by rw [hv, hs.1], ?_, ha⟩
  omega

/-- The loop over a channel whose cells all hold `v`, after timebin `n`: the
first symbol is the coded signal offset by 1024, the later ones are the zero
difference 1024, and without cutoff the bit count is the sum of their code
lengths. -/
theorem constant_channel_fold (w : Nat) (codeLength : Nat → Nat) (buffer : List Nat)
    (position channelLength v : Nat)
    (hconst : ∀ i, i < channelLength → readAt buffer ((position + i) % UINT_MOD) = v)
    (hno : codeLength (ChannelMerger.huffmanSignal w v + 1024)
      + (channelLength - 1) * codeLength 1024 < 2 ^ 32) :
    ∀ n, n < channelLength →
      (List.range (n + 1)).foldl (ChannelMerger.huffmanTraceBody w buffer position) ([], 0)
        = ((ChannelMerger.huffmanSignal w v + 1024) :: List.replicate n 1024,
            ChannelMerger.huffmanSignal w v) ∧
      (List.range (n + 1)).foldl
          (ChannelMerger.huffmanBody w codeLength false 0 buffer position) (0, 0)
        = (codeLength (ChannelMerger.huffmanSignal w v + 1024) + n * codeLength 1024,
            ChannelMerger.huffmanSignal w v) := by
  have hs := (huffmanSignal_eq w v).2
  have hfirst : ChannelMerger.huffmanSymbol (ChannelMerger.huffmanSignal w v) 0
      = ChannelMerger.huffmanSignal w v + 1024 := by
    have := (huffmanDiff_eq (ChannelMerger.huffmanSignal w v) 0 hs (by decide)).2.1
    omega
  have hnext : ChannelMerger.huffmanSymbol (ChannelMerger.huffmanSignal w v)
      (ChannelMerger.huffmanSignal w v) = 1024 := by
    have := (huffmanDiff_eq (ChannelMerger.huffmanSignal w v)
      (ChannelMerger.huffmanSignal w v) hs hs).2.1
    omega
  have hU : UINT_MOD = 2 ^ 32 := rfl
  have hbt : ∀ (i : Nat) (st : List Nat × Nat), i < channelLength →
      ChannelMerger.huffmanTraceBody w buffer position st i
        = (st.1 ++ [ChannelMerger.huffmanSymbol (ChannelMerger.huffmanSignal w v) st.2],
            ChannelMerger.huffmanSignal w v) := by
    intro i st hi
    unfold ChannelMerger.huffmanTraceBody
    simp only [hconst i hi]
  have hbb : ∀ (i : Nat) (st : Nat × Nat), i < channelLength →
      ChannelMerger.huffmanBody w codeLength false 0 buffer position st i
        = ((st.1 + codeLength
              (ChannelMerger.huffmanSymbol (ChannelMerger.huffmanSignal w v) st.2)) % UINT_MOD,
            ChannelMerger.huffmanSignal w v) := by
    intro i st hi
    unfold ChannelMerger.huffmanBody ChannelMerger.chargeSymbol
    simp only [hconst i hi, Bool.false_eq_true, if_false, true_or, if_true]
  intro n
  induction n with
  | zero =>
    intro h0
    have hr : List.range (0 + 1) = [0] := rfl
    rw [hr, List.foldl_cons, List.foldl_nil, List.foldl_cons, List.foldl_nil, hbt 0 _ h0,
      hbb 0 _ h0]
    simp only [hfirst, List.nil_append, List.replicate_zero, Nat.zero_add, Nat.zero_mul,
      Nat.add_zero]
    rw [Nat.mod_eq_of_lt (by rw [hU]; omega)]
    constructor <;> first | rfl | trivial
  | succ k ih =>
    intro hk
    obtain ⟨ht, hb⟩ := ih (by omega)
    have hle : (k + 1) * codeLength 1024 ≤ (channelLength - 1) * codeLength 1024 :=
      Nat.mul_le_mul_right _ (by omega)
    rw [Nat.succ_mul] at hle
    rw [List.range_succ, List.foldl_append, List.foldl_append, ht, hb, List.foldl_cons,
      List.foldl_nil, List.foldl_cons, List.foldl_nil, hbt _ _ hk, hbb _ _ hk]
    simp only [hnext, List.cons_append]
    rw [Nat.mod_eq_of_lt (by rw [hU]; omega), Nat.succ_mul, List.replicate_succ',
      Nat.add_assoc]
    exact ⟨rfl, rfl⟩

/-- C22: the constant channel.  For a channel of `L ≥ 1` timebins whose cells
all hold the same sample `v` (a value other than `VOID_SIGNAL`), the symbols
handed to the coder are `min(v,1023)+1024` for timebin 0 and the zero
difference symbol 1024 for every later timebin; in encoding mode without
cutoff the charged bits are the code length of the first symbol plus `L-1`
times the code length of 1024, as long as this sum fits the `unsigned` bit
count. -/
theorem constant_signal_channel (w : Nat) (codeLength : Nat → Nat) (buffer : List Nat)
    (position channelLength v : Nat) (hL : 1 ≤ channelLength) (hv : v ≠ VOID_SIGNAL w)
    (hconst : ∀ i, i < channelLength → readAt buffer ((position + i) % UINT_MOD) = v)
    (hno : codeLength (min v 1023 + 1024) + (channelLength - 1) * codeLength 1024 < 2 ^ 32) :
    ChannelMerger.huffmanSymbols w buffer position channelLength
      = (min v 1023 + 1024) :: List.replicate (channelLength - 1) 1024 ∧
    ChannelMerger.huffmanBitcount w codeLength false 0 buffer position channelLength
      = codeLength (min v 1023 + 1024) + (channelLength - 1) * codeLength 1024 := by
  have hs : ChannelMerger.huffmanSignal w v = min v 1023 := by
    rw [(huffmanSignal_eq w v).1]
    unfold ChannelMerger.voidAsZero
    rw [if_neg hv]
  have h := constant_channel_fold w codeLength buffer position channelLength v hconst
    (by rw [hs]; exact hno) (channelLength - 1) (by omega)
  rw [Nat.sub_add_cancel hL, hs] at h
  unfold ChannelMerger.huffmanSymbols ChannelMerger.huffmanBitcount
  rw [h.1, h.2]
  exact ⟨rfl, rfl⟩

theorem constant_signal_channel_witness :
    ChannelMerger.huffmanSymbols 16 [7, 7, 7, 7, 9] 0 4
      = (min 7 1023 + 1024) :: List.replicate (4 - 1) 1024 ∧
    ChannelMerger.huffmanBitcount 16 (fun v => v - 1020) false 0 [7, 7, 7, 7, 9] 0 4
      = (fun v => v - 1020) (min 7 1023 + 1024) + (4 - 1) * (fun v => v - 1020) 1024 :=
  constant_signal_channel 16 (fun v => v - 1020) [7, 7, 7, 7, 9] 0 4 7 (by decide) (by decide)
    (by decide) (by decide)

/-! ### Channel keys -/

/-- The key of a link number and a hardware address below `2^16` is
`d * 2^16 + h`. -/
theorem packIndex_eq (d h : Nat) (hd : d < 2 ^ 16) (hh : h < 2 ^ 16) :
    packIndex d h = 2 ^ 16 * d + h := by
  unfold packIndex UINT_MOD
  rw [Nat.shiftLeft_eq, Nat.mod_eq_of_lt (by omega), Nat.mul_comm d (2 ^ 16)]
  exact (Nat.mul_add_lt_is_or hh d).symm

theorem shiftRight_and (x y i : Nat) : (x &&& y) >>> i = (x >>> i) &&& (y >>> i) := by
  apply Nat.eq_of_testBit_eq
  intro j
  rw [Nat.testBit_shiftRight, Nat.testBit_and, Nat.testBit_and, Nat.testBit_shiftRight,
    Nat.testBit_shiftRight]

theorem unpack_eq (index : Nat) :
    unpackDDLNumber index = (index / 2 ^ 16) % 2 ^ 16 ∧ unpackHWAddr index = index % 2 ^ 16 := by
  unfold unpackDDLNumber unpackHWAddr
  constructor
  · rw [shiftRight_and]
    have h1 : (0xffff0000 : Nat) >>> 16 = 2 ^ 16 - 1 := by decide
    rw [h1, Nat.and_pow_two_sub_one_eq_mod, Nat.shiftRight_eq_div_pow]
  · have h1 : (0x0000ffff : Nat) = 2 ^ 16 - 1 := by decide
    rw [h1, Nat.and_pow_two_sub_one_eq_mod]

/-- C24: the round trip of the channel key.  For every link number `d` and
hardware address `h` below `2^16`, unpacking the key `d<<16 | h` as
`((index & 0xffff0000)>>16, index & 0xffff)` returns `(d, h)`; hence two pairs
in that range with the same key are the same pair. -/
theorem channel_key_round_trip (d h : Nat) (hd : d < 2 ^ 16) (hh : h < 2 ^ 16) :
    unpackDDLNumber (packIndex d h) = d ∧ unpackHWAddr (packIndex d h) = h ∧
    ∀ d1 h1 : Nat, d1 < 2 ^ 16 → h1 < 2 ^ 16 → packIndex d1 h1 = packIndex d h →
      d1 = d ∧ h1 = h := by
  have hrt : ∀ a b : Nat, a < 2 ^ 16 → b < 2 ^ 16 →
      unpackDDLNumber (packIndex a b) = a ∧ unpackHWAddr (packIndex a b) = b := by
    intro a b ha hb
    rw [(unpack_eq _).1, (unpack_eq _).2, packIndex_eq a b ha hb]
    constructor <;> omega
  refine ⟨(hrt d h hd hh).1, (hrt d h hd hh).2, fun d1 h1 hd1 hh1 he => ?_⟩
  have h1 := hrt d1 h1 hd1 hh1
  rw [he] at h1
  exact ⟨h1.1.symm.trans (hrt d h hd hh).1, h1.2.symm.trans (hrt d h hd hh).2⟩

theorem channel_key_round_trip_witness :
    unpackDDLNumber (packIndex 3 517) = 3 ∧ unpackHWAddr (packIndex 3 517) = 517 ∧
    ((3 : Nat) = 3 ∧ (517 : Nat) = 517) :=
  ⟨(channel_key_round_trip 3 517 (by decide) (by decide)).1,
    (channel_key_round_trip 3 517 (by decide) (by decide)).2.1,
    (channel_key_round_trip 3 517 (by decide) (by decide)).2.2 3 517 (by decide) (by decide)
      rfl⟩

/-! ### The channel index -/

theorem lookup_cons_eq (k k1 v1 : Nat) (l : List (Nat × Nat)) :
    ((k1, v1) :: l).lookup k = if k = k1 then some v1 else l.lookup k := by
  by_cases h : k = k1
  · simp [List.lookup, h]
  · have hb : (k == k1) = false := by simpa using h
    simp [List.lookup, h, hb]

theorem lookup_mapInsert_self (k v : Nat) (l : List (Nat × Nat)) :
    (mapInsert k v l).lookup k = some v := by
  induction l with
  | nil => simp [mapInsert, lookup_cons_eq]
  | cons q rest ih =>
    obtain ⟨k1, v1⟩ := q
    simp only [mapInsert]
    split_ifs with h1 h2
    · simp [lookup_cons_eq]
    · simp [lookup_cons_eq]
    · rw [lookup_cons_eq, if_neg h2, ih]

theorem lookup_mapInsert_ne (k v k2 : Nat) (l : List (Nat × Nat)) (h : k2 ≠ k) :
    (mapInsert k v l).lookup k2 = l.lookup k2 := by
  induction l with
  | nil => simp [mapInsert, lookup_cons_eq, h]
  | cons q rest ih =>
    obtain ⟨k1, v1⟩ := q
    simp only [mapInsert]
    split_ifs with h1 h2
    · rw [lookup_cons_eq, if_neg h]
    · subst h2
      rw [lookup_cons_eq, lookup_cons_eq, if_neg h, if_neg h]
    · rw [lookup_cons_eq, lookup_cons_eq, ih]

theorem lookup_none_not_mem (k : Nat) (l : List (Nat × Nat)) (h : l.lookup k = none) :
    k ∉ l.map Prod.fst := by
  induction l with
  | nil => simp
  | cons q rest ih =>
    obtain ⟨k1, v1⟩ := q
    rw [lookup_cons_eq] at h
    split_ifs at h with h1
    simp only [List.map_cons, List.mem_cons, not_or]
    exact ⟨h1, ih h⟩

/-- The insertion of a key that is not in the map adds one entry. -/
theorem mapInsert_perm (k v : Nat) (l : List (Nat × Nat)) (h : l.lookup k = none) :
    (mapInsert k v l).Perm ((k, v) :: l) := by
  induction l with
  | nil => exact List.Perm.refl _
  | cons q rest ih =>
    obtain ⟨k1, v1⟩ := q
    rw [lookup_cons_eq] at h
    split_ifs at h with h1
    simp only [mapInsert]
    split_ifs with h2
    · exact List.Perm.refl _
    · exact ((ih h).cons (k1, v1)).trans (List.Perm.swap _ _ _)

/-- The channel index after `AddChannel` is the one left by the lookup. -/
theorem AddChannel_positions (w : Nat) (rand : Nat → Nat) (applyOffset : Int → Int)
    (m : ChannelMerger) (index : Nat) (stream : List Bunch) :
    (ChannelMerger.AddChannel w rand applyOffset m index stream).mChannelPositions
      = (ChannelMerger.assignPosition m index).2 := by
  have h1 := (AddChannel_sameLayout w rand applyOffset m index stream).2.2.2.1
  rw [h1, prepareChannel_eq]
  simp only []
  split_ifs
  · unfold ChannelMerger.GrowBuffer
    split_ifs <;> rfl
  · rfl

/-- The slots of a channel index are dense: they are the numbers below the
number of entries, each once, and no key occurs twice. -/
theorem assignPosition_dense (m : ChannelMerger) (index : Nat)
    (hlen : m.mChannelPositions.length < 2 ^ 32)
    (hperm : (m.mChannelPositions.map Prod.snd).Perm (List.range m.mChannelPositions.length))
    (hkeys : (m.mChannelPositions.map Prod.fst).Nodup) :
    ((ChannelMerger.assignPosition m index).2.map Prod.snd).Perm
      (List.range (ChannelMerger.assignPosition m index).2.length) ∧
    ((ChannelMerger.assignPosition m index).2.map Prod.fst).Nodup ∧
    (ChannelMerger.assignPosition m index).2.length ≤ m.mChannelPositions.length + 1 := by
  unfold ChannelMerger.assignPosition
  cases hl : m.mChannelPositions.lookup index with
  | some p => exact ⟨hperm, hkeys, Nat.le_succ _⟩
  | none =>
    have hmod : m.mChannelPositions.length % UINT_MOD = m.mChannelPositions.length :=
      Nat.mod_eq_of_lt hlen
    simp only [hmod]
    have hp := mapInsert_perm index m.mChannelPositions.length m.mChannelPositions hl
    have hlen2 := hp.length_eq
    rw [List.length_cons] at hlen2
    refine ⟨?_, ?_, by omega⟩
    · rw [hlen2, List.range_succ]
      exact ((hp.map Prod.snd).trans (hperm.cons _)).trans
        (List.perm_append_singleton _ _).symm
    · have hk := (hp.map Prod.fst).nodup_iff
      rw [hk, List.map_cons, List.nodup_cons]
      exact ⟨lookup_none_not_mem index _ hl, hkeys⟩

/-- A key that is indexed keeps its slot through a call of `AddChannel`. -/
theorem AddChannel_keeps_slot (w : Nat) (rand : Nat → Nat) (applyOffset : Int → Int)
    (m : ChannelMerger) (index : Nat) (stream : List Bunch) (k p : Nat)
    (h : m.mChannelPositions.lookup k = some p) :
    (ChannelMerger.AddChannel w rand applyOffset m index stream).mChannelPositions.lookup k
      = some p := by
  rw [AddChannel_positions]
  unfold ChannelMerger.assignPosition
  cases hl : m.mChannelPositions.lookup index with
  | some q => exact h
  | none =>
    have hne : k ≠ index := by
      intro he
      rw [he, hl] at h
      exact Option.noConfusion h
    simp only []
    rw [lookup_mapInsert_ne _ _ _ _ hne]
    exact h

theorem addChannels_keeps_slot (w : Nat) (rand : Nat → Nat)
    (calls : List ((Int → Int) × Nat × List Bunch)) :
    ∀ (m : ChannelMerger) (k p : Nat), m.mChannelPositions.lookup k = some p →
      (ChannelMerger.addChannels w rand calls m).mChannelPositions.lookup k = some p := by
  induction calls with
  | nil => intro m k p h; exact h
  | cons c rest ih =>
    intro m k p h
    exact ih _ k p (AddChannel_keeps_slot w rand c.1 m c.2.1 c.2.2 k p h)

/-- A sequence of calls of `AddChannel` keeps the slots dense. -/
theorem addChannels_dense (w : Nat) (rand : Nat → Nat)
    (calls : List ((Int → Int) × Nat × List Bunch)) :
    ∀ (m : ChannelMerger), m.mChannelPositions.length + calls.length < 2 ^ 32 →
      (m.mChannelPositions.map Prod.snd).Perm (List.range m.mChannelPositions.length) →
      (m.mChannelPositions.map Prod.fst).Nodup →
      ((ChannelMerger.addChannels w rand calls m).mChannelPositions.map Prod.snd).Perm
        (List.range (ChannelMerger.addChannels w rand calls m).mChannelPositions.length) ∧
      ((ChannelMerger.addChannels w rand calls m).mChannelPositions.map Prod.fst).Nodup ∧
      (ChannelMerger.addChannels w rand calls m).mChannelPositions.length
        ≤ m.mChannelPositions.length + calls.length := by
  induction calls with
  | nil => intro m _ hp hk; exact ⟨hp, hk, Nat.le_refl _⟩
  | cons c rest ih =>
    intro m hlen hp hk
    rw [List.length_cons] at hlen
    obtain ⟨h1, h2, h3⟩ := assignPosition_dense m c.2.1 (by omega) hp hk
    rw [← AddChannel_positions w rand c.1 m c.2.1 c.2.2] at h1 h2 h3
    obtain ⟨g1, g2, g3⟩ := ih (ChannelMerger.AddChannel w rand c.1 m c.2.1 c.2.2)
      (by omega) h1 h2
    refine ⟨g1, g2, ?_⟩
    rw [List.length_cons]
    have : (ChannelMerger.addChannels w rand (c :: rest) m)
        = ChannelMerger.addChannels w rand rest
            (ChannelMerger.AddChannel w rand c.1 m c.2.1 c.2.2) := rfl
    rw [this]
    omega

/-- C23: the channel index is dense, injective and stable.  For a merger with
fewer than `2^32` indexed keys, `AddChannel` gives a key that is not indexed
the slot equal to the number of keys indexed so far, and for every merger a
key that is indexed keeps its slot through a call and through every sequence
of calls; after a sequence of fewer than `2^32` calls on a fresh merger the
slots of the `n` indexed keys are the numbers `0..n-1`, each once, and no key
is indexed twice. -/
theorem channel_index_dense_and_stable (w : Nat) (rand : Nat → Nat) (m : ChannelMerger)
    (applyOffset : Int → Int) (index : Nat) (stream : List Bunch)
    (calls : List ((Int → Int) × Nat × List Bunch))
    (hlen : m.mChannelPositions.length < 2 ^ 32) (hcalls : calls.length < 2 ^ 32) :
    (m.mChannelPositions.lookup index = none →
      (ChannelMerger.AddChannel w rand applyOffset m index stream).mChannelPositions.lookup index
        = some m.mChannelPositions.length) ∧
    (∀ k p, m.mChannelPositions.lookup k = some p →
      (ChannelMerger.AddChannel w rand applyOffset m index stream).mChannelPositions.lookup k
          = some p ∧
      (ChannelMerger.addChannels w rand calls m).mChannelPositions.lookup k = some p) ∧
    ((ChannelMerger.addChannels w rand calls (ChannelMerger.init w)).mChannelPositions.map
        Prod.snd).Perm
      (List.range
        (ChannelMerger.addChannels w rand calls (ChannelMerger.init w)).mChannelPositions.length) ∧
    ((ChannelMerger.addChannels w rand calls (ChannelMerger.init w)).mChannelPositions.map
        Prod.snd).Nodup ∧
    ((ChannelMerger.addChannels w rand calls (ChannelMerger.init w)).mChannelPositions.map
        Prod.fst).Nodup := by
  refine ⟨fun hnone => ?_, fun k p h => ⟨AddChannel_keeps_slot w rand applyOffset m index stream
    k p h, addChannels_keeps_slot w rand calls m k p h⟩, ?_⟩
  · rw [AddChannel_positions]
    unfold ChannelMerger.assignPosition
    rw [hnone]
    simp only [Nat.mod_eq_of_lt (show m.mChannelPositions.length < UINT_MOD from hlen)]
    exact lookup_mapInsert_self _ _ _
  · obtain ⟨g1, g2, _⟩ := addChannels_dense w rand calls (ChannelMerger.init w)
      (by
        have : (ChannelMerger.init w).mChannelPositions.length = 0 := rfl
        rw [this]; omega)
      (List.Perm.refl _) List.nodup_nil
    exact ⟨g1, g1.nodup_iff.mpr (List.nodup_range _), g2⟩

theorem channel_index_dense_and_stable_witness :
    (ChannelMerger.AddChannel 16 (fun _ => 0) id exampleMerger 9 []).mChannelPositions.lookup 9
      = some exampleMerger.mChannelPositions.length ∧
    ((ChannelMerger.AddChannel 16 (fun _ => 0) id exampleMerger 9 []).mChannelPositions.lookup 7
        = some 0 ∧
      (ChannelMerger.addChannels 16 (fun _ => 0) [(id, 9, []), (id, 3, []), (id, 9, [])]
        exampleMerger).mChannelPositions.lookup 7 = some 0) ∧
    ((ChannelMerger.addChannels 16 (fun _ => 0) [(id, 9, []), (id, 3, []), (id, 9, [])]
        (ChannelMerger.init 16)).mChannelPositions.map Prod.snd).Perm
      (List.range (ChannelMerger.addChannels 16 (fun _ => 0)
        [(id, 9, []), (id, 3, []), (id, 9, [])]
        (ChannelMerger.init 16)).mChannelPositions.length) ∧
    ((ChannelMerger.addChannels 16 (fun _ => 0) [(id, 9, []), (id, 3, []), (id, 9, [])]
        (ChannelMerger.init 16)).mChannelPositions.map Prod.snd).Nodup ∧
    ((ChannelMerger.addChannels 16 (fun _ => 0) [(id, 9, []), (id, 3, []), (id, 9, [])]
        (ChannelMerger.init 16)).mChannelPositions.map Prod.fst).Nodup :=
  ⟨(channel_index_dense_and_stable 16 (fun _ => 0) exampleMerger id 9 []
      [(id, 9, []), (id, 3, []), (id, 9, [])] (by decide) (by decide)).1 (by decide),
    (channel_index_dense_and_stable 16 (fun _ => 0) exampleMerger id 9 []
      [(id, 9, []), (id, 3, []), (id, 9, [])] (by decide) (by decide)).2.1 7 0 (by decide),
    (channel_index_dense_and_stable 16 (fun _ => 0) exampleMerger id 9 []
      [(id, 9, []), (id, 3, []), (id, 9, [])] (by decide) (by decide)).2.2⟩

/-! ### The noise manipulation -/

/-- C26 fails as stated: the arithmetic of `ManipulateNoise` is `unsigned`.
With the noise factor `2^23` the sample 1023 and the draw 0 give
`1023 * 2^23` reduced modulo `2^32`, which is 4286578688 and not 8581545984;
with the factor 2 the signal `2^31` gives 0. -/
theorem ManipulateNoise_wraps :
    ChannelMerger.ManipulateNoise { exampleMerger with mNoiseFactor := 8388608 } 0 1023
      = 4286578688 ∧
    1023 * 8388608 + 0 = 8581545984 ∧
    ChannelMerger.ManipulateNoise { exampleMerger with mNoiseFactor := 2 } 0 2147483648 = 0 := by
  refine ⟨by decide, by decide, by decide⟩

/-- C26 (amended): the noise manipulation.  With `f` the noise factor as the
`unsigned` value the function reads: for `f ≤ 1` the signal is returned
unchanged; for `f ≥ 2`, as long as `s*f + f` and `|shift|*(f-1)` fit the
`unsigned` word, the result is `n = s*f + r` for the draw `r = rand % f`,
reduced by `|shift|*(f-1)` exactly when the baseline shift is negative and
`n ≥ |shift|*(f-1)`; hence with a shift that is not negative the result lies
in `[s*f, s*f + f)`. -/
theorem ManipulateNoise_reference (m : ChannelMerger) (r s : Nat)
    (hn : s * toUnsigned m.mNoiseFactor + toUnsigned m.mNoiseFactor ≤ 2 ^ 32)
    (hsc : m.mBaselineshift.natAbs * (toUnsigned m.mNoiseFactor - 1) < 2 ^ 32) :
    (toUnsigned m.mNoiseFactor ≤ 1 → ChannelMerger.ManipulateNoise m r s = s) ∧
    (2 ≤ toUnsigned m.mNoiseFactor →
      r % toUnsigned m.mNoiseFactor < toUnsigned m.mNoiseFactor ∧
      ChannelMerger.ManipulateNoise m r s
        = (if m.mBaselineshift < 0 ∧
              s * toUnsigned m.mNoiseFactor + r % toUnsigned m.mNoiseFactor
                ≥ m.mBaselineshift.natAbs * (toUnsigned m.mNoiseFactor - 1) then
            s * toUnsigned m.mNoiseFactor + r % toUnsigned m.mNoiseFactor
              - m.mBaselineshift.natAbs * (toUnsigned m.mNoiseFactor - 1)
          else s * toUnsigned m.mNoiseFactor + r % toUnsigned m.mNoiseFactor) ∧
      (0 ≤ m.mBaselineshift →
        s * toUnsigned m.mNoiseFactor ≤ ChannelMerger.ManipulateNoise m r s ∧
        ChannelMerger.ManipulateNoise m r s
          < s * toUnsigned m.mNoiseFactor + toUnsigned m.mNoiseFactor)) := by
  generalize hf : toUnsigned m.mNoiseFactor = f at hn hsc
  have hU : UINT_MOD = 2 ^ 32 := rfl
  constructor
  · intro h1
    unfold ChannelMerger.ManipulateNoise
    simp only [hf, h1, if_true]
  · intro h2
    have hr : r % f < f := Nat.mod_lt _ (by omega)
    have hm1 : (s * f) % UINT_MOD = s * f := Nat.mod_eq_of_lt (by rw [hU]; omega)
    have hm2 : (s * f + r % f) % UINT_MOD = s * f + r % f :=
      Nat.mod_eq_of_lt (by rw [hU]; omega)
    have hval : ChannelMerger.ManipulateNoise m r s
        = (if m.mBaselineshift < 0 ∧ s * f + r % f ≥ m.mBaselineshift.natAbs * (f - 1) then
            s * f + r % f - m.mBaselineshift.natAbs * (f - 1)
          else s * f + r % f) := by
      unfold ChannelMerger.ManipulateNoise
      simp only [hf, hm1, hm2]
      rw [if_neg (by omega)]
      by_cases hneg : m.mBaselineshift < 0
      · have hsca : toUnsigned (-m.mBaselineshift * ((f : Int) - 1))
            = m.mBaselineshift.natAbs * (f - 1) := by
          have e1 : -m.mBaselineshift = (m.mBaselineshift.natAbs : Int) := by omega
          have e2 : (f : Int) - 1 = ((f - 1 : Nat) : Int) := by omega
          rw [e1, e2, ← Int.natCast_mul]
          exact toUnsigned_natCast _ hsc
        rw [hsca]
      · rw [if_neg (fun h => hneg h.1), if_neg (fun h => hneg h.1)]
    refine ⟨hr, hval, fun hnn => ?_⟩
    rw [hval, if_neg (fun h => by omega)]
    omega

theorem ManipulateNoise_reference_witness :
    (2 ≤ toUnsigned ({ exampleMerger with mNoiseFactor := 3, mBaselineshift := -2 }
        : ChannelMerger).mNoiseFactor) ∧
    ChannelMerger.ManipulateNoise { exampleMerger with mNoiseFactor := 3, mBaselineshift := -2 }
      7 5 = 5 * 3 + 7 % 3 - 2 * (3 - 1) ∧
    ChannelMerger.ManipulateNoise { exampleMerger with mNoiseFactor := 1 } 7 5 = 5 ∧
    (5 * 3 ≤ ChannelMerger.ManipulateNoise { exampleMerger with mNoiseFactor := 3 } 7 5 ∧
      ChannelMerger.ManipulateNoise { exampleMerger with mNoiseFactor := 3 } 7 5 < 5 * 3 + 3) :=
  ⟨by decide,
    ((ManipulateNoise_reference { exampleMerger with mNoiseFactor := 3, mBaselineshift := -2 }
      7 5 (by decide) (by decide)).2 (by decide)).2.1,
    (ManipulateNoise_reference { exampleMerger with mNoiseFactor := 1 } 7 5 (by decide)
      (by decide)).1 (by decide),
    ((ManipulateNoise_reference { exampleMerger with mNoiseFactor := 3 } 7 5 (by decide)
      (by decide)).2 (by decide)).2.2 (by decide)⟩

/-! ### The baseline correction at ingestion -/

/-- C27: the baseline correction at ingestion.  For every raw sample `x` and
every channel baseline `b` below `2^31` (the baselines are stored from `int`
values that are not negative; `b` is 0 for a channel without entry) and every
baseline shift above `-2^31`: the original signal handed to the cell store
is `max(x - b, 0)`, and the kept current signal `k` (the sample, or 0 when
zero suppression drops it) is handed on as `max(k - tb, 0)`, where `tb` is
`b - shift` whenever `shift < 0` or `0 ≤ shift < b`, and `b` otherwise. -/
theorem baseline_correction (w : Nat) (rand : Nat → Nat) (applyOffset : Int → Int)
    (m : ChannelMerger) (index : Nat) (stream : List Bunch)
    (position threshold b : Nat) (startTime : Int) (signals : List Nat) (i : Nat) (pk : Bool)
    (hb : b < 2 ^ 31) (hs1 : -(2 : Int) ^ 31 < m.mBaselineshift)
    (hs2 : m.mBaselineshift < (2 : Int) ^ 31) :
    ((ChannelMerger.originalSignalOf b signals i : Nat) : Int)
      = max ((readAt signals i : Int) - (b : Int)) 0 ∧
    ((ChannelMerger.currentSignalOf w m threshold b signals i pk : Nat) : Int)
      = max (((if (ChannelMerger.inlineZS w threshold signals i pk).2 then readAt signals i else 0
              : Nat) : Int)
          - (if m.mBaselineshift < 0 ∨ m.mBaselineshift < (b : Int) then
              (b : Int) - m.mBaselineshift
            else (b : Int))) 0 ∧
    ChannelMerger.sampleBody w rand position threshold b startTime signals i (m, pk)
      = (ChannelMerger.accumulate w rand m position (startTime - (i : Int))
          (ChannelMerger.currentSignalOf w m threshold b signals i pk)
          (ChannelMerger.originalSignalOf b signals i),
        (ChannelMerger.inlineZS w threshold signals i pk).1) ∧
    ChannelMerger.AddChannel w rand applyOffset m index stream
      = ChannelMerger.bunchLoop w rand applyOffset
          (((ChannelMerger.prepareChannel w m index).2
            * (ChannelMerger.prepareChannel w m index).1.mChannelLenght) % UINT_MOD)
          (ChannelMerger.ingestThreshold w m ((m.mChannelBaseline.lookup index).getD 0))
          ((m.mChannelBaseline.lookup index).getD 0) stream
          (ChannelMerger.prepareChannel w m index).1 ∧
    (m.mChannelBaseline.lookup index = none → (m.mChannelBaseline.lookup index).getD 0 = 0) := by
  refine ⟨?_, ?_, rfl, rfl, fun h => by rw [h]; rfl⟩
  · unfold ChannelMerger.originalSignalOf
    simp only []
    rw [max_def]
    split_ifs <;> omega
  · unfold ChannelMerger.currentSignalOf
    simp only []
    generalize (if (ChannelMerger.inlineZS w threshold signals i pk).2 = true then
      readAt signals i else 0) = k
    by_cases hneg : m.mBaselineshift < 0
    · have e1 : toUnsigned ((b : Int) + -m.mBaselineshift) = b + m.mBaselineshift.natAbs := by
        have : (b : Int) + -m.mBaselineshift = ((b + m.mBaselineshift.natAbs : Nat) : Int) := by
          omega
        rw [this]
        exact toUnsigned_natCast _ (by omega)
      rw [if_pos hneg, e1, if_pos (Or.inl hneg), max_def]
      split_ifs <;> omega
    · obtain ⟨s, hs⟩ : ∃ s : Nat, m.mBaselineshift = (s : Int) :=
        ⟨m.mBaselineshift.toNat, (Int.toNat_of_nonneg (by omega)).symm⟩
      rw [hs] at hs2 ⊢
      have e0 : toUnsigned (s : Int) = s := toUnsigned_natCast s (by omega)
      rw [if_neg (show ¬ ((s : Int) < 0) by omega), e0]
      by_cases hlt : s < b
      · have e2 : toUnsigned ((b : Int) - (s : Int)) = b - s := by
          rw [← Int.ofNat_sub (le_of_lt hlt)]
          exact toUnsigned_natCast _ (by omega)
        rw [if_pos hlt, e2, if_pos (Or.inr (by omega)), max_def]
        split_ifs <;> omega
      · rw [if_neg hlt, if_neg (show ¬ ((s : Int) < 0 ∨ (s : Int) < (b : Int)) by omega),
          max_def]
        split_ifs <;> omega

theorem baseline_correction_witness :
    ((ChannelMerger.originalSignalOf 4 [9, 3] 1 : Nat) : Int)
      = max ((readAt [9, 3] 1 : Int) - ((4 : Nat) : Int)) 0 ∧
    ChannelMerger.originalSignalOf 4 [9, 3] 1 = 0 ∧
    ChannelMerger.currentSignalOf 16 { exampleMerger with mBaselineshift := -2 } 65535 4
      [9, 3] 0 false = 3 ∧
    ((ChannelMerger.currentSignalOf 16 { exampleMerger with mBaselineshift := -2 } 65535 4
        [9, 3] 0 false : Nat) : Int)
      = max (((if (ChannelMerger.inlineZS 16 65535 [9, 3] 0 false).2 then readAt [9, 3] 0 else 0
              : Nat) : Int)
          - (if ({ exampleMerger with mBaselineshift := -2 } : ChannelMerger).mBaselineshift < 0 ∨
              ({ exampleMerger with mBaselineshift := -2 } : ChannelMerger).mBaselineshift
                < ((4 : Nat) : Int) then
              ((4 : Nat) : Int)
                - ({ exampleMerger with mBaselineshift := -2 } : ChannelMerger).mBaselineshift
            else ((4 : Nat) : Int))) 0 :=
  ⟨(baseline_correction 16 (fun _ => 0) id { exampleMerger with mBaselineshift := -2 } 7 []
      0 65535 4 0 [9, 3] 1 false (by decide) (by decide) (by decide)).1,
    by decide, by decide,
    (baseline_correction 16 (fun _ => 0) id { exampleMerger with mBaselineshift := -2 } 7 []
      0 65535 4 0 [9, 3] 0 false (by decide) (by decide) (by decide)).2.1⟩

/-! ### The dump for the simulation -/

/-- The loop over the times from `i` down to `lowerBound + 1` writes one
record per time, with `VOID_SIGNAL` replaced by 0. -/
theorem systemcLoop_eq (w : Nat) (buffer : List Nat) (position lowerBound : Nat) :
    ∀ i, ChannelMerger.systemcLoop w buffer position lowerBound i
      = (List.range (i - lowerBound)).map (fun j =>
          (i - j, ChannelMerger.voidAsZero w (readAt buffer ((position + (i - j)) % UINT_MOD)))) := by
  intro i
  induction i with
  | zero => simp [ChannelMerger.systemcLoop]
  | succ k ih =>
    unfold ChannelMerger.systemcLoop
    by_cases h : k + 1 > lowerBound
    · rw [if_pos h, ih]
      have hn : k + 1 - lowerBound = (k - lowerBound) + 1 := by omega
      rw [hn, List.range_succ_eq_map, List.map_cons, List.map_map]
      simp only [ChannelMerger.voidAsZero, Nat.sub_zero, Function.comp_def,
        Nat.succ_sub_succ]
    · rw [if_neg h]
      have hn : k + 1 - lowerBound = 0 := by omega
      rw [hn]
      rfl

/-- C29: the fixed bunch dump for the simulation.  For every channel,
`WriteSystemcInputFile` writes the hardware address, the header `1021 980`
and then exactly 980 records, for the times 1021, 1020, ..., 42 in that
order, each with the cell of the current buffer at that timebin of the
channel and `VOID_SIGNAL` replaced by 0; every time read is below the channel
length when the channel has at least 1022 timebins. -/
theorem systemc_dump (w : Nat) (m : ChannelMerger) (index slot : Nat) :
    ChannelMerger.systemcChannel w m index slot
      = (unpackHWAddr index, (1021, 980),
          (List.range 980).map (fun j =>
            (1021 - j, ChannelMerger.voidAsZero w
              (readAt (m.mBuffer.getD [])
                (((slot * m.mChannelLenght) % UINT_MOD + (1021 - j)) % UINT_MOD))))) ∧
    (ChannelMerger.systemcChannel w m index slot).2.2.length = 980 ∧
    (ChannelMerger.systemcChannel w m index slot).2.2.map Prod.fst
      = (List.range 980).map (fun j => 1021 - j) ∧
    (∀ r ∈ (ChannelMerger.systemcChannel w m index slot).2.2,
      42 ≤ r.1 ∧ r.1 ≤ 1021 ∧ (1022 ≤ m.mChannelLenght → r.1 < m.mChannelLenght)) ∧
    ChannelMerger.WriteSystemcInputFile w m
      = m.mChannelPositions.map (fun p => ChannelMerger.systemcChannel w m p.1 p.2) := by
  have h : ChannelMerger.systemcChannel w m index slot
      = (unpackHWAddr index, (1021, 980),
          (List.range 980).map (fun j =>
            (1021 - j, ChannelMerger.voidAsZero w
              (readAt (m.mBuffer.getD [])
                (((slot * m.mChannelLenght) % UINT_MOD + (1021 - j)) % UINT_MOD))))) := by
    unfold ChannelMerger.systemcChannel
    simp only [systemcLoop_eq]
  have h2 : (ChannelMerger.systemcChannel w m index slot).2.2
      = (List.range 980).map (fun j =>
          (1021 - j, ChannelMerger.voidAsZero w
            (readAt (m.mBuffer.getD [])
              (((slot * m.mChannelLenght) % UINT_MOD + (1021 - j)) % UINT_MOD)))) := by
    unfold ChannelMerger.systemcChannel
    simp only [systemcLoop_eq]
  refine ⟨h, ?_, ?_, ?_, rfl⟩
  · exact (congrArg List.length h2).trans
      ((List.length_map _ _).trans (List.length_range 980))
  · exact (congrArg (List.map Prod.fst) h2).trans (List.map_map _ _ _)
  · intro r hr
    rw [h2] at hr
    simp only [List.mem_map, List.mem_range] at hr
    obtain ⟨j, hj, rfl⟩ := hr
    refine ⟨by simp only []; omega, by simp only []; omega, fun hL => by simp only []; omega⟩

/-! ### Two adjacent samples above threshold -/

/-- C30: two adjacent samples above threshold are kept.  In the ingestion
scan, for every threshold and every peak state before them, two adjacent
samples of a bunch that are both above threshold are both kept, and for a
threshold other than `VOID_SIGNAL` the peak is active after each of them.  In
the standalone pass, for every threshold and every peak state before them,
two adjacent cells that hold samples (not `VOID_SIGNAL`) above threshold are
both kept, with their value as `currentSignal`, and the peak is active after
each of them. -/
theorem adjacent_above_threshold_kept (w thr : Nat) (s : List Nat) (i : Nat) (pk : Bool)
    (b : List Nat) (j : Nat) (pk1 : Bool)
    (hs0 : readAt s i > thr) (hs1 : readAt s (i + 1) > thr) (hlen : i + 1 < s.length)
    (hb0 : readAt b (j + 1) > thr) (hb1 : readAt b j > thr)
    (hv0 : readAt b (j + 1) ≠ VOID_SIGNAL w) (hv1 : readAt b j ≠ VOID_SIGNAL w) :
    (ChannelMerger.inlineZS w thr s i pk).2 = true ∧
    (ChannelMerger.inlineZS w thr s (i + 1) (ChannelMerger.inlineZS w thr s i pk).1).2 = true ∧
    (thr ≠ VOID_SIGNAL w → (ChannelMerger.inlineZS w thr s i pk).1 = true ∧
      (ChannelMerger.inlineZS w thr s (i + 1) (ChannelMerger.inlineZS w thr s i pk).1).1
        = true) ∧
    ChannelMerger.zsDecide w thr b (j + 1) pk1 = (true, readAt b (j + 1)) ∧
    ChannelMerger.zsDecide w thr b j (ChannelMerger.zsDecide w thr b (j + 1) pk1).1
      = (true, readAt b j) ∧
    (ChannelMerger.zsKept w thr b (j + 2) pk1).take 2 = [true, true] := by
  have hi0 : ChannelMerger.inlineZS w thr s i pk
      = if thr ≠ VOID_SIGNAL w then (true, true) else (pk, true) := by
    unfold ChannelMerger.inlineZS
    cases pk <;> simp [hs0, hs1, hlen]
  have hvoid : thr = VOID_SIGNAL w → ∀ k q, ChannelMerger.inlineZS w thr s k q = (q, true) := by
    intro ht k q
    unfold ChannelMerger.inlineZS
    simp [ht]
  have htrue : ChannelMerger.inlineZS w thr s (i + 1) true = (true, true) := by
    unfold ChannelMerger.inlineZS
    simp [hs1]
  have hd0 : ChannelMerger.zsDecide w thr b (j + 1) pk1 = (true, readAt b (j + 1)) := by
    unfold ChannelMerger.zsDecide
    cases pk1 <;> simp [hb0, hb1, hv0, hv1]
  have hd1 : ChannelMerger.zsDecide w thr b j true = (true, readAt b j) := by
    unfold ChannelMerger.zsDecide
    simp [hb1, hv1]
  refine ⟨?_, ?_, ?_, hd0, by rw [hd0]; exact hd1, ?_⟩
  · rw [hi0]; split_ifs <;> rfl
  · by_cases ht : thr = VOID_SIGNAL w
    · rw [hvoid ht (i + 1)]
    · rw [hi0, if_pos ht, htrue]
  · intro ht
    rw [hi0, if_pos ht, htrue]
    exact ⟨rfl, rfl⟩
  · have e : ChannelMerger.zsKept w thr b (j + 2) pk1
        = decide ((ChannelMerger.zsDecide w thr b (j + 1) pk1).2 ≠ VOID_SIGNAL w) ::
          decide ((ChannelMerger.zsDecide w thr b j
              (ChannelMerger.zsDecide w thr b (j + 1) pk1).1).2 ≠ VOID_SIGNAL w) ::
          ChannelMerger.zsKept w thr b j (ChannelMerger.zsDecide w thr b j
              (ChannelMerger.zsDecide w thr b (j + 1) pk1).1).1 := rfl
    rw [e, hd0, hd1]
    simp [hv0, hv1]

theorem adjacent_above_threshold_kept_witness :
    (ChannelMerger.inlineZS 16 5 [8, 9, 1] 0 false).2 = true ∧
    (ChannelMerger.inlineZS 16 5 [8, 9, 1] (0 + 1)
      (ChannelMerger.inlineZS 16 5 [8, 9, 1] 0 false).1).2 = true ∧
    ((ChannelMerger.inlineZS 16 5 [8, 9, 1] 0 false).1 = true ∧
      (ChannelMerger.inlineZS 16 5 [8, 9, 1] (0 + 1)
        (ChannelMerger.inlineZS 16 5 [8, 9, 1] 0 false).1).1 = true) ∧
    ChannelMerger.zsDecide 16 5 [1, 9, 8] (1 + 1) false = (true, readAt [1, 9, 8] (1 + 1)) ∧
    ChannelMerger.zsDecide 16 5 [1, 9, 8] 1
      (ChannelMerger.zsDecide 16 5 [1, 9, 8] (1 + 1) false).1 = (true, readAt [1, 9, 8] 1) ∧
    (ChannelMerger.zsKept 16 5 [1, 9, 8] (1 + 2) false).take 2 = [true, true] :=
  ⟨(adjacent_above_threshold_kept 16 5 [8, 9, 1] 0 false [1, 9, 8] 1 false (by decide)
      (by decide) (by decide) (by decide) (by decide) (by decide) (by decide)).1,
    (adjacent_above_threshold_kept 16 5 [8, 9, 1] 0 false [1, 9, 8] 1 false (by decide)
      (by decide) (by decide) (by decide) (by decide) (by decide) (by decide)).2.1,
    (adjacent_above_threshold_kept 16 5 [8, 9, 1] 0 false [1, 9, 8] 1 false (by decide)
      (by decide) (by decide) (by decide) (by decide) (by decide) (by decide)).2.2.1
      (by decide),
    (adjacent_above_threshold_kept 16 5 [8, 9, 1] 0 false [1, 9, 8] 1 false (by decide)
      (by decide) (by decide) (by decide) (by decide) (by decide) (by decide)).2.2.2⟩

/-! ### The baseline shift correction of the standalone pass -/

/-- C28 fails as stated: the corrected sample is stored in the sample word.
With the baseline shift 2 the two samples 65534 of a 16 bit sample word are
kept by the peak rule, and the pass writes 0 to the target, not
`65534 + 2`; the same happens for a 32 bit sample word with the samples
4294967294. -/
theorem shift_correction_wraps :
    ChannelMerger.zsKept 16 5 [65534, 65534] 2 false = [true, true] ∧
    (ChannelMerger.SignalBufferZeroSuppression 16 (some [65534, 65534]) 2 5 2
        (ChannelMerger.Target.separate [7, 7])).2.2
      = ChannelMerger.Target.separate [0, 0] ∧
    ChannelMerger.zsKept 32 5 [4294967294, 4294967294] 2 false = [true, true] ∧
    (ChannelMerger.SignalBufferZeroSuppression 32 (some [4294967294, 4294967294]) 2 5 2
        (ChannelMerger.Target.separate [7, 7])).2.2
      = ChannelMerger.Target.separate [0, 0] := by
  refine ⟨by decide, by decide, by decide, by decide⟩

/-- The corrected value of a sample as the pass stores it. -/
theorem shiftCorrect_eq_shifted (w : Nat) (shift : Int) (x : Nat) (hw : w ≤ 32)
    (hx : x < 2 ^ w) (hxv : x ≠ VOID_SIGNAL w) (hx31 : x < 2 ^ 31)
    (hs1 : -(2 : Int) ^ 31 < shift) (hs2 : shift < (2 : Int) ^ 31) :
    toBuffer w (ChannelMerger.shiftCorrect w shift x) = ChannelMerger.shiftedSample w shift x := by
  have hp : 2 ^ w ≤ 2 ^ 32 := Nat.pow_le_pow_right (by decide) hw
  unfold ChannelMerger.shiftCorrect ChannelMerger.shiftedSample toBuffer
  rw [if_pos hxv]
  by_cases hneg : shift < 0
  · rw [if_pos hneg, if_pos hneg, toSigned_of_lt x hx31]
    by_cases hgt : (x : Int) > -shift
    · have e : (x : Int) - -shift = ((x - shift.natAbs : Nat) : Int) := by omega
      rw [if_pos hgt, e, toUnsigned_natCast _ (by omega)]
      exact Nat.mod_eq_of_lt (by omega)
    · rw [if_neg hgt]
      have : x - shift.natAbs = 0 := by omega
      rw [this]
      exact Nat.zero_mod _
  · have e : (x : Int) + shift = ((x + shift.toNat : Nat) : Int) := by omega
    rw [if_neg hneg, if_neg hneg, e]
    unfold toUnsigned UINT_MOD
    rw [← Int.natCast_mod, Int.toNat_ofNat]
    exact Nat.mod_mod_of_dvd _ (pow_dvd_pow 2 hw)

/-- The values written by a scan: a cell that holds a sample and is kept
receives the corrected sample, every other cell `VOID_SIGNAL`. -/
theorem scanValues_eq_zipWith (w thr : Nat) (shift : Int) (hw : w ≤ 32)
    (hs1 : -(2 : Int) ^ 31 < shift) (hs2 : shift < (2 : Int) ^ 31) (r : List Nat) :
    ∀ pk, (∀ x ∈ r, x ≠ VOID_SIGNAL w → x < 2 ^ w ∧ x < 2 ^ 31) →
      ChannelMerger.scanValues w thr shift pk r
        = List.zipWith
            (fun x k => if k = true ∧ x ≠ VOID_SIGNAL w then
                ChannelMerger.shiftedSample w shift x else VOID_SIGNAL w)
            r (ChannelMerger.scanKept w thr pk r) := by
  induction r with
  | nil => intro pk _; rfl
  | cons x rest ih =>
    intro pk hc
    have hrest := ih (ChannelMerger.scanStep w thr pk x rest).1
      (fun y hy => hc y (List.mem_cons_of_mem _ hy))
    rw [ChannelMerger.scanValues, ChannelMerger.scanKept, List.zipWith_cons_cons, hrest]
    congr 1
    unfold ChannelMerger.scanValue
    by_cases hxv : x = VOID_SIGNAL w
    · simp [hxv]
    · have hx := hc x (List.mem_cons_self _ _) hxv
      rw [if_pos hxv, scanStep_eq_keeps]
      cases ChannelMerger.scanKeeps w thr pk x rest with
      | true =>
        simp only [if_true, if_neg hxv]
        rw [shiftCorrect_eq_shifted w shift x hw hx.1 hxv hx.2 hs1 hs2]
        simp [hxv]
      | false =>
        have hv : ChannelMerger.shiftCorrect w shift (VOID_SIGNAL w) = VOID_SIGNAL w := by
          unfold ChannelMerger.shiftCorrect
          simp
        simp [hv, toBuffer_VOID]

/-- C28 (amended): the baseline shift correction of kept samples.  For a
channel of `size < 2^31` cells of a sample word of at most 32 bits whose
samples are below `2^31`, and a baseline shift `shift` with
`-2^31 < shift < 2^31`: the pass writes to the target, a vector of its own or
the buffer itself, for every timebin that holds a sample `v` kept by the peak
rule the value `max(v - |shift|, 0)` when the shift is negative and
`v + shift` reduced modulo `2^w` otherwise, which is `v + shift` when that
fits the sample word and `v` when the shift is 0; every other timebin,
suppressed or `VOID_SIGNAL` before, is written as `VOID_SIGNAL`.  The lists
are in scan order, from the last timebin down. -/
theorem shift_correction_of_kept_samples (w thr : Nat) (shift : Int) (b t : List Nat)
    (size : Nat) (hw : w ≤ 32) (hsize : size < 2 ^ 31) (hle : size ≤ b.length)
    (ht : t.length = size)
    (hcells : ∀ x ∈ b.take size, x ≠ VOID_SIGNAL w → x < 2 ^ w ∧ x < 2 ^ 31)
    (hs1 : -(2 : Int) ^ 31 < shift) (hs2 : shift < (2 : Int) ^ 31) :
    (ChannelMerger.SignalBufferZeroSuppression w (some b) size thr shift
        (ChannelMerger.Target.separate t)).2.2
      = ChannelMerger.Target.separate
          (List.zipWith
            (fun x k => if k = true ∧ x ≠ VOID_SIGNAL w then
                ChannelMerger.shiftedSample w shift x else VOID_SIGNAL w)
            (b.take size).reverse (ChannelMerger.zsKept w thr b size false)).reverse ∧
    (ChannelMerger.SignalBufferZeroSuppression w (some b) size thr shift
        ChannelMerger.Target.aliased).2.1
      = some ((List.zipWith
            (fun x k => if k = true ∧ x ≠ VOID_SIGNAL w then
                ChannelMerger.shiftedSample w shift x else VOID_SIGNAL w)
            (b.take size).reverse (ChannelMerger.zsKept w thr b size false)).reverse
          ++ b.drop size) ∧
    (∀ v : Nat,
      (shift < 0 → ((ChannelMerger.shiftedSample w shift v : Nat) : Int)
        = max ((v : Int) - |shift|) 0) ∧
      (0 ≤ shift → (v : Int) + shift < (2 : Int) ^ w →
        ((ChannelMerger.shiftedSample w shift v : Nat) : Int) = (v : Int) + shift) ∧
      (0 ≤ shift → ChannelMerger.shiftedSample w shift v = (v + shift.toNat) % 2 ^ w)) := by
  obtain ⟨_, h2, h3⟩ := SignalBufferZeroSuppression_eq_scan w thr shift b t size hsize hle ht
  have hz := scanValues_eq_zipWith w thr shift hw hs1 hs2 (b.take size).reverse false
    (fun x hx => hcells x (List.mem_reverse.mp hx))
  have hk := zsKept_eq_scanKept w thr b size false hle
  rw [h2, h3, hz, hk]
  refine ⟨rfl, rfl, fun v => ⟨fun hneg => ?_, fun hnn hfit => ?_, fun hnn => ?_⟩⟩
  · unfold ChannelMerger.shiftedSample
    rw [if_pos hneg, max_def, abs_of_neg hneg]
    split_ifs <;> omega
  · unfold ChannelMerger.shiftedSample
    rw [if_neg (by omega)]
    have hlt : v + shift.toNat < 2 ^ w := by
      have e : ((v + shift.toNat : Nat) : Int) = (v : Int) + shift := by omega
      have : ((v + shift.toNat : Nat) : Int) < ((2 ^ w : Nat) : Int) := by
        rw [e]; push_cast; exact hfit
      exact Int.ofNat_lt.mp this
    rw [Nat.mod_eq_of_lt hlt]
    omega
  · unfold ChannelMerger.shiftedSample
    rw [if_neg (by omega)]

theorem shift_correction_of_kept_samples_witness :
    (ChannelMerger.SignalBufferZeroSuppression 16 (some [0, 8, 9, 65535, 3, 7, 9]) 6 5 (-4)
        (ChannelMerger.Target.separate [0, 0, 0, 0, 0, 0])).2.2
      = ChannelMerger.Target.separate [65535, 4, 5, 65535, 65535, 65535] ∧
    (ChannelMerger.SignalBufferZeroSuppression 16 (some [0, 8, 9, 65535, 3, 7, 9]) 6 5 (-4)
        ChannelMerger.Target.aliased).2.1
      = some [65535, 4, 5, 65535, 65535, 65535, 9] ∧
    ((ChannelMerger.shiftedSample 16 (-4) 3 : Nat) : Int) = max (((3 : Nat) : Int) - |(-4)|) 0 ∧
    ((ChannelMerger.shiftedSample 16 4 3 : Nat) : Int) = ((3 : Nat) : Int) + 4 :=
  ⟨(shift_correction_of_kept_samples 16 5 (-4) [0, 8, 9, 65535, 3, 7, 9] [0, 0, 0, 0, 0, 0] 6
      (by decide) (by decide) (by decide) (by decide) (by decide) (by decide) (by decide)).1,
    (shift_correction_of_kept_samples 16 5 (-4) [0, 8, 9, 65535, 3, 7, 9] [0, 0, 0, 0, 0, 0] 6
      (by decide) (by decide) (by decide) (by decide) (by decide) (by decide) (by decide)).2.1,
    ((shift_correction_of_kept_samples 16 5 (-4) [0, 8, 9, 65535, 3, 7, 9] [0, 0, 0, 0, 0, 0] 6
      (by decide) (by decide) (by decide) (by decide) (by decide) (by decide)
      (by decide)).2.2 3).1 (by decide),
    ((shift_correction_of_kept_samples 16 5 4 [0, 8, 9, 65535, 3, 7, 9] [0, 0, 0, 0, 0, 0] 6
      (by decide) (by decide) (by decide) (by decide) (by decide) (by decide)
      (by decide)).2.2 3).2.1 (by decide) (by decide)⟩

/-! ### The bunches of `WriteTimeframe` -/

/-- The body of the bunch loop for timebin `k` keeps the invariant. -/
theorem wtBody_inv (w : Nat) (buffer : List Nat) (position L k : Nat) (s : ChannelMerger.WTLoop)
    (hL : L < 2 ^ 32)
    (h : ChannelMerger.WTInv w (fun t => readAt buffer ((position + t) % UINT_MOD)) L (k + 1) s) :
    ChannelMerger.WTInv w (fun t => readAt buffer ((position + t) % UINT_MOD)) L k
      (ChannelMerger.wtBody w buffer position k s) := by
  obtain ⟨hnb, hns, hclosed, horder, hopened, hidle, hcover⟩ := h
  unfold ChannelMerger.wtBody
  simp only []
  by_cases hv : readAt buffer ((position + k) % UINT_MOD) = VOID_SIGNAL w
  · rw [if_pos hv]
    by_cases hn : s.nBunchSamples > 0
    · rw [if_pos hn]
      obtain ⟨ho1, ho2, ho3⟩ := hopened hn
      have hmod : (s.NBunches + 1) % UINT_MOD = s.NBunches + 1 :=
        Nat.mod_eq_of_lt (by unfold UINT_MOD; omega)
      unfold ChannelMerger.wtEndBunch
      rw [hmod]
      refine ⟨by simp only []; omega, by simp only []; omega, ?_, ?_, ?_, ?_, ?_⟩
      · intro i hi
        simp only at hi ⊢
        by_cases hiN : i = s.NBunches
        · subst hiN
          rw [Function.update_same]
          refine ⟨by omega, by omega, by omega, by omega, ?_, ?_, ?_⟩
          · intro j hj
            exact ho2 (s.BunchTime s.NBunches - j) (by omega) (by omega)
          · have : s.BunchTime s.NBunches - s.nBunchSamples = k := by omega
            rw [this]; exact hv
          · intro hlt
            have : s.BunchTime s.NBunches + 1 = k + 1 + s.nBunchSamples := by omega
            rw [this]
            exact ho3 (by omega)
        · rw [Function.update_noteq hiN]
          obtain ⟨c1, c2, c3, c4, c5, c6, c7⟩ := hclosed i (by omega)
          exact ⟨c1, c2, c3, by omega, c5, c6, c7⟩
      · intro i j hij hj
        simp only at hj ⊢
        by_cases hjN : j = s.NBunches
        · subst hjN
          obtain ⟨c1, c2, c3, c4, _⟩ := hclosed i hij
          omega
        · exact horder i j hij (by omega)
      · intro h0
        simp only at h0
        omega
      · intro _ hk
        exact hv
      · intro t ht htL hne
        simp only at ht ⊢
        by_cases ht2 : k + 1 + s.nBunchSamples ≤ t
        · obtain ⟨i, hi, c1, c2⟩ := hcover t ht2 htL hne
          refine ⟨i, by omega, ?_, c2⟩
          rw [Function.update_noteq (by omega)]
          exact c1
        · have htk : t ≠ k := by
            intro he
            rw [he] at hne
            exact hne hv
          refine ⟨s.NBunches, by omega, ?_, by omega⟩
          rw [Function.update_same]
          omega
    · rw [if_neg hn]
      have hn0 : s.nBunchSamples = 0 := by omega
      refine ⟨by omega, by omega, ?_, horder, fun h0 => by omega, fun _ _ => hv, ?_⟩
      · intro i hi
        obtain ⟨c1, c2, c3, c4, c5, c6, c7⟩ := hclosed i hi
        exact ⟨c1, c2, c3, by omega, c5, c6, c7⟩
      · intro t ht htL hne
        have htk : t ≠ k := by
          intro he
          rw [he] at hne
          exact hne hv
        exact hcover t (by omega) htL hne
  · rw [if_neg hv]
    by_cases hn : s.nBunchSamples = 0
    · rw [if_pos hn]
      refine ⟨by simp only []; omega, by simp only []; omega, ?_, ?_, ?_, ?_, ?_⟩
      · intro i hi
        simp only at hi ⊢
        rw [Function.update_noteq (by omega)]
        obtain ⟨c1, c2, c3, c4, c5, c6, c7⟩ := hclosed i hi
        exact ⟨c1, c2, c3, by omega, c5, c6, c7⟩
      · intro i j hij hj
        simp only at hj ⊢
        rw [Function.update_noteq (by omega), Function.update_noteq (by omega)]
        exact horder i j hij hj
      · intro _
        simp only []
        rw [Function.update_same]
        refine ⟨by omega, ?_, ?_⟩
        · intro t ht1 ht2
          have : t = k := by omega
          rw [this]; exact hv
        · intro hlt
          rw [hn]
          exact hidle hn (by omega)
      · intro h0
        simp only at h0
        omega
      · intro t ht htL hne
        simp only at ht ⊢
        obtain ⟨i, hi, c1, c2⟩ := hcover t (by omega) htL hne
        refine ⟨i, hi, ?_, ?_⟩
        · rw [Function.update_noteq (by omega)]; exact c1
        · rw [Function.update_noteq (by omega)]; exact c2
    · rw [if_neg hn]
      obtain ⟨ho1, ho2, ho3⟩ := hopened (by omega)
      refine ⟨by simp only []; omega, by simp only []; omega, ?_, horder, ?_, ?_, ?_⟩
      · intro i hi
        simp only at hi ⊢
        obtain ⟨c1, c2, c3, c4, c5, c6, c7⟩ := hclosed i hi
        exact ⟨c1, c2, c3, by omega, c5, c6, c7⟩
      · intro _
        simp only []
        refine ⟨by omega, ?_, ?_⟩
        · intro t ht1 ht2
          by_cases htk : t = k
          · rw [htk]; exact hv
          · exact ho2 t (by omega) (by omega)
        · intro hlt
          have : k + (s.nBunchSamples + 1) = k + 1 + s.nBunchSamples := by omega
          rw [this]
          exact ho3 (by omega)
      · intro h0
        simp only at h0
        omega
      · intro t ht htL hne
        simp only at ht ⊢
        exact hcover t (by omega) htL hne

theorem wtLoop_inv (w : Nat) (buffer : List Nat) (position L : Nat) (hL : L < 2 ^ 32) :
    ∀ (k : Nat) (s : ChannelMerger.WTLoop),
      ChannelMerger.WTInv w (fun t => readAt buffer ((position + t) % UINT_MOD)) L k s →
      ChannelMerger.WTInv w (fun t => readAt buffer ((position + t) % UINT_MOD)) L 0
        (ChannelMerger.wtLoop w buffer position k s) := by
  intro k
  induction k with
  | zero => intro s h; exact h
  | succ k ih =>
    intro s h
    exact ih _ (wtBody_inv w buffer position L k s hL h)

/-- The bunches found for a channel: every bunch is a run of samples with
`VOID_SIGNAL` or the end of the channel on both sides, the start timebins go
down, and every sample of the channel is in a bunch. -/
theorem wtScan_spec (w : Nat) (buffer : List Nat) (position L : Nat) (hL : L < 2 ^ 31) :
    (∀ i, i < (ChannelMerger.wtScan w buffer position L).NBunches →
      1 ≤ (ChannelMerger.wtScan w buffer position L).BunchLength i ∧
      (ChannelMerger.wtScan w buffer position L).BunchLength i
        ≤ (ChannelMerger.wtScan w buffer position L).BunchTime i + 1 ∧
      (ChannelMerger.wtScan w buffer position L).BunchTime i < L ∧
      (∀ j, j < (ChannelMerger.wtScan w buffer position L).BunchLength i →
        readAt buffer ((position
          + ((ChannelMerger.wtScan w buffer position L).BunchTime i - j)) % UINT_MOD)
          ≠ VOID_SIGNAL w) ∧
      ((ChannelMerger.wtScan w buffer position L).BunchLength i
          ≤ (ChannelMerger.wtScan w buffer position L).BunchTime i →
        readAt buffer ((position
          + ((ChannelMerger.wtScan w buffer position L).BunchTime i
            - (ChannelMerger.wtScan w buffer position L).BunchLength i)) % UINT_MOD)
          = VOID_SIGNAL w) ∧
      ((ChannelMerger.wtScan w buffer position L).BunchTime i + 1 < L →
        readAt buffer ((position
          + ((ChannelMerger.wtScan w buffer position L).BunchTime i + 1)) % UINT_MOD)
          = VOID_SIGNAL w)) ∧
    (∀ i j, i < j → j < (ChannelMerger.wtScan w buffer position L).NBunches →
      (ChannelMerger.wtScan w buffer position L).BunchTime j
        < (ChannelMerger.wtScan w buffer position L).BunchTime i) ∧
    (∀ t, t < L → readAt buffer ((position + t) % UINT_MOD) ≠ VOID_SIGNAL w →
      ∃ i, i < (ChannelMerger.wtScan w buffer position L).NBunches ∧
        (ChannelMerger.wtScan w buffer position L).BunchTime i
          < t + (ChannelMerger.wtScan w buffer position L).BunchLength i ∧
        t ≤ (ChannelMerger.wtScan w buffer position L).BunchTime i) := by
  have hinit : ChannelMerger.WTInv w (fun t => readAt buffer ((position + t) % UINT_MOD)) L L
      { NBunches := 0, nBunchSamples := 0, BunchLength := fun _ => 0, BunchTime := fun _ => 0 } :=
    ⟨by simp only []; omega, by simp only []; omega,
      fun i hi => absurd hi (Nat.not_lt_zero i),
      fun i j _ hj => absurd hj (Nat.not_lt_zero j),
      fun h0 => absurd h0 (Nat.lt_irrefl 0),
      fun _ hk => absurd hk (Nat.lt_irrefl L),
      fun t ht htL _ => by simp only at ht; omega⟩
  have hinv := wtLoop_inv w buffer position L (by omega) L _ hinit
  unfold ChannelMerger.wtScan
  simp only [zsIterations_of_lt L hL]
  generalize ChannelMerger.wtLoop w buffer position L
    { NBunches := 0, nBunchSamples := 0, BunchLength := fun _ => 0, BunchTime := fun _ => 0 }
    = s at hinv
  obtain ⟨hnb, hns, hclosed, horder, hopened, hidle, hcover⟩ := hinv
  by_cases hn : s.nBunchSamples > 0
  · rw [if_pos hn]
    obtain ⟨ho1, ho2, ho3⟩ := hopened hn
    have hmod : (s.NBunches + 1) % UINT_MOD = s.NBunches + 1 :=
      Nat.mod_eq_of_lt (by unfold UINT_MOD; omega)
    unfold ChannelMerger.wtEndBunch
    rw [hmod]
    refine ⟨?_, ?_, ?_⟩
    · intro i hi
      simp only at hi ⊢
      by_cases hiN : i = s.NBunches
      · subst hiN
        rw [Function.update_same]
        refine ⟨by omega, by omega, by omega, ?_, fun hle => by omega, ?_⟩
        · intro j hj
          exact ho2 (s.BunchTime s.NBunches - j) (by omega) (by omega)
        · intro hlt
          have : s.BunchTime s.NBunches + 1 = 0 + s.nBunchSamples := by omega
          rw [this]
          exact ho3 (by omega)
      · rw [Function.update_noteq hiN]
        obtain ⟨c1, c2, c3, c4, c5, c6, c7⟩ := hclosed i (by omega)
        exact ⟨c1, by omega, c3, c5, fun _ => c6, c7⟩
    · intro i j hij hj
      simp only at hj ⊢
      by_cases hjN : j = s.NBunches
      · subst hjN
        obtain ⟨c1, c2, c3, c4, _⟩ := hclosed i hij
        omega
      · exact horder i j hij (by omega)
    · intro t htL hne
      simp only []
      by_cases ht2 : s.nBunchSamples ≤ t
      · obtain ⟨i, hi, c1, c2⟩ := hcover t (by omega) htL hne
        obtain ⟨d1, d2, _⟩ := hclosed i hi
        refine ⟨i, by omega, ?_, c2⟩
        rw [Function.update_noteq (by omega)]
        omega
      · refine ⟨s.NBunches, by omega, ?_, by omega⟩
        rw [Function.update_same]
        omega
  · rw [if_neg hn]
    refine ⟨?_, horder, ?_⟩
    · intro i hi
      obtain ⟨c1, c2, c3, c4, c5, c6, c7⟩ := hclosed i hi
      exact ⟨c1, by omega, c3, c5, fun _ => c6, c7⟩
    · intro t htL hne
      obtain ⟨i, hi, c1, c2⟩ := hcover t (by omega) htL hne
      obtain ⟨d1, d2, _⟩ := hclosed i hi
      exact ⟨i, hi, by omega, c2⟩

theorem list_ext_readAt (l1 l2 : List Nat) (hlen : l1.length = l2.length)
    (h : ∀ t, t < l1.length → readAt l1 t = readAt l2 t) : l1 = l2 := by
  apply List.ext_getElem hlen
  intro i h1 h2
  have e := h i h1
  unfold readAt at e
  rw [List.getD_eq_getElem l1 0 h1, List.getD_eq_getElem l2 0 h2] at e
  exact e

/-- The replay of one bunch writes its samples to the timebins from `start`
down and leaves the other cells. -/
theorem replayBunch_readAt (c samples : List Nat) (len start : Nat) (hls : len ≤ start + 1)
    (hst : start < c.length) :
    (ChannelMerger.replayBunch c (len, start, samples)).length = c.length ∧
    ∀ t, readAt (ChannelMerger.replayBunch c (len, start, samples)) t
      = if start < t + len ∧ t ≤ start then readAt samples (start - t) else readAt c t := by
  unfold ChannelMerger.replayBunch
  simp only []
  have key : ∀ n, n ≤ start + 1 →
      ((List.range n).foldl (fun c j => c.set (start - j) (readAt samples j)) c).length
        = c.length ∧
      ∀ t, readAt ((List.range n).foldl (fun c j => c.set (start - j) (readAt samples j)) c) t
        = if start < t + n ∧ t ≤ start then readAt samples (start - t) else readAt c t := by
    intro n
    induction n with
    | zero =>
      intro _
      refine ⟨rfl, fun t => ?_⟩
      rw [if_neg (by omega)]
      rfl
    | succ k ih =>
      intro hk
      obtain ⟨ihl, ihr⟩ := ih (by omega)
      rw [List.range_succ, List.foldl_append, List.foldl_cons, List.foldl_nil]
      refine ⟨by rw [List.length_set]; exact ihl, fun t => ?_⟩
      by_cases ht : t = start - k
      · subst ht
        rw [readAt_set_self _ _ _ (by rw [ihl]; omega), if_pos ⟨by omega, by omega⟩]
        have : start - (start - k) = k := by omega
        rw [this]
      · rw [readAt_set_ne _ _ _ _ (Ne.symm ht), ihr]
        by_cases h1 : start < t + k ∧ t ≤ start
        · rw [if_pos h1, if_pos ⟨by omega, h1.2⟩]
        · rw [if_neg h1, if_neg (by omega)]
  exact key len hls

/-- The replay of a list of bunches whose samples are those of the channel
`ch`: a cell holds afterwards the cell of `ch`, or it is in no bunch and holds
what it held before. -/
theorem replay_foldl (ch : List Nat) (bs : List (Nat × Nat × List Nat)) :
    ∀ c : List Nat,
      (∀ b ∈ bs, b.1 ≤ b.2.1 + 1 ∧ b.2.1 < c.length ∧
        ∀ j, j < b.1 → readAt b.2.2 j = readAt ch (b.2.1 - j)) →
      (bs.foldl ChannelMerger.replayBunch c).length = c.length ∧
      ∀ t, readAt (bs.foldl ChannelMerger.replayBunch c) t = readAt ch t ∨
        (readAt (bs.foldl ChannelMerger.replayBunch c) t = readAt c t ∧
          ∀ b ∈ bs, ¬ (b.2.1 < t + b.1 ∧ t ≤ b.2.1)) := by
  induction bs with
  | nil =>
    intro c _
    exact ⟨rfl, fun t => Or.inr ⟨rfl, fun b hb => absurd hb (List.not_mem_nil b)⟩⟩
  | cons b rest ih =>
    intro c hv
    obtain ⟨len, start, samples⟩ := b
    obtain ⟨h1, h2, h3⟩ := hv (len, start, samples) (List.mem_cons_self _ _)
    obtain ⟨rl, rr⟩ := replayBunch_readAt c samples len start h1 h2
    obtain ⟨il, ir⟩ := ih (ChannelMerger.replayBunch c (len, start, samples))
      (fun q hq => by
        obtain ⟨q1, q2, q3⟩ := hv q (List.mem_cons_of_mem _ hq)
        exact ⟨q1, by rw [rl]; exact q2, q3⟩)
    rw [List.foldl_cons]
    refine ⟨by rw [il, rl], fun t => ?_⟩
    rcases ir t with hch | ⟨hsame, hnot⟩
    · exact Or.inl hch
    · rw [hsame, rr t]
      by_cases hc : start < t + len ∧ t ≤ start
      · rw [if_pos hc]
        left
        have := h3 (start - t) (by omega)
        have e : start - (start - t) = t := by omega
        rw [e] at this
        exact this
      · rw [if_neg hc]
        right
        refine ⟨rfl, fun q hq => ?_⟩
        rcases List.mem_cons.mp hq with hq | hq
        · rw [hq]; exact hc
        · exact hnot q hq

/-- The cells of a channel inside the buffer, read through the buffer and
read through the slice of the channel. -/
theorem channel_cell_eq (buffer : List Nat) (position L t : Nat)
    (hlen : buffer.length ≤ 2 ^ 32) (hfit : position + L ≤ buffer.length) (ht : t < L) :
    readAt buffer ((position + t) % UINT_MOD) = readAt ((buffer.drop position).take L) t := by
  rw [Nat.mod_eq_of_lt (by unfold UINT_MOD; omega), readAt_take _ _ _ ht, readAt_drop]

/-- The bunches written for a channel inside the buffer, with the samples read
from the slice of the channel. -/
theorem wtBunches_eq (w : Nat) (buffer : List Nat) (position L : Nat) (hL : L < 2 ^ 31)
    (hlen : buffer.length ≤ 2 ^ 32) (hfit : position + L ≤ buffer.length) :
    ChannelMerger.wtBunches w buffer position L
      = (List.range (ChannelMerger.wtScan w buffer position L).NBunches).map (fun i =>
          ((ChannelMerger.wtScan w buffer position L).BunchLength i,
            (ChannelMerger.wtScan w buffer position L).BunchTime i,
            (List.range ((ChannelMerger.wtScan w buffer position L).BunchLength i)).map
              (fun j => readAt ((buffer.drop position).take L)
                ((ChannelMerger.wtScan w buffer position L).BunchTime i - j)))) := by
  obtain ⟨hF1, _, _⟩ := wtScan_spec w buffer position L hL
  unfold ChannelMerger.wtBunches
  simp only []
  apply List.map_congr_left
  intro i hi
  obtain ⟨c1, c2, c3, _⟩ := hF1 i (List.mem_range.mp hi)
  congr 2
  apply List.map_congr_left
  intro j hj
  have hj2 := List.mem_range.mp hj
  have hm : (position + (ChannelMerger.wtScan w buffer position L).BunchTime i) % UINT_MOD
      = position + (ChannelMerger.wtScan w buffer position L).BunchTime i :=
    Nat.mod_eq_of_lt (by unfold UINT_MOD; omega)
  have e : (((position + (ChannelMerger.wtScan w buffer position L).BunchTime i : Nat) : Int)
      - (j : Int))
      = ((position + ((ChannelMerger.wtScan w buffer position L).BunchTime i - j) : Nat) : Int) := by
    omega
  rw [hm, e, toUnsigned_natCast _ (by omega), readAt_take _ _ _ (by omega), readAt_drop]

/-- C25: the round trip of the flat dump.  For a channel of `L < 2^31` cells
inside the buffer, the bunches `WriteTimeframe` computes, each with its
length, its start timebin and the samples read at `start - j` for
`j = 0..length-1`, are exactly the maximal runs of cells other than
`VOID_SIGNAL`: every bunch is such a run with its samples, every such run is
a bunch, and the start timebins go down strictly; replaying the bunches onto
a channel of `L` cells that hold `VOID_SIGNAL`, sample `j` of a bunch written
to timebin `start - j`, gives back the channel cell for cell. -/
theorem flat_dump_round_trip (w : Nat) (buffer : List Nat) (position L : Nat)
    (hL : L < 2 ^ 31) (hlen : buffer.length ≤ 2 ^ 32) (hfit : position + L ≤ buffer.length) :
    (∀ bunch ∈ ChannelMerger.wtBunches w buffer position L,
      ChannelMerger.isMaximalRun w ((buffer.drop position).take L) bunch.1 bunch.2.1 ∧
      bunch.2.2 = (List.range bunch.1).map
        (fun j => readAt ((buffer.drop position).take L) (bunch.2.1 - j))) ∧
    (∀ len start, ChannelMerger.isMaximalRun w ((buffer.drop position).take L) len start →
      (len, start, (List.range len).map
        (fun j => readAt ((buffer.drop position).take L) (start - j)))
        ∈ ChannelMerger.wtBunches w buffer position L) ∧
    ((ChannelMerger.wtBunches w buffer position L).map (fun bunch => bunch.2.1)).Pairwise
      (fun a b => b < a) ∧
    (ChannelMerger.wtBunches w buffer position L).length
      = (ChannelMerger.wtScan w buffer position L).NBunches ∧
    ChannelMerger.replayBunches w L (ChannelMerger.wtBunches w buffer position L)
      = (buffer.drop position).take L := by
  obtain ⟨hF1, hF2, hF3⟩ := wtScan_spec w buffer position L hL
  have hchl : ((buffer.drop position).take L).length = L := by
    rw [List.length_take, List.length_drop]; omega
  have hcell := fun t ht => channel_cell_eq buffer position L t hlen hfit ht
  rw [wtBunches_eq w buffer position L hL hlen hfit]
  generalize ChannelMerger.wtScan w buffer position L = f at hF1 hF2 hF3
  generalize hch : (buffer.drop position).take L = ch at hchl hcell
  -- every bunch of the scan is a maximal run
  have hrun : ∀ i, i < f.NBunches →
      ChannelMerger.isMaximalRun w ch (f.BunchLength i) (f.BunchTime i) := by
    intro i hi
    obtain ⟨c1, c2, c3, c4, c5, c6⟩ := hF1 i hi
    refine ⟨c1, by rw [hchl]; exact c3, c2, ?_, ?_, ?_⟩
    · intro j hj
      rw [← hcell _ (by omega)]
      exact c4 j hj
    · intro h
      rw [hchl] at h
      rw [← hcell _ h]
      exact c6 h
    · intro h
      rw [← hcell _ (by omega)]
      exact c5 h
  refine ⟨?_, ?_, ?_, ?_, ?_⟩
  · intro bunch hb
    obtain ⟨i, hi, rfl⟩ := List.mem_map.mp hb
    exact ⟨hrun i (List.mem_range.mp hi), rfl⟩
  · intro len start hr
    obtain ⟨r1, r2, r3, r4, r5, r6⟩ := hr
    rw [hchl] at r2 r5
    have hne : readAt buffer ((position + start) % UINT_MOD) ≠ VOID_SIGNAL w := by
      rw [hcell start r2]
      have := r4 0 r1
      rw [Nat.sub_zero] at this
      exact this
    obtain ⟨i, hi, hcov1, hcov2⟩ := hF3 start r2 hne
    obtain ⟨c1, c2, c3, c4, c5, c6⟩ := hrun i hi
    rw [hchl] at c2 c5
    have hstart : f.BunchTime i = start := by
      by_contra hcon
      have hlt : start + 1 < L := by omega
      have h1 := r5 hlt
      have h2 := c4 (f.BunchTime i - (start + 1)) (by omega)
      have e : f.BunchTime i - (f.BunchTime i - (start + 1)) = start + 1 := by omega
      rw [e] at h2
      exact h2 h1
    have hlenEq : f.BunchLength i = len := by
      rw [hstart] at c3 c4 c6
      rcases Nat.lt_trichotomy (f.BunchLength i) len with h | h | h
      · exact absurd (c6 (by omega)) (r4 (f.BunchLength i) h)
      · exact h
      · exact absurd (r6 (by omega)) (c4 len h)
    refine List.mem_map.mpr ⟨i, List.mem_range.mpr hi, ?_⟩
    rw [hstart, hlenEq]
  · rw [List.map_map, List.pairwise_map]
    exact (List.pairwise_lt_range f.NBunches).imp_of_mem
      (fun {a b} _ hb hab => hF2 a b hab (List.mem_range.mp hb))
  · rw [List.length_map, List.length_range]
  · unfold ChannelMerger.replayBunches
    have hvalid : ∀ b ∈ (List.range f.NBunches).map (fun i =>
        (f.BunchLength i, f.BunchTime i,
          (List.range (f.BunchLength i)).map (fun j => readAt ch (f.BunchTime i - j)))),
        b.1 ≤ b.2.1 + 1 ∧ b.2.1 < (List.replicate L (VOID_SIGNAL w)).length ∧
        ∀ j, j < b.1 → readAt b.2.2 j = readAt ch (b.2.1 - j) := by
      intro b hb
      obtain ⟨i, hi, rfl⟩ := List.mem_map.mp hb
      obtain ⟨c1, c2, c3, _⟩ := hF1 i (List.mem_range.mp hi)
      refine ⟨c2, by rw [List.length_replicate]; exact c3, fun j hj => ?_⟩
      simp only []
      unfold readAt
      rw [List.getD_eq_getElem _ 0 (by rw [List.length_map, List.length_range]; exact hj)]
      simp
    obtain ⟨hl, hr⟩ := replay_foldl ch _ (List.replicate L (VOID_SIGNAL w)) hvalid
    rw [List.length_replicate] at hl
    apply list_ext_readAt _ _ (by rw [hl, hchl])
    intro t ht
    rw [hl] at ht
    rcases hr t with h | ⟨hsame, hnot⟩
    · exact h
    · rw [hsame]
      have hrep : readAt (List.replicate L (VOID_SIGNAL w)) t = VOID_SIGNAL w := by
        unfold readAt
        rw [List.getD_eq_getElem _ 0 (by rw [List.length_replicate]; exact ht)]
        simp
      rw [hrep]
      by_contra hcon
      have hne : readAt buffer ((position + t) % UINT_MOD) ≠ VOID_SIGNAL w := by
        rw [hcell t ht]
        exact fun h => hcon h.symm
      obtain ⟨i, hi, c1, c2⟩ := hF3 t ht hne
      exact hnot _ (List.mem_map.mpr ⟨i, List.mem_range.mpr hi, rfl⟩) ⟨c1, c2⟩

theorem flat_dump_round_trip_witness :
    (∀ bunch ∈ ChannelMerger.wtBunches 16 [1, 65535, 3, 4, 65535, 7, 9] 1 5,
      ChannelMerger.isMaximalRun 16 (([1, 65535, 3, 4, 65535, 7, 9].drop 1).take 5)
        bunch.1 bunch.2.1 ∧
      bunch.2.2 = (List.range bunch.1).map
        (fun j => readAt (([1, 65535, 3, 4, 65535, 7, 9].drop 1).take 5) (bunch.2.1 - j))) ∧
    ChannelMerger.wtBunches 16 [1, 65535, 3, 4, 65535, 7, 9] 1 5 = [(1, 4, [7]), (2, 2, [4, 3])] ∧
    ChannelMerger.replayBunches 16 5 (ChannelMerger.wtBunches 16 [1, 65535, 3, 4, 65535, 7, 9] 1 5)
      = ([1, 65535, 3, 4, 65535, 7, 9].drop 1).take 5 ∧
    ChannelMerger.replayBunches 16 5 [(1, 4, [7]), (2, 2, [4, 3])] = [65535, 3, 4, 65535, 7] :=
  ⟨(flat_dump_round_trip 16 [1, 65535, 3, 4, 65535, 7, 9] 1 5 (by decide) (by decide)
      (by decide)).1,
    by decide,
    (flat_dump_round_trip 16 [1, 65535, 3, 4, 65535, 7, 9] 1 5 (by decide) (by decide)
      (by decide)).2.2.2.2,
    by decide⟩

/-! ### The pass without target is read-only -/

/-- The loop of the pass without target leaves the memory behind `buffer`
alone, for every number of timebins. -/
theorem zsLoop_null_buffer (w thr : Nat) (shift : Int) (k : Nat) :
    ∀ s : ChannelMerger.ZSLoop, s.target = ChannelMerger.Target.null →
      (ChannelMerger.zsLoop w thr shift k s).buffer = s.buffer ∧
      (ChannelMerger.zsLoop w thr shift k s).target = ChannelMerger.Target.null := by
  induction k with
  | zero => intro s hs; exact ⟨rfl, hs⟩
  | succ k ih =>
    intro s hs
    have hb : (ChannelMerger.zsBody w thr shift k s).buffer = s.buffer := by
      unfold ChannelMerger.zsBody
      simp only [hs]
    have ht : (ChannelMerger.zsBody w thr shift k s).target = ChannelMerger.Target.null := by
      unfold ChannelMerger.zsBody
      simp only [hs]
    obtain ⟨h1, h2⟩ := ih (ChannelMerger.zsBody w thr shift k s) ht
    rw [ChannelMerger.zsLoop]
    exact ⟨h1.trans hb, h2⟩

/-- The pass called without target returns the memory behind `buffer` as it
was. -/
theorem SignalBufferZeroSuppression_null_buffer (w : Nat) (buffer : Option (List Nat))
    (size thr : Nat) (shift : Int) :
    (ChannelMerger.SignalBufferZeroSuppression w buffer size thr shift
      ChannelMerger.Target.null).2.1 = buffer := by
  unfold ChannelMerger.SignalBufferZeroSuppression
  cases buffer with
  | none => rfl
  | some b =>
    simp only []
    rw [(zsLoop_null_buffer w thr shift _
      { buffer := b, target := ChannelMerger.Target.null, bSignalPeak := false,
        nFilledTimebins := 0 } rfl).1]

/-- The loop over the channels without apply changes at most the occupancy
map, and nothing when the occupancy is not to be set. -/
theorem zeroSuppressChannels_readonly (w thr : Nat) (bSetOccupancy : Bool)
    (chans : List (Nat × Nat)) :
    ∀ m : ChannelMerger,
      ChannelMerger.sameButOccupancy m
        (ChannelMerger.zeroSuppressChannels w thr false bSetOccupancy chans m) ∧
      (bSetOccupancy = false →
        ChannelMerger.zeroSuppressChannels w thr false bSetOccupancy chans m = m) := by
  induction chans with
  | nil =>
    intro m
    exact ⟨⟨rfl, rfl, rfl, rfl, rfl, rfl, rfl, rfl, rfl, rfl, rfl, rfl⟩, fun _ => rfl⟩
  | cons p rest ih =>
    intro m
    obtain ⟨index, slot⟩ := p
    have hbuf : (match m.mBuffer,
        (ChannelMerger.SignalBufferZeroSuppression w
          (ChannelMerger.offsetPtr m.mBuffer ((slot * m.mChannelLenght) % UINT_MOD))
          m.mChannelLenght thr m.mBaselineshift ChannelMerger.Target.null).2.1 with
        | some b, some c => some (b.take ((slot * m.mChannelLenght) % UINT_MOD) ++ c)
        | mb, _ => mb) = m.mBuffer := by
      rw [SignalBufferZeroSuppression_null_buffer]
      cases hm : m.mBuffer with
      | none => rfl
      | some b =>
        simp only [ChannelMerger.offsetPtr, Option.map_some', List.take_append_drop]
    have hm1 : ({ m with mBuffer := (match m.mBuffer,
        (ChannelMerger.SignalBufferZeroSuppression w
          (ChannelMerger.offsetPtr m.mBuffer ((slot * m.mChannelLenght) % UINT_MOD))
          m.mChannelLenght thr m.mBaselineshift ChannelMerger.Target.null).2.1 with
        | some b, some c => some (b.take ((slot * m.mChannelLenght) % UINT_MOD) ++ c)
        | mb, _ => mb) } : ChannelMerger) = m := by
      rw [hbuf]
    have hstep : ∃ res : Int,
        ChannelMerger.zeroSuppressChannels w thr false bSetOccupancy ((index, slot) :: rest) m
          = ChannelMerger.zeroSuppressChannels w thr false bSetOccupancy rest
              (if res ≥ 0 ∧ bSetOccupancy = true then
                { m with mChannelOccupancy := mapInsert index res m.mChannelOccupancy }
              else m) := by
      refine ⟨(ChannelMerger.SignalBufferZeroSuppression w
        (ChannelMerger.offsetPtr m.mBuffer ((slot * m.mChannelLenght) % UINT_MOD))
        m.mChannelLenght thr m.mBaselineshift ChannelMerger.Target.null).1, ?_⟩
      rw [ChannelMerger.zeroSuppressChannels]
      simp only [Bool.false_eq_true, if_false, hm1, hbuf]
    obtain ⟨res, hres⟩ := hstep
    rw [hres]
    by_cases hc : res ≥ 0 ∧ bSetOccupancy = true
    · rw [if_pos hc]
      obtain ⟨h1, _⟩ := ih { m with mChannelOccupancy := mapInsert index res m.mChannelOccupancy }
      refine ⟨h1, fun hf => ?_⟩
      rw [hf] at hc
      exact absurd hc.2 (by decide)
    · rw [if_neg hc]
      exact ih m

/-- C35: suppression without apply is read-only on the samples.  For every
state, `CalculateZeroSuppression` with `bApply = false` returns a state that
differs at most in the occupancy map: the current buffer, the underflow
buffer, the channel index, the overflow counter and every other member are
the same; and the occupancy map is the same too when `bSetOccupancy` is false
or zero suppression is disabled (cut `VOID_SIGNAL`). -/
theorem suppression_without_apply_readonly (w : Nat) (m : ChannelMerger)
    (bSetOccupancy : Bool) :
    (ChannelMerger.CalculateZeroSuppression w m false bSetOccupancy).mBuffer = m.mBuffer ∧
    (ChannelMerger.CalculateZeroSuppression w m false bSetOccupancy).mUnderflowBuffer
      = m.mUnderflowBuffer ∧
    (ChannelMerger.CalculateZeroSuppression w m false bSetOccupancy).mChannelPositions
      = m.mChannelPositions ∧
    (ChannelMerger.CalculateZeroSuppression w m false bSetOccupancy).mSignalOverflowCount
      = m.mSignalOverflowCount ∧
    ChannelMerger.sameButOccupancy m
      (ChannelMerger.CalculateZeroSuppression w m false bSetOccupancy) ∧
    (bSetOccupancy = false ∨ m.mZSThreshold = VOID_SIGNAL w →
      ChannelMerger.CalculateZeroSuppression w m false bSetOccupancy = m) := by
  have hframe : ChannelMerger.sameButOccupancy m
      (ChannelMerger.CalculateZeroSuppression w m false bSetOccupancy) := by
    unfold ChannelMerger.CalculateZeroSuppression
    simp only []
    split_ifs
    · exact ⟨rfl, rfl, rfl, rfl, rfl, rfl, rfl, rfl, rfl, rfl, rfl, rfl⟩
    · exact (zeroSuppressChannels_readonly w _ bSetOccupancy m.mChannelPositions m).1
  refine ⟨hframe.2.2.2.1, hframe.2.2.2.2.1, hframe.2.2.2.2.2.1,
    hframe.2.2.2.2.2.2.2.2.2.1, hframe, ?_⟩
  intro h
  unfold ChannelMerger.CalculateZeroSuppression
  simp only []
  split_ifs with ht
  · rfl
  · rcases h with h | h
    · exact (zeroSuppressChannels_readonly w _ bSetOccupancy m.mChannelPositions m).2 h
    · exact absurd (by unfold ChannelMerger.GetThreshold; simp [h]) ht

/-! ### Channels without a peak -/

/-- C31 fails as stated: at the threshold `VOID_SIGNAL` the ingestion scan is
switched off.  The samples 100, 3 hold no two adjacent samples above the
threshold, yet both are kept and handed on with their value (shown for sample
words of 16 and of 32 bits). -/
theorem no_peak_fails_at_void_threshold :
    ChannelMerger.inlineKept 16 (VOID_SIGNAL 16) [100, 3] 2 0 false = [true, true] ∧
    ChannelMerger.inlineSignals 16 exampleMerger (VOID_SIGNAL 16) 0 [100, 3] 2 0 false
      = [100, 3] ∧
    ChannelMerger.inlineKept 32 (VOID_SIGNAL 32) [100, 3] 2 0 false = [true, true] ∧
    ChannelMerger.inlineSignals 32 exampleMerger (VOID_SIGNAL 32) 0 [100, 3] 2 0 false
      = [100, 3] := by
  refine ⟨by decide, by decide, by decide, by decide⟩

/-- Adjacent entries of a list, read by index, are related along the list. -/
theorem chain_of_readAt (R : Nat → Nat → Prop) (l : List Nat)
    (h : ∀ i, i < l.length - 1 → R (readAt l i) (readAt l (i + 1))) : l.Chain' R := by
  induction l with
  | nil => exact List.chain'_nil
  | cons x rest ih =>
    cases rest with
    | nil => exact List.chain'_singleton x
    | cons y r =>
      refine List.chain'_cons.mpr ⟨?_, ih (fun i hi => ?_)⟩
      · exact h 0 (by simp)
      · have := h (i + 1) (by simp only [List.length_cons] at hi ⊢; omega)
        exact this

/-- A scan entered without peak over cells of which no two adjacent ones hold
samples above threshold suppresses every cell and counts none. -/
theorem scan_without_peak (w thr : Nat) (shift : Int) (al : Bool) (r : List Nat)
    (h : r.Chain' (fun x y => ¬ (x ≠ VOID_SIGNAL w ∧ x > thr ∧ y ≠ VOID_SIGNAL w ∧ y > thr))) :
    ChannelMerger.scanValues w thr shift false r = List.replicate r.length (VOID_SIGNAL w) ∧
    ChannelMerger.scanCount w thr shift al false r = 0 ∧
    ChannelMerger.scanKept w thr false r = List.replicate r.length false ∧
    ChannelMerger.scanFlag w thr false r = false := by
  induction r with
  | nil => exact ⟨rfl, rfl, rfl, rfl⟩
  | cons x rest ih =>
    have hk : ChannelMerger.scanKeeps w thr false x rest = false := by
      unfold ChannelMerger.scanKeeps
      simp only [Bool.not_false, Bool.true_and, Bool.false_and, Bool.or_false]
      cases rest with
      | nil => simp [ChannelMerger.ahead1]
      | cons y r2 =>
        have hxy := (List.chain'_cons.mp h).1
        by_cases hx : x = VOID_SIGNAL w
        · simp [hx]
        · simp only [ChannelMerger.ahead1, if_neg hx]
          by_cases hxt : x > thr
          · have : ¬ (y ≠ VOID_SIGNAL w ∧ y > thr) := fun hy => hxy ⟨hx, hxt, hy.1, hy.2⟩
            simp [this]
          · simp [hxt]
    have hstep : ChannelMerger.scanStep w thr false x rest = (false, VOID_SIGNAL w) := by
      rw [scanStep_eq_keeps, hk]
      rfl
    have hv : ChannelMerger.shiftCorrect w shift (VOID_SIGNAL w) = VOID_SIGNAL w := by
      unfold ChannelMerger.shiftCorrect
      simp
    have hval : ChannelMerger.scanValue w thr shift false x rest = VOID_SIGNAL w := by
      unfold ChannelMerger.scanValue
      rw [hstep]
      simp only [hv, toBuffer_VOID]
      split_ifs <;> rfl
    have hcnt : ChannelMerger.scanCounted w thr shift al false x rest = false := by
      unfold ChannelMerger.scanCounted
      rw [hstep]
      simp [hv]
    obtain ⟨i1, i2, i3, i4⟩ := ih (List.Chain'.tail h)
    refine ⟨?_, ?_, ?_, ?_⟩
    · rw [ChannelMerger.scanValues, hval, hstep, i1]; rfl
    · rw [ChannelMerger.scanCount, hcnt, hstep, i2]; rfl
    · rw [ChannelMerger.scanKept, hstep, i3]
      simp [List.replicate_succ]
    · rw [ChannelMerger.scanFlag, hstep, i4]

/-- C31 (amended): no peak, nothing kept.  For a bunch that holds no two
adjacent samples above threshold and every threshold other than
`VOID_SIGNAL`, at which the ingestion scan is switched off, the peak flag of
the ingestion scan is never active, no sample is kept and every current
signal handed on is 0.  For a channel that holds no two adjacent samples
above threshold and every threshold and baseline shift, the standalone pass
keeps no timebin, writes `VOID_SIGNAL` to every timebin of its target and
returns 0. -/
theorem no_peak_nothing_kept (w thr : Nat) (shift : Int) (m : ChannelMerger) (baseline : Nat)
    (s b t : List Nat) (size : Nat)
    (hs : ∀ i, i < s.length - 1 → ¬ (readAt s i > thr ∧ readAt s (i + 1) > thr))
    (hb : ∀ i, i < size - 1 →
      ¬ (readAt b i ≠ VOID_SIGNAL w ∧ readAt b i > thr ∧
        readAt b (i + 1) ≠ VOID_SIGNAL w ∧ readAt b (i + 1) > thr))
    (hsize : size < 2 ^ 31) (hle : size ≤ b.length) (ht : t.length = size) :
    (thr ≠ VOID_SIGNAL w →
      (∀ i, ChannelMerger.inlinePeakAt w thr s i = false) ∧
      ChannelMerger.inlineKept w thr s s.length 0 false = List.replicate s.length false ∧
      ChannelMerger.inlineSignals w m thr baseline s s.length 0 false
        = List.replicate s.length 0) ∧
    ChannelMerger.zsKept w thr b size false = List.replicate size false ∧
    ChannelMerger.SignalBufferZeroSuppression w (some b) size thr shift
        (ChannelMerger.Target.separate t)
      = (0, some b, ChannelMerger.Target.separate (List.replicate size (VOID_SIGNAL w))) ∧
    ChannelMerger.SignalBufferZeroSuppression w (some b) size thr shift
        ChannelMerger.Target.aliased
      = (0, some (List.replicate size (VOID_SIGNAL w) ++ b.drop size),
          ChannelMerger.Target.aliased) ∧
    ChannelMerger.SignalBufferZeroSuppression w (some b) size thr shift
        ChannelMerger.Target.null
      = (0, some b, ChannelMerger.Target.null) := by
  have hinline : thr ≠ VOID_SIGNAL w →
      (∀ i, ChannelMerger.inlinePeakAt w thr s i = false) ∧
      ChannelMerger.inlineKept w thr s s.length 0 false = List.replicate s.length false ∧
      ChannelMerger.inlineSignals w m thr baseline s s.length 0 false
        = List.replicate s.length 0 := by
    intro hthr
    have hzs : ∀ i, ChannelMerger.inlineZS w thr s i false = (false, false) := by
      intro i
      have hno : ¬ (readAt s i > thr ∧ i + 1 < s.length ∧ readAt s (i + 1) > thr) := by
        intro hh
        exact hs i (by omega) ⟨hh.1, hh.2.2⟩
      unfold ChannelMerger.inlineZS
      simp only [hthr, ne_eq, not_false_eq_true, if_true, true_and, hno, if_false,
        Bool.false_eq_true, false_and]
    have hpeak : ∀ i, ChannelMerger.inlinePeakAt w thr s i = false := by
      intro i
      induction i with
      | zero => rfl
      | succ k ih => rw [ChannelMerger.inlinePeakAt, ih, hzs]
    have hkept : ∀ n i, ChannelMerger.inlineKept w thr s n i false = List.replicate n false := by
      intro n
      induction n with
      | zero => intro i; rfl
      | succ k ih =>
        intro i
        rw [ChannelMerger.inlineKept, hzs, ih]
        rfl
    have hcur : ∀ i, ChannelMerger.currentSignalOf w m thr baseline s i false = 0 := by
      intro i
      unfold ChannelMerger.currentSignalOf
      simp only [hzs, Bool.false_eq_true, if_false]
      split_ifs <;> omega
    have hsig : ∀ n i, ChannelMerger.inlineSignals w m thr baseline s n i false
        = List.replicate n 0 := by
      intro n
      induction n with
      | zero => intro i; rfl
      | succ k ih =>
        intro i
        rw [ChannelMerger.inlineSignals, hcur, hzs, ih]
        rfl
    exact ⟨hpeak, hkept _ _, hsig _ _⟩
  have hlen : (b.take size).length = size := by rw [List.length_take]; omega
  have hch : (b.take size).Chain'
      (fun x y => ¬ (x ≠ VOID_SIGNAL w ∧ x > thr ∧ y ≠ VOID_SIGNAL w ∧ y > thr)) := by
    apply chain_of_readAt
    intro i hi
    rw [hlen] at hi
    rw [readAt_take _ _ _ (by omega), readAt_take _ _ _ (by omega)]
    exact hb i hi
  have hrev : (b.take size).reverse.Chain'
      (fun x y => ¬ (x ≠ VOID_SIGNAL w ∧ x > thr ∧ y ≠ VOID_SIGNAL w ∧ y > thr)) := by
    rw [List.chain'_reverse]
    exact hch.imp (fun {x y} hxy hyx => hxy ⟨hyx.2.2.1, hyx.2.2.2, hyx.1, hyx.2.1⟩)
  have hrl : (b.take size).reverse.length = size := by rw [List.length_reverse, hlen]
  obtain ⟨v1, c1, k1, _⟩ := scan_without_peak w thr shift false _ hrev
  obtain ⟨_, c2, _, _⟩ := scan_without_peak w thr shift true _ hrev
  obtain ⟨e1, e2, e3⟩ := SignalBufferZeroSuppression_eq_scan w thr shift b t size hsize hle ht
  rw [hrl] at v1 k1
  refine ⟨hinline, ?_, ?_, ?_, ?_⟩
  · rw [zsKept_eq_scanKept w thr b size false hle, k1]
  · rw [e2, c1, v1, List.reverse_replicate]; rfl
  · rw [e3, c2, v1, List.reverse_replicate]; rfl
  · rw [e1, c1]; rfl

theorem no_peak_nothing_kept_witness :
    ((∀ i, ChannelMerger.inlinePeakAt 16 5 [8, 2, 9, 3] i = false) ∧
      ChannelMerger.inlineKept 16 5 [8, 2, 9, 3] [8, 2, 9, 3].length 0 false
        = List.replicate [8, 2, 9, 3].length false ∧
      ChannelMerger.inlineSignals 16 exampleMerger 5 0 [8, 2, 9, 3] [8, 2, 9, 3].length 0 false
        = List.replicate [8, 2, 9, 3].length 0) ∧
    ChannelMerger.zsKept 16 5 [8, 65535, 9, 3, 7] 4 false = List.replicate 4 false ∧
    ChannelMerger.SignalBufferZeroSuppression 16 (some [8, 65535, 9, 3, 7]) 4 5 1
        (ChannelMerger.Target.separate [0, 0, 0, 0])
      = (0, some [8, 65535, 9, 3, 7],
          ChannelMerger.Target.separate (List.replicate 4 (VOID_SIGNAL 16))) ∧
    ChannelMerger.SignalBufferZeroSuppression 16 (some [8, 65535, 9, 3, 7]) 4 5 1
        ChannelMerger.Target.aliased
      = (0, some (List.replicate 4 (VOID_SIGNAL 16) ++ [8, 65535, 9, 3, 7].drop 4),
          ChannelMerger.Target.aliased) ∧
    ChannelMerger.SignalBufferZeroSuppression 16 (some [8, 65535, 9, 3, 7]) 4 5 1
        ChannelMerger.Target.null
      = (0, some [8, 65535, 9, 3, 7], ChannelMerger.Target.null) :=
  ⟨(no_peak_nothing_kept 16 5 1 exampleMerger 0 [8, 2, 9, 3] [8, 65535, 9, 3, 7] [0, 0, 0, 0] 4
      (by decide) (by decide) (by decide) (by decide) (by decide)).1 (by decide),
    (no_peak_nothing_kept 16 5 1 exampleMerger 0 [8, 2, 9, 3] [8, 65535, 9, 3, 7] [0, 0, 0, 0] 4
      (by decide) (by decide) (by decide) (by decide) (by decide)).2⟩

/-! ### The pass in place and the pass into a vector of its own -/

/-- C32 fails as stated for the count: with the baseline shift 65537 the two
samples 65534 of a 16 bit sample word are kept and corrected to 131071, which
is stored as 65535.  The pass into a vector of its own tests its input cell
and returns 2; the pass in place tests the cell it has just written, finds
`VOID_SIGNAL` and returns 0.  The cells written are the same. -/
theorem inplace_count_differs :
    ChannelMerger.SignalBufferZeroSuppression 16 (some [65534, 65534]) 2 5 65537
        (ChannelMerger.Target.separate [0, 0])
      = (2, some [65534, 65534], ChannelMerger.Target.separate [65535, 65535]) ∧
    ChannelMerger.SignalBufferZeroSuppression 16 (some [65534, 65534]) 2 5 65537
        ChannelMerger.Target.aliased
      = (0, some [65535, 65535], ChannelMerger.Target.aliased) := by
  refine ⟨by decide, by decide⟩

/-- A corrected sample other than `VOID_SIGNAL` is not stored as
`VOID_SIGNAL`, for a baseline shift of at most `2^w`. -/
theorem toBuffer_shiftCorrect_ne_void (w : Nat) (shift : Int) (x : Nat) (hw : w ≤ 32)
    (hx : x < 2 ^ w) (hxv : x ≠ VOID_SIGNAL w) (hsh : shift ≤ (2 : Int) ^ w)
    (hne : ChannelMerger.shiftCorrect w shift x ≠ VOID_SIGNAL w) :
    toBuffer w (ChannelMerger.shiftCorrect w shift x) ≠ VOID_SIGNAL w := by
  have hp : 2 ^ w ≤ 2 ^ 32 := Nat.pow_le_pow_right (by decide) hw
  have hV : VOID_SIGNAL w = 2 ^ w - 1 := rfl
  have hlow : ChannelMerger.shiftCorrect w shift x < 2 ^ w →
      toBuffer w (ChannelMerger.shiftCorrect w shift x) ≠ VOID_SIGNAL w := by
    intro hlt
    unfold toBuffer
    rw [Nat.mod_eq_of_lt hlt]
    exact hne
  by_cases hneg : shift < 0
  · apply hlow
    unfold ChannelMerger.shiftCorrect
    rw [if_pos hxv, if_pos hneg]
    by_cases hgt : toSigned x > -shift
    · rw [if_pos hgt]
      have hx31 : x < 2 ^ 31 := by
        by_contra hcon
        have h1 : x % UINT_MOD = x := Nat.mod_eq_of_lt (by unfold UINT_MOD; omega)
        unfold toSigned at hgt
        rw [h1, if_neg hcon] at hgt
        unfold UINT_MOD at hgt
        omega
      rw [toSigned_of_lt x hx31] at hgt
      obtain ⟨k, hk⟩ : ∃ k : Nat, (x : Int) - -shift = (k : Int) :=
        ⟨((x : Int) - -shift).toNat, (Int.toNat_of_nonneg (by omega)).symm⟩
      rw [hk, toUnsigned_natCast k (by omega)]
      omega
    · rw [if_neg hgt]
      omega
  · have hcs : ChannelMerger.shiftCorrect w shift x = (x + shift.toNat) % 2 ^ 32 := by
      unfold ChannelMerger.shiftCorrect
      rw [if_pos hxv, if_neg hneg]
      have e : (x : Int) + shift = ((x + shift.toNat : Nat) : Int) := by omega
      rw [e]
      unfold toUnsigned UINT_MOD
      rw [← Int.natCast_mod, Int.toNat_ofNat]
    by_cases hw32 : w = 32
    · apply hlow
      rw [hcs, hw32]
      exact Nat.mod_lt _ (by decide)
    · have hp2 : 2 * 2 ^ w ≤ 2 ^ 32 := by
        have : 2 ^ (w + 1) ≤ 2 ^ 32 := Nat.pow_le_pow_right (by decide) (by omega)
        rw [Nat.pow_succ] at this
        omega
      have hst : shift.toNat ≤ 2 ^ w := by
        have : ((shift.toNat : Nat) : Int) ≤ ((2 ^ w : Nat) : Int) := by
          rw [Int.toNat_of_nonneg (by omega)]; push_cast; exact hsh
        exact Int.ofNat_le.mp this
      have hsum : x + shift.toNat < 2 * 2 ^ w - 1 := by omega
      rw [hcs, Nat.mod_eq_of_lt (by omega)] at hne ⊢
      unfold toBuffer
      intro hcon
      have hdm := Nat.div_add_mod (x + shift.toNat) (2 ^ w)
      have hq : (x + shift.toNat) / 2 ^ w < 2 :=
        Nat.div_lt_of_lt_mul (by omega)
      rw [hcon, hV] at hdm
      rw [hV] at hne
      generalize (x + shift.toNat) / 2 ^ w = q at hdm hq
      rcases Nat.lt_succ_iff_lt_or_eq.mp hq with h0 | h1
      · have h00 : q = 0 := Nat.lt_one_iff.mp h0
        rw [h00, Nat.mul_zero] at hdm
        omega
      · rw [h1, Nat.mul_one] at hdm
        omega

/-- A cell is counted by the pass in place exactly if it is counted by the
pass into a vector of its own, for a baseline shift of at most `2^w`. -/
theorem scanCounted_alias_eq (w thr : Nat) (shift : Int) (pk : Bool) (x : Nat) (rest : List Nat)
    (hw : w ≤ 32) (hx : x < 2 ^ w) (hsh : shift ≤ (2 : Int) ^ w) :
    ChannelMerger.scanCounted w thr shift true pk x rest
      = ChannelMerger.scanCounted w thr shift false pk x rest := by
  have hv : ChannelMerger.shiftCorrect w shift (VOID_SIGNAL w) = VOID_SIGNAL w := by
    unfold ChannelMerger.shiftCorrect
    simp
  unfold ChannelMerger.scanCounted ChannelMerger.scanValue
  by_cases hxv : x = VOID_SIGNAL w
  · simp [hxv]
  · rw [scanStep_eq_keeps]
    cases ChannelMerger.scanKeeps w thr pk x rest with
    | true =>
      simp only [if_true, if_neg hxv, if_pos hxv, Bool.false_eq_true, if_false]
      by_cases hne : ChannelMerger.shiftCorrect w shift x = VOID_SIGNAL w
      · simp [hne]
      · have := toBuffer_shiftCorrect_ne_void w shift x hw hx hxv hsh hne
        simp [hne, this, hxv]
    | false => simp [hv]

theorem scanCount_alias_eq (w thr : Nat) (shift : Int) (hw : w ≤ 32)
    (hsh : shift ≤ (2 : Int) ^ w) (r : List Nat) :
    ∀ pk, (∀ x ∈ r, x < 2 ^ w) →
      ChannelMerger.scanCount w thr shift true pk r
        = ChannelMerger.scanCount w thr shift false pk r := by
  induction r with
  | nil => intro pk _; rfl
  | cons x rest ih =>
    intro pk hc
    rw [ChannelMerger.scanCount, ChannelMerger.scanCount,
      scanCounted_alias_eq w thr shift pk x rest hw (hc x (List.mem_cons_self _ _)) hsh,
      ih _ (fun y hy => hc y (List.mem_cons_of_mem _ hy))]

/-- C32 (amended): the pass in place and the pass into a vector of its own.
For a channel of `size < 2^31` cells behind `buffer` and every threshold and
baseline shift, the cells of the channel after the pass with the buffer as
target are the target vector `c` of the pass run on the same input with a
vector of its own, which leaves its input alone; the two passes return the
same count when the cells fit the sample word of `w ≤ 32` bits and the
baseline shift is at most `2^w`. -/
theorem inplace_equals_separate (w thr : Nat) (shift : Int) (b t : List Nat) (size : Nat)
    (hsize : size < 2 ^ 31) (hle : size ≤ b.length) (ht : t.length = size) :
    (∃ c : List Nat, c.length = size ∧
      (ChannelMerger.SignalBufferZeroSuppression w (some b) size thr shift
          ChannelMerger.Target.aliased).2.1 = some (c ++ b.drop size) ∧
      (ChannelMerger.SignalBufferZeroSuppression w (some b) size thr shift
          (ChannelMerger.Target.separate t)).2.2 = ChannelMerger.Target.separate c ∧
      (ChannelMerger.SignalBufferZeroSuppression w (some b) size thr shift
          (ChannelMerger.Target.separate t)).2.1 = some b) ∧
    (w ≤ 32 → (∀ x ∈ b.take size, x < 2 ^ w) → shift ≤ (2 : Int) ^ w →
      (ChannelMerger.SignalBufferZeroSuppression w (some b) size thr shift
          ChannelMerger.Target.aliased).1
        = (ChannelMerger.SignalBufferZeroSuppression w (some b) size thr shift
            (ChannelMerger.Target.separate t)).1) := by
  obtain ⟨_, e2, e3⟩ := SignalBufferZeroSuppression_eq_scan w thr shift b t size hsize hle ht
  rw [e2, e3]
  refine ⟨⟨_, ?_, rfl, rfl, rfl⟩, fun hw hc hsh => ?_⟩
  · rw [List.length_reverse, scanValues_length, List.length_reverse, List.length_take]
    omega
  · simp only []
    rw [scanCount_alias_eq w thr shift hw hsh _ false
      (fun x hx => hc x (List.mem_reverse.mp hx))]

theorem inplace_equals_separate_witness :
    (∃ c : List Nat, c.length = 6 ∧
      (ChannelMerger.SignalBufferZeroSuppression 16 (some [0, 8, 9, 65535, 3, 7, 9]) 6 5 4
          ChannelMerger.Target.aliased).2.1 = some (c ++ [0, 8, 9, 65535, 3, 7, 9].drop 6) ∧
      (ChannelMerger.SignalBufferZeroSuppression 16 (some [0, 8, 9, 65535, 3, 7, 9]) 6 5 4
          (ChannelMerger.Target.separate [0, 0, 0, 0, 0, 0])).2.2
        = ChannelMerger.Target.separate c ∧
      (ChannelMerger.SignalBufferZeroSuppression 16 (some [0, 8, 9, 65535, 3, 7, 9]) 6 5 4
          (ChannelMerger.Target.separate [0, 0, 0, 0, 0, 0])).2.1
        = some [0, 8, 9, 65535, 3, 7, 9]) ∧
    (ChannelMerger.SignalBufferZeroSuppression 16 (some [0, 8, 9, 65535, 3, 7, 9]) 6 5 4
        ChannelMerger.Target.aliased).1
      = (ChannelMerger.SignalBufferZeroSuppression 16 (some [0, 8, 9, 65535, 3, 7, 9]) 6 5 4
          (ChannelMerger.Target.separate [0, 0, 0, 0, 0, 0])).1 ∧
    ChannelMerger.SignalBufferZeroSuppression 16 (some [0, 8, 9, 65535, 3, 7, 9]) 6 5 4
        ChannelMerger.Target.aliased
      = (2, some [65535, 12, 13, 65535, 65535, 65535, 9], ChannelMerger.Target.aliased) :=
  ⟨(inplace_equals_separate 16 5 4 [0, 8, 9, 65535, 3, 7, 9] [0, 0, 0, 0, 0, 0] 6 (by decide)
      (by decide) (by decide)).1,
    (inplace_equals_separate 16 5 4 [0, 8, 9, 65535, 3, 7, 9] [0, 0, 0, 0, 0, 0] 6 (by decide)
      (by decide) (by decide)).2 (by decide) (by decide) (by decide),
    by decide⟩

/-! ### The common mode correction and the cells that hold no sample -/

theorem cmSum_frame (w : Nat) (m : ChannelMerger) (b : List Nat) (hb : m.mBuffer = some b)
    (hL : m.mChannelLenght < 2 ^ 31) :
    ∀ (chans : List (Nat × Nat)) (cm zs : List Nat),
      (∀ p ∈ chans, p.2 * m.mChannelLenght + m.mChannelLenght ≤ b.length ∧
        p.2 * m.mChannelLenght < 2 ^ 32) →
      zs.length = m.mChannelLenght →
      (ChannelMerger.cmSum w m chans cm zs).1 = 0 ∧
      (ChannelMerger.cmSum w m chans cm zs).2.2.length = m.mChannelLenght := by
  intro chans
  induction chans with
  | nil =>
    intro cm zs _ hzs
    exact ⟨rfl, hzs⟩
  | cons p rest ih =>
    intro cm zs hfit hzs
    obtain ⟨idx, slot⟩ := p
    have hp := hfit (idx, slot) (List.mem_cons_self _ _)
    have hpos : (slot * m.mChannelLenght) % UINT_MOD = slot * m.mChannelLenght :=
      Nat.mod_eq_of_lt hp.2
    have hpass := pass_separate w (ChannelMerger.GetThreshold w m) m.mBaselineshift b zs
      (slot * m.mChannelLenght) m.mChannelLenght hL hp.1 hzs
    have hzl := channelZS_length w (ChannelMerger.GetThreshold w m) m.mBaselineshift b
      (slot * m.mChannelLenght) m.mChannelLenght hp.1
    have hunf : ChannelMerger.cmSum w m ((idx, slot) :: rest) cm zs
        = ChannelMerger.cmSum w m rest
            (ChannelMerger.cmAdd w m.mChannelLenght
              (ChannelMerger.channelZS w (ChannelMerger.GetThreshold w m) m.mBaselineshift
                m.mChannelLenght b (slot * m.mChannelLenght)) cm)
            (ChannelMerger.channelZS w (ChannelMerger.GetThreshold w m) m.mBaselineshift
              m.mChannelLenght b (slot * m.mChannelLenght)) := by
      simp only [ChannelMerger.cmSum, hpos, hb, hpass, ChannelMerger.targetVector]
      rw [if_neg (by omega)]
    rw [hunf]
    exact ih _ _ (fun q hq => hfit q (List.mem_cons_of_mem _ hq)) hzl

/-- No cell grows in the second loop over the channels. -/
theorem cmCorrect_cells_le (w : Nat) (cm : List Nat) (sf : Nat) (hw : 2 ^ w ≤ 2 ^ 32)
    (chans : List (Nat × Nat)) (m : ChannelMerger) (bb zs : List Nat) (nU nUC : Nat)
    (hb : m.mBuffer = some bb) (hL : m.mChannelLenght < 2 ^ 31) (hlen : bb.length ≤ 2 ^ 32)
    (hcells : ∀ j, readAt bb j < 2 ^ w) (hzs : zs.length = m.mChannelLenght)
    (hpw : chans.Pairwise (fun p q => p.2 ≠ q.2))
    (hfit : ∀ p ∈ chans, p.2 * m.mChannelLenght + m.mChannelLenght ≤ bb.length) :
    ∀ j, readAt ((ChannelMerger.cmCorrect w cm sf chans m zs nU nUC).2.1.mBuffer.getD []) j
      ≤ readAt bb j := by
  obtain ⟨_, bf, hbf, _, hch, hout⟩ :=
    cmCorrect_spec w cm sf hw chans m bb zs nU nUC hb hL hlen hcells hzs hpw hfit
  intro j
  rw [hbf, Option.getD_some]
  by_cases h : ∃ p ∈ chans, p.2 * m.mChannelLenght ≤ j ∧
      j < p.2 * m.mChannelLenght + m.mChannelLenght
  · obtain ⟨p, hp, h1, h2⟩ := h
    have hj : j = p.2 * m.mChannelLenght + (j - p.2 * m.mChannelLenght) := by omega
    have := hch p hp (j - p.2 * m.mChannelLenght) (by omega)
    rw [← hj] at this
    rw [this]
    exact Nat.sub_le _ _
  · have hno : ∀ p ∈ chans, ¬ (p.2 * m.mChannelLenght ≤ j ∧
        j < p.2 * m.mChannelLenght + m.mChannelLenght) :=
      fun p hp hc => h ⟨p, hp, hc⟩
    rw [hout j hno]

/-- The half of C33 that holds: for a merger whose buffer holds cells of the
sample word, with channels in pairwise different slots inside the buffer, no
cell of the buffer grows in `ApplyCommonModeEffect`, for every scaling factor;
a cell that holds a sample does not hold `VOID_SIGNAL` afterwards. -/
theorem common_mode_keeps_samples (w : Nat) (m : ChannelMerger) (b : List Nat) (sf : Int)
    (hw : w ≤ 32) (hL : m.mChannelLenght < 2 ^ 31) (hb : m.mBuffer = some b)
    (hlen : b.length ≤ 2 ^ 32) (hcell : ∀ v ∈ b, v < 2 ^ w)
    (hslots : m.mChannelPositions.Pairwise (fun p q => p.2 ≠ q.2))
    (hfit : ∀ p ∈ m.mChannelPositions, (p.2 + 1) * m.mChannelLenght ≤ b.length) :
    ∀ j, j < b.length →
      readAt ((ChannelMerger.ApplyCommonModeEffect w m sf).2.1.mBuffer.getD []) j ≤ readAt b j ∧
      (readAt b j ≠ VOID_SIGNAL w →
        readAt ((ChannelMerger.ApplyCommonModeEffect w m sf).2.1.mBuffer.getD []) j
          ≠ VOID_SIGNAL w) := by
  have hcells := readAt_lt_of_forall b (2 ^ w) (Nat.pow_pos (by decide)) hcell
  have hw2 : 2 ^ w ≤ 2 ^ 32 := Nat.pow_le_pow_right (by decide) hw
  have hfit2 : ∀ p ∈ m.mChannelPositions,
      p.2 * m.mChannelLenght + m.mChannelLenght ≤ b.length := by
    intro p hp
    have := hfit p hp
    rw [Nat.succ_mul] at this
    exact this
  have hpos : ∀ p ∈ m.mChannelPositions, p.2 * m.mChannelLenght < 2 ^ 32 := by
    intro p hp
    rcases Nat.eq_zero_or_pos m.mChannelLenght with h0 | h0
    · rw [h0, Nat.mul_zero]; decide
    · have := hfit2 p hp
      omega
  obtain ⟨hret, hzl⟩ := cmSum_frame w m b hb hL m.mChannelPositions
    (List.replicate m.mChannelLenght 0) (List.replicate m.mChannelLenght 0)
    (fun p hp => ⟨hfit2 p hp, hpos p hp⟩) (List.length_replicate _ _)
  generalize hP : ChannelMerger.cmSum w m m.mChannelPositions
    (List.replicate m.mChannelLenght 0) (List.replicate m.mChannelLenght 0) = P
    at hret hzl
  have hun : ChannelMerger.ApplyCommonModeEffect w m sf
      = ChannelMerger.cmCorrect w P.2.1
          (toUnsigned (if sf < 0 then toSigned m.mChannelPositions.length else sf))
          m.mChannelPositions m P.2.2 0 0 := by
    unfold ChannelMerger.ApplyCommonModeEffect
    simp only [hP, hret, lt_self_iff_false, if_false]
  have hle := cmCorrect_cells_le w P.2.1
    (toUnsigned (if sf < 0 then toSigned m.mChannelPositions.length else sf)) hw2
    m.mChannelPositions m b P.2.2 0 0 hb hL hlen hcells hzl hslots hfit2
  intro j _
  rw [hun]
  refine ⟨hle j, fun hne => ?_⟩
  have h1 := hle j
  have h2 := hcells j
  have hV : VOID_SIGNAL w = 2 ^ w - 1 := rfl
  rw [hV] at hne ⊢
  omega

/-- C33 at a failing input: a cell that holds `VOID_SIGNAL` does not hold it
after `ApplyCommonModeEffect`.  In `exampleMergerCMVoid` (16 bit sample word,
threshold 5) the channel in slot 0 holds 10, 0, 20, 30 and the four cells of
the channel in slot 1 hold `VOID_SIGNAL` = 65535.  With the scaling factor 2
(and with the default, the number of channels) the call returns 0 and the
cells of slot 1 hold 65530, 65535, 65525, 65520; with the scaling factor 1 they
hold 65525, 65535, 65515, 65505.  The same happens for a 32 bit sample
word. -/
theorem common_mode_overwrites_void_cells :
    exampleMergerCMVoid.mBuffer = some [10, 0, 20, 30, 65535, 65535, 65535, 65535] ∧
    VOID_SIGNAL 16 = 65535 ∧
    (ChannelMerger.ApplyCommonModeEffect 16 exampleMergerCMVoid 2).1 = 0 ∧
    (ChannelMerger.ApplyCommonModeEffect 16 exampleMergerCMVoid 2).2.1.mBuffer
      = some [10, 0, 20, 30, 65530, 65535, 65525, 65520] ∧
    (ChannelMerger.ApplyCommonModeEffect 16 exampleMergerCMVoid (-1)).2.1.mBuffer
      = some [10, 0, 20, 30, 65530, 65535, 65525, 65520] ∧
    (ChannelMerger.ApplyCommonModeEffect 16 exampleMergerCMVoid 1).2.1.mBuffer
      = some [10, 0, 20, 30, 65525, 65535, 65515, 65505] ∧
    VOID_SIGNAL 32 = 4294967295 ∧
    (ChannelMerger.ApplyCommonModeEffect 32
        { exampleMergerCMVoid with
          mBuffer := some [10, 0, 20, 30, 4294967295, 4294967295, 4294967295, 4294967295] }
        2).2.1.mBuffer
      = some [10, 0, 20, 30, 4294967290, 4294967295, 4294967285, 4294967280] := by
  refine ⟨by decide, by decide, by decide, by decide, by decide, by decide, by decide,
    by decide⟩

/-! ### The divisor of the common mode correction -/

theorem toUnsigned_toSigned (n : Nat) (h : n < 2 ^ 32) : toUnsigned (toSigned n) = n := by
  unfold toSigned toUnsigned UINT_MOD
  rw [Nat.mod_eq_of_lt h]
  split_ifs with h1
  · have : ((n : Int) % ((2 ^ 32 : Nat) : Int)) = n := by
      rw [← Int.natCast_mod]; congr 1
      exact Nat.mod_eq_of_lt h
    rw [this]; simp
  · have : (((n : Int) - ((2 ^ 32 : Nat) : Int)) % ((2 ^ 32 : Nat) : Int)) = n := by
      rw [Int.sub_emod, Int.emod_self, sub_zero, Int.emod_emod_of_dvd _ (dvd_refl _),
        ← Int.natCast_mod]
      congr 1
      exact Nat.mod_eq_of_lt h
    rw [this]; simp

theorem fold_checked (w : Nat) (cm zs : List Nat) (sf position : Nat) (hsf : sf ≠ 0) :
    ∀ (l : List Nat) (s : ChannelMerger.CMLoop),
      l.foldl (ChannelMerger.cmCellBodyChecked w cm zs sf position) (some s)
        = some (l.foldl (ChannelMerger.cmCellBody w cm zs sf position) s) := by
  intro l
  induction l with
  | nil => intro s; rfl
  | cons i rest ih =>
    intro s
    rw [List.foldl_cons, List.foldl_cons]
    have h : ChannelMerger.cmCellBodyChecked w cm zs sf position (some s) i
        = some (ChannelMerger.cmCellBody w cm zs sf position s i) := by
      simp only [ChannelMerger.cmCellBodyChecked, if_neg hsf]
    rw [h, ih]

/-- With a divisor other than 0 the second loop over the channels evaluates
no division by zero. -/
theorem cmCorrectChecked_eq (w : Nat) (cm : List Nat) (sf : Nat) (hsf : sf ≠ 0) :
    ∀ (chans : List (Nat × Nat)) (m : ChannelMerger) (zs : List Nat) (nU nUC : Nat),
      ChannelMerger.cmCorrectChecked w cm sf chans m zs nU nUC
        = some (ChannelMerger.cmCorrect w cm sf chans m zs nU nUC) := by
  intro chans
  induction chans with
  | nil => intro m zs nU nUC; rfl
  | cons p rest ih =>
    intro m zs nU nUC
    obtain ⟨idx, slot⟩ := p
    simp only [ChannelMerger.cmCorrectChecked, ChannelMerger.cmCorrect,
      fold_checked w cm _ sf _ hsf]
    split_ifs with h
    · rfl
    · exact ih _ _ _ _

/-- C34: the default scaling never divides by zero.  For a state with fewer
than `2^32` indexed channels and a negative `scalingFactor`, the divisor of
`cmImpact/=scalingFactor` is the number of indexed channels: the call is the
first loop followed by the second loop with this divisor.  The call with the
division checked, which is evaluated in the loop over the timebins of a
channel only, returns the result of the call and evaluates no division by
zero, for every state; in the state with no channels it returns 0 and leaves
the state as it is. -/
theorem default_scaling_never_divides_by_zero (w : Nat) (m : ChannelMerger) (scalingFactor : Int)
    (hneg : scalingFactor < 0) (hn : m.mChannelPositions.length < 2 ^ 32) :
    toUnsigned (if scalingFactor < 0 then toSigned m.mChannelPositions.length
        else scalingFactor) = m.mChannelPositions.length ∧
    ChannelMerger.ApplyCommonModeEffect w m scalingFactor
      = (if (ChannelMerger.cmSum w m m.mChannelPositions (List.replicate m.mChannelLenght 0)
              (List.replicate m.mChannelLenght 0)).1 < 0
         then ((ChannelMerger.cmSum w m m.mChannelPositions (List.replicate m.mChannelLenght 0)
              (List.replicate m.mChannelLenght 0)).1, m, 0, 0)
         else ChannelMerger.cmCorrect w
              (ChannelMerger.cmSum w m m.mChannelPositions (List.replicate m.mChannelLenght 0)
                (List.replicate m.mChannelLenght 0)).2.1
              m.mChannelPositions.length m.mChannelPositions m
              (ChannelMerger.cmSum w m m.mChannelPositions (List.replicate m.mChannelLenght 0)
                (List.replicate m.mChannelLenght 0)).2.2 0 0) ∧
    ChannelMerger.ApplyCommonModeEffectChecked w m scalingFactor
      = some (ChannelMerger.ApplyCommonModeEffect w m scalingFactor) ∧
    (m.mChannelPositions ≠ [] → 1 ≤ m.mChannelPositions.length) ∧
    (m.mChannelPositions = [] →
      ChannelMerger.ApplyCommonModeEffectChecked w m scalingFactor = some (0, m, 0, 0)) := by
  have hdiv : toUnsigned (if scalingFactor < 0 then toSigned m.mChannelPositions.length
      else scalingFactor) = m.mChannelPositions.length := by
    rw [if_pos hneg]
    exact toUnsigned_toSigned _ hn
  have hempty : m.mChannelPositions = [] →
      ChannelMerger.ApplyCommonModeEffectChecked w m scalingFactor = some (0, m, 0, 0) := by
    intro he
    unfold ChannelMerger.ApplyCommonModeEffectChecked
    simp only [he, ChannelMerger.cmSum, ChannelMerger.cmCorrectChecked, lt_self_iff_false,
      if_false]
  have hempty2 : m.mChannelPositions = [] →
      ChannelMerger.ApplyCommonModeEffect w m scalingFactor = (0, m, 0, 0) := by
    intro he
    unfold ChannelMerger.ApplyCommonModeEffect
    simp only [he, ChannelMerger.cmSum, ChannelMerger.cmCorrect, lt_self_iff_false,
      if_false]
  refine ⟨hdiv, ?_, ?_, ?_, hempty⟩
  · unfold ChannelMerger.ApplyCommonModeEffect
    simp only [hdiv]
  · by_cases he : m.mChannelPositions = []
    · rw [hempty he, hempty2 he]
    · have hpos : m.mChannelPositions.length ≠ 0 := fun h => he (List.length_eq_zero.mp h)
      unfold ChannelMerger.ApplyCommonModeEffectChecked ChannelMerger.ApplyCommonModeEffect
      simp only [hdiv, cmCorrectChecked_eq w _ _ hpos]
      split_ifs <;> rfl
  · intro he
    exact Nat.one_le_iff_ne_zero.mpr (fun h => he (List.length_eq_zero.mp h))

theorem default_scaling_never_divides_by_zero_witness :
    (toUnsigned (if (-1 : Int) < 0 then toSigned exampleMergerCM.mChannelPositions.length
        else (-1 : Int)) = exampleMergerCM.mChannelPositions.length ∧
      ChannelMerger.ApplyCommonModeEffect 16 exampleMergerCM (-1)
        = (if (ChannelMerger.cmSum 16 exampleMergerCM exampleMergerCM.mChannelPositions
                (List.replicate exampleMergerCM.mChannelLenght 0)
                (List.replicate exampleMergerCM.mChannelLenght 0)).1 < 0
           then ((ChannelMerger.cmSum 16 exampleMergerCM exampleMergerCM.mChannelPositions
                (List.replicate exampleMergerCM.mChannelLenght 0)
                (List.replicate exampleMergerCM.mChannelLenght 0)).1, exampleMergerCM, 0, 0)
           else ChannelMerger.cmCorrect 16
                (ChannelMerger.cmSum 16 exampleMergerCM exampleMergerCM.mChannelPositions
                  (List.replicate exampleMergerCM.mChannelLenght 0)
                  (List.replicate exampleMergerCM.mChannelLenght 0)).2.1
                exampleMergerCM.mChannelPositions.length exampleMergerCM.mChannelPositions
                exampleMergerCM
                (ChannelMerger.cmSum 16 exampleMergerCM exampleMergerCM.mChannelPositions
                  (List.replicate exampleMergerCM.mChannelLenght 0)
                  (List.replicate exampleMergerCM.mChannelLenght 0)).2.2 0 0) ∧
      ChannelMerger.ApplyCommonModeEffectChecked 16 exampleMergerCM (-1)
        = some (ChannelMerger.ApplyCommonModeEffect 16 exampleMergerCM (-1)) ∧
      (exampleMergerCM.mChannelPositions ≠ [] → 1 ≤ exampleMergerCM.mChannelPositions.length) ∧
      (exampleMergerCM.mChannelPositions = [] →
        ChannelMerger.ApplyCommonModeEffectChecked 16 exampleMergerCM (-1)
          = some (0, exampleMergerCM, 0, 0))) ∧
    exampleMergerCM.mChannelPositions.length = 2 ∧
    (ChannelMerger.ApplyCommonModeEffectChecked 16 exampleMergerCM (-1)).map
        (fun r => (r.1, r.2.1.mBuffer))
      = some (0, some [5, 0, 10, 15, 5, 0, 10, 15]) ∧
    ChannelMerger.ApplyCommonModeEffectChecked 16
        { exampleMergerCM with mChannelPositions := [] } (-1)
      = some (0, { exampleMergerCM with mChannelPositions := [] }, 0, 0) ∧
    ChannelMerger.ApplyCommonModeEffectChecked 16 exampleMergerCM 0 = none :=
  ⟨default_scaling_never_divides_by_zero 16 exampleMergerCM (-1) (by decide) (by decide),
    by decide, by decide, by decide, by decide⟩
